import Mathlib

/-!
# Radiosity solver: a shallow embedding of `radiositySolver.cpp`

The global arrays of the program (`PatchArray`, `ElementArray`, `VertexArray`,
`VertexColors`, `lookUpTable`) are pointer-plus-count pairs in the source; they are
embedded as total functions on `Nat` next to their counts.  An `Element`'s `patch`
pointer is the index of the patch it points to.  Floating-point numbers are embedded
as rationals (exact arithmetic), `int` counters as `Nat`/`Int`.
-/

namespace Radiosity

/-- Colour triple (`typedef vec3 Color`), channels `r`, `g`, `b`. -/
structure Color where
  r : ℚ
  g : ℚ
  b : ℚ
deriving DecidableEq

namespace Color

/-- Component-wise sum (`vec3 + vec3`). -/
def add (a c : Color) : Color := ⟨a.r + c.r, a.g + c.g, a.b + c.b⟩

/-- Component-wise product (`vec3 * vec3`). -/
def mul (a c : Color) : Color := ⟨a.r * c.r, a.g * c.g, a.b * c.b⟩

instance : Add Color := ⟨add⟩

instance : Mul Color := ⟨mul⟩

/-- Squared channel norm `r*r + g*g + b*b`, the size used by `CompareTag`. -/
def size (c : Color) : ℚ := c.r * c.r + c.g * c.g + c.b * c.b

end Color

/-- Position or direction (`typedef vec3 Vertex`, `typedef vec3 Vector`). -/
structure Vertex where
  x : ℚ
  y : ℚ
  z : ℚ
deriving DecidableEq

/-- The `Patch` structure of the source. -/
structure Patch where
  id : Nat
  vertices : Fin 4 → Nat
  emissivity : Color
  reflectance : Color
  center : Vertex
  normal : Vertex
  area : ℚ
  radiosity : Color
  unshot : Color
  numelements : Int
  startelement : Nat

/-- The `Element` structure of the source; `patch` is the index of the owning patch. -/
structure Element where
  id : Nat
  vertices : Fin 4 → Nat
  center : Vertex
  area : ℚ
  patch : Nat
  radiosity : Color

/-- The `UnshotTag` structure of the source. -/
structure UnshotTag where
  unshot : Color
  id : Nat
deriving DecidableEq

/-- The comparison `CompareTag::operator()`: true when `p1` is strictly smaller than `p2`. -/
def CompareTag (p1 p2 : UnshotTag) : Bool :=
  let p1Size := p1.unshot.r * p1.unshot.r + p1.unshot.g * p1.unshot.g + p1.unshot.b * p1.unshot.b
  let p2Size := p2.unshot.r * p2.unshot.r + p2.unshot.g * p2.unshot.g + p2.unshot.b * p2.unshot.b
  if p1Size < p2Size then true else false

/-! ## `std::priority_queue<UnshotTag, vector<UnshotTag>, CompareTag>`

The queue is its underlying vector, kept as a binary max-heap by the standard
`push_heap` / `pop_heap` algorithms. -/

/-- The sift-up loop of `push_heap`: move the hole towards `topIndex` while the parent is
smaller than `value`, then store `value` in the hole.  `fuel` bounds the iterations
(the hole index strictly decreases, so `holeIndex` iterations always suffice). -/
def pushHeapLoop (value : UnshotTag) (topIndex : Nat) :
    Nat → List UnshotTag → Nat → List UnshotTag
  | 0, c, holeIndex => c.set holeIndex value
  | fuel + 1, c, holeIndex =>
    let parent := (holeIndex - 1) / 2
    if topIndex < holeIndex ∧ CompareTag (c.getD parent value) value = true then
      pushHeapLoop value topIndex fuel (c.set holeIndex (c.getD parent value)) parent
    else
      c.set holeIndex value

/-- The member `push`: `c.push_back(x); push_heap(c.begin(), c.end(), comp)`. -/
def pqPush (c : List UnshotTag) (x : UnshotTag) : List UnshotTag :=
  pushHeapLoop x 0 c.length (c ++ [x]) c.length

/-- The member `top`: `c.front()`.  Calling it on an empty queue is undefined in the
source; the embedding returns a zero tag with id 0 there. -/
def pqTop (c : List UnshotTag) : UnshotTag :=
  c.headD ⟨⟨0, 0, 0⟩, 0⟩

/-- The member `empty`. -/
def pqEmpty (c : List UnshotTag) : Bool := c.isEmpty

/-- The first loop of `adjust_heap`: the hole follows the larger child down to the bottom
level.  Returns the vector and the final hole index. -/
def adjustHeapLoop (len : Nat) :
    Nat → List UnshotTag → Nat → Nat → List UnshotTag × Nat × Nat
  | 0, c, holeIndex, secondChild => (c, holeIndex, secondChild)
  | fuel + 1, c, holeIndex, secondChild =>
    if secondChild < (len - 1) / 2 then
      let sc := 2 * (secondChild + 1)
      let d : UnshotTag := ⟨⟨0, 0, 0⟩, 0⟩
      let sc := if CompareTag (c.getD sc d) (c.getD (sc - 1) d) = true then sc - 1 else sc
      adjustHeapLoop len fuel (c.set holeIndex (c.getD sc d)) sc sc
    else (c, holeIndex, secondChild)

/-- The algorithm `adjust_heap(first, holeIndex = 0, len, value)` used by `pop_heap`. -/
def adjustHeap (c : List UnshotTag) (len : Nat) (value : UnshotTag) : List UnshotTag :=
  let d : UnshotTag := ⟨⟨0, 0, 0⟩, 0⟩
  match adjustHeapLoop len len c 0 0 with
  | (c1, holeIndex, secondChild) =>
    if len % 2 = 0 ∧ 2 ≤ len ∧ secondChild = (len - 2) / 2 then
      let sc := 2 * (secondChild + 1)
      let c2 := c1.set holeIndex (c1.getD (sc - 1) d)
      pushHeapLoop value 0 (sc - 1) c2 (sc - 1)
    else
      pushHeapLoop value 0 holeIndex c1 holeIndex

/-- The member `pop`: `pop_heap(c.begin(), c.end(), comp); c.pop_back()`.  The last
element is saved, the root is moved to the last slot, the heap on the first `len - 1`
slots is repaired around the saved value, and the last slot is dropped. -/
def pqPop (c : List UnshotTag) : List UnshotTag :=
  match c.getLast? with
  | none => c
  | some value =>
    let c1 := c.set (c.length - 1) (c.headD value)
    (adjustHeap c1 (c.length - 1) value).dropLast

/-- The globals of the program. -/
structure State where
  NumVertices : Nat
  VertexArray : Nat → Vertex
  VertexColors : Nat → Color
  NumPatches : Nat
  PatchArray : Nat → Patch
  NumElements : Nat
  ElementArray : Nat → Element
  lookUpTable : Nat → Nat → ℚ
  unshotPatchQueue : List UnshotTag
  reflectionFactor : Color
  ambient : Color
  dAmbient : Color
  totalStep : Int
  currentPatchID : Nat
  showAmbient : Int

/-- The loop `while (!unshotPatchQueue.empty()) unshotPatchQueue.pop();`. -/
def popAll : Nat → List UnshotTag → List UnshotTag
  | 0, q => q
  | fuel + 1, q => if pqEmpty q = true then q else popAll fuel (pqPop q)

/-- The function `updatePriorityQueue`: empty the queue, then push one tag per patch. -/
def updatePriorityQueue (s : State) : State :=
  let q0 := popAll s.unshotPatchQueue.length s.unshotPatchQueue
  let q := (List.range s.NumPatches).foldl
    (fun q id => pqPush q ⟨(s.PatchArray id).unshot, id⟩) q0
  { s with unshotPatchQueue := q }

/-- One iteration of the element loop of `progressiveRefinement` (source lines 358-385)
for element `element_id`, shooting patch `mostUnshotID`. -/
def shootElement (mostUnshotID : Nat) (s : State) (element_id : Nat) : State :=
  let el := s.ElementArray element_id
  let reflectivity := (s.PatchArray el.patch).reflectance
  let unshot := (s.PatchArray mostUnshotID).unshot
  let Fie := s.lookUpTable mostUnshotID element_id
  let Ai := (s.PatchArray mostUnshotID).area
  let Ae := el.area
  let Aj := (s.PatchArray el.patch).area
  let dRadiosity : Color :=
    ⟨reflectivity.r * unshot.r * Fie * (Ai / Ae),
     reflectivity.g * unshot.g * Fie * (Ai / Ae),
     reflectivity.b * unshot.b * Fie * (Ai / Ae)⟩
  let unshotJ := (s.PatchArray el.patch).unshot
  let pj := s.PatchArray el.patch
  { s with
    ElementArray := Function.update s.ElementArray element_id
      { el with radiosity := el.radiosity + dRadiosity }
    PatchArray := Function.update s.PatchArray el.patch
      { pj with unshot :=
          ⟨unshotJ.r + dRadiosity.r * (Ae / Aj),
           unshotJ.g + dRadiosity.g * (Ae / Aj),
           unshotJ.b + dRadiosity.b * (Ae / Aj)⟩ } }

/-- The element loop of `progressiveRefinement` over `element_id = 0 .. NumElements - 1`. -/
def shootLoop (mostUnshotID : Nat) (s : State) : State :=
  (List.range s.NumElements).foldl (shootElement mostUnshotID) s

/-- The sum `areaSum` of step 3 of `progressiveRefinement`. -/
def areaSum (s : State) : ℚ :=
  (List.range s.NumPatches).foldl (fun acc p_id => acc + (s.PatchArray p_id).area) 0

/-- The sum `rfltWeightedAreaSum` of step 3 of `progressiveRefinement`. -/
def rfltWeightedAreaSum (s : State) : Color :=
  (List.range s.NumPatches).foldl
    (fun acc p_id =>
      ⟨acc.r + (s.PatchArray p_id).area * (s.PatchArray p_id).reflectance.r,
       acc.g + (s.PatchArray p_id).area * (s.PatchArray p_id).reflectance.g,
       acc.b + (s.PatchArray p_id).area * (s.PatchArray p_id).reflectance.b⟩)
    ⟨0, 0, 0⟩

/-- The sum `avgUnshot` of step 3 of `progressiveRefinement`. -/
def avgUnshot (s : State) : Color :=
  (List.range s.NumPatches).foldl
    (fun acc p_id =>
      ⟨acc.r + (s.PatchArray p_id).unshot.r * ((s.PatchArray p_id).area / areaSum s),
       acc.g + (s.PatchArray p_id).unshot.g * ((s.PatchArray p_id).area / areaSum s),
       acc.b + (s.PatchArray p_id).unshot.b * ((s.PatchArray p_id).area / areaSum s)⟩)
    ⟨0, 0, 0⟩

/-- Step 3 of `progressiveRefinement`: recompute `dAmbient = R * avgUnshot`. -/
def updateAmbient (s : State) : State :=
  let rfltAvg : Color :=
    ⟨(rfltWeightedAreaSum s).r / areaSum s,
     (rfltWeightedAreaSum s).g / areaSum s,
     (rfltWeightedAreaSum s).b / areaSum s⟩
  let R : Color := ⟨1 / (1 - rfltAvg.r), 1 / (1 - rfltAvg.g), 1 / (1 - rfltAvg.b)⟩
  { s with dAmbient := R * avgUnshot s }

/-- Step 4 of `progressiveRefinement`, first statement: the shot patch's unshot
radiosity becomes `Color(0, 0, 0)`. -/
def resetUnshot (mostUnshotID : Nat) (s : State) : State :=
  let pi := s.PatchArray mostUnshotID
  { s with
    PatchArray := Function.update s.PatchArray mostUnshotID { pi with unshot := ⟨0, 0, 0⟩ } }

/-- The function `progressiveRefinement`: one shooting step. -/
def progressiveRefinement (s : State) : State :=
  let unshotTag := pqTop s.unshotPatchQueue
  let mostUnshotID := unshotTag.id
  let s1 := { s with currentPatchID := mostUnshotID }
  let s2 := shootLoop mostUnshotID s1
  let s3 := updateAmbient s2
  let s4 := resetUnshot mostUnshotID s3
  let s5 := updatePriorityQueue s4
  { s5 with totalStep := s5.totalStep + 1 }

/-- State after the first `k` iterations of the element loop. -/
def shootPrefix (i : Nat) (s : State) (k : Nat) : State :=
  (List.range k).foldl (shootElement i) s

/-- The radiosity increment `dRadiosity` computed in iteration `e` of the element loop. -/
def dRadiosityAt (i : Nat) (s : State) (e : Nat) : Color :=
  let t := shootPrefix i s e
  let rho := (s.PatchArray (s.ElementArray e).patch).reflectance
  let u := (t.PatchArray i).unshot
  let F := s.lookUpTable i e
  let Ai := (s.PatchArray i).area
  let Ae := (s.ElementArray e).area
  ⟨rho.r * u.r * F * (Ai / Ae), rho.g * u.g * F * (Ai / Ae), rho.b * u.b * F * (Ai / Ae)⟩

/-- Channel `k` of a colour: 0 is `r`, 1 is `g`, 2 is `b`. -/
def Color.ch (c : Color) (k : Fin 3) : ℚ :=
  match k with
  | 0 => c.r
  | 1 => c.g
  | 2 => c.b

/-! ## Concrete states used to exercise the model -/

/-- A patch of the example states: only the fields read by the solver vary. -/
def examplePatch (id : Nat) (reflectance unshot : Color) (area : ℚ) : Patch :=
  { id := id, vertices := fun _ => 0, emissivity := unshot, reflectance := reflectance,
    center := ⟨0, 0, 0⟩, normal := ⟨0, 0, 1⟩, area := area, radiosity := unshot,
    unshot := unshot, numelements := 1, startelement := id }

/-- An element of the example states. -/
def exampleElement (id patch : Nat) (area : ℚ) (radiosity : Color) : Element :=
  { id := id, vertices := fun k => 4 * id + k, center := ⟨0, 0, 0⟩, area := area,
    patch := patch, radiosity := radiosity }

/-- Two unit-area patches facing each other, one element each, no self-coupling:
patch 0 holds unshot `(1,1,1)`, patch 1 holds `(9/10,9/10,9/10)`, and
`F(0,1) = F(1,0) = 9/10`. -/
def twoPatchState : State :=
  { NumVertices := 8
    VertexArray := fun _ => ⟨0, 0, 0⟩
    VertexColors := fun _ => ⟨0, 0, 0⟩
    NumPatches := 2
    PatchArray := fun p =>
      if p = 0 then examplePatch 0 ⟨1/2, 1/2, 1/2⟩ ⟨1, 1, 1⟩ 1
      else examplePatch 1 ⟨9/10, 9/10, 9/10⟩ ⟨9/10, 9/10, 9/10⟩ 1
    NumElements := 2
    ElementArray := fun e =>
      if e = 0 then exampleElement 0 0 1 ⟨1, 1, 1⟩
      else exampleElement 1 1 1 ⟨9/10, 9/10, 9/10⟩
    lookUpTable := fun p e => if p = e then 0 else 9/10
    unshotPatchQueue := [⟨⟨1, 1, 1⟩, 0⟩, ⟨⟨9/10, 9/10, 9/10⟩, 1⟩]
    reflectionFactor := ⟨1, 1, 1⟩
    ambient := ⟨0, 0, 0⟩
    dAmbient := ⟨0, 0, 0⟩
    totalStep := 0
    currentPatchID := 0
    showAmbient := 1 }

/-- One patch of area 2 split into two unit elements, with a table that couples the
patch to its own elements: `F(0,0) = F(0,1) = 1`. -/
def selfCoupledState : State :=
  { NumVertices := 8
    VertexArray := fun _ => ⟨0, 0, 0⟩
    VertexColors := fun _ => ⟨0, 0, 0⟩
    NumPatches := 1
    PatchArray := fun _ => examplePatch 0 ⟨1/2, 1/2, 1/2⟩ ⟨1, 1, 1⟩ 2
    NumElements := 2
    ElementArray := fun e => exampleElement e 0 1 ⟨1, 1, 1⟩
    lookUpTable := fun _ _ => 1
    unshotPatchQueue := [⟨⟨1, 1, 1⟩, 0⟩]
    reflectionFactor := ⟨1, 1, 1⟩
    ambient := ⟨0, 0, 0⟩
    dAmbient := ⟨0, 0, 0⟩
    totalStep := 0
    currentPatchID := 0
    showAmbient := 1 }

/-! ## `updateVertexColor` -/

/-- The local structure `ColorStack` of `updateVertexColor`. -/
structure ColorStack where
  count : Int
  color : Color

/-- The statement `colorStack[v].color += c`. -/
def addColor (colorStack : Nat → ColorStack) (v : Nat) (c : Color) : Nat → ColorStack :=
  Function.update colorStack v { colorStack v with color := (colorStack v).color + c }

/-- The statement `colorStack[v].count += 1`. -/
def addCount (colorStack : Nat → ColorStack) (v : Nat) : Nat → ColorStack :=
  Function.update colorStack v { colorStack v with count := (colorStack v).count + 1 }

/-- The colour that element `i` adds to each of its four corners: its radiosity plus
`reflectance * dAmbient` of the owning patch under `showAmbient`, its radiosity otherwise. -/
def cornerColor (s : State) (i : Nat) : Color :=
  if s.showAmbient ≠ 0 then
    (s.ElementArray i).radiosity
      + (s.PatchArray (s.ElementArray i).patch).reflectance * s.dAmbient
  else
    (s.ElementArray i).radiosity

/-- One iteration of the element loop of `updateVertexColor`: four colour additions,
then four count increments. -/
def stackElement (s : State) (colorStack : Nat → ColorStack) (i : Nat) : Nat → ColorStack :=
  let el := s.ElementArray i
  let cs := addColor colorStack (el.vertices 0) (cornerColor s i)
  let cs := addColor cs (el.vertices 1) (cornerColor s i)
  let cs := addColor cs (el.vertices 2) (cornerColor s i)
  let cs := addColor cs (el.vertices 3) (cornerColor s i)
  let cs := addCount cs (el.vertices 0)
  let cs := addCount cs (el.vertices 1)
  let cs := addCount cs (el.vertices 2)
  addCount cs (el.vertices 3)

/-- The array `colorStack` after the first `n` elements have been stacked. -/
def colorStackAfter (s : State) (n : Nat) : Nat → ColorStack :=
  (List.range n).foldl (stackElement s) (fun _ => ⟨0, ⟨0, 0, 0⟩⟩)

/-- The function `updateVertexColor`: average, per vertex, the colours stacked by the
elements that reference it. -/
def updateVertexColor (s : State) : State :=
  let colorStack := colorStackAfter s s.NumElements
  { s with
    VertexColors := fun i =>
      if i < s.NumVertices then
        ⟨(colorStack i).color.r / ((colorStack i).count : ℚ),
         (colorStack i).color.g / ((colorStack i).count : ℚ),
         (colorStack i).color.b / ((colorStack i).count : ℚ)⟩
      else s.VertexColors i }

/-- Number of corners of element `e` that reference vertex `v`. -/
def cornerRefs (s : State) (v e : Nat) : Nat :=
  (if (s.ElementArray e).vertices 0 = v then 1 else 0)
    + (if (s.ElementArray e).vertices 1 = v then 1 else 0)
    + (if (s.ElementArray e).vertices 2 = v then 1 else 0)
    + (if (s.ElementArray e).vertices 3 = v then 1 else 0)

/-- A small mesh for `updateVertexColor`: two elements sharing vertices 1 and 2 (element 0
has corners 0,1,2,3 and element 1 has corners 1,4,5,2), ambient display switched on. -/
def sharedVertexState : State :=
  { twoPatchState with
    NumVertices := 6
    ElementArray := fun e =>
      if e = 0 then
        { exampleElement 0 0 1 ⟨1, 1, 1⟩ with vertices := fun k => k }
      else
        { exampleElement 1 1 1 ⟨3, 3, 3⟩ with
          vertices := fun k => if k = 0 then 1 else if k = 1 then 4 else if k = 2 then 5 else 2 }
    dAmbient := ⟨2, 2, 2⟩ }

/-! ## `loadData` -/

/-- One patch record of `scene.dat`: four vertex indices, emissivity, reflectance and the
desired subdivision count, in the order they are read. -/
structure PatchRecord where
  vertices : Fin 4 → Nat
  emissivity : Color
  reflectance : Color
  numelements : Int

/-- The numbers read from `scene.dat`: `nverts`, the input vertices (`vtemp`), `NumPatches`
and the patch records.  The counts and the vertex indices are natural numbers here and
`vtemp` is a total function, which describes the runs of `loadData` that reach its
`return` with every access inside `vtemp`.  The file as the extractions deliver it, with
`int` counts and indices that may be negative or out of range, is `SceneFile`, and
`loadDataFile` is `loadData` on it, without a result outside those runs. -/
structure SceneData where
  nverts : Nat
  vtemp : Nat → Vertex
  NumPatches : Nat
  patches : Nat → PatchRecord

/-- Content of a freshly allocated `Patch` slot that has not been written. -/
def defaultPatch : Patch :=
  { id := 0, vertices := fun _ => 0, emissivity := ⟨0, 0, 0⟩, reflectance := ⟨0, 0, 0⟩,
    center := ⟨0, 0, 0⟩, normal := ⟨0, 0, 0⟩, area := 0, radiosity := ⟨0, 0, 0⟩,
    unshot := ⟨0, 0, 0⟩, numelements := 0, startelement := 0 }

/-- Content of a freshly allocated `Element` slot that has not been written. -/
def defaultElement : Element :=
  { id := 0, vertices := fun _ => 0, center := ⟨0, 0, 0⟩, area := 0, patch := 0,
    radiosity := ⟨0, 0, 0⟩ }

/-- Body of the first patch loop of `loadData` (source lines 694-765) for patch `i`:
read the record, add 2 to `numelements`, advance `NumVertices` and `NumElements`, and
compute centre, area and normal.  `sqrt` is the square root of `math.h`. -/
def readPatch (sqrt : ℚ → ℚ) (scene : SceneData) (s : State) (i : Nat) : State :=
  let record := scene.patches i
  let numelements : Int := record.numelements + 2
  let p0 := scene.vtemp (record.vertices 0)
  let p1 := scene.vtemp (record.vertices 1)
  let p2 := scene.vtemp (record.vertices 2)
  let p3 := scene.vtemp (record.vertices 3)
  let center : Vertex :=
    ⟨(p0.x + p1.x + p2.x + p3.x) / 4, (p0.y + p1.y + p2.y + p3.y) / 4,
     (p0.z + p1.z + p2.z + p3.z) / 4⟩
  let v1 : Vertex := ⟨p1.x - p0.x, p1.y - p0.y, p1.z - p0.z⟩
  let v2 : Vertex := ⟨p3.x - p0.x, p3.y - p0.y, p3.z - p0.z⟩
  let length1 := sqrt (v1.x * v1.x + v1.y * v1.y + v1.z * v1.z)
  let length2 := sqrt (v2.x * v2.x + v2.y * v2.y + v2.z * v2.z)
  let v1 : Vertex := ⟨v1.x / length1, v1.y / length1, v1.z / length1⟩
  let v2 : Vertex := ⟨v2.x / length2, v2.y / length2, v2.z / length2⟩
  let patch : Patch :=
    { id := i
      vertices := record.vertices
      emissivity := record.emissivity
      reflectance := record.reflectance
      center := center
      normal := ⟨v1.y * v2.z - v1.z * v2.y, v2.x * v1.z - v1.x * v2.z,
                 v1.x * v2.y - v1.y * v2.x⟩
      area := length1 * length2
      radiosity := record.emissivity
      unshot := record.emissivity
      numelements := numelements
      startelement := s.NumElements }
  { s with
    NumVertices := s.NumVertices + ((numelements + 1) * (numelements + 1)).toNat
    NumElements := s.NumElements + (numelements * numelements).toNat
    PatchArray := Function.update s.PatchArray i patch }

/-- The arrays and counters that the second part of `loadData` works on. -/
structure Forming where
  VertexArray : Nat → Vertex
  VertexColors : Nat → Color
  ElementArray : Nat → Element
  vertnum : Nat
  elnum : Nat

/-- Body of the vertex loops of `loadData` (source lines 807-825) for grid position
`(j, k)`: write the new vertex and its colour at `vertnum`, then `vertnum++`. -/
def formVertex (patch : Patch) (v1 v2 : Vertex) (g : Forming) (j k : Nat) : Forming :=
  let p0 := g.VertexArray (patch.vertices 0)
  { g with
    VertexArray := Function.update g.VertexArray g.vertnum
      ⟨p0.x + (k : ℚ) * v1.x + (j : ℚ) * v2.x,
       p0.y + (k : ℚ) * v1.y + (j : ℚ) * v2.y,
       p0.z + (k : ℚ) * v1.z + (j : ℚ) * v2.z⟩
    VertexColors := Function.update g.VertexColors g.vertnum ⟨0, 0, 0⟩
    vertnum := g.vertnum + 1 }

/-- The element written at `ElementArray[elnum]` for grid cell `(j, k)` of patch `i`
(source lines 833-864), given the vertex array at that time. -/
def formedElement (VertexArray : Nat → Vertex) (patch : Patch) (i startvert : Nat)
    (temparea : ℚ) (elnum j k : Nat) : Element :=
  let w := (patch.numelements + 1).toNat
  let c0 := startvert + k + j * w
  let c1 := startvert + (k + 1) + j * w
  let c2 := startvert + (k + 1) + (j + 1) * w
  let c3 := startvert + k + (j + 1) * w
  { id := elnum
    vertices := fun a => if a = 0 then c0 else if a = 1 then c1 else if a = 2 then c2 else c3
    center :=
      ⟨((VertexArray c0).x + (VertexArray c1).x + (VertexArray c2).x + (VertexArray c3).x) / 4,
       ((VertexArray c0).y + (VertexArray c1).y + (VertexArray c2).y + (VertexArray c3).y) / 4,
       ((VertexArray c0).z + (VertexArray c1).z + (VertexArray c2).z + (VertexArray c3).z) / 4⟩
    area := temparea
    patch := i
    radiosity := patch.radiosity }

/-- Body of the element loops of `loadData` for grid cell `(j, k)`: write the element at
`elnum`, then `elnum++`. -/
def formElement (patch : Patch) (i startvert : Nat) (temparea : ℚ) (g : Forming)
    (j k : Nat) : Forming :=
  { g with
    ElementArray := Function.update g.ElementArray g.elnum
      (formedElement g.VertexArray patch i startvert temparea g.elnum j k)
    elnum := g.elnum + 1 }

/-- Body of the second patch loop of `loadData` (source lines 785-868) for patch `i`:
the grid step vectors, the `(numelements+1) x (numelements+1)` vertex loops, `temparea`,
and the `numelements x numelements` element loops. -/
def formPatch (PatchArray : Nat → Patch) (g : Forming) (i : Nat) : Forming :=
  let patch := PatchArray i
  let n : ℚ := (patch.numelements : ℚ)
  let q0 := g.VertexArray (patch.vertices 0)
  let q1 := g.VertexArray (patch.vertices 1)
  let q3 := g.VertexArray (patch.vertices 3)
  let v1 : Vertex := ⟨(q1.x - q0.x) / n, (q1.y - q0.y) / n, (q1.z - q0.z) / n⟩
  let v2 : Vertex := ⟨(q3.x - q0.x) / n, (q3.y - q0.y) / n, (q3.z - q0.z) / n⟩
  let startvert := g.vertnum
  let g1 := (List.range (patch.numelements + 1).toNat).foldl
    (fun g j => (List.range (patch.numelements + 1).toNat).foldl
      (fun g k => formVertex patch v1 v2 g j k) g) g
  let temparea := patch.area / ((patch.numelements * patch.numelements : Int) : ℚ)
  (List.range patch.numelements.toNat).foldl
    (fun g j => (List.range patch.numelements.toNat).foldl
      (fun g k => formElement patch i startvert temparea g j k) g) g1

/-- The globals after the first `k` iterations of the first patch loop of `loadData`,
started with `NumElements = 0`, `NumVertices = nverts` and a fresh `PatchArray`. -/
def readPatchesUpTo (sqrt : ℚ → ℚ) (scene : SceneData) (s : State) (k : Nat) : State :=
  (List.range k).foldl (readPatch sqrt scene)
    { s with
      NumElements := 0
      NumVertices := scene.nverts
      NumPatches := scene.NumPatches
      PatchArray := fun _ => defaultPatch }

/-- The globals after the first patch loop of `loadData`. -/
def readPatches (sqrt : ℚ → ℚ) (scene : SceneData) (s : State) : State :=
  readPatchesUpTo sqrt scene s scene.NumPatches

/-- The arrays allocated after the first loop, with the input vertices copied to the
front (source lines 768-784).  `new Element[NumElements]` leaves its slots indeterminate
until the element loops write them: they start as `garbage`, for which `loadData` takes
the element array of the incoming state. -/
def formStart (scene : SceneData) (garbage : Nat → Element) : Forming :=
  { VertexArray := fun i => if i < scene.nverts then scene.vtemp i else ⟨0, 0, 0⟩
    VertexColors := fun _ => ⟨0, 0, 0⟩
    ElementArray := garbage
    vertnum := scene.nverts
    elnum := 0 }

/-- The arrays and the counters `vertnum`, `elnum` after the first `p` iterations of the
second patch loop of `loadData`. -/
def formPatches (sqrt : ℚ → ℚ) (scene : SceneData) (s : State) (p : Nat) : Forming :=
  (List.range p).foldl (formPatch (readPatches sqrt scene s).PatchArray)
    (formStart scene s.ElementArray)

/-- The function `loadData`: the return value (always 0) and the globals it leaves. -/
def loadData (sqrt : ℚ → ℚ) (scene : SceneData) (s : State) : Int × State :=
  let s1 := readPatches sqrt scene s
  let g := formPatches sqrt scene s scene.NumPatches
  (0, { s1 with
        VertexArray := g.VertexArray
        VertexColors := g.VertexColors
        ElementArray := g.ElementArray })

/-- The globals before `init`: counters zero, arrays unallocated, the initialisers of
the source for `totalStep` and `showAmbient`. -/
def startState : State :=
  { NumVertices := 0
    VertexArray := fun _ => ⟨0, 0, 0⟩
    VertexColors := fun _ => ⟨0, 0, 0⟩
    NumPatches := 0
    PatchArray := fun _ => defaultPatch
    NumElements := 0
    ElementArray := fun _ => defaultElement
    lookUpTable := fun _ _ => 0
    unshotPatchQueue := []
    reflectionFactor := ⟨0, 0, 0⟩
    ambient := ⟨0, 0, 0⟩
    dAmbient := ⟨0, 0, 0⟩
    totalStep := 0
    currentPatchID := 0
    showAmbient := 1 }

/-- A unit square in the plane `z = 0` with corners 0..3 in input order. -/
def unitSquare (i : Nat) : Vertex :=
  if i = 0 then ⟨0, 0, 0⟩ else if i = 1 then ⟨1, 0, 0⟩ else if i = 2 then ⟨1, 1, 0⟩
  else ⟨0, 1, 0⟩

/-- A scene with one unit-square patch whose record asks for `n` subdivisions. -/
def oneSquareScene (n : Int) : SceneData :=
  { nverts := 4
    vtemp := unitSquare
    NumPatches := 1
    patches := fun _ =>
      { vertices := fun a => a, emissivity := ⟨1, 1, 1⟩, reflectance := ⟨1/2, 1/2, 1/2⟩,
        numelements := n } }

/-- A scene with two unit-square patches on the same four vertices: the record of patch 0
holds the subdivision count `-3`, the record of patch 1 holds `0`. -/
def negativeCountScene : SceneData :=
  { nverts := 4
    vtemp := unitSquare
    NumPatches := 2
    patches := fun p =>
      { vertices := fun a => a, emissivity := ⟨1, 1, 1⟩, reflectance := ⟨1/2, 1/2, 1/2⟩,
        numelements := if p = 0 then -3 else 0 } }

/-! ## Measures of the unshot energy of a scene -/

/-- Total scene unshot energy: the sum over all patches of the squared norm of the
unshot radiosity. -/
def totalUnshotEnergy (s : State) : ℚ :=
  ∑ p ∈ Finset.range s.NumPatches,
    ((s.PatchArray p).unshot.r * (s.PatchArray p).unshot.r
      + (s.PatchArray p).unshot.g * (s.PatchArray p).unshot.g
      + (s.PatchArray p).unshot.b * (s.PatchArray p).unshot.b)

/-- Area-weighted total unshot radiosity of channel `c`: the sum over all patches of
`Area(p) * unshot_p,c`. -/
def weightedUnshot (s : State) (c : Fin 3) : ℚ :=
  ∑ p ∈ Finset.range s.NumPatches, (s.PatchArray p).area * (s.PatchArray p).unshot.ch c

/-! ## `initScene` and the states reached by the solver -/

/-- The function `initScene`: the reflection factor `R` and initial ambient term from the
area-weighted sums of loop 0, `dAmbient = 0`, every patch's `unshot` set to its
emissivity, an all-zero `lookUpTable`, then `updateVertexColor` and
`updatePriorityQueue`. -/
def initScene (s : State) : State :=
  let sums : Color × Color × ℚ :=
    (List.range s.NumPatches).foldl
      (fun acc id =>
        let avgPatchRefl := acc.1
        let sumEmi := acc.2.1
        let areaSum := acc.2.2
        let p := s.PatchArray id
        ((⟨avgPatchRefl.r + p.reflectance.r * p.area, avgPatchRefl.g + p.reflectance.g * p.area,
           avgPatchRefl.b + p.reflectance.b * p.area⟩ : Color),
         (⟨sumEmi.r + p.emissivity.r * p.area, sumEmi.g + p.emissivity.g * p.area,
           sumEmi.b + p.emissivity.b * p.area⟩ : Color),
         areaSum + p.area))
      (⟨0, 0, 0⟩, ⟨0, 0, 0⟩, 0)
  let areaSum := sums.2.2
  let sumEmi := sums.2.1
  let avgPatchRefl : Color :=
    ⟨sums.1.r / areaSum, sums.1.g / areaSum, sums.1.b / areaSum⟩
  let reflectionFactor : Color :=
    ⟨1 / (1 - avgPatchRefl.r), 1 / (1 - avgPatchRefl.g), 1 / (1 - avgPatchRefl.b)⟩
  let ambient : Color :=
    ⟨reflectionFactor.r * sumEmi.r / areaSum, reflectionFactor.g * sumEmi.g / areaSum,
     reflectionFactor.b * sumEmi.b / areaSum⟩
  let s1 : State :=
    { s with
      reflectionFactor := reflectionFactor
      ambient := ambient
      dAmbient := ⟨0, 0, 0⟩
      PatchArray := fun id =>
        if id < s.NumPatches then
          { s.PatchArray id with unshot := (s.PatchArray id).emissivity }
        else s.PatchArray id
      lookUpTable := fun _ _ => 0 }
  updatePriorityQueue (updateVertexColor s1)

/-- Entry `k` of the vector under the queue (a zero tag beyond its end). -/
def tagAt (c : List UnshotTag) (k : Nat) : UnshotTag :=
  c.getD k ⟨⟨0, 0, 0⟩, 0⟩

/-- The heap order that `push_heap` maintains under `CompareTag`: no entry is larger than
its parent `(k - 1) / 2`. -/
def IsHeap (c : List UnshotTag) : Prop :=
  ∀ k, 0 < k → k < c.length →
    (tagAt c k).unshot.size ≤ (tagAt c ((k - 1) / 2)).unshot.size

/-- The queue that `updatePriorityQueue` builds by pushing the tags of patches
`0 .. n - 1` onto the emptied queue. -/
def buildQueue (PatchArray : Nat → Patch) (n : Nat) : List UnshotTag :=
  (List.range n).foldl (fun q id => pqPush q ⟨(PatchArray id).unshot, id⟩) []

/-! ## The persisted table: stream output and input

`ofstream` / `ifstream` are embedded at the level of characters.  Output with `<<` uses
the default stream formatting: integers in decimal, `double` as `%g` with precision 6.
Input with `>>` skips leading white space and then extracts the longest run of
characters of the wanted kind. -/

/-- The decimal digit character of `d % 10`. -/
def digitChar (d : Nat) : Char := Char.ofNat (48 + d % 10)

/-- Decimal digits of `n`, most significant first; `fuel` bounds the number of digits. -/
def natDigits : Nat → Nat → List Char
  | 0, _ => []
  | fuel + 1, n =>
    if n < 10 then [digitChar n] else natDigits fuel (n / 10) ++ [digitChar n]

/-- Output `file << n` of a non-negative `int`. -/
def showNat (n : Nat) : List Char := natDigits (n + 1) n

/-- Search upwards for the largest `k` with `d * 10^k <= n` (used when `d <= n`). -/
def expUp (n d : Nat) : Nat → Nat → Nat
  | 0, k => k
  | fuel + 1, k => if d * 10 ^ (k + 1) ≤ n then expUp n d fuel (k + 1) else k

/-- Search upwards for the smallest `k` with `d <= n * 10^k` (used when `n < d`). -/
def expDown (n d : Nat) : Nat → Nat → Nat
  | 0, k => k
  | fuel + 1, k => if d ≤ n * 10 ^ k then k else expDown n d fuel (k + 1)

/-- Decimal exponent `X` of the positive rational `n / d`: `10^X <= n / d < 10^(X+1)`. -/
def decExponent (n d : Nat) : Int :=
  if d ≤ n then (expUp n d n 0 : Int) else - (expDown n d d 1 : Int)

/-- Quotient `a / b` rounded to the nearest integer, ties to even. -/
def roundDiv (a b : Nat) : Nat :=
  let q := a / b
  let r := a % b
  if 2 * r < b then q else if b < 2 * r then q + 1 else if q % 2 = 0 then q else q + 1

/-- Remove the trailing zeros of a digit string. -/
def stripZeros (l : List Char) : List Char :=
  (l.reverse.dropWhile (fun c => c == '0')).reverse

/-- A fraction part: nothing when no digit is left, else the decimal point and the digits. -/
def fractionPart (frac : List Char) : List Char :=
  if frac.isEmpty then [] else '.' :: frac

/-- Style `%f` of `%g`: the six significant digits `m` at decimal exponent `X`
(`-4 <= X < 6`), trailing zeros removed. -/
def fixedNotation (m : Nat) (X : Int) : List Char :=
  let ds := natDigits 6 m
  if 0 ≤ X then
    ds.take (X.toNat + 1) ++ fractionPart (stripZeros (ds.drop (X.toNat + 1)))
  else
    '0' :: fractionPart (stripZeros (List.replicate ((-X).toNat - 1) '0' ++ ds))

/-- Style `%e` of `%g`: one digit, the fraction without trailing zeros, `e`, the sign of
the exponent and at least two exponent digits. -/
def sciNotation (m : Nat) (X : Int) : List Char :=
  let ds := natDigits 6 m
  let e := X.natAbs
  ds.take 1 ++ fractionPart (stripZeros (ds.drop 1)) ++ ['e']
    ++ [if X < 0 then '-' else '+']
    ++ (if e < 10 then '0' :: showNat e else showNat e)

/-- The text of the rational `n / d` with sign `neg` under `%g` with precision 6: six
significant digits, rounded to nearest (ties to even), fixed notation for decimal
exponents `-4 .. 5` and scientific notation otherwise. -/
def showParts (neg : Bool) (n d : Nat) : List Char :=
  if n = 0 then ['0']
  else
    let X := decExponent n d
    let m := if X ≤ 5 then roundDiv (n * 10 ^ (5 - X).toNat) d
      else roundDiv n (d * 10 ^ (X - 5).toNat)
    let X := if m = 1000000 then X + 1 else X
    let m := if m = 1000000 then 100000 else m
    (if neg then ['-'] else [])
      ++ (if -4 ≤ X ∧ X < 6 then fixedNotation m X else sciNotation m X)

/-- Output `file << x` of a `double` with the default stream flags. -/
def showDouble (x : ℚ) : List Char :=
  showParts (decide (x < 0)) x.num.natAbs x.den

/-- The file-writing part of `generateFormFactorTable` (source lines 467-483): the header
row `F/E,0,1,...`, then per patch its id and its coefficients, comma-separated, each row
ended by `endl`. -/
def writeLookUpTable (s : State) : List Char :=
  let header := (List.range s.NumElements).foldl
    (fun file id => file ++ [','] ++ showNat id) ['F', '/', 'E']
  let file := header ++ ['\n']
  (List.range s.NumPatches).foldl
    (fun file p_id =>
      let file := file ++ showNat p_id
      let file := (List.range s.NumElements).foldl
        (fun file e_id => file ++ [','] ++ showDouble (s.lookUpTable p_id e_id)) file
      file ++ ['\n'])
    file

/-- An input stream: the characters not yet read and the fail flag. -/
structure IStream where
  buf : List Char
  fail : Bool

/-- White space skipped by formatted input (`isspace`). -/
def isSpaceChar (c : Char) : Bool :=
  c == ' ' || c == '\t' || c == '\n' || c == '\r' || c == Char.ofNat 11 || c == Char.ofNat 12

/-- Characters a decimal floating literal is made of. -/
def isFloatChar (c : Char) : Bool :=
  c.isDigit || c == '.' || c == 'e' || c == 'E' || c == '+' || c == '-'

/-- Value of a digit string, most significant digit first, on top of `acc`. -/
def digitsValue (acc : Nat) : List Char → Nat
  | [] => acc
  | c :: cs => digitsValue (acc * 10 + (c.toNat - 48)) cs

/-- The call `getline(file, firstLine)`: drop characters up to and including the first
newline.  Reading nothing (empty input) sets the fail flag. -/
def getline (f : IStream) : IStream :=
  if f.fail then f
  else if f.buf.isEmpty then { f with fail := true }
  else { f with buf := (f.buf.dropWhile (fun c => c != '\n')).drop 1 }

/-- Extraction `file >> id` of an `int`: skip white space, an optional sign, then the
longest run of digits; no digit sets the fail flag.  A failed stream extracts nothing
and the variable reads as 0. -/
def readInt (f : IStream) : Int × IStream :=
  if f.fail then (0, f)
  else
    let b := f.buf.dropWhile isSpaceChar
    let neg := b.head? == some '-'
    let b := if b.head? == some '-' || b.head? == some '+' then b.drop 1 else b
    let ds := b.takeWhile Char.isDigit
    if ds.isEmpty then (0, { buf := b, fail := true })
    else
      ((if neg then - (digitsValue 0 ds : Int) else (digitsValue 0 ds : Int)),
        { buf := b.dropWhile Char.isDigit, fail := false })

/-- Extraction `file >> comma` of a `char`: skip white space and take one character; at
the end of the input the fail flag is set. -/
def readChar (f : IStream) : IStream :=
  if f.fail then f
  else
    match f.buf.dropWhile isSpaceChar with
    | [] => { buf := [], fail := true }
    | _ :: rest => { buf := rest, fail := false }

/-- The decimal literal `[sign] digits [. digits] [e [sign] digits]`, all of `tok`, as sign,
integer mantissa and power of ten; `none` when `tok` is not such a literal. -/
def parseDecimal (tok : List Char) : Option (Bool × Nat × Int) :=
  let neg := tok.head? == some '-'
  let t := if tok.head? == some '-' || tok.head? == some '+' then tok.drop 1 else tok
  let ip := t.takeWhile Char.isDigit
  let t := t.dropWhile Char.isDigit
  let hasPoint := t.head? == some '.'
  let fp := if hasPoint then (t.drop 1).takeWhile Char.isDigit else []
  let t := if hasPoint then (t.drop 1).dropWhile Char.isDigit else t
  if ip.isEmpty && fp.isEmpty then none
  else
    let mant := digitsValue 0 (ip ++ fp)
    if t.isEmpty then some (neg, mant, - (fp.length : Int))
    else if t.head? == some 'e' || t.head? == some 'E' then
      let t := t.drop 1
      let eneg := t.head? == some '-'
      let t := if t.head? == some '-' || t.head? == some '+' then t.drop 1 else t
      if t.isEmpty || !t.all Char.isDigit then none
      else
        let e : Int := if eneg then - (digitsValue 0 t : Int) else (digitsValue 0 t : Int)
        some (neg, mant, e - (fp.length : Int))
    else none

/-- The number denoted by sign, mantissa and power of ten. -/
def decimalValue (d : Bool × Nat × Int) : ℚ :=
  (if d.1 then -1 else 1) * (d.2.1 : ℚ) * (10 : ℚ) ^ d.2.2

/-- The number denoted by a decimal literal. -/
def parseNumeral (tok : List Char) : Option ℚ :=
  (parseDecimal tok).map decimalValue

/-- Extraction `file >> val` of a `double`: skip white space, accumulate the longest run
of characters of a floating literal and convert it; a run that is not a literal sets the
fail flag and yields 0.  A failed stream extracts nothing and the variable reads as 0. -/
def readDouble (f : IStream) : ℚ × IStream :=
  if f.fail then (0, f)
  else
    let b := f.buf.dropWhile isSpaceChar
    let tok := b.takeWhile isFloatChar
    let rest := b.dropWhile isFloatChar
    match parseNumeral tok with
    | some v => (v, { buf := rest, fail := false })
    | none => (0, { buf := rest, fail := true })

/-- Body of the inner loop of `loadLookUpTable`: read the comma and the value of cell
`(p_id, e_id)` and store the value. -/
def loadCell (p_id : Nat) (acc : (Nat → Nat → ℚ) × IStream) (e_id : Nat) :
    (Nat → Nat → ℚ) × IStream :=
  let f := readChar acc.2
  let r := readDouble f
  (Function.update acc.1 p_id (Function.update (acc.1 p_id) e_id r.1), r.2)

/-- Body of the outer loop of `loadLookUpTable`: read the patch id, then the row. -/
def loadRow (NumElements : Nat) (acc : (Nat → Nat → ℚ) × IStream) (p_id : Nat) :
    (Nat → Nat → ℚ) × IStream :=
  let r := readInt acc.2
  (List.range NumElements).foldl (loadCell p_id) (acc.1, r.2)

/-- The function `loadLookUpTable`, reading the text `file` of `LookUpTable.csv`. -/
def loadLookUpTable (file : List Char) (s : State) : State :=
  let f := getline { buf := file, fail := false }
  let r := (List.range s.NumPatches).foldl (loadRow s.NumElements) (s.lookUpTable, f)
  { s with lookUpTable := r.1 }

/-- A state whose table is the single cell `x`. -/
def oneCellState (x : ℚ) : State :=
  { startState with NumPatches := 1, NumElements := 1, lookUpTable := fun _ _ => x }

/-- A state with a `2 x 2` table of short decimals: `0`, `1/2`, `1/4`, `3/100000`. -/
def shortDecimalState : State :=
  { startState with
    NumPatches := 2
    NumElements := 2
    lookUpTable := fun p e =>
      if p = 0 then (if e = 0 then 0 else 1 / 2) else (if e = 0 then 1 / 4 else 3 / 100000) }

/-- Text of the header entries for element ids `e, e+1, ..., e+n-1`. -/
def headerText : Nat → Nat → List Char
  | _, 0 => []
  | e, n + 1 => ',' :: showNat e ++ headerText (e + 1) n

/-- Text of the cells `e, e+1, ..., e+n-1` of row `p`: a comma and the coefficient each. -/
def cellsText (T : Nat → Nat → ℚ) (p : Nat) : Nat → Nat → List Char
  | _, 0 => []
  | e, n + 1 => ',' :: showDouble (T p e) ++ cellsText T p (e + 1) n

/-- Text of the rows `p, p+1, ..., p+n-1`: patch id, cells, newline. -/
def rowsText (T : Nat → Nat → ℚ) (NumElements : Nat) : Nat → Nat → List Char
  | _, 0 => []
  | p, n + 1 =>
    showNat p ++ cellsText T p 0 NumElements ++ '\n' :: rowsText T NumElements (p + 1) n

/-- The grid vertex that `loadData` writes for grid position `(j, k)`:
`p0 + k * v1 + j * v2`, per coordinate. -/
def gridVertex (p0 v1 v2 : Vertex) (j k : Nat) : Vertex :=
  ⟨p0.x + (k : ℚ) * v1.x + (j : ℚ) * v2.x,
   p0.y + (k : ℚ) * v1.y + (j : ℚ) * v2.y,
   p0.z + (k : ℚ) * v1.z + (j : ℚ) * v2.z⟩

/-- The grid step vector `(b - a) / n` that `loadData` computes per patch. -/
def gridStep (a b : Vertex) (n : ℚ) : Vertex :=
  ⟨(b.x - a.x) / n, (b.y - a.y) / n, (b.z - a.z) / n⟩

/-- A scene with one patch that is not a parallelogram: corners `(0,0,0)`, `(1,0,0)`,
`(2,2,0)`, `(0,1,0)`; the record asks for `-1` subdivisions, stored as 1. -/
def kiteScene : SceneData :=
  { nverts := 4
    vtemp := fun i =>
      if i = 0 then ⟨0, 0, 0⟩ else if i = 1 then ⟨1, 0, 0⟩ else if i = 2 then ⟨2, 2, 0⟩
      else ⟨0, 1, 0⟩
    NumPatches := 1
    patches := fun _ =>
      { vertices := fun a => a.val, emissivity := ⟨1, 1, 1⟩, reflectance := ⟨1/2, 1/2, 1/2⟩,
        numelements := -1 } }

/-! ## The hemicube -/

/-- The macro `HEMICUBE_HEIGHT`. -/
def HEMICUBE_HEIGHT : ℚ := 1

/-- The macro `HEMICUBE_SUBDIV`. -/
def HEMICUBE_SUBDIV : Nat := 512

/-- The macro `PI`. -/
def PI : ℚ := 3141592 / 1000000

/-- First constant of the face enumeration `enum { FRONT, LEFT, RIGHT, TOP, BOTTOM }`. -/
def FRONT : Nat := 0

/-- Second constant of the face enumeration. -/
def LEFT : Nat := 1

/-- Third constant of the face enumeration. -/
def RIGHT : Nat := 2

/-- Fourth constant of the face enumeration. -/
def TOP : Nat := 3

/-- Fifth constant of the face enumeration. -/
def BOTTOM : Nat := 4

/-- Scalar product of two vectors (`glm::dot`). -/
def dot (a b : Vertex) : ℚ := a.x * b.x + a.y * b.y + a.z * b.z

/-- Vector product (`glm::cross`). -/
def cross (a b : Vertex) : Vertex :=
  ⟨a.y * b.z - b.y * a.z, a.z * b.x - b.z * a.x, a.x * b.y - b.x * a.y⟩

/-- Conversion of a floating-point value to `int`: truncation toward zero. -/
def truncToInt (q : ℚ) : Int := if 0 ≤ q then ⌊q⌋ else ⌈q⌉

/-- The structure `Hemicube::HemiPixel`: the accumulated form factor of a pixel and the ids
of the elements projected onto it. -/
structure HemiPixel where
  formFactor : ℚ
  id : List Nat

/-- The data members of the class `Hemicube`; `hemiPixel SIDE pix` is pixel `pix` of face
`SIDE`. -/
structure Hemicube where
  center : Vertex
  normal : Vertex
  u : Vertex
  v : Vertex
  hemiPixel : Nat → Nat → HemiPixel

/-- The constructor `Hemicube(c, n, up)`: `v = cross(normal, u)` and fresh pixels. -/
def newHemicube (c n up : Vertex) : Hemicube :=
  { center := c, normal := n, u := up, v := cross n up, hemiPixel := fun _ _ => ⟨0, []⟩ }

/-- Viewport height of face `SIDE` in `computeDeltaFormFactor`; the width is
`HEMICUBE_SUBDIV` on every face. -/
def faceHeight (SIDE : Nat) : Nat :=
  if SIDE = FRONT then HEMICUBE_SUBDIV else HEMICUBE_SUBDIV / 2

/-- The delta form factor that `computeDeltaFormFactor` computes for pixel `(x, y)` of
face `SIDE` (source lines 262-267 and 275-279).  The source takes `r = sqrt(a)` and then
`pow(r, 4)`; in exact arithmetic that is `a ^ 2`. -/
def dFormFactor (SIDE x y : Nat) : ℚ :=
  let width : Nat := HEMICUBE_SUBDIV
  let height : Nat := faceHeight SIDE
  if SIDE = FRONT then
    let _y : ℚ := (((y : Int) - ((height / 2 : Nat) : Int) : Int) : ℚ) / (HEMICUBE_SUBDIV : ℚ)
    let _x : ℚ := (((x : Int) - ((width / 2 : Nat) : Int) : Int) : ℚ) / (HEMICUBE_SUBDIV : ℚ)
    let r4 : ℚ := (_x * _x + _y * _y + HEMICUBE_HEIGHT) ^ 2
    let dArea : ℚ := 1 / ((HEMICUBE_SUBDIV * HEMICUBE_SUBDIV : Nat) : ℚ)
    (1 / (PI * r4)) * dArea
  else
    let _y : ℚ := (y : ℚ) / (HEMICUBE_SUBDIV : ℚ)
    let _x : ℚ := (((x : Int) - ((width / 2 : Nat) : Int) : Int) : ℚ) / (HEMICUBE_SUBDIV : ℚ)
    let r4 : ℚ := (_x * _x + _y * _y + HEMICUBE_HEIGHT) ^ 2
    let dArea : ℚ := 1 / ((HEMICUBE_SUBDIV * HEMICUBE_SUBDIV / 2 : Nat) : ℚ)
    (_y / (PI * r4)) * dArea

/-- Body of the pixel loops of `computeDeltaFormFactor` for pixel `(x, y)` of face `SIDE`:
when the byte `pixel[index]` read back is positive, add the delta form factor to the pixel
and append `element_id` to its id list.  `hp` is the pixel array of the face. -/
def projectPixel (element_id SIDE : Nat) (pixel : Nat → Nat) (width : Nat)
    (hp : Nat → HemiPixel) (y x : Nat) : Nat → HemiPixel :=
  let index := (y * width + x) * 3
  if pixel index > 0 then
    Function.update hp (index / 3)
      ⟨(hp (index / 3)).formFactor + dFormFactor SIDE x y, (hp (index / 3)).id ++ [element_id]⟩
  else hp

/-- The loops over the rows `y` and the columns `x` of one face. -/
def projectFace (element_id SIDE : Nat) (pixel : Nat → Nat) (hp : Nat → HemiPixel) :
    Nat → HemiPixel :=
  let width : Nat := HEMICUBE_SUBDIV
  let height : Nat := faceHeight SIDE
  (List.range height).foldl
    (fun hp y => (List.range width).foldl (fun hp x => projectPixel element_id SIDE pixel width hp y x) hp)
    hp

/-- The method `Hemicube::computeDeltaFormFactor(element, element_id)`.  The OpenGL
rendering is outside the program text: its outcome, the byte array that `glReadPixels`
returns for face `SIDE`, is the parameter `pixel SIDE`. -/
def computeDeltaFormFactor (pixel : Nat → Nat → Nat) (h : Hemicube) (_ : Element)
    (element_id : Nat) : Hemicube :=
  (List.range 5).foldl
    (fun h SIDE =>
      { h with
        hemiPixel := Function.update h.hemiPixel SIDE
          (projectFace element_id SIDE (pixel SIDE) (h.hemiPixel SIDE)) })
    h

/-- The `while` loop of `updateLookUpTable` for one pixel, with the number of iterations
bounded by `fuel`.  The loop condition declares `int size = id.size() > 0`, so `size` is
the truth value of the comparison. -/
def drainPixel (patch_id : Nat) :
    Nat → HemiPixel × (Nat → Nat → ℚ) → HemiPixel × (Nat → Nat → ℚ)
  | 0, st => st
  | fuel + 1, st =>
    let size : Nat := if st.1.id.length > 0 then 1 else 0
    if size ≠ 0 then
      let element_id := st.1.id.getD (size - 1) 0
      let px : HemiPixel := { st.1 with id := st.1.id.dropLast }
      drainPixel patch_id fuel
        (px, Function.update st.2 patch_id
          (Function.update (st.2 patch_id) element_id
            (st.2 patch_id element_id + px.formFactor)))
    else st

/-- The loop over the pixels `0 .. n-1` of face `SIDE` in `updateLookUpTable`; every pass
of the `while` loop removes one id, so `id.size()` passes empty the list. -/
def updateFace (patch_id SIDE n : Nat) (acc : Hemicube × (Nat → Nat → ℚ)) :
    Hemicube × (Nat → Nat → ℚ) :=
  (List.range n).foldl
    (fun acc pix =>
      let r := drainPixel patch_id (acc.1.hemiPixel SIDE pix).id.length
        (acc.1.hemiPixel SIDE pix, acc.2)
      ({ acc.1 with
         hemiPixel := Function.update acc.1.hemiPixel SIDE
           (Function.update (acc.1.hemiPixel SIDE) pix r.1) }, r.2))
    acc

/-- The method `Hemicube::updateLookUpTable(patch_id)`, acting on the hemicube and on the
global table. -/
def updateLookUpTable (patch_id : Nat) (h : Hemicube) (lookUpTable : Nat → Nat → ℚ) :
    Hemicube × (Nat → Nat → ℚ) :=
  (List.range 5).foldl
    (fun acc SIDE =>
      if SIDE = FRONT then
        updateFace patch_id SIDE (HEMICUBE_SUBDIV * HEMICUBE_SUBDIV) acc
      else
        updateFace patch_id SIDE (HEMICUBE_SUBDIV * HEMICUBE_SUBDIV / 2) acc)
    (h, lookUpTable)

/-- The hemicube that `generateFormFactorTable` creates for a patch: the up axis is the
global `up` when `int cosVal = dot(normal, up)` is 0 and `toCam` otherwise. -/
def patchHemicube (patch : Patch) : Hemicube :=
  let up : Vertex := ⟨0, 0, 1⟩
  let toCam : Vertex := ⟨1, 0, 0⟩
  let cosVal : Int := truncToInt (dot patch.normal up)
  if cosVal = 0 then newHemicube patch.center patch.normal up
  else newHemicube patch.center patch.normal toCam

/-- Body of the patch loop of `generateFormFactorTable`: project every element on the
patch's hemicube, then add the collected form factors to the table. -/
def formFactorRow (render : Nat → Nat → Nat → Nat → Nat) (s : State) (patch_id : Nat) :
    State :=
  let hemicube := patchHemicube (s.PatchArray patch_id)
  let hemicube := (List.range s.NumElements).foldl
    (fun h element_id =>
      computeDeltaFormFactor (render patch_id element_id) h (s.ElementArray element_id)
        element_id)
    hemicube
  { s with lookUpTable := (updateLookUpTable patch_id hemicube s.lookUpTable).2 }

/-- The function `generateFormFactorTable`: the state with the updated table and the text
written to `LookUpTable_output.csv`.  `render patch_id element_id SIDE` is the byte array
read back when element `element_id` is rendered on face `SIDE` of the hemicube of patch
`patch_id`. -/
def generateFormFactorTable (render : Nat → Nat → Nat → Nat → Nat) (s : State) :
    State × List Char :=
  let s := (List.range s.NumPatches).foldl (formFactorRow render) s
  (s, writeLookUpTable s)

/-- A hemicube whose front pixel 0 holds form factor 1 and the ids of elements 0 and 1,
all other pixels being fresh. -/
def twoIdHemicube : Hemicube :=
  { newHemicube ⟨0, 0, 0⟩ ⟨0, 0, 1⟩ ⟨1, 0, 0⟩ with
    hemiPixel := fun SIDE pix =>
      if SIDE = FRONT ∧ pix = 0 then ⟨1, [0, 1]⟩ else ⟨0, []⟩ }

/-- A rendering outcome in which only the byte of front pixel `(0, 0)` is set. -/
def cornerPixel (SIDE index : Nat) : Nat :=
  if SIDE = FRONT ∧ index = 0 then 255 else 0

/-- A patch whose unit normal `(3/5, 0, 4/5)` is neither horizontal nor vertical. -/
def tiltedPatch : Patch := { defaultPatch with normal := ⟨3 / 5, 0, 4 / 5⟩ }

/-- A patch with the vertical unit normal `(0, 0, 1)`. -/
def floorPatch : Patch := { defaultPatch with normal := ⟨0, 0, 1⟩ }

/-- A patch with the horizontal unit normal `(0, 1, 0)`. -/
def wallPatch : Patch := { defaultPatch with normal := ⟨0, 1, 0⟩ }

/-- Number of pixels of face `SIDE` that `updateLookUpTable` visits. -/
def facePixels (SIDE : Nat) : Nat :=
  if SIDE = FRONT then HEMICUBE_SUBDIV * HEMICUBE_SUBDIV
  else HEMICUBE_SUBDIV * HEMICUBE_SUBDIV / 2

/-- What the `while` loop of `updateLookUpTable` adds to the cell of element `e` for one
pixel: the pixel's form factor once per recorded id, all of it going to the element whose
id is first in the list. -/
def pixelShare (px : HemiPixel) (e : Nat) : ℚ :=
  if px.id.head? = some e then px.formFactor * (px.id.length : ℚ) else 0

/-- The pixel after one pass of the pixel loop body of `computeDeltaFormFactor`, when its
byte is set. -/
def coveredPixel (px : HemiPixel) (element_id SIDE x y : Nat) : HemiPixel :=
  ⟨px.formFactor + dFormFactor SIDE x y, px.id ++ [element_id]⟩

/-- A state with one patch and two elements whose table holds 7 in every cell. -/
def oneRowState : State :=
  { startState with NumPatches := 1, NumElements := 2, lookUpTable := fun _ _ => 7 }

/-- The edge vector from `a` to `b`, as `loadData` forms `v1` and `v2` (source lines
735-746). -/
def edgeBetween (a b : Vertex) : Vertex := ⟨b.x - a.x, b.y - a.y, b.z - a.z⟩

/-- The first edge `v1 = vertex 1 - vertex 0` of patch `p` of a scene. -/
def patchEdge1 (scene : SceneData) (p : Nat) : Vertex :=
  edgeBetween (scene.vtemp ((scene.patches p).vertices 0))
    (scene.vtemp ((scene.patches p).vertices 1))

/-- The second edge `v2 = vertex 3 - vertex 0` of patch `p` of a scene. -/
def patchEdge2 (scene : SceneData) (p : Nat) : Vertex :=
  edgeBetween (scene.vtemp ((scene.patches p).vertices 0))
    (scene.vtemp ((scene.patches p).vertices 3))

/-- A parallelogram with corners `(0,0,0)`, `(1,0,0)`, `(4,4,0)`, `(3,4,0)`: its edges
`(1,0,0)` and `(3,4,0)` have lengths 1 and 5 and are not perpendicular. -/
def skewScene : SceneData :=
  { nverts := 4
    vtemp := fun i =>
      if i = 0 then ⟨0, 0, 0⟩ else if i = 1 then ⟨1, 0, 0⟩ else if i = 2 then ⟨4, 4, 0⟩
      else ⟨3, 4, 0⟩
    NumPatches := 1
    patches := fun _ =>
      { vertices := fun a => a, emissivity := ⟨1, 1, 1⟩, reflectance := ⟨1/2, 1/2, 1/2⟩,
        numelements := 1 } }

/-! ## The two-phase formulation of a shooting step -/

/-- First phase of the two-phase formulation of a step that shoots patch `i`: the
increment of element `e`, computed from the unshot value that patch `i` has before the
step. -/
def twoPhaseIncrement (i : Nat) (s : State) (e : Nat) : Color :=
  let rho := (s.PatchArray (s.ElementArray e).patch).reflectance
  let U := (s.PatchArray i).unshot
  let F := s.lookUpTable i e
  let Ai := (s.PatchArray i).area
  let Ae := (s.ElementArray e).area
  ⟨rho.r * U.r * F * (Ai / Ae), rho.g * U.g * F * (Ai / Ae), rho.b * U.b * F * (Ai / Ae)⟩

/-- Second phase, elements: every element of the scene receives its increment. -/
def twoPhaseRadiosity (i : Nat) (s : State) (e : Nat) : Color :=
  if e < s.NumElements then (s.ElementArray e).radiosity + twoPhaseIncrement i s e
  else (s.ElementArray e).radiosity

/-- Second phase, patches: every patch receives the area-weighted increments of the
elements it owns, and patch `i` is zeroed. -/
def twoPhaseUnshot (i : Nat) (s : State) (j : Nat) : Color :=
  if j = i then ⟨0, 0, 0⟩
  else
    ⟨(s.PatchArray j).unshot.r
        + ∑ e ∈ (Finset.range s.NumElements).filter (fun e => (s.ElementArray e).patch = j),
            (twoPhaseIncrement i s e).r * ((s.ElementArray e).area / (s.PatchArray j).area),
     (s.PatchArray j).unshot.g
        + ∑ e ∈ (Finset.range s.NumElements).filter (fun e => (s.ElementArray e).patch = j),
            (twoPhaseIncrement i s e).g * ((s.ElementArray e).area / (s.PatchArray j).area),
     (s.PatchArray j).unshot.b
        + ∑ e ∈ (Finset.range s.NumElements).filter (fun e => (s.ElementArray e).patch = j),
            (twoPhaseIncrement i s e).b * ((s.ElementArray e).area / (s.PatchArray j).area)⟩

/-- The hemicube of patch `patch_id` in `generateFormFactorTable` after the element loop:
every element has been projected on it. -/
def projectedHemicube (render : Nat → Nat → Nat → Nat → Nat) (s : State) (patch_id : Nat) :
    Hemicube :=
  (List.range s.NumElements).foldl
    (fun h element_id =>
      computeDeltaFormFactor (render patch_id element_id) h (s.ElementArray element_id)
        element_id)
    (patchHemicube (s.PatchArray patch_id))

/-- What one pass of the patch loop of `generateFormFactorTable` adds to cell
`(patch_id, e)`: the shares of all pixels of the projected hemicube. -/
def rowShare (render : Nat → Nat → Nat → Nat → Nat) (s : State) (patch_id e : Nat) : ℚ :=
  ∑ S ∈ Finset.range 5, ∑ pix ∈ Finset.range (facePixels S),
    pixelShare ((projectedHemicube render s patch_id).hemiPixel S pix) e

/-- The function `init`: `loadData`, `initScene`, `loadLookUpTable`, on the scene
description `scene` and the text `file` of `LookUpTable.csv`. -/
def init (sqrt : ℚ → ℚ) (scene : SceneData) (file : List Char) (s : State) : State :=
  loadLookUpTable file (initScene (loadData sqrt scene s).2)

/-- A rendering outcome in which element 0 covers front pixel `(0, 0)` of every hemicube
and nothing else is covered. -/
def cornerRender (_ element_id : Nat) : Nat → Nat → Nat :=
  if element_id = 0 then cornerPixel else fun _ _ => 0

/-- A hemicube whose front pixel 0 holds form factor 1 and the id of element 1, all other
pixels being fresh: the state after one element has been projected on one pixel. -/
def oneIdHemicube : Hemicube :=
  { newHemicube ⟨0, 0, 0⟩ ⟨0, 0, 1⟩ ⟨1, 0, 0⟩ with
    hemiPixel := fun SIDE pix =>
      if SIDE = FRONT ∧ pix = 0 then ⟨1, [1]⟩ else ⟨0, []⟩ }

/-- The states the program reaches: `initScene`, followed by any number of calls of
`progressiveRefinement`, with the table loaded by `loadLookUpTable` (as `init` does right
after `initScene`) or recomputed by `generateFormFactorTable` at any point in between. -/
inductive Reachable : State → Prop
  | init (s : State) : Reachable (initScene s)
  | load (file : List Char) (s : State) : Reachable s → Reachable (loadLookUpTable file s)
  | generate (render : Nat → Nat → Nat → Nat → Nat) (s : State) :
      Reachable s → Reachable (generateFormFactorTable render s).1
  | step (s : State) : Reachable s → Reachable (progressiveRefinement s)

/-- A start state whose element memory holds, in every slot, an element with all four
vertex indices 4 and owner 0: content that a fresh allocation may hold. -/
def staleState : State :=
  { startState with
    ElementArray := fun _ => { defaultElement with vertices := fun _ => 4 } }

/-! ## `scene.dat` as read -/

/-- One patch record of `scene.dat` as the extractions deliver it: the four vertex indices
and the subdivision count are `int`. -/
structure RawPatchRecord where
  vertices : Fin 4 → Int
  emissivity : Color
  reflectance : Color
  numelements : Int

/-- The numbers of `scene.dat` as the extractions `infi >> ...` of `loadData` deliver
them: `nverts` and `NumPatches` are `int`, as are the vertex indices of the patches. -/
structure SceneFile where
  nverts : Int
  vtemp : Nat → Vertex
  NumPatches : Int
  patches : Nat → RawPatchRecord

/-- The files on which `loadData` runs to its `return`: the lengths `nverts` and
`NumPatches` of `new Vertex[nverts]` and `new Patch[NumPatches]` are not negative (the
allocation throws otherwise) and every vertex index of a patch is an index into `vtemp`
(the accesses `vtemp[...]` are unchecked). -/
def SceneFile.admissible (f : SceneFile) : Bool :=
  decide (0 ≤ f.nverts) && decide (0 ≤ f.NumPatches) &&
    (List.range f.NumPatches.toNat).all (fun p =>
      (List.finRange 4).all (fun a =>
        decide (0 ≤ (f.patches p).vertices a) && decide ((f.patches p).vertices a < f.nverts)))

/-- The scene description that an admissible file denotes: counts and indices as natural
numbers. -/
def SceneFile.toSceneData (f : SceneFile) : SceneData :=
  { nverts := f.nverts.toNat
    vtemp := f.vtemp
    NumPatches := f.NumPatches.toNat
    patches := fun p =>
      { vertices := fun a => ((f.patches p).vertices a).toNat
        emissivity := (f.patches p).emissivity
        reflectance := (f.patches p).reflectance
        numelements := (f.patches p).numelements } }

/-- The function `loadData` on the numbers as read: there is no result when an allocation
throws or an access leaves `vtemp`; otherwise the result is that of `loadData` on the
scene description. -/
def loadDataFile (sqrt : ℚ → ℚ) (f : SceneFile) (s : State) : Option (Int × State) :=
  if f.admissible = true then some (loadData sqrt f.toSceneData s) else none

/-- A file whose only patch has reflectance `(1, 3/2, 1/2)` and all four corners at input
vertex 0, so that both edges have length zero. -/
def degenerateFile : SceneFile :=
  { nverts := 4
    vtemp := unitSquare
    NumPatches := 1
    patches := fun _ =>
      { vertices := fun _ => 0, emissivity := ⟨1, 1, 1⟩, reflectance := ⟨1, 3 / 2, 1 / 2⟩,
        numelements := 1 } }

/-- The file of the one-square scene with record count 1. -/
def oneSquareFile : SceneFile :=
  { nverts := 4
    vtemp := unitSquare
    NumPatches := 1
    patches := fun _ =>
      { vertices := fun a => (a : Nat), emissivity := ⟨1, 1, 1⟩,
        reflectance := ⟨1/2, 1/2, 1/2⟩, numelements := 1 } }

/-- A file whose patch count is negative. -/
def negativePatchCountFile : SceneFile := { oneSquareFile with NumPatches := -1 }

/-! ## The patch normal in exact arithmetic -/

/-- The normal computation of `loadData` (source lines 735-758) over a field `K` with
square root `sqrt`, for a patch with vertex 0 at `p0`, vertex 1 at `p1` and vertex 3 at
`p3`: the edges `v1 = p1 - p0` and `v2 = p3 - p0`, each divided by `sqrt` of its squared
length, and their vector product.  `readPatch` is this computation on the rational
numbers; on the real numbers with `Real.sqrt` it is the computation in exact arithmetic,
also for edges whose length is irrational. -/
def patchNormal {K : Type} [Field K] (sqrt : K → K) (p0 p1 p3 : K × K × K) : K × K × K :=
  let v1x := p1.1 - p0.1
  let v1y := p1.2.1 - p0.2.1
  let v1z := p1.2.2 - p0.2.2
  let v2x := p3.1 - p0.1
  let v2y := p3.2.1 - p0.2.1
  let v2z := p3.2.2 - p0.2.2
  let length1 := sqrt (v1x * v1x + v1y * v1y + v1z * v1z)
  let length2 := sqrt (v2x * v2x + v2y * v2y + v2z * v2z)
  let v1x := v1x / length1
  let v1y := v1y / length1
  let v1z := v1z / length1
  let v2x := v2x / length2
  let v2y := v2y / length2
  let v2z := v2z / length2
  (v1y * v2z - v1z * v2y, v2x * v1z - v1x * v2z, v1x * v2y - v1y * v2x)

/-- The coordinates of a vertex as numbers of a field `K`. -/
def Vertex.coords (K : Type) [Field K] (v : Vertex) : K × K × K :=
  ((v.x : K), (v.y : K), (v.z : K))

/-- Squared length of a vector given by its coordinates. -/
def normSq {K : Type} [Field K] (n : K × K × K) : K :=
  n.1 * n.1 + n.2.1 * n.2.1 + n.2.2 * n.2.2

/-- A parallelogram with corners `(0,0,0)`, `(1,1,0)`, `(2,1,0)`, `(1,0,0)`: its edges
`(1,1,0)` and `(1,0,0)` are not perpendicular and the first has squared length 2, so its
length is irrational. -/
def diagonalScene : SceneData :=
  { nverts := 4
    vtemp := fun i =>
      if i = 0 then ⟨0, 0, 0⟩ else if i = 1 then ⟨1, 1, 0⟩ else if i = 2 then ⟨2, 1, 0⟩
      else ⟨1, 0, 0⟩
    NumPatches := 1
    patches := fun _ =>
      { vertices := fun a => a, emissivity := ⟨1, 1, 1⟩, reflectance := ⟨1/2, 1/2, 1/2⟩,
        numelements := 1 } }

/-! ## Basic facts about colours -/

@[simp] theorem Color.add_r (a c : Color) : (a + c).r = a.r + c.r := rfl

@[simp] theorem Color.add_g (a c : Color) : (a + c).g = a.g + c.g := rfl

@[simp] theorem Color.add_b (a c : Color) : (a + c).b = a.b + c.b := rfl

@[simp] theorem Color.mul_r (a c : Color) : (a * c).r = a.r * c.r := rfl

@[simp] theorem Color.mul_g (a c : Color) : (a * c).g = a.g * c.g := rfl

@[simp] theorem Color.mul_b (a c : Color) : (a * c).b = a.b * c.b := rfl

/-! ## The element loop of `progressiveRefinement` -/

theorem shootPrefix_zero (i : Nat) (s : State) : shootPrefix i s 0 = s := rfl

theorem shootPrefix_succ (i : Nat) (s : State) (k : Nat) :
    shootPrefix i s (k + 1) = shootElement i (shootPrefix i s k) k := by
  simp [shootPrefix, List.range_succ, List.foldl_append]

theorem shootLoop_eq (i : Nat) (s : State) : shootLoop i s = shootPrefix i s s.NumElements := rfl

theorem shootPrefix_lookUpTable (i : Nat) (s : State) (k : Nat) :
    (shootPrefix i s k).lookUpTable = s.lookUpTable := by
  induction k with
  | zero => rfl
  | succ k ih => rw [shootPrefix_succ]; simpa [shootElement] using ih

theorem shootPrefix_NumPatches (i : Nat) (s : State) (k : Nat) :
    (shootPrefix i s k).NumPatches = s.NumPatches := by
  induction k with
  | zero => rfl
  | succ k ih => rw [shootPrefix_succ]; simpa [shootElement] using ih

theorem shootPrefix_NumElements (i : Nat) (s : State) (k : Nat) :
    (shootPrefix i s k).NumElements = s.NumElements := by
  induction k with
  | zero => rfl
  | succ k ih => rw [shootPrefix_succ]; simpa [shootElement] using ih

theorem shootElement_patch_area (i : Nat) (s : State) (e p : Nat) :
    ((shootElement i s e).PatchArray p).area = (s.PatchArray p).area := by
  by_cases h : p = (s.ElementArray e).patch
  · subst h; simp [shootElement]
  · simp [shootElement, Function.update_noteq h]

theorem shootElement_patch_reflectance (i : Nat) (s : State) (e p : Nat) :
    ((shootElement i s e).PatchArray p).reflectance = (s.PatchArray p).reflectance := by
  by_cases h : p = (s.ElementArray e).patch
  · subst h; simp [shootElement]
  · simp [shootElement, Function.update_noteq h]

theorem shootElement_elem_area (i : Nat) (s : State) (e e' : Nat) :
    ((shootElement i s e).ElementArray e').area = (s.ElementArray e').area := by
  by_cases h : e' = e
  · subst h; simp [shootElement]
  · simp [shootElement, Function.update_noteq h]

theorem shootElement_elem_patch (i : Nat) (s : State) (e e' : Nat) :
    ((shootElement i s e).ElementArray e').patch = (s.ElementArray e').patch := by
  by_cases h : e' = e
  · subst h; simp [shootElement]
  · simp [shootElement, Function.update_noteq h]

theorem shootPrefix_patch_area (i : Nat) (s : State) (k p : Nat) :
    ((shootPrefix i s k).PatchArray p).area = (s.PatchArray p).area := by
  induction k with
  | zero => rfl
  | succ k ih => rw [shootPrefix_succ, shootElement_patch_area, ih]

theorem shootPrefix_patch_reflectance (i : Nat) (s : State) (k p : Nat) :
    ((shootPrefix i s k).PatchArray p).reflectance = (s.PatchArray p).reflectance := by
  induction k with
  | zero => rfl
  | succ k ih => rw [shootPrefix_succ, shootElement_patch_reflectance, ih]

theorem shootPrefix_elem_area (i : Nat) (s : State) (k e : Nat) :
    ((shootPrefix i s k).ElementArray e).area = (s.ElementArray e).area := by
  induction k with
  | zero => rfl
  | succ k ih => rw [shootPrefix_succ, shootElement_elem_area, ih]

theorem shootPrefix_elem_patch (i : Nat) (s : State) (k e : Nat) :
    ((shootPrefix i s k).ElementArray e).patch = (s.ElementArray e).patch := by
  induction k with
  | zero => rfl
  | succ k ih => rw [shootPrefix_succ, shootElement_elem_patch, ih]

/-- Elements not yet reached by the loop are untouched. -/
theorem shootPrefix_elem_of_le (i : Nat) (s : State) (k e : Nat) (h : k ≤ e) :
    (shootPrefix i s k).ElementArray e = s.ElementArray e := by
  induction k with
  | zero => rfl
  | succ k ih =>
    rw [shootPrefix_succ]
    have hne : e ≠ k := by omega
    simp only [shootElement, Function.update_noteq hne]
    exact ih (by omega)

/-- An element keeps the value it has right after its own iteration. -/
theorem shootPrefix_elem_of_lt (i : Nat) (s : State) (k e : Nat) (h : e < k) :
    (shootPrefix i s k).ElementArray e = (shootPrefix i s (e + 1)).ElementArray e := by
  induction k with
  | zero => omega
  | succ k ih =>
    by_cases hk : e = k
    · subst hk; rfl
    · rw [shootPrefix_succ]
      simp only [shootElement, Function.update_noteq hk]
      exact ih (by omega)

theorem shootPrefix_radiosity_succ (i : Nat) (s : State) (e : Nat) :
    ((shootPrefix i s (e + 1)).ElementArray e).radiosity
      = (s.ElementArray e).radiosity + dRadiosityAt i s e := by
  rw [shootPrefix_succ]
  simp only [shootElement, Function.update_same, dRadiosityAt]
  rw [shootPrefix_elem_of_le i s e e le_rfl, shootPrefix_patch_reflectance,
    shootPrefix_lookUpTable, shootPrefix_patch_area]

theorem shootPrefix_currentPatchID_irrel (i c : Nat) (s : State) (k : Nat) :
    shootPrefix i { s with currentPatchID := c } k
      = { shootPrefix i s k with currentPatchID := c } := by
  induction k with
  | zero => rfl
  | succ k ih => rw [shootPrefix_succ, shootPrefix_succ, ih]; rfl

theorem progressiveRefinement_ElementArray (s : State) :
    (progressiveRefinement s).ElementArray
      = (shootPrefix (pqTop s.unshotPatchQueue).id s s.NumElements).ElementArray := by
  simp only [progressiveRefinement, updatePriorityQueue, resetUnshot, updateAmbient,
    shootLoop_eq, shootPrefix_currentPatchID_irrel]

theorem progressiveRefinement_PatchArray (s : State) :
    (progressiveRefinement s).PatchArray
      = Function.update (shootPrefix (pqTop s.unshotPatchQueue).id s s.NumElements).PatchArray
          (pqTop s.unshotPatchQueue).id
          { (shootPrefix (pqTop s.unshotPatchQueue).id s s.NumElements).PatchArray
              (pqTop s.unshotPatchQueue).id with unshot := ⟨0, 0, 0⟩ } := by
  simp only [progressiveRefinement, updatePriorityQueue, resetUnshot, updateAmbient,
    shootLoop_eq, shootPrefix_currentPatchID_irrel]

theorem progressiveRefinement_currentPatchID (s : State) :
    (progressiveRefinement s).currentPatchID = (pqTop s.unshotPatchQueue).id := by
  simp only [progressiveRefinement, updatePriorityQueue, resetUnshot, updateAmbient,
    shootLoop_eq, shootPrefix_currentPatchID_irrel]

/-- Radiosity of element `e` after the whole loop. -/
theorem shootPrefix_radiosity (i : Nat) (s : State) (n e : Nat) (he : e < n) :
    ((shootPrefix i s n).ElementArray e).radiosity
      = (s.ElementArray e).radiosity + dRadiosityAt i s e := by
  rw [shootPrefix_elem_of_lt i s n e he, shootPrefix_radiosity_succ]

/-- Without coupling of the shot patch to its own earlier elements, its unshot value is
still the initial one when the loop reaches iteration `k`. -/
theorem shootPrefix_unshot_noself (i : Nat) (s : State) (k : Nat)
    (h : ∀ e, e < k → (s.ElementArray e).patch = i → s.lookUpTable i e = 0) :
    ((shootPrefix i s k).PatchArray i).unshot = (s.PatchArray i).unshot := by
  induction k with
  | zero => rfl
  | succ k ih =>
    have ih' := ih (fun e he => h e (by omega))
    rw [shootPrefix_succ]
    by_cases hk : (s.ElementArray k).patch = i
    · have hF := h k (by omega) hk
      have hp : ((shootPrefix i s k).ElementArray k).patch = i := by
        rw [shootPrefix_elem_patch]; exact hk
      simp only [shootElement, hp, Function.update_same, shootPrefix_lookUpTable, hF, ih']
      simp
    · have hp : i ≠ ((shootPrefix i s k).ElementArray k).patch := by
        rw [shootPrefix_elem_patch]; exact fun h' => hk h'.symm
      simp only [shootElement, Function.update_noteq hp]
      exact ih'

@[simp] theorem Color.ch_zero (c : Color) : c.ch 0 = c.r := rfl

@[simp] theorem Color.ch_one (c : Color) : c.ch 1 = c.g := rfl

@[simp] theorem Color.ch_two (c : Color) : c.ch 2 = c.b := rfl

/-- One iteration of the loop changes the unshot value of the owner of element `k` by the
area-weighted increment and leaves the other patches alone. -/
theorem shootPrefix_unshot_succ (i : Nat) (s : State) (k j : Nat) (c : Fin 3) :
    ((shootPrefix i s (k + 1)).PatchArray j).unshot.ch c
      = ((shootPrefix i s k).PatchArray j).unshot.ch c
        + (if (s.ElementArray k).patch = j then
            (dRadiosityAt i s k).ch c * ((s.ElementArray k).area / (s.PatchArray j).area)
          else 0) := by
  rw [shootPrefix_succ]
  by_cases hk : (s.ElementArray k).patch = j
  · have hp : ((shootPrefix i s k).ElementArray k).patch = j := by
      rw [shootPrefix_elem_patch]; exact hk
    simp only [shootElement, hp, Function.update_same, if_pos hk, dRadiosityAt,
      shootPrefix_lookUpTable, shootPrefix_patch_area, shootPrefix_elem_area,
      shootPrefix_patch_reflectance, hk]
    fin_cases c <;> simp
  · have hp : j ≠ ((shootPrefix i s k).ElementArray k).patch := by
      rw [shootPrefix_elem_patch]; exact fun h' => hk h'.symm
    simp only [shootElement, Function.update_noteq hp, if_neg hk, add_zero]

/-- Closed form of a patch's unshot value after `k` iterations of the element loop. -/
theorem shootPrefix_unshot_sum (i : Nat) (s : State) (k j : Nat) (c : Fin 3) :
    ((shootPrefix i s k).PatchArray j).unshot.ch c
      = (s.PatchArray j).unshot.ch c
        + ∑ e ∈ (Finset.range k).filter (fun e => (s.ElementArray e).patch = j),
            (dRadiosityAt i s e).ch c * ((s.ElementArray e).area / (s.PatchArray j).area) := by
  induction k with
  | zero => simp [shootPrefix_zero]
  | succ k ih =>
    rw [shootPrefix_unshot_succ, ih, Finset.range_succ, Finset.filter_insert]
    by_cases hk : (s.ElementArray k).patch = j
    · rw [if_pos hk, if_pos hk, Finset.sum_insert (by simp), add_assoc]
      congr 1
      exact add_comm _ _
    · rw [if_neg hk, if_neg hk, add_zero]

theorem progressiveRefinement_radiosity_diff (s : State) (e : Nat) (he : e < s.NumElements)
    (c : Fin 3) :
    ((progressiveRefinement s).ElementArray e).radiosity.ch c - (s.ElementArray e).radiosity.ch c
      = (dRadiosityAt (pqTop s.unshotPatchQueue).id s e).ch c := by
  rw [progressiveRefinement_ElementArray, shootPrefix_radiosity _ _ _ _ he]
  fin_cases c <;> simp

/-! ## Accumulation loops as finite sums -/

theorem foldl_range_add (f : Nat → ℚ) (a : ℚ) (n : Nat) :
    (List.range n).foldl (fun acc p => acc + f p) a = a + ∑ p ∈ Finset.range n, f p := by
  induction n with
  | zero => simp
  | succ n ih => rw [List.range_succ, List.foldl_append, ih, Finset.sum_range_succ]; simp [add_assoc]

theorem foldl_range_color (f g h : Nat → ℚ) (a : Color) (n : Nat) :
    (List.range n).foldl (fun acc p => (⟨acc.r + f p, acc.g + g p, acc.b + h p⟩ : Color)) a
      = ⟨a.r + ∑ p ∈ Finset.range n, f p, a.g + ∑ p ∈ Finset.range n, g p,
         a.b + ∑ p ∈ Finset.range n, h p⟩ := by
  induction n with
  | zero => simp
  | succ n ih =>
    rw [List.range_succ, List.foldl_append, ih]
    simp [Finset.sum_range_succ, add_assoc]

theorem areaSum_eq (s : State) :
    areaSum s = ∑ p ∈ Finset.range s.NumPatches, (s.PatchArray p).area := by
  simp [areaSum, foldl_range_add]

theorem rfltWeightedAreaSum_ch (s : State) (c : Fin 3) :
    (rfltWeightedAreaSum s).ch c
      = ∑ p ∈ Finset.range s.NumPatches,
          (s.PatchArray p).area * (s.PatchArray p).reflectance.ch c := by
  rw [rfltWeightedAreaSum, foldl_range_color]
  fin_cases c <;> simp

theorem avgUnshot_ch (s : State) (c : Fin 3) :
    (avgUnshot s).ch c
      = ∑ p ∈ Finset.range s.NumPatches,
          (s.PatchArray p).unshot.ch c * ((s.PatchArray p).area / areaSum s) := by
  rw [avgUnshot, foldl_range_color]
  fin_cases c <;> simp

theorem updateAmbient_dAmbient_ch (s : State) (c : Fin 3) :
    (updateAmbient s).dAmbient.ch c
      = (1 / (1 - (rfltWeightedAreaSum s).ch c / areaSum s)) * (avgUnshot s).ch c := by
  fin_cases c <;> simp [updateAmbient]

theorem progressiveRefinement_dAmbient (s : State) :
    (progressiveRefinement s).dAmbient
      = (updateAmbient (shootPrefix (pqTop s.unshotPatchQueue).id s s.NumElements)).dAmbient := by
  simp only [progressiveRefinement, updatePriorityQueue, resetUnshot, shootLoop_eq,
    shootPrefix_currentPatchID_irrel]
  rfl

/-! ## Claims about one step of `progressiveRefinement` -/

/-- C1 (amended): with non-zero areas, if the table has `F(i,e') = 0` for every element
`e'` of the shot patch `i` that the loop visits before `e`, then after one call of
`progressiveRefinement` element `e` has
`radiosity_after = radiosity_before + rho(owner e) * U * F(i,e) * Area(i)/Area(e)`
per channel, `U` being patch `i`'s unshot radiosity at the start of the step. -/
theorem progressiveRefinement_element_radiosity (s : State) (e : Nat)
    (he : e < s.NumElements)
    (_hPatchArea : ∀ p, p < s.NumPatches → (s.PatchArray p).area ≠ 0)
    (_hElemArea : ∀ e', e' < s.NumElements → (s.ElementArray e').area ≠ 0)
    (hself : ∀ e', e' < e → (s.ElementArray e').patch = (pqTop s.unshotPatchQueue).id →
      s.lookUpTable (pqTop s.unshotPatchQueue).id e' = 0) :
    ((progressiveRefinement s).ElementArray e).radiosity
      = (s.ElementArray e).radiosity +
        (⟨(s.PatchArray (s.ElementArray e).patch).reflectance.r
              * (s.PatchArray (pqTop s.unshotPatchQueue).id).unshot.r
              * s.lookUpTable (pqTop s.unshotPatchQueue).id e
              * ((s.PatchArray (pqTop s.unshotPatchQueue).id).area / (s.ElementArray e).area),
          (s.PatchArray (s.ElementArray e).patch).reflectance.g
              * (s.PatchArray (pqTop s.unshotPatchQueue).id).unshot.g
              * s.lookUpTable (pqTop s.unshotPatchQueue).id e
              * ((s.PatchArray (pqTop s.unshotPatchQueue).id).area / (s.ElementArray e).area),
          (s.PatchArray (s.ElementArray e).patch).reflectance.b
              * (s.PatchArray (pqTop s.unshotPatchQueue).id).unshot.b
              * s.lookUpTable (pqTop s.unshotPatchQueue).id e
              * ((s.PatchArray (pqTop s.unshotPatchQueue).id).area / (s.ElementArray e).area)⟩
          : Color) := by
  rw [progressiveRefinement_ElementArray, shootPrefix_radiosity _ _ _ _ he]
  simp only [dRadiosityAt, shootPrefix_unshot_noself _ s e hself]

/-- Witness for C1 (amended): element 1 of the two-patch example receives
`9/10 * 1 * 9/10 * (1/1) = 81/100` in each channel. -/
theorem progressiveRefinement_element_radiosity_witness :
    ((progressiveRefinement twoPatchState).ElementArray 1).radiosity
      = (⟨9/10, 9/10, 9/10⟩ : Color) + ⟨81/100, 81/100, 81/100⟩ := by
  have h := progressiveRefinement_element_radiosity twoPatchState 1 (by decide)
    (by
      intro p _
      by_cases hp : p = 0 <;> simp [twoPatchState, examplePatch, hp])
    (by
      intro e _
      by_cases he : e = 0 <;> simp [twoPatchState, exampleElement, he])
    (by
      intro e he _
      have h0 : e = 0 := by omega
      subst h0
      simp [twoPatchState, pqTop])
  rw [h]
  simp [twoPatchState, pqTop, examplePatch, exampleElement]
  norm_num

/-- C1 as stated fails under self-coupling: in `selfCoupledState` (non-zero areas,
`F(0,0) = F(0,1) = 1`, both elements owned by the shot patch 0) element 1 receives
`3/2` in the red channel, not `rho * U * F * Area(i)/Area(e) = 1/2 * 1 * 1 * (2/1) = 1`
computed from the unshot value `U = 1` at the start of the step. -/
theorem progressiveRefinement_element_radiosity_self_coupling :
    (selfCoupledState.PatchArray 0).area ≠ 0 ∧
    (selfCoupledState.ElementArray 0).area ≠ 0 ∧
    (selfCoupledState.ElementArray 1).area ≠ 0 ∧
    (pqTop selfCoupledState.unshotPatchQueue).id = 0 ∧
    ((progressiveRefinement selfCoupledState).ElementArray 1).radiosity.r
      = (selfCoupledState.ElementArray 1).radiosity.r + 3 / 2 ∧
    ((progressiveRefinement selfCoupledState).ElementArray 1).radiosity.r
      ≠ (selfCoupledState.ElementArray 1).radiosity.r
        + (selfCoupledState.PatchArray (selfCoupledState.ElementArray 1).patch).reflectance.r
          * (selfCoupledState.PatchArray 0).unshot.r
          * selfCoupledState.lookUpTable 0 1
          * ((selfCoupledState.PatchArray 0).area / (selfCoupledState.ElementArray 1).area) := by
  have h : ((progressiveRefinement selfCoupledState).ElementArray 1).radiosity.r = 5 / 2 := by
    rw [progressiveRefinement_ElementArray, shootPrefix_radiosity _ _ _ _ (by decide)]
    simp [dRadiosityAt, shootPrefix, List.range_succ, shootElement, selfCoupledState, pqTop,
      examplePatch, exampleElement]
    norm_num
  rw [h]
  refine ⟨?_, ?_, ?_, ?_, ?_, ?_⟩ <;>
    simp [selfCoupledState, examplePatch, exampleElement, pqTop] <;> norm_num

/-- C2: after one call of `progressiveRefinement` on a state with at least one patch, the
patch that was shot (`currentPatchID`, the id on top of the queue) has unshot radiosity
exactly `(0,0,0)`, whatever its own elements received during the step. -/
theorem progressiveRefinement_shot_unshot_zero (s : State) (_h : 1 ≤ s.NumPatches) :
    (progressiveRefinement s).currentPatchID = (pqTop s.unshotPatchQueue).id ∧
    ((progressiveRefinement s).PatchArray (progressiveRefinement s).currentPatchID).unshot
      = ⟨0, 0, 0⟩ := by
  refine ⟨progressiveRefinement_currentPatchID s, ?_⟩
  rw [progressiveRefinement_currentPatchID, progressiveRefinement_PatchArray]
  simp

/-- Witness for C2 on the self-coupled example, whose shot patch receives energy from
its own elements during the step. -/
theorem progressiveRefinement_shot_unshot_zero_witness :
    1 ≤ selfCoupledState.NumPatches ∧
    (progressiveRefinement selfCoupledState).currentPatchID = 0 ∧
    ((progressiveRefinement selfCoupledState).PatchArray
        (progressiveRefinement selfCoupledState).currentPatchID).unshot = ⟨0, 0, 0⟩ :=
  ⟨by decide, progressiveRefinement_shot_unshot_zero selfCoupledState (by decide)⟩

/-- C4: for a step shooting patch `i` and every patch `j` other than `i` (areas
non-zero), the increase of patch `j`'s unshot radiosity is the sum over the elements `e`
owned by `j` of `(radiosity_after(e) - radiosity_before(e)) * Area(e)/Area(j)`, per
channel. -/
theorem progressiveRefinement_unshot_increase (s : State) (j : Nat) (c : Fin 3)
    (_hj : j < s.NumPatches)
    (hne : j ≠ (pqTop s.unshotPatchQueue).id)
    (_hPatchArea : ∀ p, p < s.NumPatches → (s.PatchArray p).area ≠ 0)
    (_hElemArea : ∀ e, e < s.NumElements → (s.ElementArray e).area ≠ 0) :
    ((progressiveRefinement s).PatchArray j).unshot.ch c - (s.PatchArray j).unshot.ch c
      = ∑ e ∈ (Finset.range s.NumElements).filter (fun e => (s.ElementArray e).patch = j),
          (((progressiveRefinement s).ElementArray e).radiosity.ch c
              - (s.ElementArray e).radiosity.ch c)
            * ((s.ElementArray e).area / (s.PatchArray j).area) := by
  rw [progressiveRefinement_PatchArray, Function.update_noteq hne, shootPrefix_unshot_sum,
    add_sub_cancel_left]
  apply Finset.sum_congr rfl
  intro e he
  rw [progressiveRefinement_radiosity_diff s e (by simpa using (Finset.mem_filter.mp he).1)]

/-- Witness for C4: patch 1 of the two-patch example, red channel. -/
theorem progressiveRefinement_unshot_increase_witness :
    ((progressiveRefinement twoPatchState).PatchArray 1).unshot.ch 0
        - (twoPatchState.PatchArray 1).unshot.ch 0
      = ∑ e ∈ (Finset.range twoPatchState.NumElements).filter
            (fun e => (twoPatchState.ElementArray e).patch = 1),
          (((progressiveRefinement twoPatchState).ElementArray e).radiosity.ch 0
              - (twoPatchState.ElementArray e).radiosity.ch 0)
            * ((twoPatchState.ElementArray e).area / (twoPatchState.PatchArray 1).area) :=
  progressiveRefinement_unshot_increase twoPatchState 1 0 (by decide)
    (by simp [twoPatchState, pqTop])
    (by
      intro p _
      by_cases hp : p = 0 <;> simp [twoPatchState, examplePatch, hp])
    (by
      intro e _
      by_cases he : e = 0 <;> simp [twoPatchState, exampleElement, he])

/-- C6: after one call of `progressiveRefinement` (total patch area non-zero,
area-weighted average reflectance different from 1), `dAmbient` is, per channel `c`,
`(1 / (1 - sum_p Area(p)*rho_p,c / sum_p Area(p))) * (sum_p unshot_p,c * Area(p)) / sum_p Area(p)`
with `unshot_p` the values left by the element loop, before the shot patch is reset. -/
theorem progressiveRefinement_dAmbient_formula (s : State) (c : Fin 3)
    (_hArea : ∑ p ∈ Finset.range s.NumPatches, (s.PatchArray p).area ≠ 0)
    (_hRefl : (∑ p ∈ Finset.range s.NumPatches,
        (s.PatchArray p).area * (s.PatchArray p).reflectance.ch c)
          / (∑ p ∈ Finset.range s.NumPatches, (s.PatchArray p).area) ≠ 1) :
    (progressiveRefinement s).dAmbient.ch c
      = (1 / (1 - (∑ p ∈ Finset.range s.NumPatches,
            (s.PatchArray p).area * (s.PatchArray p).reflectance.ch c)
              / (∑ p ∈ Finset.range s.NumPatches, (s.PatchArray p).area)))
        * ((∑ p ∈ Finset.range s.NumPatches,
            ((shootLoop (pqTop s.unshotPatchQueue).id s).PatchArray p).unshot.ch c
              * (s.PatchArray p).area)
            / (∑ p ∈ Finset.range s.NumPatches, (s.PatchArray p).area)) := by
  rw [progressiveRefinement_dAmbient, updateAmbient_dAmbient_ch, rfltWeightedAreaSum_ch,
    avgUnshot_ch, areaSum_eq, shootLoop_eq]
  simp only [shootPrefix_NumPatches, shootPrefix_patch_area, shootPrefix_patch_reflectance]
  congr 1
  rw [Finset.sum_div]
  apply Finset.sum_congr rfl
  intro p _
  rw [mul_div_assoc]

/-- Witness for C6: the two-patch example, red channel. -/
theorem progressiveRefinement_dAmbient_formula_witness :
    (progressiveRefinement twoPatchState).dAmbient.ch 0
      = (1 / (1 - (∑ p ∈ Finset.range twoPatchState.NumPatches,
            (twoPatchState.PatchArray p).area * (twoPatchState.PatchArray p).reflectance.ch 0)
              / (∑ p ∈ Finset.range twoPatchState.NumPatches, (twoPatchState.PatchArray p).area)))
        * ((∑ p ∈ Finset.range twoPatchState.NumPatches,
            ((shootLoop (pqTop twoPatchState.unshotPatchQueue).id twoPatchState).PatchArray p).unshot.ch 0
              * (twoPatchState.PatchArray p).area)
            / (∑ p ∈ Finset.range twoPatchState.NumPatches, (twoPatchState.PatchArray p).area)) :=
  progressiveRefinement_dAmbient_formula twoPatchState 0
    (by
      simp [twoPatchState, examplePatch, Finset.sum_range_succ])
    (by
      simp [twoPatchState, examplePatch, Finset.sum_range_succ]
      norm_num)

/-! ## The stacking loop of `updateVertexColor` -/

theorem addColor_count (cs : Nat → ColorStack) (w v : Nat) (x : Color) :
    (addColor cs w x v).count = (cs v).count := by
  by_cases h : v = w
  · subst h; simp [addColor]
  · simp [addColor, Function.update_noteq h]

theorem addColor_color (cs : Nat → ColorStack) (w v : Nat) (x : Color) (c : Fin 3) :
    (addColor cs w x v).color.ch c = (cs v).color.ch c + (if w = v then x.ch c else 0) := by
  by_cases h : v = w
  · subst h; fin_cases c <;> simp [addColor]
  · have h' : ¬ w = v := fun e => h e.symm
    simp [addColor, Function.update_noteq h, h']

theorem addCount_count (cs : Nat → ColorStack) (w v : Nat) :
    (addCount cs w v).count = (cs v).count + (if w = v then 1 else 0) := by
  by_cases h : v = w
  · subst h; simp [addCount]
  · have h' : ¬ w = v := fun e => h e.symm
    simp [addCount, Function.update_noteq h, h']

theorem addCount_color (cs : Nat → ColorStack) (w v : Nat) :
    (addCount cs w v).color = (cs v).color := by
  by_cases h : v = w
  · subst h; simp [addCount]
  · simp [addCount, Function.update_noteq h]

theorem stackElement_count (s : State) (cs : Nat → ColorStack) (e v : Nat) :
    (stackElement s cs e v).count = (cs v).count + (cornerRefs s v e : Int) := by
  simp only [stackElement, addCount_count, addColor_count, cornerRefs]
  push_cast
  ring

theorem stackElement_color (s : State) (cs : Nat → ColorStack) (e v : Nat) (c : Fin 3) :
    (stackElement s cs e v).color.ch c
      = (cs v).color.ch c + (cornerRefs s v e : ℚ) * (cornerColor s e).ch c := by
  simp only [stackElement, addCount_color, addColor_color, cornerRefs]
  push_cast
  simp only [add_mul, ite_mul, one_mul, zero_mul]
  ring

theorem colorStackAfter_succ (s : State) (n : Nat) :
    colorStackAfter s (n + 1) = stackElement s (colorStackAfter s n) n := by
  simp [colorStackAfter, List.range_succ, List.foldl_append]

theorem colorStackAfter_count (s : State) (n v : Nat) :
    ((colorStackAfter s n v).count : ℚ) = ∑ e ∈ Finset.range n, (cornerRefs s v e : ℚ) := by
  induction n with
  | zero => simp [colorStackAfter]
  | succ n ih =>
    rw [colorStackAfter_succ, stackElement_count, Finset.sum_range_succ, ← ih]
    push_cast
    rfl

theorem colorStackAfter_color (s : State) (n v : Nat) (c : Fin 3) :
    (colorStackAfter s n v).color.ch c
      = ∑ e ∈ Finset.range n, (cornerRefs s v e : ℚ) * (cornerColor s e).ch c := by
  induction n with
  | zero => fin_cases c <;> simp [colorStackAfter]
  | succ n ih => rw [colorStackAfter_succ, stackElement_color, Finset.sum_range_succ, ← ih]

/-- When an element references `v` at no more than one corner, the number of referencing
corners is 1 or 0 according to whether some corner references `v`. -/
theorem cornerRefs_eq_ite (s : State) (v e : Nat)
    (h : ∀ a b : Fin 4, (s.ElementArray e).vertices a = v →
      (s.ElementArray e).vertices b = v → a = b) :
    cornerRefs s v e = if ∃ a : Fin 4, (s.ElementArray e).vertices a = v then 1 else 0 := by
  have hex : (∃ a : Fin 4, (s.ElementArray e).vertices a = v) ↔
      ((s.ElementArray e).vertices 0 = v ∨ (s.ElementArray e).vertices 1 = v ∨
        (s.ElementArray e).vertices 2 = v ∨ (s.ElementArray e).vertices 3 = v) := by
    constructor
    · rintro ⟨a, ha⟩
      fin_cases a
      · exact Or.inl ha
      · exact Or.inr (Or.inl ha)
      · exact Or.inr (Or.inr (Or.inl ha))
      · exact Or.inr (Or.inr (Or.inr ha))
    · rintro (h' | h' | h' | h') <;> exact ⟨_, h'⟩
  have h01 := h 0 1
  have h02 := h 0 2
  have h03 := h 0 3
  have h12 := h 1 2
  have h13 := h 1 3
  have h23 := h 2 3
  simp only [hex]
  by_cases h0 : (s.ElementArray e).vertices 0 = v <;>
  by_cases h1 : (s.ElementArray e).vertices 1 = v <;>
  by_cases h2 : (s.ElementArray e).vertices 2 = v <;>
  by_cases h3 : (s.ElementArray e).vertices 3 = v <;>
  simp_all [cornerRefs]

theorem updateVertexColor_ch (s : State) (v : Nat) (hv : v < s.NumVertices) (c : Fin 3) :
    ((updateVertexColor s).VertexColors v).ch c
      = (colorStackAfter s s.NumElements v).color.ch c
          / ((colorStackAfter s s.NumElements v).count : ℚ) := by
  fin_cases c <;> simp [updateVertexColor, hv]

/-- Stacked colour and count of a vertex that no element references twice. -/
theorem colorStackAfter_mean (s : State) (v : Nat) (c : Fin 3)
    (hone : ∀ e, e < s.NumElements → ∀ a b : Fin 4, (s.ElementArray e).vertices a = v →
      (s.ElementArray e).vertices b = v → a = b) :
    (colorStackAfter s s.NumElements v).color.ch c
        / ((colorStackAfter s s.NumElements v).count : ℚ)
      = (∑ e ∈ (Finset.range s.NumElements).filter
            (fun e => ∃ a : Fin 4, (s.ElementArray e).vertices a = v), (cornerColor s e).ch c)
          / (((Finset.range s.NumElements).filter
            (fun e => ∃ a : Fin 4, (s.ElementArray e).vertices a = v)).card : ℚ) := by
  rw [colorStackAfter_color, colorStackAfter_count]
  have h1 : ∀ e ∈ Finset.range s.NumElements,
      (cornerRefs s v e : ℚ) * (cornerColor s e).ch c
        = if ∃ a : Fin 4, (s.ElementArray e).vertices a = v then (cornerColor s e).ch c
          else 0 := by
    intro e he
    rw [cornerRefs_eq_ite s v e (hone e (Finset.mem_range.mp he))]
    split <;> simp
  have h2 : ∀ e ∈ Finset.range s.NumElements,
      (cornerRefs s v e : ℚ)
        = if ∃ a : Fin 4, (s.ElementArray e).vertices a = v then 1 else 0 := by
    intro e he
    rw [cornerRefs_eq_ite s v e (hone e (Finset.mem_range.mp he))]
    split <;> simp
  rw [Finset.sum_congr rfl h1, Finset.sum_congr rfl h2, Finset.sum_boole, Finset.sum_filter]

/-- C5: a vertex `v` referenced by `k >= 1` elements, each at one corner, gets the
unweighted mean of the `k` contributions: the element radiosities when `showAmbient` is
off, the radiosities plus `reflectance(owner) * dAmbient` when it is on.  Element areas
do not enter. -/
theorem updateVertexColor_mean (s : State) (v : Nat) (c : Fin 3)
    (hv : v < s.NumVertices)
    (hone : ∀ e, e < s.NumElements → ∀ a b : Fin 4, (s.ElementArray e).vertices a = v →
      (s.ElementArray e).vertices b = v → a = b)
    (_hk : 1 ≤ ((Finset.range s.NumElements).filter
      (fun e => ∃ a : Fin 4, (s.ElementArray e).vertices a = v)).card) :
    (s.showAmbient = 0 →
      ((updateVertexColor s).VertexColors v).ch c
        = (∑ e ∈ (Finset.range s.NumElements).filter
              (fun e => ∃ a : Fin 4, (s.ElementArray e).vertices a = v),
              (s.ElementArray e).radiosity.ch c)
            / (((Finset.range s.NumElements).filter
              (fun e => ∃ a : Fin 4, (s.ElementArray e).vertices a = v)).card : ℚ)) ∧
    (s.showAmbient ≠ 0 →
      ((updateVertexColor s).VertexColors v).ch c
        = (∑ e ∈ (Finset.range s.NumElements).filter
              (fun e => ∃ a : Fin 4, (s.ElementArray e).vertices a = v),
              ((s.ElementArray e).radiosity.ch c
                + (s.PatchArray (s.ElementArray e).patch).reflectance.ch c * s.dAmbient.ch c))
            / (((Finset.range s.NumElements).filter
              (fun e => ∃ a : Fin 4, (s.ElementArray e).vertices a = v)).card : ℚ)) := by
  rw [updateVertexColor_ch s v hv, colorStackAfter_mean s v c hone]
  constructor
  · intro h
    simp only [cornerColor, h, ne_eq, not_true_eq_false, if_false]
  · intro h
    congr 1
    apply Finset.sum_congr rfl
    intro e _
    simp only [cornerColor, if_pos h]
    fin_cases c <;> simp

/-- Witness for C5: vertex 1 of `sharedVertexState` is a corner of both elements
(radiosities 1 and 3, reflectances 1/2 and 9/10, `dAmbient = 2`, ambient on), so its red
channel is `((1 + 1/2 * 2) + (3 + 9/10 * 2)) / 2 = 17/5`. -/
theorem updateVertexColor_mean_witness :
    ((updateVertexColor sharedVertexState).VertexColors 1).ch 0 = 17 / 5 := by
  have hfilter : (Finset.range sharedVertexState.NumElements).filter
      (fun e => ∃ a : Fin 4, (sharedVertexState.ElementArray e).vertices a = 1)
        = {0, 1} := by
    decide
  have h := (updateVertexColor_mean sharedVertexState 1 0 (by decide)
    (by
      intro e he a b
      have he' : e < 2 := he
      interval_cases e <;> fin_cases a <;> fin_cases b <;>
        simp [sharedVertexState, exampleElement] <;> decide)
    (by rw [hfilter]; decide)).2 (by decide)
  rw [h, hfilter]
  simp [sharedVertexState, twoPatchState, examplePatch, exampleElement]
  norm_num

/-! ## The loops of `loadData` -/

/-- The inner vertex loop advances `vertnum` by its trip count and leaves the elements
and `elnum` alone. -/
theorem formVertex_row (patch : Patch) (v1 v2 : Vertex) (g : Forming) (j n : Nat) :
    ((List.range n).foldl (fun g k => formVertex patch v1 v2 g j k) g).vertnum = g.vertnum + n ∧
    ((List.range n).foldl (fun g k => formVertex patch v1 v2 g j k) g).elnum = g.elnum ∧
    ((List.range n).foldl (fun g k => formVertex patch v1 v2 g j k) g).ElementArray
      = g.ElementArray := by
  induction n with
  | zero => simp
  | succ n ih =>
    rw [List.range_succ, List.foldl_append, List.foldl_cons, List.foldl_nil]
    obtain ⟨h1, h2, h3⟩ := ih
    generalize (List.range n).foldl (fun g k => formVertex patch v1 v2 g j k) g = G at h1 h2 h3 ⊢
    refine ⟨?_, ?_, ?_⟩
    · show G.vertnum + 1 = g.vertnum + (n + 1)
      omega
    · exact h2
    · exact h3

/-- The vertex loops advance `vertnum` by `w * w`. -/
theorem formVertex_grid (patch : Patch) (v1 v2 : Vertex) (g : Forming) (w m : Nat) :
    ((List.range m).foldl (fun g j =>
        (List.range w).foldl (fun g k => formVertex patch v1 v2 g j k) g) g).vertnum
      = g.vertnum + m * w ∧
    ((List.range m).foldl (fun g j =>
        (List.range w).foldl (fun g k => formVertex patch v1 v2 g j k) g) g).elnum = g.elnum ∧
    ((List.range m).foldl (fun g j =>
        (List.range w).foldl (fun g k => formVertex patch v1 v2 g j k) g) g).ElementArray
      = g.ElementArray := by
  induction m with
  | zero => simp
  | succ m ih =>
    rw [List.range_succ, List.foldl_append, List.foldl_cons, List.foldl_nil]
    obtain ⟨h1, h2, h3⟩ := ih
    obtain ⟨r1, r2, r3⟩ := formVertex_row patch v1 v2
      ((List.range m).foldl (fun g j =>
        (List.range w).foldl (fun g k => formVertex patch v1 v2 g j k) g) g) m w
    rw [r1, r2, r3, h1, h2, h3]
    exact ⟨by ring, rfl, rfl⟩

/-- The inner element loop for grid row `j`: `n` elements are written from `elnum` on. -/
theorem formElement_row (patch : Patch) (i startvert : Nat) (temparea : ℚ) (g : Forming)
    (j n : Nat) :
    ((List.range n).foldl (fun g k => formElement patch i startvert temparea g j k) g).elnum
      = g.elnum + n ∧
    ((List.range n).foldl (fun g k => formElement patch i startvert temparea g j k) g).vertnum
      = g.vertnum ∧
    ((List.range n).foldl (fun g k => formElement patch i startvert temparea g j k) g).VertexArray
      = g.VertexArray ∧
    ((List.range n).foldl (fun g k => formElement patch i startvert temparea g j k) g).VertexColors
      = g.VertexColors ∧
    ∀ e, ((List.range n).foldl
        (fun g k => formElement patch i startvert temparea g j k) g).ElementArray e
      = if g.elnum ≤ e ∧ e < g.elnum + n then
          formedElement g.VertexArray patch i startvert temparea e j (e - g.elnum)
        else g.ElementArray e := by
  induction n with
  | zero =>
    refine ⟨rfl, rfl, rfl, rfl, ?_⟩
    intro e
    have : ¬ (g.elnum ≤ e ∧ e < g.elnum + 0) := by omega
    rw [if_neg this]
    rfl
  | succ n ih =>
    rw [List.range_succ, List.foldl_append, List.foldl_cons, List.foldl_nil]
    obtain ⟨h1, h2, h3, h4, h5⟩ := ih
    generalize (List.range n).foldl
      (fun g k => formElement patch i startvert temparea g j k) g = G at h1 h2 h3 h4 h5 ⊢
    refine ⟨?_, h2, h3, h4, ?_⟩
    · show G.elnum + 1 = g.elnum + (n + 1)
      omega
    intro e
    show Function.update G.ElementArray G.elnum
      (formedElement G.VertexArray patch i startvert temparea G.elnum j n) e = _
    rw [h1, h3]
    by_cases he : e = g.elnum + n
    · subst he
      have : g.elnum ≤ g.elnum + n ∧ g.elnum + n < g.elnum + (n + 1) := by omega
      rw [Function.update_same, if_pos this]
      congr 1
      omega
    · rw [Function.update_noteq he, h5]
      by_cases hr : g.elnum ≤ e ∧ e < g.elnum + n
      · have : g.elnum ≤ e ∧ e < g.elnum + (n + 1) := by omega
        rw [if_pos hr, if_pos this]
      · have : ¬ (g.elnum ≤ e ∧ e < g.elnum + (n + 1)) := by omega
        rw [if_neg hr, if_neg this]

theorem div_mod_of_row (d m w : Nat) (h1 : m * w ≤ d) (h2 : d < m * w + w) :
    d / w = m ∧ d % w = d - m * w := by
  have hw : 0 < w := by
    rcases Nat.eq_zero_or_pos w with h | h
    · subst h; omega
    · exact h
  have hd : d / w = m := by
    apply Nat.div_eq_of_lt_le
    · exact h1
    · rw [Nat.succ_mul]; exact h2
  refine ⟨hd, ?_⟩
  have := Nat.div_add_mod d w
  rw [hd, Nat.mul_comm] at this
  omega

/-- The element loops: `m * w` elements are written from `elnum` on, row by row. -/
theorem formElement_grid (patch : Patch) (i startvert : Nat) (temparea : ℚ) (g : Forming)
    (w m : Nat) :
    ((List.range m).foldl (fun g j => (List.range w).foldl
        (fun g k => formElement patch i startvert temparea g j k) g) g).elnum
      = g.elnum + m * w ∧
    ((List.range m).foldl (fun g j => (List.range w).foldl
        (fun g k => formElement patch i startvert temparea g j k) g) g).vertnum
      = g.vertnum ∧
    ((List.range m).foldl (fun g j => (List.range w).foldl
        (fun g k => formElement patch i startvert temparea g j k) g) g).VertexArray
      = g.VertexArray ∧
    ((List.range m).foldl (fun g j => (List.range w).foldl
        (fun g k => formElement patch i startvert temparea g j k) g) g).VertexColors
      = g.VertexColors ∧
    ∀ e, ((List.range m).foldl (fun g j => (List.range w).foldl
        (fun g k => formElement patch i startvert temparea g j k) g) g).ElementArray e
      = if g.elnum ≤ e ∧ e < g.elnum + m * w then
          formedElement g.VertexArray patch i startvert temparea e
            ((e - g.elnum) / w) ((e - g.elnum) % w)
        else g.ElementArray e := by
  induction m with
  | zero =>
    refine ⟨by simp, rfl, rfl, rfl, ?_⟩
    intro e
    have : ¬ (g.elnum ≤ e ∧ e < g.elnum + 0 * w) := by omega
    rw [if_neg this]
    rfl
  | succ m ih =>
    rw [List.range_succ, List.foldl_append, List.foldl_cons, List.foldl_nil]
    obtain ⟨h1, h2, h3, h4, h5⟩ := ih
    obtain ⟨r1, r2, r3, r4, r5⟩ := formElement_row patch i startvert temparea
      ((List.range m).foldl (fun g j => (List.range w).foldl
        (fun g k => formElement patch i startvert temparea g j k) g) g) m w
    rw [r1, r2, r3, r4, h1, h2, h3, h4]
    refine ⟨by ring, rfl, rfl, rfl, ?_⟩
    intro e
    rw [r5, h1, h3, h5]
    have hsucc : (m + 1) * w = m * w + w := by ring
    by_cases hnew : g.elnum + m * w ≤ e ∧ e < g.elnum + m * w + w
    · have hin : g.elnum ≤ e ∧ e < g.elnum + (m + 1) * w := by
        rw [hsucc]; omega
      rw [if_pos hnew, if_pos hin]
      obtain ⟨hd, hm⟩ := div_mod_of_row (e - g.elnum) m w (by omega) (by omega)
      rw [hd, hm]
      congr 1
      omega
    · rw [if_neg hnew]
      by_cases hold : g.elnum ≤ e ∧ e < g.elnum + m * w
      · have hin : g.elnum ≤ e ∧ e < g.elnum + (m + 1) * w := by
          rw [hsucc]; omega
        rw [if_pos hold, if_pos hin]
      · have hin : ¬ (g.elnum ≤ e ∧ e < g.elnum + (m + 1) * w) := by
          rw [hsucc]; omega
        rw [if_neg hold, if_neg hin]

/-- Effect of one iteration of the second patch loop on the counters and the elements. -/
theorem formPatch_spec (PatchArray : Nat → Patch) (g : Forming) (i : Nat) :
    (formPatch PatchArray g i).elnum
      = g.elnum + (PatchArray i).numelements.toNat * (PatchArray i).numelements.toNat ∧
    (formPatch PatchArray g i).vertnum
      = g.vertnum + ((PatchArray i).numelements + 1).toNat
          * ((PatchArray i).numelements + 1).toNat ∧
    ∀ e, (formPatch PatchArray g i).ElementArray e
      = if g.elnum ≤ e ∧
            e < g.elnum + (PatchArray i).numelements.toNat * (PatchArray i).numelements.toNat then
          formedElement (formPatch PatchArray g i).VertexArray (PatchArray i) i g.vertnum
            ((PatchArray i).area
              / (((PatchArray i).numelements * (PatchArray i).numelements : Int) : ℚ))
            e ((e - g.elnum) / (PatchArray i).numelements.toNat)
            ((e - g.elnum) % (PatchArray i).numelements.toNat)
        else g.ElementArray e := by
  simp only [formPatch]
  generalize hv1 : (⟨_, _, _⟩ : Vertex) = v1
  generalize hv2 : (⟨_, _, _⟩ : Vertex) = v2
  obtain ⟨a1, a2, a3⟩ := formVertex_grid (PatchArray i) v1 v2 g
    ((PatchArray i).numelements + 1).toNat ((PatchArray i).numelements + 1).toNat
  generalize (List.range ((PatchArray i).numelements + 1).toNat).foldl
    (fun g j => (List.range ((PatchArray i).numelements + 1).toNat).foldl
      (fun g k => formVertex (PatchArray i) v1 v2 g j k) g) g = g1 at a1 a2 a3 ⊢
  obtain ⟨b1, b2, b3, _, b5⟩ := formElement_grid (PatchArray i) i g.vertnum
    ((PatchArray i).area / (((PatchArray i).numelements * (PatchArray i).numelements : Int) : ℚ))
    g1 (PatchArray i).numelements.toNat (PatchArray i).numelements.toNat
  refine ⟨?_, ?_, ?_⟩
  · rw [b1, a2]
  · rw [b2, a1]
  · intro e
    rw [b5, b3, a2, a3]

theorem readPatchesUpTo_succ (sqrt : ℚ → ℚ) (scene : SceneData) (s : State) (k : Nat) :
    readPatchesUpTo sqrt scene s (k + 1)
      = readPatch sqrt scene (readPatchesUpTo sqrt scene s k) k := by
  simp [readPatchesUpTo, List.range_succ, List.foldl_append]

/-- A patch slot keeps the value written in its own iteration of the first loop. -/
theorem readPatchesUpTo_patch (sqrt : ℚ → ℚ) (scene : SceneData) (s : State) (k i : Nat)
    (h : i < k) :
    (readPatchesUpTo sqrt scene s k).PatchArray i
      = (readPatchesUpTo sqrt scene s (i + 1)).PatchArray i := by
  induction k with
  | zero => omega
  | succ k ih =>
    by_cases hk : i = k
    · subst hk; rfl
    · rw [readPatchesUpTo_succ]
      simp only [readPatch, Function.update_noteq hk]
      exact ih (by omega)

theorem readPatches_numelements (sqrt : ℚ → ℚ) (scene : SceneData) (s : State) (p : Nat)
    (hp : p < scene.NumPatches) :
    ((readPatches sqrt scene s).PatchArray p).numelements
      = (scene.patches p).numelements + 2 := by
  rw [readPatches, readPatchesUpTo_patch sqrt scene s _ p hp, readPatchesUpTo_succ]
  simp [readPatch]

theorem readPatches_startelement (sqrt : ℚ → ℚ) (scene : SceneData) (s : State) (p : Nat)
    (hp : p < scene.NumPatches) :
    ((readPatches sqrt scene s).PatchArray p).startelement
      = (readPatchesUpTo sqrt scene s p).NumElements := by
  rw [readPatches, readPatchesUpTo_patch sqrt scene s _ p hp, readPatchesUpTo_succ]
  simp [readPatch]

theorem readPatchesUpTo_NumElements (sqrt : ℚ → ℚ) (scene : SceneData) (s : State) (k : Nat) :
    (readPatchesUpTo sqrt scene s k).NumElements
      = ∑ q ∈ Finset.range k,
          (((scene.patches q).numelements + 2) * ((scene.patches q).numelements + 2)).toNat := by
  induction k with
  | zero => rfl
  | succ k ih =>
    rw [readPatchesUpTo_succ, Finset.sum_range_succ, ← ih]
    simp [readPatch]

theorem readPatchesUpTo_NumVertices (sqrt : ℚ → ℚ) (scene : SceneData) (s : State) (k : Nat) :
    (readPatchesUpTo sqrt scene s k).NumVertices
      = scene.nverts + ∑ q ∈ Finset.range k,
          (((scene.patches q).numelements + 2 + 1)
            * ((scene.patches q).numelements + 2 + 1)).toNat := by
  induction k with
  | zero => rfl
  | succ k ih =>
    rw [readPatchesUpTo_succ, Finset.sum_range_succ, ← add_assoc, ← ih]
    simp [readPatch]

theorem formPatches_succ (sqrt : ℚ → ℚ) (scene : SceneData) (s : State) (p : Nat) :
    formPatches sqrt scene s (p + 1)
      = formPatch (readPatches sqrt scene s).PatchArray (formPatches sqrt scene s p) p := by
  simp [formPatches, List.range_succ, List.foldl_append]

theorem formPatches_elnum_succ (sqrt : ℚ → ℚ) (scene : SceneData) (s : State) (p : Nat)
    (hp : p < scene.NumPatches) :
    (formPatches sqrt scene s (p + 1)).elnum
      = (formPatches sqrt scene s p).elnum
        + ((scene.patches p).numelements + 2).toNat
          * ((scene.patches p).numelements + 2).toNat := by
  rw [formPatches_succ, (formPatch_spec _ _ _).1, readPatches_numelements sqrt scene s p hp]

theorem formPatches_vertnum_succ (sqrt : ℚ → ℚ) (scene : SceneData) (s : State) (p : Nat)
    (hp : p < scene.NumPatches) :
    (formPatches sqrt scene s (p + 1)).vertnum
      = (formPatches sqrt scene s p).vertnum
        + ((scene.patches p).numelements + 2 + 1).toNat
          * ((scene.patches p).numelements + 2 + 1).toNat := by
  rw [formPatches_succ, (formPatch_spec _ _ _).2.1, readPatches_numelements sqrt scene s p hp]

theorem formPatches_elnum_mono (sqrt : ℚ → ℚ) (scene : SceneData) (s : State) (p k : Nat) :
    (formPatches sqrt scene s p).elnum ≤ (formPatches sqrt scene s (p + k)).elnum := by
  induction k with
  | zero => exact le_rfl
  | succ k ih =>
    rw [← add_assoc, formPatches_succ, (formPatch_spec _ _ _).1]
    omega

/-- Elements below the counter `elnum` are never written again. -/
theorem formPatches_element_stable (sqrt : ℚ → ℚ) (scene : SceneData) (s : State)
    (p k e : Nat) (he : e < (formPatches sqrt scene s p).elnum) :
    (formPatches sqrt scene s (p + k)).ElementArray e
      = (formPatches sqrt scene s p).ElementArray e := by
  induction k with
  | zero => rfl
  | succ k ih =>
    rw [← add_assoc, formPatches_succ, (formPatch_spec _ _ _).2.2]
    have hmono := formPatches_elnum_mono sqrt scene s p k
    have : ¬ ((formPatches sqrt scene s (p + k)).elnum ≤ e ∧
        e < (formPatches sqrt scene s (p + k)).elnum
          + ((readPatches sqrt scene s).PatchArray (p + k)).numelements.toNat
            * ((readPatches sqrt scene s).PatchArray (p + k)).numelements.toNat) := by
      omega
    rw [if_neg this, ih]

/-- The elements written for patch `p`: their owner and area in the final state. -/
theorem loadData_element_of_patch (sqrt : ℚ → ℚ) (scene : SceneData) (s : State) (p e : Nat)
    (hp : p < scene.NumPatches)
    (h1 : (formPatches sqrt scene s p).elnum ≤ e)
    (h2 : e < (formPatches sqrt scene s (p + 1)).elnum) :
    ((loadData sqrt scene s).2.ElementArray e).patch = p ∧
    ((loadData sqrt scene s).2.ElementArray e).area
      = ((loadData sqrt scene s).2.PatchArray p).area
        / (((((scene.patches p).numelements + 2) * ((scene.patches p).numelements + 2) : Int)) : ℚ) := by
  have hN : scene.NumPatches = (p + 1) + (scene.NumPatches - (p + 1)) := by omega
  have hE : (loadData sqrt scene s).2.ElementArray e
      = (formPatches sqrt scene s (p + 1)).ElementArray e := by
    show (formPatches sqrt scene s scene.NumPatches).ElementArray e = _
    rw [hN, formPatches_element_stable sqrt scene s (p + 1) _ e h2]
  have hP : (loadData sqrt scene s).2.PatchArray = (readPatches sqrt scene s).PatchArray := rfl
  rw [hE, hP, formPatches_succ, (formPatch_spec _ _ _).2.2]
  rw [formPatches_succ, (formPatch_spec _ _ _).1] at h2
  rw [if_pos ⟨h1, h2⟩, readPatches_numelements sqrt scene s p hp]
  exact ⟨rfl, rfl⟩

theorem loadData_PatchArray (sqrt : ℚ → ℚ) (scene : SceneData) (s : State) :
    (loadData sqrt scene s).2.PatchArray = (readPatches sqrt scene s).PatchArray := rfl

theorem toNat_mul_self (m : Int) (h : 0 ≤ m) : (m * m).toNat = m.toNat * m.toNat := by
  lift m to ℕ using h
  rw [← Nat.cast_mul]
  exact Int.toNat_natCast (m * m)

/-- With no negative count before patch `p`, the running counter `elnum` equals the
`startelement` stored for the patch. -/
theorem formPatches_elnum_eq_startelement (sqrt : ℚ → ℚ) (scene : SceneData) (s : State)
    (p : Nat) (hp : p ≤ scene.NumPatches)
    (hprev : ∀ q, q < p → 0 ≤ (scene.patches q).numelements + 2) :
    (formPatches sqrt scene s p).elnum = (readPatchesUpTo sqrt scene s p).NumElements := by
  induction p with
  | zero => rfl
  | succ p ih =>
    rw [formPatches_elnum_succ sqrt scene s p (by omega), readPatchesUpTo_succ,
      ih (by omega) (fun q hq => hprev q (by omega))]
    simp only [readPatch]
    rw [toNat_mul_self _ (hprev p (by omega))]

/-- The facts behind C7, for an arbitrary stored count `m = numelements + 2`. -/
theorem loadData_patch_grid (sqrt : ℚ → ℚ) (scene : SceneData) (s : State) (p : Nat)
    (hp : p < scene.NumPatches) :
    ((loadData sqrt scene s).2.PatchArray p).numelements = (scene.patches p).numelements + 2 ∧
    (formPatches sqrt scene s (p + 1)).vertnum
      = (formPatches sqrt scene s p).vertnum
        + ((scene.patches p).numelements + 2 + 1).toNat
          * ((scene.patches p).numelements + 2 + 1).toNat ∧
    (formPatches sqrt scene s (p + 1)).elnum
      = (formPatches sqrt scene s p).elnum
        + ((scene.patches p).numelements + 2).toNat
          * ((scene.patches p).numelements + 2).toNat ∧
    ∀ e, (formPatches sqrt scene s p).elnum ≤ e →
      e < (formPatches sqrt scene s p).elnum
        + ((scene.patches p).numelements + 2).toNat
          * ((scene.patches p).numelements + 2).toNat →
      ((loadData sqrt scene s).2.ElementArray e).patch = p ∧
      ((loadData sqrt scene s).2.ElementArray e).area
        = ((loadData sqrt scene s).2.PatchArray p).area
          / (((((scene.patches p).numelements + 2)
                * ((scene.patches p).numelements + 2) : Int)) : ℚ) := by
  refine ⟨?_, formPatches_vertnum_succ sqrt scene s p hp,
    formPatches_elnum_succ sqrt scene s p hp, ?_⟩
  · rw [loadData_PatchArray, readPatches_numelements sqrt scene s p hp]
  · intro e h1 h2
    exact loadData_element_of_patch sqrt scene s p e hp h1
      (by rw [formPatches_elnum_succ sqrt scene s p hp]; exact h2)

/-- C7 (amended): for a patch whose record gives the subdivision count `n >= 1`,
`loadData` stores `numelements = n + 2` and, in the patch's iteration of the second loop,
creates exactly `(n+3)*(n+3)` grid vertices and exactly `(n+2)*(n+2)` elements, each
owned by the patch and of area `patch area / (n+2)^2`. -/
theorem loadData_patch_subdivision (sqrt : ℚ → ℚ) (scene : SceneData) (s : State)
    (p n : Nat) (hp : p < scene.NumPatches)
    (hn : (scene.patches p).numelements = (n : Int)) (_h1 : 1 ≤ n) :
    ((loadData sqrt scene s).2.PatchArray p).numelements = (n : Int) + 2 ∧
    (formPatches sqrt scene s (p + 1)).vertnum
      = (formPatches sqrt scene s p).vertnum + (n + 3) * (n + 3) ∧
    (formPatches sqrt scene s (p + 1)).elnum
      = (formPatches sqrt scene s p).elnum + (n + 2) * (n + 2) ∧
    ∀ e, (formPatches sqrt scene s p).elnum ≤ e →
      e < (formPatches sqrt scene s p).elnum + (n + 2) * (n + 2) →
      ((loadData sqrt scene s).2.ElementArray e).patch = p ∧
      ((loadData sqrt scene s).2.ElementArray e).area
        = ((loadData sqrt scene s).2.PatchArray p).area / ((n : ℚ) + 2) ^ 2 := by
  obtain ⟨g1, g2, g3, g4⟩ := loadData_patch_grid sqrt scene s p hp
  have e2 : ((scene.patches p).numelements + 2).toNat = n + 2 := by rw [hn]; omega
  have e3 : ((scene.patches p).numelements + 2 + 1).toNat = n + 3 := by rw [hn]; omega
  rw [e2] at g3 g4
  rw [e3] at g2
  refine ⟨by rw [g1, hn], g2, g3, ?_⟩
  intro e h1 h2
  obtain ⟨a1, a2⟩ := g4 e h1 h2
  refine ⟨a1, ?_⟩
  rw [a2, hn]
  push_cast
  ring

theorem fin4_val_three : ((3 : Fin 4) : Nat) = 3 := rfl

theorem oneSquareScene_area :
    ((loadData Rat.sqrt (oneSquareScene 1) startState).2.PatchArray 0).area = 1 := by
  rw [loadData_PatchArray]
  simp [readPatches, readPatchesUpTo, List.range_succ, readPatch, oneSquareScene, unitSquare,
    fin4_val_three]

/-- Witness for C7 (amended): the one-square scene with record count 1. -/
theorem loadData_patch_subdivision_witness :
    ((loadData Rat.sqrt (oneSquareScene 1) startState).2.PatchArray 0).numelements = 3 ∧
    (formPatches Rat.sqrt (oneSquareScene 1) startState 1).vertnum
      = (formPatches Rat.sqrt (oneSquareScene 1) startState 0).vertnum + 16 ∧
    (formPatches Rat.sqrt (oneSquareScene 1) startState 1).elnum
      = (formPatches Rat.sqrt (oneSquareScene 1) startState 0).elnum + 9 := by
  obtain ⟨h1, h2, h3, _⟩ := loadData_patch_subdivision Rat.sqrt (oneSquareScene 1) startState
    0 1 (by decide) rfl (by decide)
  exact ⟨h1, h2, h3⟩

/-- C7 as stated fails: for the one-square scene whose record gives `n = 1`, `loadData`
creates 16 grid vertices and 9 elements, not `(n+1)*(n+1) = 4` and `n*n = 1`, and element 0
has area `1/9`, not `patch area / n^2 = 1`. -/
theorem loadData_patch_subdivision_plus_two :
    ((oneSquareScene 1).patches 0).numelements = 1 ∧
    (formPatches Rat.sqrt (oneSquareScene 1) startState 1).vertnum
      = (formPatches Rat.sqrt (oneSquareScene 1) startState 0).vertnum + 16 ∧
    (formPatches Rat.sqrt (oneSquareScene 1) startState 1).elnum
      = (formPatches Rat.sqrt (oneSquareScene 1) startState 0).elnum + 9 ∧
    (loadData Rat.sqrt (oneSquareScene 1) startState).2.NumVertices = 4 + 16 ∧
    (loadData Rat.sqrt (oneSquareScene 1) startState).2.NumElements = 9 ∧
    ((loadData Rat.sqrt (oneSquareScene 1) startState).2.ElementArray 0).patch = 0 ∧
    ((loadData Rat.sqrt (oneSquareScene 1) startState).2.ElementArray 0).area = 1 / 9 ∧
    ((loadData Rat.sqrt (oneSquareScene 1) startState).2.ElementArray 0).area
      ≠ ((loadData Rat.sqrt (oneSquareScene 1) startState).2.PatchArray 0).area / 1 ^ 2 ∧
    (16 : Nat) ≠ (1 + 1) * (1 + 1) ∧ (9 : Nat) ≠ 1 * 1 := by
  obtain ⟨_, g2, g3, g4⟩ := loadData_patch_grid Rat.sqrt (oneSquareScene 1) startState 0
    (by decide)
  obtain ⟨a1, a2⟩ := g4 0 (Nat.zero_le _) (by decide)
  have harea : ((loadData Rat.sqrt (oneSquareScene 1) startState).2.ElementArray 0).area
      = 1 / 9 := by
    rw [a2, oneSquareScene_area]
    norm_num [oneSquareScene]
  refine ⟨rfl, g2, g3, ?_, ?_, a1, harea, ?_, by decide, by decide⟩
  · show (readPatchesUpTo Rat.sqrt (oneSquareScene 1) startState 1).NumVertices = 4 + 16
    rw [readPatchesUpTo_NumVertices]
    decide
  · show (readPatchesUpTo Rat.sqrt (oneSquareScene 1) startState 1).NumElements = 9
    rw [readPatchesUpTo_NumElements]
    decide
  · rw [harea, oneSquareScene_area]
    norm_num

/-- C8 (amended): after `loadData`, for every patch whose `numelements` is positive and
which is preceded by no patch with a negative `numelements`, the areas of the elements
in its range `startelement .. startelement + numelements^2 - 1` sum to the patch's area
(exact arithmetic). -/
theorem loadData_element_area_sum (sqrt : ℚ → ℚ) (scene : SceneData) (s : State) (p : Nat)
    (hp : p < scene.NumPatches)
    (hprev : ∀ q, q < p → 0 ≤ ((loadData sqrt scene s).2.PatchArray q).numelements)
    (hpos : 0 < ((loadData sqrt scene s).2.PatchArray p).numelements) :
    ∑ e ∈ Finset.Ico ((loadData sqrt scene s).2.PatchArray p).startelement
        (((loadData sqrt scene s).2.PatchArray p).startelement
          + (((loadData sqrt scene s).2.PatchArray p).numelements ^ 2).toNat),
        ((loadData sqrt scene s).2.ElementArray e).area
      = ((loadData sqrt scene s).2.PatchArray p).area := by
  have hprev' : ∀ q, q < p → 0 ≤ (scene.patches q).numelements + 2 := by
    intro q hq
    have := hprev q hq
    rwa [loadData_PatchArray, readPatches_numelements sqrt scene s q (by omega)] at this
  have hm : ((loadData sqrt scene s).2.PatchArray p).numelements
      = (scene.patches p).numelements + 2 := by
    rw [loadData_PatchArray, readPatches_numelements sqrt scene s p hp]
  rw [hm] at hpos
  have hstart : ((loadData sqrt scene s).2.PatchArray p).startelement
      = (formPatches sqrt scene s p).elnum := by
    rw [loadData_PatchArray, readPatches_startelement sqrt scene s p hp,
      formPatches_elnum_eq_startelement sqrt scene s p (by omega) hprev']
  have hsq : (((scene.patches p).numelements + 2) ^ 2).toNat
      = ((scene.patches p).numelements + 2).toNat * ((scene.patches p).numelements + 2).toNat := by
    rw [pow_two, toNat_mul_self _ (le_of_lt hpos)]
  rw [hm, hstart, hsq]
  have hall : ∀ e ∈ Finset.Ico (formPatches sqrt scene s p).elnum
      ((formPatches sqrt scene s p).elnum
        + ((scene.patches p).numelements + 2).toNat * ((scene.patches p).numelements + 2).toNat),
      ((loadData sqrt scene s).2.ElementArray e).area
        = ((loadData sqrt scene s).2.PatchArray p).area
          / (((((scene.patches p).numelements + 2)
                * ((scene.patches p).numelements + 2) : Int)) : ℚ) := by
    intro e he
    rw [Finset.mem_Ico] at he
    exact ((loadData_patch_grid sqrt scene s p hp).2.2.2 e he.1 he.2).2
  rw [Finset.sum_congr rfl hall, Finset.sum_const, Nat.card_Ico, Nat.add_sub_cancel_left,
    nsmul_eq_mul]
  have hcast : ((((scene.patches p).numelements + 2).toNat
      * ((scene.patches p).numelements + 2).toNat : Nat) : ℚ)
        = (((((scene.patches p).numelements + 2)
                * ((scene.patches p).numelements + 2) : Int)) : ℚ) := by
    rw [← toNat_mul_self _ (le_of_lt hpos)]
    have h0 : 0 ≤ ((scene.patches p).numelements + 2) * ((scene.patches p).numelements + 2) :=
      mul_nonneg (le_of_lt hpos) (le_of_lt hpos)
    have := Int.toNat_of_nonneg h0
    exact_mod_cast this
  rw [hcast]
  have hne : (((((scene.patches p).numelements + 2)
      * ((scene.patches p).numelements + 2) : Int)) : ℚ) ≠ 0 := by
    have : ((scene.patches p).numelements + 2) * ((scene.patches p).numelements + 2) ≠ 0 :=
      mul_ne_zero (ne_of_gt hpos) (ne_of_gt hpos)
    exact_mod_cast this
  generalize (((((scene.patches p).numelements + 2)
      * ((scene.patches p).numelements + 2) : Int)) : ℚ) = c at hne ⊢
  field_simp

theorem negativeCountScene_numelements (p : Nat) (hp : p < 2) :
    ((loadData Rat.sqrt negativeCountScene startState).2.PatchArray p).numelements
      = if p = 0 then -1 else 2 := by
  rw [loadData_PatchArray, readPatches_numelements _ _ _ p hp]
  by_cases h : p = 0 <;> simp [negativeCountScene, h]

/-- Witness for C8 (amended): patch 0 of the one-square scene (nine elements of area 1/9). -/
theorem loadData_element_area_sum_witness :
    ∑ e ∈ Finset.Ico ((loadData Rat.sqrt (oneSquareScene 1) startState).2.PatchArray 0).startelement
        (((loadData Rat.sqrt (oneSquareScene 1) startState).2.PatchArray 0).startelement
          + (((loadData Rat.sqrt (oneSquareScene 1) startState).2.PatchArray 0).numelements ^ 2).toNat),
        ((loadData Rat.sqrt (oneSquareScene 1) startState).2.ElementArray e).area
      = ((loadData Rat.sqrt (oneSquareScene 1) startState).2.PatchArray 0).area :=
  loadData_element_area_sum Rat.sqrt (oneSquareScene 1) startState 0 (by decide)
    (by intro q hq; omega)
    (by
      rw [loadData_PatchArray, readPatches_numelements _ _ _ 0 (by decide)]
      decide)

/-- C8 as stated fails for a negative count: in `negativeCountScene` patch 0 has
`numelements = -1` (non-zero), `startelement = 0` and area 1, so its range is element 0
alone, which is an element of patch 1 with area `1/4`. -/
theorem loadData_element_area_sum_negative_count :
    ((loadData Rat.sqrt negativeCountScene startState).2.PatchArray 0).numelements = -1 ∧
    ((loadData Rat.sqrt negativeCountScene startState).2.PatchArray 0).numelements ≠ 0 ∧
    ((loadData Rat.sqrt negativeCountScene startState).2.PatchArray 0).startelement = 0 ∧
    ((loadData Rat.sqrt negativeCountScene startState).2.PatchArray 0).area = 1 ∧
    ((loadData Rat.sqrt negativeCountScene startState).2.ElementArray 0).patch = 1 ∧
    ∑ e ∈ Finset.Ico ((loadData Rat.sqrt negativeCountScene startState).2.PatchArray 0).startelement
        (((loadData Rat.sqrt negativeCountScene startState).2.PatchArray 0).startelement
          + (((loadData Rat.sqrt negativeCountScene startState).2.PatchArray 0).numelements
              ^ 2).toNat),
        ((loadData Rat.sqrt negativeCountScene startState).2.ElementArray e).area = 1 / 4 ∧
    ∑ e ∈ Finset.Ico ((loadData Rat.sqrt negativeCountScene startState).2.PatchArray 0).startelement
        (((loadData Rat.sqrt negativeCountScene startState).2.PatchArray 0).startelement
          + (((loadData Rat.sqrt negativeCountScene startState).2.PatchArray 0).numelements
              ^ 2).toNat),
        ((loadData Rat.sqrt negativeCountScene startState).2.ElementArray e).area
      ≠ ((loadData Rat.sqrt negativeCountScene startState).2.PatchArray 0).area := by
  have hnum : ((loadData Rat.sqrt negativeCountScene startState).2.PatchArray 0).numelements
      = -1 := by
    rw [negativeCountScene_numelements 0 (by decide)]
    rfl
  have hstart : ((loadData Rat.sqrt negativeCountScene startState).2.PatchArray 0).startelement
      = 0 := by
    rw [loadData_PatchArray, readPatches_startelement _ _ _ 0 (by decide)]
    rfl
  have harea0 : ((loadData Rat.sqrt negativeCountScene startState).2.PatchArray 0).area = 1 := by
    rw [loadData_PatchArray]
    simp [readPatches, readPatchesUpTo, List.range_succ, readPatch, negativeCountScene,
      unitSquare, fin4_val_three]
  have harea1 : ((loadData Rat.sqrt negativeCountScene startState).2.PatchArray 1).area = 1 := by
    rw [loadData_PatchArray]
    simp [readPatches, readPatchesUpTo, List.range_succ, readPatch, negativeCountScene,
      unitSquare, fin4_val_three]
  have hel0 : (formPatches Rat.sqrt negativeCountScene startState 1).elnum = 0 := by
    rw [formPatches_elnum_succ _ _ _ 0 (by decide)]
    rfl
  obtain ⟨a1, a2⟩ := (loadData_patch_grid Rat.sqrt negativeCountScene startState 1
    (by decide)).2.2.2 0 (by rw [hel0]) (by rw [hel0]; decide)
  have hel : ((loadData Rat.sqrt negativeCountScene startState).2.ElementArray 0).area
      = 1 / 4 := by
    rw [a2, harea1]
    norm_num [negativeCountScene]
  have hsum : ∑ e ∈ Finset.Ico
        ((loadData Rat.sqrt negativeCountScene startState).2.PatchArray 0).startelement
        (((loadData Rat.sqrt negativeCountScene startState).2.PatchArray 0).startelement
          + (((loadData Rat.sqrt negativeCountScene startState).2.PatchArray 0).numelements
              ^ 2).toNat),
        ((loadData Rat.sqrt negativeCountScene startState).2.ElementArray e).area = 1 / 4 := by
    rw [hstart, hnum]
    have : Finset.Ico 0 (0 + (((-1 : Int)) ^ 2).toNat) = {0} := by decide
    rw [this, Finset.sum_singleton, hel]
  refine ⟨hnum, by rw [hnum]; decide, hstart, harea0, a1, hsum, ?_⟩
  rw [hsum, harea0]
  norm_num

/-! ## Unshot energy across one step -/

/-- Area-weighted unshot total after `k + 1` iterations of the element loop. -/
theorem shootPrefix_weighted_succ (i : Nat) (s : State) (k : Nat) (c : Fin 3)
    (howner : (s.ElementArray k).patch < s.NumPatches)
    (hPA : (s.PatchArray (s.ElementArray k).patch).area ≠ 0)
    (hEA : (s.ElementArray k).area ≠ 0) :
    ∑ p ∈ Finset.range s.NumPatches,
        (s.PatchArray p).area * ((shootPrefix i s (k + 1)).PatchArray p).unshot.ch c
      = ∑ p ∈ Finset.range s.NumPatches,
          (s.PatchArray p).area * ((shootPrefix i s k).PatchArray p).unshot.ch c
        + (s.PatchArray (s.ElementArray k).patch).reflectance.ch c
          * ((shootPrefix i s k).PatchArray i).unshot.ch c
          * s.lookUpTable i k * (s.PatchArray i).area := by
  have hterm : ∀ p ∈ Finset.range s.NumPatches,
      (s.PatchArray p).area * ((shootPrefix i s (k + 1)).PatchArray p).unshot.ch c
        = (s.PatchArray p).area * ((shootPrefix i s k).PatchArray p).unshot.ch c
          + (if (s.ElementArray k).patch = p then
              (s.PatchArray p).area
                * ((dRadiosityAt i s k).ch c * ((s.ElementArray k).area / (s.PatchArray p).area))
            else 0) := by
    intro p _
    rw [shootPrefix_unshot_succ, mul_add]
    split <;> simp
  rw [Finset.sum_congr rfl hterm, Finset.sum_add_distrib, Finset.sum_ite_eq,
    if_pos (Finset.mem_range.mpr howner)]
  congr 1
  have hd : (dRadiosityAt i s k).ch c
      = (s.PatchArray (s.ElementArray k).patch).reflectance.ch c
        * ((shootPrefix i s k).PatchArray i).unshot.ch c
        * s.lookUpTable i k * ((s.PatchArray i).area / (s.ElementArray k).area) := by
    fin_cases c <;> simp [dRadiosityAt]
  rw [hd]
  field_simp

/-- Unshot value of the shot patch after `k + 1` iterations of the element loop. -/
theorem shootPrefix_shot_succ (i : Nat) (s : State) (k : Nat) (c : Fin 3)
    (hPA : (s.PatchArray i).area ≠ 0) (hEA : (s.ElementArray k).area ≠ 0) :
    ((shootPrefix i s (k + 1)).PatchArray i).unshot.ch c
      = ((shootPrefix i s k).PatchArray i).unshot.ch c
        + (if (s.ElementArray k).patch = i then
            (s.PatchArray i).reflectance.ch c
              * ((shootPrefix i s k).PatchArray i).unshot.ch c * s.lookUpTable i k
          else 0) := by
  rw [shootPrefix_unshot_succ]
  congr 1
  by_cases h : (s.ElementArray k).patch = i
  · rw [if_pos h, if_pos h]
    have hd : (dRadiosityAt i s k).ch c
        = (s.PatchArray i).reflectance.ch c
          * ((shootPrefix i s k).PatchArray i).unshot.ch c
          * s.lookUpTable i k * ((s.PatchArray i).area / (s.ElementArray k).area) := by
      fin_cases c <;> simp [dRadiosityAt, h]
    rw [hd]
    field_simp
  · rw [if_neg h, if_neg h]

/-- The potential `T_k - A_i * U_k * S_k` never exceeds the initial area-weighted total,
and the shot patch's unshot value stays non-negative. -/
theorem shootPrefix_potential (i : Nat) (s : State) (c : Fin 3) (k : Nat)
    (hk : k ≤ s.NumElements)
    (howner : ∀ e, e < s.NumElements → (s.ElementArray e).patch < s.NumPatches)
    (hi : i < s.NumPatches)
    (hPA : ∀ p, p < s.NumPatches → 0 < (s.PatchArray p).area)
    (hEA : ∀ e, e < s.NumElements → 0 < (s.ElementArray e).area)
    (hrefl : ∀ p, p < s.NumPatches →
      0 ≤ (s.PatchArray p).reflectance.ch c ∧ (s.PatchArray p).reflectance.ch c < 1)
    (hF : ∀ e, e < s.NumElements → 0 ≤ s.lookUpTable i e)
    (hU : 0 ≤ (s.PatchArray i).unshot.ch c) :
    0 ≤ ((shootPrefix i s k).PatchArray i).unshot.ch c ∧
    ∑ p ∈ Finset.range s.NumPatches,
        (s.PatchArray p).area * ((shootPrefix i s k).PatchArray p).unshot.ch c
      - (s.PatchArray i).area * ((shootPrefix i s k).PatchArray i).unshot.ch c
        * ∑ e ∈ Finset.range k, s.lookUpTable i e
      ≤ weightedUnshot s c := by
  induction k with
  | zero =>
    refine ⟨hU, ?_⟩
    simp [shootPrefix_zero, weightedUnshot]
  | succ k ih =>
    obtain ⟨ihU, ihT⟩ := ih (by omega)
    have hkn : k < s.NumElements := by omega
    have hj := howner k hkn
    have hAj := hPA _ hj
    have hAi := hPA i hi
    have hAe := hEA k hkn
    have hFk := hF k hkn
    have hS : 0 ≤ ∑ e ∈ Finset.range k, s.lookUpTable i e :=
      Finset.sum_nonneg (fun e he => hF e (by have := Finset.mem_range.mp he; omega))
    rw [shootPrefix_weighted_succ i s k c hj (ne_of_gt hAj) (ne_of_gt hAe),
      shootPrefix_shot_succ i s k c (ne_of_gt hAi) (ne_of_gt hAe), Finset.sum_range_succ]
    generalize ∑ p ∈ Finset.range s.NumPatches,
      (s.PatchArray p).area * ((shootPrefix i s k).PatchArray p).unshot.ch c = T at ihT ⊢
    generalize ((shootPrefix i s k).PatchArray i).unshot.ch c = U at ihU ihT ⊢
    generalize ∑ e ∈ Finset.range k, s.lookUpTable i e = S at ihT hS ⊢
    generalize s.lookUpTable i k = F at hFk ⊢
    generalize (s.PatchArray i).area = Ai at hAi ihT ⊢
    by_cases hji : (s.ElementArray k).patch = i
    · rw [if_pos hji, hji]
      obtain ⟨hr0, hr1⟩ := hrefl i hi
      generalize (s.PatchArray i).reflectance.ch c = r at hr0 hr1 ⊢
      refine ⟨by positivity, ?_⟩
      have key : 0 ≤ Ai * U * F * (1 - r + r * S + r * F) := by
        have h1 : 0 ≤ 1 - r + r * S + r * F := by nlinarith [mul_nonneg hr0 hS, mul_nonneg hr0 hFk]
        have h2 : 0 ≤ Ai * U * F := by positivity
        exact mul_nonneg h2 h1
      nlinarith [key]
    · rw [if_neg hji]
      obtain ⟨hr0, hr1⟩ := hrefl _ hj
      generalize (s.PatchArray (s.ElementArray k).patch).reflectance.ch c = r at hr0 hr1 ⊢
      refine ⟨by simpa using ihU, ?_⟩
      have key : 0 ≤ Ai * U * F * (1 - r) := by
        have h2 : 0 ≤ Ai * U * F := by positivity
        exact mul_nonneg h2 (by linarith)
      nlinarith [key]

theorem progressiveRefinement_NumPatches (s : State) :
    (progressiveRefinement s).NumPatches = s.NumPatches := by
  simp only [progressiveRefinement, updatePriorityQueue, resetUnshot, updateAmbient,
    shootLoop_eq, shootPrefix_currentPatchID_irrel, shootPrefix_NumPatches]

/-- Area-weighted unshot total after the step: the loop's total without the shot patch. -/
theorem weightedUnshot_progressiveRefinement (s : State) (c : Fin 3)
    (hi : (pqTop s.unshotPatchQueue).id < s.NumPatches) :
    weightedUnshot (progressiveRefinement s) c
      = ∑ p ∈ Finset.range s.NumPatches,
          (s.PatchArray p).area
            * ((shootPrefix (pqTop s.unshotPatchQueue).id s s.NumElements).PatchArray p).unshot.ch c
        - (s.PatchArray (pqTop s.unshotPatchQueue).id).area
          * ((shootPrefix (pqTop s.unshotPatchQueue).id s s.NumElements).PatchArray
              (pqTop s.unshotPatchQueue).id).unshot.ch c := by
  rw [weightedUnshot, progressiveRefinement_NumPatches, progressiveRefinement_PatchArray]
  generalize (pqTop s.unshotPatchQueue).id = i at hi ⊢
  have hterm : ∀ p ∈ Finset.range s.NumPatches,
      (Function.update (shootPrefix i s s.NumElements).PatchArray i
          { (shootPrefix i s s.NumElements).PatchArray i with unshot := ⟨0, 0, 0⟩ } p).area
        * (Function.update (shootPrefix i s s.NumElements).PatchArray i
          { (shootPrefix i s s.NumElements).PatchArray i with unshot := ⟨0, 0, 0⟩ } p).unshot.ch c
      = (s.PatchArray p).area * ((shootPrefix i s s.NumElements).PatchArray p).unshot.ch c
        - (if i = p then
            (s.PatchArray p).area * ((shootPrefix i s s.NumElements).PatchArray p).unshot.ch c
          else 0) := by
    intro p _
    by_cases h : p = i
    · subst h
      rw [Function.update_same, if_pos rfl]
      fin_cases c <;> simp
    · have h' : ¬ i = p := fun e => h e.symm
      rw [Function.update_noteq h, if_neg h', shootPrefix_patch_area, sub_zero]
  rw [Finset.sum_congr rfl hterm, Finset.sum_sub_distrib, Finset.sum_ite_eq,
    if_pos (Finset.mem_range.mpr hi)]

/-- C9 (amended): for a state satisfying the data-model invariants (every element owned
by a patch, positive areas, reflectance channels in `[0,1)`, non-negative table entries,
non-negative unshot values) and whose table row of the shot patch sums to at most 1, the
area-weighted total unshot radiosity `sum_p Area(p) * unshot_p,c` after one
`progressiveRefinement` step is at most its value before the step, in every channel. -/
theorem progressiveRefinement_weightedUnshot_le (s : State) (c : Fin 3)
    (hi : (pqTop s.unshotPatchQueue).id < s.NumPatches)
    (howner : ∀ e, e < s.NumElements → (s.ElementArray e).patch < s.NumPatches)
    (hPA : ∀ p, p < s.NumPatches → 0 < (s.PatchArray p).area)
    (hEA : ∀ e, e < s.NumElements → 0 < (s.ElementArray e).area)
    (hrefl : ∀ p, p < s.NumPatches →
      0 ≤ (s.PatchArray p).reflectance.ch c ∧ (s.PatchArray p).reflectance.ch c < 1)
    (hF : ∀ e, e < s.NumElements → 0 ≤ s.lookUpTable (pqTop s.unshotPatchQueue).id e)
    (hrow : ∑ e ∈ Finset.range s.NumElements, s.lookUpTable (pqTop s.unshotPatchQueue).id e ≤ 1)
    (hU : ∀ p, p < s.NumPatches → 0 ≤ (s.PatchArray p).unshot.ch c) :
    weightedUnshot (progressiveRefinement s) c ≤ weightedUnshot s c := by
  rw [weightedUnshot_progressiveRefinement s c hi]
  obtain ⟨h1, h2⟩ := shootPrefix_potential (pqTop s.unshotPatchQueue).id s c s.NumElements
    le_rfl howner hi hPA hEA hrefl hF (hU _ hi)
  have hAi := hPA _ hi
  have hS : 0 ≤ ∑ e ∈ Finset.range s.NumElements, s.lookUpTable (pqTop s.unshotPatchQueue).id e :=
    Finset.sum_nonneg (fun e he => hF e (Finset.mem_range.mp he))
  generalize ∑ p ∈ Finset.range s.NumPatches, (s.PatchArray p).area
    * ((shootPrefix (pqTop s.unshotPatchQueue).id s s.NumElements).PatchArray p).unshot.ch c
      = T at h2 ⊢
  generalize ((shootPrefix (pqTop s.unshotPatchQueue).id s s.NumElements).PatchArray
    (pqTop s.unshotPatchQueue).id).unshot.ch c = U at h1 h2 ⊢
  generalize ∑ e ∈ Finset.range s.NumElements, s.lookUpTable (pqTop s.unshotPatchQueue).id e
    = S at h2 hrow hS ⊢
  generalize (s.PatchArray (pqTop s.unshotPatchQueue).id).area = Ai at hAi h2 ⊢
  have key : 0 ≤ Ai * U * (1 - S) := mul_nonneg (by positivity) (by linarith)
  nlinarith [key]

theorem twoPatchState_PatchArray_cases (p : Nat) (hp : p < twoPatchState.NumPatches) :
    p = 0 ∨ p = 1 := by
  have : p < 2 := hp
  omega

/-- Witness for C9 (amended): the two-patch example, red channel. -/
theorem progressiveRefinement_weightedUnshot_le_witness :
    weightedUnshot (progressiveRefinement twoPatchState) 0 ≤ weightedUnshot twoPatchState 0 :=
  progressiveRefinement_weightedUnshot_le twoPatchState 0
    (by simp [twoPatchState, pqTop])
    (by
      intro e he
      rcases twoPatchState_PatchArray_cases e he with h | h <;>
        subst h <;> simp [twoPatchState, exampleElement])
    (by
      intro p hp
      rcases twoPatchState_PatchArray_cases p hp with h | h <;>
        subst h <;> simp [twoPatchState, examplePatch])
    (by
      intro e he
      rcases twoPatchState_PatchArray_cases e he with h | h <;>
        subst h <;> simp [twoPatchState, exampleElement])
    (by
      intro p hp
      rcases twoPatchState_PatchArray_cases p hp with h | h <;>
        subst h <;> norm_num [twoPatchState, examplePatch])
    (by
      intro e he
      rcases twoPatchState_PatchArray_cases e he with h | h <;>
        subst h <;> norm_num [twoPatchState, pqTop])
    (by
      norm_num [twoPatchState, pqTop, Finset.sum_range_succ])
    (by
      intro p hp
      rcases twoPatchState_PatchArray_cases p hp with h | h <;>
        subst h <;> norm_num [twoPatchState, examplePatch])

theorem twoPatchState_after_unshot :
    ((progressiveRefinement twoPatchState).PatchArray 0).unshot = ⟨0, 0, 0⟩ ∧
    ((progressiveRefinement twoPatchState).PatchArray 1).unshot
      = ⟨171 / 100, 171 / 100, 171 / 100⟩ := by
  rw [progressiveRefinement_PatchArray]
  constructor
  · simp [twoPatchState, pqTop]
  · simp [shootPrefix, List.range_succ, shootElement, twoPatchState, pqTop,
      examplePatch, exampleElement, Function.update_apply]
    norm_num

/-- C9 as stated fails: `twoPatchState` satisfies the data-model invariants (unit areas,
one unit element per patch, reflectances 1/2 and 9/10, table entries 0 and 9/10, unshot
values 1 and 9/10), the step shoots patch 0, and the total squared-norm unshot energy
rises from `543/100` to `3 * (171/100)^2 = 87723/10000`. -/
theorem progressiveRefinement_unshot_energy_increases :
    ((twoPatchState.PatchArray 0).area = 1 ∧ (twoPatchState.PatchArray 1).area = 1 ∧
      (twoPatchState.ElementArray 0).area = 1 ∧ (twoPatchState.ElementArray 1).area = 1 ∧
      (twoPatchState.ElementArray 0).patch = 0 ∧ (twoPatchState.ElementArray 1).patch = 1 ∧
      (twoPatchState.PatchArray 0).reflectance = ⟨1 / 2, 1 / 2, 1 / 2⟩ ∧
      (twoPatchState.PatchArray 1).reflectance = ⟨9 / 10, 9 / 10, 9 / 10⟩ ∧
      (twoPatchState.PatchArray 0).unshot = ⟨1, 1, 1⟩ ∧
      (twoPatchState.PatchArray 1).unshot = ⟨9 / 10, 9 / 10, 9 / 10⟩ ∧
      twoPatchState.lookUpTable 0 0 = 0 ∧ twoPatchState.lookUpTable 0 1 = 9 / 10 ∧
      twoPatchState.lookUpTable 1 0 = 9 / 10 ∧ twoPatchState.lookUpTable 1 1 = 0) ∧
    (pqTop twoPatchState.unshotPatchQueue).id = 0 ∧
    totalUnshotEnergy twoPatchState = 543 / 100 ∧
    totalUnshotEnergy (progressiveRefinement twoPatchState) = 87723 / 10000 ∧
    ¬ (totalUnshotEnergy (progressiveRefinement twoPatchState)
        ≤ totalUnshotEnergy twoPatchState) := by
  have hbefore : totalUnshotEnergy twoPatchState = 543 / 100 := by
    norm_num [totalUnshotEnergy, twoPatchState, examplePatch, Finset.sum_range_succ]
  have hafter : totalUnshotEnergy (progressiveRefinement twoPatchState) = 87723 / 10000 := by
    rw [totalUnshotEnergy, progressiveRefinement_NumPatches]
    show ∑ p ∈ Finset.range 2, _ = _
    rw [Finset.sum_range_succ, Finset.sum_range_one, twoPatchState_after_unshot.1,
      twoPatchState_after_unshot.2]
    norm_num
  refine ⟨by simp [twoPatchState, examplePatch, exampleElement],
    by simp [twoPatchState, pqTop], hbefore, hafter, ?_⟩
  rw [hbefore, hafter]
  norm_num

/-! ## The priority queue -/

theorem CompareTag_iff (p1 p2 : UnshotTag) :
    CompareTag p1 p2 = true ↔ p1.unshot.size < p2.unshot.size := by
  simp [CompareTag, Color.size]

theorem tagAt_eq_getD (c : List UnshotTag) (k : Nat) (d : UnshotTag) (h : k < c.length) :
    c.getD k d = tagAt c k := by
  rw [tagAt, List.getD_eq_getElem _ _ h, List.getD_eq_getElem _ _ h]

theorem tagAt_set (c : List UnshotTag) (h k : Nat) (x : UnshotTag) (hh : h < c.length) :
    tagAt (c.set h x) k = if k = h then x else tagAt c k := by
  simp only [tagAt, List.getD_eq_getElem?_getD, List.getElem?_set]
  by_cases e : h = k
  · subst e; simp [hh]
  · have e' : ¬ k = h := fun e'' => e e''.symm
    simp [e, e']

theorem pushHeapLoop_length (value : UnshotTag) (topIndex : Nat) (fuel : Nat)
    (c : List UnshotTag) (holeIndex : Nat) :
    (pushHeapLoop value topIndex fuel c holeIndex).length = c.length := by
  induction fuel generalizing c holeIndex with
  | zero => simp [pushHeapLoop]
  | succ fuel ih =>
    rw [pushHeapLoop]
    split
    · rw [ih, List.length_set]
    · rw [List.length_set]

theorem pqPush_length (c : List UnshotTag) (x : UnshotTag) :
    (pqPush c x).length = c.length + 1 := by
  rw [pqPush, pushHeapLoop_length]
  simp

/-- Storing `v` where the parent was copied to, after copying the parent into the hole,
permutes `c` with `v` in the hole. -/
theorem set_set_perm_hole (c : List UnshotTag) (h p : Nat) (v : UnshotTag)
    (hh : h < c.length) (hp : p < c.length) (hne : p ≠ h) :
    ((c.set h (tagAt c p)).set p v).Perm (c.set h v) := by
  rw [List.perm_iff_count]
  intro a
  have hp' : p < (c.set h (tagAt c p)).length := by rw [List.length_set]; exact hp
  rw [List.count_set _ _ _ _ hp', List.count_set _ _ _ _ hh, List.count_set _ _ _ _ hh,
    List.getElem_set_ne (fun e => hne e.symm)]
  have hx : tagAt c p = c.get ⟨p, hp⟩ := by
    rw [tagAt, List.getD_eq_getElem _ _ hp, List.get_eq_getElem]
  simp only [hx, List.get_eq_getElem]
  omega

theorem pushHeapLoop_perm (value : UnshotTag) (fuel : Nat) (c : List UnshotTag)
    (holeIndex : Nat) (hh : holeIndex < c.length) :
    (pushHeapLoop value 0 fuel c holeIndex).Perm (c.set holeIndex value) := by
  induction fuel generalizing c holeIndex with
  | zero => simp [pushHeapLoop]
  | succ fuel ih =>
    rw [pushHeapLoop]
    split
    · rename_i hcond
      have hp : (holeIndex - 1) / 2 < c.length := by omega
      have hne : (holeIndex - 1) / 2 ≠ holeIndex := by omega
      rw [tagAt_eq_getD c _ value hp]
      have hp' : (holeIndex - 1) / 2 < (c.set holeIndex (tagAt c ((holeIndex - 1) / 2))).length := by
        rw [List.length_set]; exact hp
      exact (ih _ _ hp').trans (set_set_perm_hole c holeIndex _ value hh hp hne)
    · exact List.Perm.refl _

theorem set_length_append_self (c : List UnshotTag) (x : UnshotTag) :
    (c ++ [x]).set c.length x = c ++ [x] := by
  induction c with
  | nil => rfl
  | cons a l ih => simp [List.set, ih]

theorem pqPush_perm (c : List UnshotTag) (x : UnshotTag) : (pqPush c x).Perm (x :: c) := by
  have h := pushHeapLoop_perm x c.length (c ++ [x]) c.length (by simp)
  rw [set_length_append_self] at h
  exact h.trans (List.perm_append_singleton x c)

/-- The sift-up loop of `push_heap` restores the heap order.  Invariant: the vector is a
heap except for the link from the hole to its parent, the children of the hole are no
larger than `value`, nor than the hole's parent. -/
theorem pushHeapLoop_isHeap (value : UnshotTag) (fuel : Nat) (c : List UnshotTag)
    (holeIndex : Nat) (hh : holeIndex < c.length) (hfuel : holeIndex ≤ fuel)
    (I1 : ∀ k, 0 < k → k < c.length → k ≠ holeIndex →
      (tagAt c k).unshot.size ≤ (tagAt c ((k - 1) / 2)).unshot.size)
    (I2 : ∀ k, 0 < k → k < c.length → (k - 1) / 2 = holeIndex →
      (tagAt c k).unshot.size ≤ value.unshot.size)
    (I3 : ∀ k, 0 < k → k < c.length → (k - 1) / 2 = holeIndex → 0 < holeIndex →
      (tagAt c k).unshot.size ≤ (tagAt c ((holeIndex - 1) / 2)).unshot.size) :
    IsHeap (pushHeapLoop value 0 fuel c holeIndex) := by
  have hend : ∀ (c : List UnshotTag) (holeIndex : Nat), holeIndex < c.length →
      (∀ k, 0 < k → k < c.length → k ≠ holeIndex →
        (tagAt c k).unshot.size ≤ (tagAt c ((k - 1) / 2)).unshot.size) →
      (∀ k, 0 < k → k < c.length → (k - 1) / 2 = holeIndex →
        (tagAt c k).unshot.size ≤ value.unshot.size) →
      (0 < holeIndex → value.unshot.size ≤ (tagAt c ((holeIndex - 1) / 2)).unshot.size) →
      IsHeap (c.set holeIndex value) := by
    intro c h hh I1 I2 hv k hk0 hkl
    rw [List.length_set] at hkl
    rw [tagAt_set c h k value hh, tagAt_set c h ((k - 1) / 2) value hh]
    by_cases e1 : k = h
    · subst e1
      have e2 : ¬ (k - 1) / 2 = k := by omega
      rw [if_pos rfl, if_neg e2]
      exact hv hk0
    · rw [if_neg e1]
      by_cases e2 : (k - 1) / 2 = h
      · rw [if_pos e2]
        exact I2 k hk0 hkl e2
      · rw [if_neg e2]
        exact I1 k hk0 hkl e1
  induction fuel generalizing c holeIndex with
  | zero =>
    have h0 : holeIndex = 0 := by omega
    subst h0
    rw [pushHeapLoop]
    exact hend c 0 hh I1 I2 (fun h => absurd h (lt_irrefl 0))
  | succ fuel ih =>
    rw [pushHeapLoop]
    have hp : (holeIndex - 1) / 2 < c.length := by omega
    rw [tagAt_eq_getD c _ value hp]
    split
    · rename_i hcond
      obtain ⟨hpos, hlt⟩ := hcond
      rw [CompareTag_iff] at hlt
      have hpne : (holeIndex - 1) / 2 ≠ holeIndex := by omega
      have hlen : (c.set holeIndex (tagAt c ((holeIndex - 1) / 2))).length = c.length :=
        List.length_set _ _ _
      apply ih
      · rw [hlen]; exact hp
      · omega
      · intro k hk0 hkl hkp
        rw [hlen] at hkl
        rw [tagAt_set c holeIndex k _ hh, tagAt_set c holeIndex ((k - 1) / 2) _ hh]
        by_cases e1 : k = holeIndex
        · subst e1
          rw [if_pos rfl, if_neg hpne]
        · rw [if_neg e1]
          by_cases e2 : (k - 1) / 2 = holeIndex
          · rw [if_pos e2]
            exact I3 k hk0 hkl e2 hpos
          · rw [if_neg e2]
            exact I1 k hk0 hkl e1
      · intro k hk0 hkl hkp
        rw [hlen] at hkl
        rw [tagAt_set c holeIndex k _ hh]
        by_cases e1 : k = holeIndex
        · rw [if_pos e1]
          exact le_of_lt hlt
        · rw [if_neg e1]
          have := I1 k hk0 hkl e1
          rw [hkp] at this
          exact le_trans this (le_of_lt hlt)
      · intro k hk0 hkl hkp hppos
        rw [hlen] at hkl
        have hgp : ¬ ((holeIndex - 1) / 2 - 1) / 2 = holeIndex := by omega
        rw [tagAt_set c holeIndex k _ hh, tagAt_set c holeIndex _ _ hh, if_neg hgp]
        have hpar := I1 ((holeIndex - 1) / 2) hppos hp hpne
        by_cases e1 : k = holeIndex
        · rw [if_pos e1]
          exact hpar
        · rw [if_neg e1]
          have := I1 k hk0 hkl e1
          rw [hkp] at this
          exact le_trans this hpar
    · rename_i hcond
      apply hend c holeIndex hh I1 I2
      intro hpos
      have : ¬ CompareTag (tagAt c ((holeIndex - 1) / 2)) value = true :=
        fun h => hcond ⟨hpos, h⟩
      rw [CompareTag_iff] at this
      exact not_lt.mp this

theorem tagAt_append_left (c : List UnshotTag) (x : UnshotTag) (k : Nat) (h : k < c.length) :
    tagAt (c ++ [x]) k = tagAt c k := by
  simp only [tagAt, List.getD_eq_getElem?_getD]
  rw [List.getElem?_append_left h]

/-- The member `push` keeps the heap order. -/
theorem pqPush_isHeap (c : List UnshotTag) (x : UnshotTag) (hc : IsHeap c) :
    IsHeap (pqPush c x) := by
  apply pushHeapLoop_isHeap x c.length (c ++ [x]) c.length (by simp) le_rfl
  · intro k hk0 hkl hkn
    have hk : k < c.length := by
      rw [List.length_append, List.length_singleton] at hkl
      omega
    rw [tagAt_append_left c x k hk, tagAt_append_left c x _ (by omega)]
    exact hc k hk0 hk
  · intro k hk0 hkl hkp
    rw [List.length_append, List.length_singleton] at hkl
    omega
  · intro k hk0 hkl hkp
    rw [List.length_append, List.length_singleton] at hkl
    omega

/-- In a heap the front entry is the largest. -/
theorem IsHeap.root_max (c : List UnshotTag) (hc : IsHeap c) (k : Nat) (hk : k < c.length) :
    (tagAt c k).unshot.size ≤ (tagAt c 0).unshot.size := by
  induction k using Nat.strong_induction_on with
  | _ k ih =>
    rcases Nat.eq_zero_or_pos k with h0 | hpos
    · subst h0; exact le_rfl
    · exact le_trans (hc k hpos hk) (ih ((k - 1) / 2) (by omega) (by omega))

theorem buildQueue_succ (PatchArray : Nat → Patch) (n : Nat) :
    buildQueue PatchArray (n + 1)
      = pqPush (buildQueue PatchArray n) ⟨(PatchArray n).unshot, n⟩ := by
  simp [buildQueue, List.range_succ, List.foldl_append]

theorem buildQueue_isHeap (PatchArray : Nat → Patch) (n : Nat) :
    IsHeap (buildQueue PatchArray n) := by
  induction n with
  | zero =>
    intro k _ hk
    simp [buildQueue] at hk
  | succ n ih => rw [buildQueue_succ]; exact pqPush_isHeap _ _ ih

theorem buildQueue_perm (PatchArray : Nat → Patch) (n : Nat) :
    (buildQueue PatchArray n).Perm
      ((List.range n).map (fun p => (⟨(PatchArray p).unshot, p⟩ : UnshotTag))) := by
  induction n with
  | zero => simp [buildQueue]
  | succ n ih =>
    rw [buildQueue_succ, List.range_succ, List.map_append, List.map_singleton]
    exact (pqPush_perm _ _).trans
      ((List.Perm.cons _ ih).trans (List.perm_append_singleton _ _).symm)

theorem adjustHeapLoop_length (len fuel : Nat) (c : List UnshotTag) (holeIndex secondChild : Nat) :
    (adjustHeapLoop len fuel c holeIndex secondChild).1.length = c.length := by
  induction fuel generalizing c holeIndex secondChild with
  | zero => simp [adjustHeapLoop]
  | succ fuel ih =>
    rw [adjustHeapLoop]
    split
    · simp only
      rw [ih, List.length_set]
    · rfl

theorem adjustHeap_length (c : List UnshotTag) (len : Nat) (value : UnshotTag) :
    (adjustHeap c len value).length = c.length := by
  have h := adjustHeapLoop_length len len c 0 0
  simp only [adjustHeap]
  split <;> simp only [pushHeapLoop_length, List.length_set, h]

theorem pqPop_length (c : List UnshotTag) : (pqPop c).length = c.length - 1 := by
  rw [pqPop]
  split
  · rename_i h
    rw [List.getLast?_eq_none_iff] at h
    subst h
    rfl
  · simp only [List.length_dropLast, adjustHeap_length, List.length_set]

/-- The loop `while (!empty) pop()` leaves the queue empty. -/
theorem popAll_eq_nil (fuel : Nat) (q : List UnshotTag) (h : q.length ≤ fuel) :
    popAll fuel q = [] := by
  induction fuel generalizing q with
  | zero =>
    rw [popAll]
    exact List.length_eq_zero.mp (by omega)
  | succ fuel ih =>
    rw [popAll]
    split
    · rename_i he
      simpa [pqEmpty] using he
    · apply ih
      rw [pqPop_length]
      omega

theorem updatePriorityQueue_queue (s : State) :
    (updatePriorityQueue s).unshotPatchQueue = buildQueue s.PatchArray s.NumPatches := by
  simp only [updatePriorityQueue, popAll_eq_nil _ _ le_rfl, buildQueue]

theorem pqTop_eq_tagAt (c : List UnshotTag) (h : 0 < c.length) : pqTop c = tagAt c 0 := by
  cases c with
  | nil => simp at h
  | cons a l => rfl

theorem initScene_twoPatchState_NumPatches : (initScene twoPatchState).NumPatches = 2 := rfl

/-! ## Characters written by the stream output -/

theorem digitChar_isDigit (d : Nat) : (digitChar d).isDigit = true := by
  have h : d % 10 < 10 := Nat.mod_lt _ (by decide)
  rw [digitChar]
  generalize d % 10 = k at h
  interval_cases k <;> decide

theorem natDigits_isDigit (fuel n : Nat) : ∀ c ∈ natDigits fuel n, c.isDigit = true := by
  induction fuel generalizing n with
  | zero => intro c hc; simp [natDigits] at hc
  | succ fuel ih =>
    intro c hc
    rw [natDigits] at hc
    split at hc
    · rw [List.mem_singleton] at hc
      rw [hc]; exact digitChar_isDigit n
    · rw [List.mem_append, List.mem_singleton] at hc
      rcases hc with h | h
      · exact ih _ c h
      · rw [h]; exact digitChar_isDigit n

theorem natDigits_ne_nil (fuel n : Nat) : natDigits (fuel + 1) n ≠ [] := by
  rw [natDigits]
  split <;> simp

theorem showNat_isDigit (n : Nat) : ∀ c ∈ showNat n, c.isDigit = true :=
  natDigits_isDigit _ _

theorem showNat_ne_nil (n : Nat) : showNat n ≠ [] := natDigits_ne_nil _ _

theorem isFloatChar_of_isDigit (c : Char) (h : c.isDigit = true) : isFloatChar c = true := by
  simp [isFloatChar, h]

theorem isDigit_false_of_isSpaceChar (c : Char) (h : isSpaceChar c = true) :
    c.isDigit = false := by
  simp only [isSpaceChar, Bool.or_eq_true, beq_iff_eq] at h
  rcases h with ((((h | h) | h) | h) | h) | h <;> subst h <;> decide

theorem not_isSpaceChar_of_isDigit (c : Char) (h : c.isDigit = true) :
    isSpaceChar c = false := by
  cases hs : isSpaceChar c with
  | false => rfl
  | true => rw [isDigit_false_of_isSpaceChar c hs] at h; cases h

theorem not_isSpaceChar_of_isFloatChar (c : Char) (h : isFloatChar c = true) :
    isSpaceChar c = false := by
  simp only [isFloatChar, Bool.or_eq_true, beq_iff_eq] at h
  rcases h with ((((h | h) | h) | h) | h) | h
  · exact not_isSpaceChar_of_isDigit c h
  all_goals subst h; decide

theorem stripZeros_subset (l : List Char) : ∀ c ∈ stripZeros l, c ∈ l := by
  intro c hc
  rw [stripZeros, List.mem_reverse] at hc
  have := (List.dropWhile_sublist (fun c => c == '0') (l := l.reverse)).subset hc
  exact List.mem_reverse.mp this

theorem fractionPart_isFloatChar (frac : List Char)
    (h : ∀ c ∈ frac, isFloatChar c = true) : ∀ c ∈ fractionPart frac, isFloatChar c = true := by
  intro c hc
  rw [fractionPart] at hc
  split at hc
  · simp at hc
  · rw [List.mem_cons] at hc
    rcases hc with e | e
    · subst e; decide
    · exact h c e

theorem natDigits_isFloatChar (fuel n : Nat) : ∀ c ∈ natDigits fuel n, isFloatChar c = true :=
  fun c hc => isFloatChar_of_isDigit c (natDigits_isDigit fuel n c hc)

theorem fixedNotation_isFloatChar (m : Nat) (X : Int) :
    ∀ c ∈ fixedNotation m X, isFloatChar c = true := by
  intro c hc
  rw [fixedNotation] at hc
  split at hc
  · rw [List.mem_append] at hc
    rcases hc with h | h
    · exact natDigits_isFloatChar _ _ c (List.mem_of_mem_take h)
    · refine fractionPart_isFloatChar _ ?_ c h
      intro c' hc'
      exact natDigits_isFloatChar _ _ c' (List.mem_of_mem_drop (stripZeros_subset _ c' hc'))
  · rw [List.mem_cons] at hc
    rcases hc with e | h
    · subst e; decide
    · refine fractionPart_isFloatChar _ ?_ c h
      intro c' hc'
      have := stripZeros_subset _ c' hc'
      rw [List.mem_append] at this
      rcases this with h1 | h1
      · rw [List.eq_of_mem_replicate h1]; decide
      · exact natDigits_isFloatChar _ _ c' h1

theorem sciNotation_isFloatChar (m : Nat) (X : Int) :
    ∀ c ∈ sciNotation m X, isFloatChar c = true := by
  intro c hc
  rw [sciNotation] at hc
  simp only [List.mem_append, List.mem_singleton] at hc
  rcases hc with (((h | h) | h) | h) | h
  · exact natDigits_isFloatChar _ _ c (List.mem_of_mem_take h)
  · refine fractionPart_isFloatChar _ ?_ c h
    intro c' hc'
    exact natDigits_isFloatChar _ _ c' (List.mem_of_mem_drop (stripZeros_subset _ c' hc'))
  · subst h; decide
  · subst h; split <;> decide
  · split at h
    · rw [List.mem_cons] at h
      rcases h with e | e
      · subst e; decide
      · exact isFloatChar_of_isDigit c (showNat_isDigit _ c e)
    · exact isFloatChar_of_isDigit c (showNat_isDigit _ c h)

theorem fixedNotation_ne_nil (m : Nat) (X : Int) : fixedNotation m X ≠ [] := by
  rw [fixedNotation]
  split
  · intro h
    have h1 := (List.append_eq_nil.mp h).1
    have h2 : (List.take (X.toNat + 1) (natDigits 6 m)).length = 0 := by rw [h1]; rfl
    rw [List.length_take] at h2
    have h3 : 0 < (natDigits 6 m).length :=
      List.length_pos.mpr (natDigits_ne_nil 5 m)
    omega
  · exact List.cons_ne_nil _ _

theorem sciNotation_ne_nil (m : Nat) (X : Int) : sciNotation m X ≠ [] := by
  rw [sciNotation]
  simp

theorem showParts_shape (neg : Bool) (n d : Nat) (hn : n ≠ 0) :
    ∃ (m : Nat) (X : Int), showParts neg n d
      = (if neg then ['-'] else [])
        ++ (if -4 ≤ X ∧ X < 6 then fixedNotation m X else sciNotation m X) := by
  refine ⟨
    (if (if decExponent n d ≤ 5 then roundDiv (n * 10 ^ (5 - decExponent n d).toNat) d
          else roundDiv n (d * 10 ^ (decExponent n d - 5).toNat)) = 1000000 then 100000
      else (if decExponent n d ≤ 5 then roundDiv (n * 10 ^ (5 - decExponent n d).toNat) d
          else roundDiv n (d * 10 ^ (decExponent n d - 5).toNat))),
    (if (if decExponent n d ≤ 5 then roundDiv (n * 10 ^ (5 - decExponent n d).toNat) d
          else roundDiv n (d * 10 ^ (decExponent n d - 5).toNat)) = 1000000
      then decExponent n d + 1 else decExponent n d), ?_⟩
  rw [showParts, if_neg hn]

theorem showParts_isFloatChar (neg : Bool) (n d : Nat) :
    ∀ c ∈ showParts neg n d, isFloatChar c = true := by
  intro c hc
  by_cases hn : n = 0
  · rw [showParts, if_pos hn, List.mem_singleton] at hc
    subst hc; decide
  · obtain ⟨m, X, hs⟩ := showParts_shape neg n d hn
    rw [hs, List.mem_append] at hc
    rcases hc with h | h
    · split at h
      · rw [List.mem_singleton] at h
        subst h; decide
      · simp at h
    · split at h
      · exact fixedNotation_isFloatChar _ _ c h
      · exact sciNotation_isFloatChar _ _ c h

theorem showParts_ne_nil (neg : Bool) (n d : Nat) : showParts neg n d ≠ [] := by
  by_cases hn : n = 0
  · rw [showParts, if_pos hn]
    exact List.cons_ne_nil _ _
  · obtain ⟨m, X, hs⟩ := showParts_shape neg n d hn
    rw [hs]
    intro h
    have h2 := (List.append_eq_nil.mp h).2
    split at h2
    · exact fixedNotation_ne_nil _ _ h2
    · exact sciNotation_ne_nil _ _ h2

/-- Every character that `<<` writes for a `double` belongs to a floating literal. -/
theorem showDouble_isFloatChar (x : ℚ) : ∀ c ∈ showDouble x, isFloatChar c = true :=
  showParts_isFloatChar _ _ _

theorem showDouble_ne_nil (x : ℚ) : showDouble x ≠ [] := showParts_ne_nil _ _ _

/-! ## Shape of the written text -/

theorem foldl_header (n e : Nat) (file : List Char) :
    (List.range' e n).foldl (fun file id => file ++ [','] ++ showNat id) file
      = file ++ headerText e n := by
  induction n generalizing e file with
  | zero => simp [headerText]
  | succ n ih =>
    rw [List.range'_succ, List.foldl_cons, ih, headerText]
    simp

theorem foldl_cells (T : Nat → Nat → ℚ) (p n e : Nat) (file : List Char) :
    (List.range' e n).foldl (fun file e_id => file ++ [','] ++ showDouble (T p e_id)) file
      = file ++ cellsText T p e n := by
  induction n generalizing e file with
  | zero => simp [cellsText]
  | succ n ih =>
    rw [List.range'_succ, List.foldl_cons, ih, cellsText]
    simp

theorem foldl_rows (T : Nat → Nat → ℚ) (NumElements n p : Nat) (file : List Char) :
    (List.range' p n).foldl
      (fun file p_id =>
        (List.range NumElements).foldl
          (fun file e_id => file ++ [','] ++ showDouble (T p_id e_id)) (file ++ showNat p_id)
          ++ ['\n']) file
      = file ++ rowsText T NumElements p n := by
  induction n generalizing p file with
  | zero => simp [rowsText]
  | succ n ih =>
    rw [List.range'_succ, List.foldl_cons, ih, rowsText, List.range_eq_range', foldl_cells]
    simp

/-- The written file: header, newline, rows. -/
theorem writeLookUpTable_eq (s : State) :
    writeLookUpTable s
      = ['F', '/', 'E'] ++ headerText 0 s.NumElements
        ++ '\n' :: rowsText s.lookUpTable s.NumElements 0 s.NumPatches := by
  simp only [writeLookUpTable]
  rw [List.range_eq_range' (n := s.NumPatches), foldl_rows,
    List.range_eq_range' (n := s.NumElements), foldl_header]
  simp

theorem headerText_no_newline (e n : Nat) : ∀ c ∈ headerText e n, (c != '\n') = true := by
  induction n generalizing e with
  | zero => intro c hc; simp [headerText] at hc
  | succ n ih =>
    intro c hc
    rw [headerText, List.mem_append, List.mem_cons] at hc
    rcases hc with (h | h) | h
    · subst h; decide
    · have hd := showNat_isDigit e c h
      have hs := not_isSpaceChar_of_isDigit c hd
      cases hc' : (c != '\n') with
      | true => rfl
      | false =>
        have : c = '\n' := by simpa using hc'
        subst this
        revert hs
        decide
    · exact ih _ c h

/-! ## Reading the text back -/

theorem getline_written (s : State) :
    getline { buf := writeLookUpTable s, fail := false }
      = { buf := rowsText s.lookUpTable s.NumElements 0 s.NumPatches, fail := false } := by
  rw [writeLookUpTable_eq]
  simp only [getline]
  have hpre : ∀ c ∈ ['F', '/', 'E'] ++ headerText 0 s.NumElements, (c != '\n') = true := by
    intro c hc
    rw [List.mem_append] at hc
    rcases hc with h | h
    · simp only [List.mem_cons, List.mem_singleton, List.not_mem_nil, or_false] at h
      rcases h with h | h | h <;> subst h <;> decide
    · exact headerText_no_newline _ _ c h
  rw [List.dropWhile_append_of_pos hpre]
  simp

theorem readChar_comma (rest : List Char) :
    readChar { buf := ',' :: rest, fail := false } = { buf := rest, fail := false } := by
  simp [readChar, List.dropWhile, isSpaceChar]

theorem takeWhile_token {p : Char → Bool} (tok rest : List Char) (c : Char)
    (h1 : ∀ a ∈ tok, p a = true) (h2 : p c = false) :
    (tok ++ c :: rest).takeWhile p = tok ∧ (tok ++ c :: rest).dropWhile p = c :: rest := by
  rw [List.takeWhile_append_of_pos h1, List.dropWhile_append_of_pos h1,
    List.takeWhile_cons_of_neg (by simp [h2]), List.dropWhile_cons_of_neg (by simp [h2])]
  simp

theorem dropWhile_space_token (sp tok rest : List Char)
    (h1 : ∀ a ∈ sp, isSpaceChar a = true) (h2 : tok ≠ [])
    (h3 : ∀ a ∈ tok, isSpaceChar a = false) :
    (sp ++ (tok ++ rest)).dropWhile isSpaceChar = tok ++ rest := by
  rw [List.dropWhile_append_of_pos h1]
  cases tok with
  | nil => exact absurd rfl h2
  | cons a l =>
    have := h3 a (List.mem_cons_self _ _)
    rw [List.cons_append, List.dropWhile_cons_of_neg (by simp [this])]

/-- Reading a `double` that `<<` wrote, followed by a character outside a literal. -/
theorem readDouble_written (x v : ℚ) (c : Char) (rest : List Char)
    (hc : isFloatChar c = false) (hv : parseNumeral (showDouble x) = some v) :
    readDouble { buf := showDouble x ++ c :: rest, fail := false }
      = (v, { buf := c :: rest, fail := false }) := by
  have hdrop := dropWhile_space_token [] (showDouble x) (c :: rest)
    (by intro a ha; simp at ha) (showDouble_ne_nil x)
    (fun a ha => not_isSpaceChar_of_isFloatChar a (showDouble_isFloatChar x a ha))
  rw [List.nil_append] at hdrop
  obtain ⟨ht, hd⟩ := takeWhile_token (p := isFloatChar) (showDouble x) rest c
    (showDouble_isFloatChar x) hc
  simp only [readDouble, Bool.false_eq_true, if_false, hdrop, ht, hd, hv]

/-- Reading the patch id that `<<` wrote, after white space and before a non-digit. -/
theorem readInt_written (sp : List Char) (p : Nat) (c : Char) (rest : List Char)
    (hsp : ∀ a ∈ sp, isSpaceChar a = true) (hc : c.isDigit = false) :
    (readInt { buf := sp ++ (showNat p ++ c :: rest), fail := false }).2
      = { buf := c :: rest, fail := false } := by
  have hdrop := dropWhile_space_token sp (showNat p) (c :: rest) hsp (showNat_ne_nil p)
    (fun a ha => not_isSpaceChar_of_isDigit a (showNat_isDigit p a ha))
  obtain ⟨ht, hd⟩ := takeWhile_token (p := Char.isDigit) (showNat p) rest c
    (showNat_isDigit p) hc
  have hhead : ∃ a l, showNat p = a :: l ∧ a.isDigit = true := by
    cases h : showNat p with
    | nil => exact absurd h (showNat_ne_nil p)
    | cons a l => exact ⟨a, l, rfl, showNat_isDigit p a (by rw [h]; exact List.mem_cons_self _ _)⟩
  obtain ⟨a, l, hal, ha⟩ := hhead
  have hminus : a ≠ '-' := by
    intro e; subst e; revert ha; decide
  have hplus : a ≠ '+' := by
    intro e; subst e; revert ha; decide
  have hsign : ((showNat p ++ c :: rest).head? == some '-'
      || (showNat p ++ c :: rest).head? == some '+') = false := by
    rw [hal]
    simp [hminus, hplus]
  have hne : (showNat p).isEmpty = false := by
    rw [hal]; rfl
  simp only [readInt, Bool.false_eq_true, if_false, hdrop, hsign, ht, hd, hne]

theorem cellsText_head (T : Nat → Nat → ℚ) (p e n : Nat) (c : Char) (rest : List Char)
    (hc : isFloatChar c = false) :
    ∃ c' rest', cellsText T p e n ++ c :: rest = c' :: rest' ∧ isFloatChar c' = false := by
  cases n with
  | zero => exact ⟨c, rest, rfl, hc⟩
  | succ n => exact ⟨',', _, rfl, by decide⟩

/-- The inner loop of `loadLookUpTable` on the cells that were written for row `p`. -/
theorem loadCell_written (T V : Nat → Nat → ℚ) (p n e : Nat) (tbl : Nat → Nat → ℚ)
    (c : Char) (rest : List Char) (hc : isFloatChar c = false)
    (hV : ∀ e', e ≤ e' → e' < e + n → parseNumeral (showDouble (T p e')) = some (V p e')) :
    ((List.range' e n).foldl (loadCell p)
        (tbl, { buf := cellsText T p e n ++ c :: rest, fail := false })).2
      = { buf := c :: rest, fail := false } ∧
    (∀ e', e ≤ e' → e' < e + n →
      ((List.range' e n).foldl (loadCell p)
        (tbl, { buf := cellsText T p e n ++ c :: rest, fail := false })).1 p e' = V p e') ∧
    (∀ p' e', (p' ≠ p ∨ e' < e ∨ e + n ≤ e') →
      ((List.range' e n).foldl (loadCell p)
        (tbl, { buf := cellsText T p e n ++ c :: rest, fail := false })).1 p' e' = tbl p' e') := by
  induction n generalizing e tbl with
  | zero =>
    refine ⟨rfl, ?_, ?_⟩
    · intro e' h1 h2; omega
    · intro p' e' _; rfl
  | succ n ih =>
    obtain ⟨c', rest', hnext, hc'⟩ := cellsText_head T p (e + 1) n c rest hc
    have hx := hV e le_rfl (by omega)
    have hstep : loadCell p
        (tbl, { buf := cellsText T p e (n + 1) ++ c :: rest, fail := false }) e
        = (Function.update tbl p (Function.update (tbl p) e (V p e)),
            { buf := cellsText T p (e + 1) n ++ c :: rest, fail := false }) := by
      have hbuf : cellsText T p e (n + 1) ++ c :: rest
          = ',' :: (showDouble (T p e) ++ c' :: rest') := by
        rw [cellsText, ← hnext]
        simp
      simp only [loadCell]
      rw [hbuf, readChar_comma, readDouble_written (T p e) (V p e) c' rest' hc' hx, hnext]
    rw [List.range'_succ, List.foldl_cons, hstep]
    obtain ⟨i1, i2, i3⟩ := ih (e + 1) (Function.update tbl p (Function.update (tbl p) e (V p e)))
      (fun e' h1 h2 => hV e' (by omega) (by omega))
    refine ⟨i1, ?_, ?_⟩
    · intro e' h1 h2
      by_cases he : e' = e
      · subst he
        rw [i3 p e' (Or.inr (Or.inl (by omega)))]
        simp
      · exact i2 e' (by omega) (by omega)
    · intro p' e' h
      have h' : p' ≠ p ∨ e' < e + 1 ∨ e + 1 + n ≤ e' := by omega
      rw [i3 p' e' h']
      by_cases hp : p' = p
      · subst hp
        have he : e' ≠ e := by omega
        simp [Function.update_noteq he]
      · rw [Function.update_noteq hp]

theorem rowsText_succ_head (T : Nat → Nat → ℚ) (NumElements p n : Nat) :
    ∃ c rest, cellsText T p 0 NumElements ++ '\n' :: rowsText T NumElements (p + 1) n
      = c :: rest ∧ c.isDigit = false := by
  obtain ⟨c, rest, h, hc⟩ := cellsText_head T p 0 NumElements '\n'
    (rowsText T NumElements (p + 1) n) (by decide)
  refine ⟨c, rest, h, ?_⟩
  cases hd : c.isDigit with
  | false => rfl
  | true => rw [isFloatChar_of_isDigit c hd] at hc; cases hc

/-- The outer loop of `loadLookUpTable` on the rows that were written. -/
theorem loadRow_written (T V : Nat → Nat → ℚ) (NumElements n p : Nat) (tbl : Nat → Nat → ℚ)
    (sp : List Char) (hsp : ∀ a ∈ sp, isSpaceChar a = true)
    (hV : ∀ p' e', p ≤ p' → p' < p + n → e' < NumElements →
      parseNumeral (showDouble (T p' e')) = some (V p' e')) :
    (∀ p' e', p ≤ p' → p' < p + n → e' < NumElements →
      ((List.range' p n).foldl (loadRow NumElements)
        (tbl, { buf := sp ++ rowsText T NumElements p n, fail := false })).1 p' e' = V p' e') ∧
    (∀ p' e', (p' < p ∨ p + n ≤ p' ∨ NumElements ≤ e') →
      ((List.range' p n).foldl (loadRow NumElements)
        (tbl, { buf := sp ++ rowsText T NumElements p n, fail := false })).1 p' e'
        = tbl p' e') := by
  induction n generalizing p tbl sp with
  | zero =>
    refine ⟨?_, ?_⟩
    · intro p' e' h1 h2; omega
    · intro p' e' _; rfl
  | succ n ih =>
    obtain ⟨c, rest, hnext, hc⟩ := rowsText_succ_head T NumElements p n
    obtain ⟨r1, r2, r3⟩ := loadCell_written T V p NumElements 0 tbl '\n'
      (rowsText T NumElements (p + 1) n) (by decide)
      (fun e' _ h2 => hV p e' le_rfl (by omega) (by omega))
    have hstep : loadRow NumElements
        (tbl, { buf := sp ++ rowsText T NumElements p (n + 1), fail := false }) p
        = (List.range' 0 NumElements).foldl (loadCell p)
            (tbl, { buf := cellsText T p 0 NumElements
              ++ '\n' :: rowsText T NumElements (p + 1) n, fail := false }) := by
      have hbuf : sp ++ rowsText T NumElements p (n + 1)
          = sp ++ (showNat p ++ c :: rest) := by
        rw [rowsText, ← hnext]
        simp
      simp only [loadRow]
      rw [hbuf, readInt_written sp p c rest hsp hc, hnext, List.range_eq_range']
    rw [List.range'_succ, List.foldl_cons, hstep]
    generalize hres : (List.range' 0 NumElements).foldl (loadCell p)
      (tbl, { buf := cellsText T p 0 NumElements
        ++ '\n' :: rowsText T NumElements (p + 1) n, fail := false }) = res at r1 r2 r3
    have hres' : res = (res.1, (⟨['\n'] ++ rowsText T NumElements (p + 1) n, false⟩ : IStream)) := by
      have h0 : res = (res.1, res.2) := rfl
      rw [r1] at h0
      exact h0
    rw [hres']
    obtain ⟨i1, i2⟩ := ih (p + 1) res.1 ['\n']
      (by intro a ha; rw [List.mem_singleton] at ha; subst ha; decide)
      (fun p' e' h1 h2 h3 => hV p' e' (by omega) (by omega) h3)
    refine ⟨?_, ?_⟩
    · intro p' e' h1 h2 h3
      by_cases hp : p' = p
      · subst hp
        rw [i2 p' e' (Or.inl (by omega))]
        exact r2 e' (Nat.zero_le _) (by omega)
      · exact i1 p' e' (by omega) (by omega) h3
    · intro p' e' h
      have h' : p' < p + 1 ∨ p + 1 + n ≤ p' ∨ NumElements ≤ e' := by omega
      rw [i2 p' e' h']
      apply r3
      omega

/-- Reading back what was written: every cell is the number denoted by the numeral that
`<<` printed for it. -/
theorem loadLookUpTable_written (s s' : State) (V : Nat → Nat → ℚ)
    (hP : s'.NumPatches = s.NumPatches) (hE : s'.NumElements = s.NumElements)
    (hV : ∀ p e, p < s.NumPatches → e < s.NumElements →
      parseNumeral (showDouble (s.lookUpTable p e)) = some (V p e))
    (p e : Nat) (hp : p < s.NumPatches) (he : e < s.NumElements) :
    (loadLookUpTable (writeLookUpTable s) s').lookUpTable p e = V p e := by
  simp only [loadLookUpTable]
  rw [getline_written, hP, hE, List.range_eq_range']
  have h := (loadRow_written s.lookUpTable V s.NumElements s.NumPatches 0 s'.lookUpTable []
    (by intro a ha; simp at ha)
    (fun p' e' _ h2 h3 => hV p' e' (by omega) h3)).1 p e (Nat.zero_le _) (by omega) he
  rw [List.nil_append] at h
  exact h

/-- C10 (amended): for a table `T` of size `NumPatches x NumElements` in which every
cell is denoted exactly by the numeral that the stream prints for it (default `double`
output: six significant digits), writing `T` in the text form of
`generateFormFactorTable` and reading that text back with `loadLookUpTable` for the same
`NumPatches` and `NumElements` yields a table equal to `T` in every cell. -/
theorem loadLookUpTable_roundtrip (s s' : State)
    (hP : s'.NumPatches = s.NumPatches) (hE : s'.NumElements = s.NumElements)
    (hT : ∀ p e, p < s.NumPatches → e < s.NumElements →
      parseNumeral (showDouble (s.lookUpTable p e)) = some (s.lookUpTable p e))
    (p e : Nat) (hp : p < s.NumPatches) (he : e < s.NumElements) :
    (loadLookUpTable (writeLookUpTable s) s').lookUpTable p e = s.lookUpTable p e :=
  loadLookUpTable_written s s' s.lookUpTable hP hE hT p e hp he

theorem showDouble_zero : showDouble 0 = ['0'] := by
  simp [showDouble, showParts]

theorem parseNumeral_showDouble_zero : parseNumeral (showDouble 0) = some 0 := by
  rw [showDouble_zero]
  have h : parseDecimal ['0'] = some (false, 0, 0) := by decide
  simp [parseNumeral, h, decimalValue]

theorem parseNumeral_showDouble_half : parseNumeral (showDouble (1 / 2)) = some (1 / 2) := by
  have h1 : showDouble (1 / 2) = showParts false 1 2 := by
    norm_num [showDouble]
  have h2 : showParts false 1 2 = ['0', '.', '5'] := by decide
  have h3 : parseDecimal ['0', '.', '5'] = some (false, 5, -1) := by decide
  rw [h1, h2, parseNumeral, h3]
  norm_num [decimalValue]

theorem parseNumeral_showDouble_quarter : parseNumeral (showDouble (1 / 4)) = some (1 / 4) := by
  have h1 : showDouble (1 / 4) = showParts false 1 4 := by
    norm_num [showDouble]
  have h2 : showParts false 1 4 = ['0', '.', '2', '5'] := by decide
  have h3 : parseDecimal ['0', '.', '2', '5'] = some (false, 25, -2) := by decide
  rw [h1, h2, parseNumeral, h3]
  norm_num [decimalValue]

theorem parseNumeral_showDouble_small :
    parseNumeral (showDouble (3 / 100000)) = some (3 / 100000) := by
  have h1 : showDouble (3 / 100000) = showParts false 3 100000 := by
    norm_num [showDouble]
  have h2 : showParts false 3 100000 = ['3', 'e', '-', '0', '5'] := by decide
  have h3 : parseDecimal ['3', 'e', '-', '0', '5'] = some (false, 3, -5) := by decide
  rw [h1, h2, parseNumeral, h3]
  norm_num [decimalValue]

/-- Witness for C10 (amended): the `2 x 2` table of `shortDecimalState`, written as
`F/E,0,1 / 0,0,0.5 / 1,0.25,3e-05`, read back into a table holding 7 everywhere. -/
theorem loadLookUpTable_roundtrip_witness :
    (loadLookUpTable (writeLookUpTable shortDecimalState)
      { shortDecimalState with lookUpTable := fun _ _ => 7 }).lookUpTable 1 1 = 3 / 100000 := by
  have h := loadLookUpTable_roundtrip shortDecimalState
    { shortDecimalState with lookUpTable := fun _ _ => 7 } rfl rfl
    (by
      intro p e hp he
      have hp' : p < 2 := hp
      have he' : e < 2 := he
      interval_cases p <;> interval_cases e
      · exact parseNumeral_showDouble_zero
      · exact parseNumeral_showDouble_half
      · exact parseNumeral_showDouble_quarter
      · exact parseNumeral_showDouble_small)
    1 1 (by decide) (by decide)
  rw [h]
  simp [shortDecimalState]

theorem parseNumeral_showDouble_2048 :
    showDouble (1 / 2048) = ['0', '.', '0', '0', '0', '4', '8', '8', '2', '8', '1'] ∧
    parseNumeral (showDouble (1 / 2048)) = some (488281 / 1000000000) := by
  have h1 : showDouble (1 / 2048) = showParts false 1 2048 := by
    norm_num [showDouble]
  have h2 : showParts false 1 2048
      = ['0', '.', '0', '0', '0', '4', '8', '8', '2', '8', '1'] := by decide
  have h3 : parseDecimal ['0', '.', '0', '0', '0', '4', '8', '8', '2', '8', '1']
      = some (false, 488281, -9) := by decide
  refine ⟨by rw [h1, h2], ?_⟩
  rw [h1, h2, parseNumeral, h3]
  norm_num [decimalValue]

/-- C10 as stated fails: the `1 x 1` table with the cell `1/2048 = 0.00048828125` is
written as `F/E,0 / 0,0.000488281` (six significant digits) and read back as
`488281/1000000000`, which is not `1/2048`. -/
theorem loadLookUpTable_roundtrip_loses_digits :
    (oneCellState (1 / 2048)).lookUpTable 0 0 = 1 / 2048 ∧
    writeLookUpTable (oneCellState (1 / 2048))
      = ['F', '/', 'E', ',', '0', '\n',
         '0', ',', '0', '.', '0', '0', '0', '4', '8', '8', '2', '8', '1', '\n'] ∧
    (loadLookUpTable (writeLookUpTable (oneCellState (1 / 2048)))
      (oneCellState 0)).lookUpTable 0 0 = 488281 / 1000000000 ∧
    (loadLookUpTable (writeLookUpTable (oneCellState (1 / 2048)))
      (oneCellState 0)).lookUpTable 0 0 ≠ (oneCellState (1 / 2048)).lookUpTable 0 0 := by
  have hload : (loadLookUpTable (writeLookUpTable (oneCellState (1 / 2048)))
      (oneCellState 0)).lookUpTable 0 0 = 488281 / 1000000000 :=
    loadLookUpTable_written (oneCellState (1 / 2048)) (oneCellState 0)
      (fun _ _ => 488281 / 1000000000) rfl rfl
      (fun p e _ _ => parseNumeral_showDouble_2048.2) 0 0 (by decide) (by decide)
  have htext : writeLookUpTable (oneCellState (1 / 2048))
      = ['F', '/', 'E', ',', '0', '\n',
         '0', ',', '0', '.', '0', '0', '0', '4', '8', '8', '2', '8', '1', '\n'] := by
    rw [writeLookUpTable_eq]
    show ['F', '/', 'E'] ++ headerText 0 1 ++ '\n' :: rowsText (fun _ _ => 1 / 2048) 1 0 1 = _
    simp only [headerText, rowsText, cellsText, parseNumeral_showDouble_2048.1]
    decide
  refine ⟨rfl, htext, hload, ?_⟩
  rw [hload]
  show (488281 / 1000000000 : ℚ) ≠ 1 / 2048
  norm_num

/-! ## What one step leaves unchanged -/

theorem shootElement_patch_frame (i : Nat) (s : State) (e p : Nat) :
    ∃ u, (shootElement i s e).PatchArray p = { s.PatchArray p with unshot := u } := by
  by_cases h : p = (s.ElementArray e).patch
  · subst h
    simp only [shootElement, Function.update_same]
    exact ⟨_, rfl⟩
  · exact ⟨(s.PatchArray p).unshot, by simp [shootElement, Function.update_noteq h]⟩

theorem shootElement_element_frame (i : Nat) (s : State) (e e' : Nat) :
    ∃ r, (shootElement i s e).ElementArray e' = { s.ElementArray e' with radiosity := r } := by
  by_cases h : e' = e
  · subst h
    simp only [shootElement, Function.update_same]
    exact ⟨_, rfl⟩
  · exact ⟨(s.ElementArray e').radiosity, by simp [shootElement, Function.update_noteq h]⟩

theorem shootPrefix_patch_frame (i : Nat) (s : State) (k p : Nat) :
    ∃ u, (shootPrefix i s k).PatchArray p = { s.PatchArray p with unshot := u } := by
  induction k with
  | zero => exact ⟨(s.PatchArray p).unshot, rfl⟩
  | succ k ih =>
    obtain ⟨u, hu⟩ := ih
    obtain ⟨u', hu'⟩ := shootElement_patch_frame i (shootPrefix i s k) k p
    exact ⟨u', by rw [shootPrefix_succ, hu', hu]⟩

theorem shootPrefix_element_frame (i : Nat) (s : State) (k e : Nat) :
    ∃ r, (shootPrefix i s k).ElementArray e = { s.ElementArray e with radiosity := r } := by
  induction k with
  | zero => exact ⟨(s.ElementArray e).radiosity, rfl⟩
  | succ k ih =>
    obtain ⟨r, hr⟩ := ih
    obtain ⟨r', hr'⟩ := shootElement_element_frame i (shootPrefix i s k) k e
    exact ⟨r', by rw [shootPrefix_succ, hr', hr]⟩

theorem shootPrefix_rest (i : Nat) (s : State) (k : Nat) :
    (shootPrefix i s k).VertexArray = s.VertexArray ∧
    (shootPrefix i s k).VertexColors = s.VertexColors ∧
    (shootPrefix i s k).NumVertices = s.NumVertices ∧
    (shootPrefix i s k).showAmbient = s.showAmbient := by
  induction k with
  | zero => exact ⟨rfl, rfl, rfl, rfl⟩
  | succ k ih => rw [shootPrefix_succ]; exact ih

theorem progressiveRefinement_patch_frame (s : State) (p : Nat) :
    ∃ u, (progressiveRefinement s).PatchArray p = { s.PatchArray p with unshot := u } := by
  rw [progressiveRefinement_PatchArray]
  obtain ⟨u, hu⟩ := shootPrefix_patch_frame (pqTop s.unshotPatchQueue).id s s.NumElements p
  by_cases h : p = (pqTop s.unshotPatchQueue).id
  · subst h
    refine ⟨⟨0, 0, 0⟩, ?_⟩
    rw [Function.update_same, hu]
  · exact ⟨u, by rw [Function.update_noteq h, hu]⟩

theorem progressiveRefinement_element_frame (s : State) (e : Nat) :
    ∃ r, (progressiveRefinement s).ElementArray e = { s.ElementArray e with radiosity := r } := by
  rw [progressiveRefinement_ElementArray]
  exact shootPrefix_element_frame _ s _ e

theorem progressiveRefinement_rest (s : State) :
    (progressiveRefinement s).lookUpTable = s.lookUpTable ∧
    (progressiveRefinement s).VertexArray = s.VertexArray ∧
    (progressiveRefinement s).VertexColors = s.VertexColors ∧
    (progressiveRefinement s).NumVertices = s.NumVertices ∧
    (progressiveRefinement s).NumElements = s.NumElements := by
  refine ⟨?_, ?_, ?_, ?_, ?_⟩ <;>
  simp only [progressiveRefinement, updatePriorityQueue, resetUnshot, updateAmbient,
    shootLoop_eq, shootPrefix_currentPatchID_irrel, shootPrefix_lookUpTable,
    shootPrefix_NumElements, (shootPrefix_rest _ _ _).1, (shootPrefix_rest _ _ _).2.1,
    (shootPrefix_rest _ _ _).2.2.1]

/-- C15: one call of `progressiveRefinement` leaves every cell of the form-factor table,
every patch's area, reflectance, emissivity, centre and normal (and its vertex indices,
id, radiosity and element range), every element's area and vertex indices (and its id,
centre and owner), every vertex position and the three counts as they were. -/
theorem progressiveRefinement_frame (s : State) :
    (progressiveRefinement s).lookUpTable = s.lookUpTable ∧
    (∀ p, ((progressiveRefinement s).PatchArray p).area = (s.PatchArray p).area ∧
      ((progressiveRefinement s).PatchArray p).reflectance = (s.PatchArray p).reflectance ∧
      ((progressiveRefinement s).PatchArray p).emissivity = (s.PatchArray p).emissivity ∧
      ((progressiveRefinement s).PatchArray p).center = (s.PatchArray p).center ∧
      ((progressiveRefinement s).PatchArray p).normal = (s.PatchArray p).normal ∧
      ((progressiveRefinement s).PatchArray p).vertices = (s.PatchArray p).vertices ∧
      ((progressiveRefinement s).PatchArray p).id = (s.PatchArray p).id ∧
      ((progressiveRefinement s).PatchArray p).radiosity = (s.PatchArray p).radiosity ∧
      ((progressiveRefinement s).PatchArray p).numelements = (s.PatchArray p).numelements ∧
      ((progressiveRefinement s).PatchArray p).startelement = (s.PatchArray p).startelement) ∧
    (∀ e, ((progressiveRefinement s).ElementArray e).area = (s.ElementArray e).area ∧
      ((progressiveRefinement s).ElementArray e).vertices = (s.ElementArray e).vertices ∧
      ((progressiveRefinement s).ElementArray e).id = (s.ElementArray e).id ∧
      ((progressiveRefinement s).ElementArray e).center = (s.ElementArray e).center ∧
      ((progressiveRefinement s).ElementArray e).patch = (s.ElementArray e).patch) ∧
    (progressiveRefinement s).VertexArray = s.VertexArray ∧
    (progressiveRefinement s).NumVertices = s.NumVertices ∧
    (progressiveRefinement s).NumPatches = s.NumPatches ∧
    (progressiveRefinement s).NumElements = s.NumElements := by
  obtain ⟨h1, h2, _, h4, h5⟩ := progressiveRefinement_rest s
  refine ⟨h1, ?_, ?_, h2, h4, progressiveRefinement_NumPatches s, h5⟩
  · intro p
    obtain ⟨u, hu⟩ := progressiveRefinement_patch_frame s p
    rw [hu]
    exact ⟨rfl, rfl, rfl, rfl, rfl, rfl, rfl, rfl, rfl, rfl⟩
  · intro e
    obtain ⟨r, hr⟩ := progressiveRefinement_element_frame s e
    rw [hr]
    exact ⟨rfl, rfl, rfl, rfl, rfl⟩

/-! ## `loadData` performs no validation -/

theorem readPatches_reflectance (sqrt : ℚ → ℚ) (scene : SceneData) (s : State) (p : Nat)
    (hp : p < scene.NumPatches) :
    ((readPatches sqrt scene s).PatchArray p).reflectance = (scene.patches p).reflectance ∧
    ((readPatches sqrt scene s).PatchArray p).emissivity = (scene.patches p).emissivity ∧
    ((readPatches sqrt scene s).PatchArray p).vertices = (scene.patches p).vertices ∧
    ((readPatches sqrt scene s).PatchArray p).id = p := by
  rw [readPatches, readPatchesUpTo_patch sqrt scene s _ p hp, readPatchesUpTo_succ]
  simp [readPatch]

theorem loadData_returns_zero (sqrt : ℚ → ℚ) (scene : SceneData) (s : State) :
    (loadData sqrt scene s).1 = 0 := rfl

theorem readPatchesUpTo_NumPatches (sqrt : ℚ → ℚ) (scene : SceneData) (s : State) (k : Nat) :
    (readPatchesUpTo sqrt scene s k).NumPatches = scene.NumPatches := by
  induction k with
  | zero => rfl
  | succ k ih => rw [readPatchesUpTo_succ]; simpa [readPatch] using ih

theorem loadData_NumPatches (sqrt : ℚ → ℚ) (scene : SceneData) (s : State) :
    (loadData sqrt scene s).2.NumPatches = scene.NumPatches :=
  readPatchesUpTo_NumPatches sqrt scene s scene.NumPatches

/-! ## Element ranges after `loadData` -/

theorem loadData_NumElements (sqrt : ℚ → ℚ) (scene : SceneData) (s : State) :
    (loadData sqrt scene s).2.NumElements
      = (readPatchesUpTo sqrt scene s scene.NumPatches).NumElements := rfl

theorem loadData_numelements (sqrt : ℚ → ℚ) (scene : SceneData) (s : State) (p : Nat)
    (hp : p < scene.NumPatches) :
    ((loadData sqrt scene s).2.PatchArray p).numelements
      = (scene.patches p).numelements + 2 := by
  rw [loadData_PatchArray, readPatches_numelements sqrt scene s p hp]

/-- Sums of the range sizes, written with the stored counts. -/
theorem sum_range_sizes (sqrt : ℚ → ℚ) (scene : SceneData) (s : State) (k : Nat)
    (hk : k ≤ scene.NumPatches) :
    (readPatchesUpTo sqrt scene s k).NumElements
      = ∑ q ∈ Finset.range k,
          (((loadData sqrt scene s).2.PatchArray q).numelements ^ 2).toNat := by
  rw [readPatchesUpTo_NumElements]
  apply Finset.sum_congr rfl
  intro q hq
  rw [loadData_numelements sqrt scene s q (by have := Finset.mem_range.mp hq; omega), pow_two]

/-- A number below a sum of sizes lies in exactly one of the consecutive ranges. -/
theorem exists_range_of_lt_sum (f : Nat → Nat) (n e : Nat)
    (h : e < ∑ q ∈ Finset.range n, f q) :
    ∃ p, p < n ∧ ∑ q ∈ Finset.range p, f q ≤ e ∧ e < ∑ q ∈ Finset.range p, f q + f p := by
  induction n with
  | zero => simp at h
  | succ n ih =>
    by_cases hlt : e < ∑ q ∈ Finset.range n, f q
    · obtain ⟨p, hp, h1, h2⟩ := ih hlt
      exact ⟨p, by omega, h1, h2⟩
    · rw [Finset.sum_range_succ] at h
      exact ⟨n, by omega, by omega, h⟩

theorem sum_range_mono (f : Nat → Nat) (p p' : Nat) (h : p < p') :
    ∑ q ∈ Finset.range p, f q + f p ≤ ∑ q ∈ Finset.range p', f q := by
  rw [← Finset.sum_range_succ]
  exact Finset.sum_le_sum_of_subset (Finset.range_subset.mpr (by omega))

/-- C14: after `loadData` on a scene whose patches all have a non-negative element
count per side, the element ranges `[startelement_p, startelement_p + numelements_p^2)`
follow each other in patch order from 0 up to `NumElements`, every element index below
`NumElements` lies in the range of exactly one patch, and the owner stored in the
element is that patch. -/
theorem loadData_element_ranges (sqrt : ℚ → ℚ) (scene : SceneData) (s : State)
    (hnn : ∀ p, p < (loadData sqrt scene s).2.NumPatches →
      0 ≤ ((loadData sqrt scene s).2.PatchArray p).numelements) :
    (∀ p, p < (loadData sqrt scene s).2.NumPatches →
      ((loadData sqrt scene s).2.PatchArray p).startelement
        = ∑ q ∈ Finset.range p,
            (((loadData sqrt scene s).2.PatchArray q).numelements ^ 2).toNat) ∧
    (loadData sqrt scene s).2.NumElements
      = ∑ q ∈ Finset.range (loadData sqrt scene s).2.NumPatches,
          (((loadData sqrt scene s).2.PatchArray q).numelements ^ 2).toNat ∧
    (∀ p e, p < (loadData sqrt scene s).2.NumPatches →
      ((loadData sqrt scene s).2.PatchArray p).startelement ≤ e →
      e < ((loadData sqrt scene s).2.PatchArray p).startelement
          + (((loadData sqrt scene s).2.PatchArray p).numelements ^ 2).toNat →
      ((loadData sqrt scene s).2.ElementArray e).patch = p) ∧
    (∀ e, e < (loadData sqrt scene s).2.NumElements →
      ∃ p, p < (loadData sqrt scene s).2.NumPatches ∧
        ((loadData sqrt scene s).2.PatchArray p).startelement ≤ e ∧
        e < ((loadData sqrt scene s).2.PatchArray p).startelement
            + (((loadData sqrt scene s).2.PatchArray p).numelements ^ 2).toNat) ∧
    (∀ p p' e, p < (loadData sqrt scene s).2.NumPatches →
      p' < (loadData sqrt scene s).2.NumPatches →
      ((loadData sqrt scene s).2.PatchArray p).startelement ≤ e →
      e < ((loadData sqrt scene s).2.PatchArray p).startelement
          + (((loadData sqrt scene s).2.PatchArray p).numelements ^ 2).toNat →
      ((loadData sqrt scene s).2.PatchArray p').startelement ≤ e →
      e < ((loadData sqrt scene s).2.PatchArray p').startelement
          + (((loadData sqrt scene s).2.PatchArray p').numelements ^ 2).toNat →
      p = p') := by
  rw [loadData_NumPatches] at hnn ⊢
  have hstart : ∀ p, p < scene.NumPatches →
      ((loadData sqrt scene s).2.PatchArray p).startelement
        = ∑ q ∈ Finset.range p,
            (((loadData sqrt scene s).2.PatchArray q).numelements ^ 2).toNat := by
    intro p hp
    have h0 : ((loadData sqrt scene s).2.PatchArray p).startelement
        = (readPatchesUpTo sqrt scene s p).NumElements :=
      readPatches_startelement sqrt scene s p hp
    rw [h0, sum_range_sizes sqrt scene s p (by omega)]
  have hnn' : ∀ q, q < scene.NumPatches → 0 ≤ (scene.patches q).numelements + 2 := by
    intro q hq
    have := hnn q hq
    rwa [loadData_numelements sqrt scene s q hq] at this
  have howner : ∀ p e, p < scene.NumPatches →
      ((loadData sqrt scene s).2.PatchArray p).startelement ≤ e →
      e < ((loadData sqrt scene s).2.PatchArray p).startelement
          + (((loadData sqrt scene s).2.PatchArray p).numelements ^ 2).toNat →
      ((loadData sqrt scene s).2.ElementArray e).patch = p := by
    intro p e hp h1 h2
    have hel : (formPatches sqrt scene s p).elnum
        = ((loadData sqrt scene s).2.PatchArray p).startelement := by
      rw [loadData_PatchArray, readPatches_startelement sqrt scene s p hp,
        formPatches_elnum_eq_startelement sqrt scene s p (by omega)
          (fun q hq => hnn' q (by omega))]
    rw [loadData_numelements sqrt scene s p hp, pow_two,
      toNat_mul_self _ (hnn' p hp)] at h2
    exact ((loadData_patch_grid sqrt scene s p hp).2.2.2 e (by rw [hel]; exact h1)
      (by rw [hel]; exact h2)).1
  refine ⟨hstart, ?_, howner, ?_, ?_⟩
  · rw [loadData_NumElements, sum_range_sizes sqrt scene s _ le_rfl]
  · intro e he
    rw [loadData_NumElements, sum_range_sizes sqrt scene s _ le_rfl] at he
    obtain ⟨p, hp, h1, h2⟩ := exists_range_of_lt_sum _ _ e he
    exact ⟨p, hp, by rw [hstart p hp]; exact h1, by rw [hstart p hp]; exact h2⟩
  · intro p p' e hp hp' h1 h2 h3 h4
    rw [hstart p hp] at h1 h2
    rw [hstart p' hp'] at h3 h4
    rcases Nat.lt_trichotomy p p' with h | h | h
    · have := sum_range_mono
        (fun q => (((loadData sqrt scene s).2.PatchArray q).numelements ^ 2).toNat) p p' h
      simp only at this
      omega
    · exact h
    · have := sum_range_mono
        (fun q => (((loadData sqrt scene s).2.PatchArray q).numelements ^ 2).toNat) p' p h
      simp only at this
      omega

/-- Witness for C14: the one-square scene, whose nine elements belong to patch 0. -/
theorem loadData_element_ranges_witness :
    (loadData Rat.sqrt (oneSquareScene 1) startState).2.NumElements
      = ∑ q ∈ Finset.range (loadData Rat.sqrt (oneSquareScene 1) startState).2.NumPatches,
          (((loadData Rat.sqrt (oneSquareScene 1) startState).2.PatchArray q).numelements
            ^ 2).toNat :=
  (loadData_element_ranges Rat.sqrt (oneSquareScene 1) startState
    (by
      intro p hp
      rw [loadData_NumPatches] at hp
      have hp' : p < 1 := hp
      rw [loadData_numelements _ _ _ p hp]
      have h0 : p = 0 := by omega
      subst h0
      decide)).2.1

/-! ## The vertex grid of `loadData` -/

/-- The inner vertex loop for grid row `j`, when corner 0 of the patch lies below the
counter `vertnum`. -/
theorem formVertex_row_values (patch : Patch) (v1 v2 : Vertex) (g : Forming) (j n : Nat)
    (h0 : patch.vertices 0 < g.vertnum) :
    ∀ i, ((List.range n).foldl (fun g k => formVertex patch v1 v2 g j k) g).VertexArray i
      = if g.vertnum ≤ i ∧ i < g.vertnum + n then
          gridVertex (g.VertexArray (patch.vertices 0)) v1 v2 j (i - g.vertnum)
        else g.VertexArray i := by
  induction n with
  | zero =>
    intro i
    have : ¬ (g.vertnum ≤ i ∧ i < g.vertnum + 0) := by omega
    rw [if_neg this]
    rfl
  | succ n ih =>
    intro i
    rw [List.range_succ, List.foldl_append, List.foldl_cons, List.foldl_nil]
    have hvn := (formVertex_row patch v1 v2 g j n).1
    generalize (List.range n).foldl (fun g k => formVertex patch v1 v2 g j k) g = G at ih hvn ⊢
    show Function.update G.VertexArray G.vertnum
      (gridVertex (G.VertexArray (patch.vertices 0)) v1 v2 j n) i = _
    have hq : G.VertexArray (patch.vertices 0) = g.VertexArray (patch.vertices 0) := by
      rw [ih]
      have : ¬ (g.vertnum ≤ patch.vertices 0 ∧ patch.vertices 0 < g.vertnum + n) := by omega
      rw [if_neg this]
    rw [hvn, hq]
    by_cases hi : i = g.vertnum + n
    · subst hi
      have : g.vertnum ≤ g.vertnum + n ∧ g.vertnum + n < g.vertnum + (n + 1) := by omega
      rw [Function.update_same, if_pos this]
      congr 1
      omega
    · rw [Function.update_noteq hi, ih]
      by_cases hr : g.vertnum ≤ i ∧ i < g.vertnum + n
      · have : g.vertnum ≤ i ∧ i < g.vertnum + (n + 1) := by omega
        rw [if_pos hr, if_pos this]
      · have : ¬ (g.vertnum ≤ i ∧ i < g.vertnum + (n + 1)) := by omega
        rw [if_neg hr, if_neg this]

/-- The vertex loops: `m * w` vertices are written from `vertnum` on, row by row. -/
theorem formVertex_grid_values (patch : Patch) (v1 v2 : Vertex) (g : Forming) (w m : Nat)
    (h0 : patch.vertices 0 < g.vertnum) :
    ∀ i, ((List.range m).foldl (fun g j =>
        (List.range w).foldl (fun g k => formVertex patch v1 v2 g j k) g) g).VertexArray i
      = if g.vertnum ≤ i ∧ i < g.vertnum + m * w then
          gridVertex (g.VertexArray (patch.vertices 0)) v1 v2
            ((i - g.vertnum) / w) ((i - g.vertnum) % w)
        else g.VertexArray i := by
  induction m with
  | zero =>
    intro i
    have : ¬ (g.vertnum ≤ i ∧ i < g.vertnum + 0 * w) := by omega
    rw [if_neg this]
    rfl
  | succ m ih =>
    intro i
    rw [List.range_succ, List.foldl_append, List.foldl_cons, List.foldl_nil]
    have hvn := (formVertex_grid patch v1 v2 g w m).1
    generalize (List.range m).foldl (fun g j =>
      (List.range w).foldl (fun g k => formVertex patch v1 v2 g j k) g) g = G at ih hvn ⊢
    have hq : G.VertexArray (patch.vertices 0) = g.VertexArray (patch.vertices 0) := by
      rw [ih]
      have : ¬ (g.vertnum ≤ patch.vertices 0 ∧ patch.vertices 0 < g.vertnum + m * w) := by
        omega
      rw [if_neg this]
    rw [formVertex_row_values patch v1 v2 G m w (by omega), hvn, hq, ih]
    have hsucc : (m + 1) * w = m * w + w := by ring
    by_cases hnew : g.vertnum + m * w ≤ i ∧ i < g.vertnum + m * w + w
    · have hin : g.vertnum ≤ i ∧ i < g.vertnum + (m + 1) * w := by
        rw [hsucc]; omega
      rw [if_pos hnew, if_pos hin]
      obtain ⟨hd, hm⟩ := div_mod_of_row (i - g.vertnum) m w (by omega) (by omega)
      rw [hd, hm]
      congr 1
      omega
    · rw [if_neg hnew]
      by_cases hold : g.vertnum ≤ i ∧ i < g.vertnum + m * w
      · have hin : g.vertnum ≤ i ∧ i < g.vertnum + (m + 1) * w := by
          rw [hsucc]; omega
        rw [if_pos hold, if_pos hin]
      · have hin : ¬ (g.vertnum ≤ i ∧ i < g.vertnum + (m + 1) * w) := by
          rw [hsucc]; omega
        rw [if_neg hold, if_neg hin]

/-- Effect of one iteration of the second patch loop on the vertex array. -/
theorem formPatch_vertices (PatchArray : Nat → Patch) (g : Forming) (i : Nat)
    (h0 : (PatchArray i).vertices 0 < g.vertnum) :
    ∀ v, (formPatch PatchArray g i).VertexArray v
      = if g.vertnum ≤ v ∧
            v < g.vertnum + ((PatchArray i).numelements + 1).toNat
              * ((PatchArray i).numelements + 1).toNat then
          gridVertex (g.VertexArray ((PatchArray i).vertices 0))
            (gridStep (g.VertexArray ((PatchArray i).vertices 0))
              (g.VertexArray ((PatchArray i).vertices 1)) ((PatchArray i).numelements : ℚ))
            (gridStep (g.VertexArray ((PatchArray i).vertices 0))
              (g.VertexArray ((PatchArray i).vertices 3)) ((PatchArray i).numelements : ℚ))
            ((v - g.vertnum) / ((PatchArray i).numelements + 1).toNat)
            ((v - g.vertnum) % ((PatchArray i).numelements + 1).toNat)
        else g.VertexArray v := by
  intro v
  simp only [formPatch]
  have hgrid := formVertex_grid_values (PatchArray i)
    (gridStep (g.VertexArray ((PatchArray i).vertices 0))
      (g.VertexArray ((PatchArray i).vertices 1)) ((PatchArray i).numelements : ℚ))
    (gridStep (g.VertexArray ((PatchArray i).vertices 0))
      (g.VertexArray ((PatchArray i).vertices 3)) ((PatchArray i).numelements : ℚ))
    g ((PatchArray i).numelements + 1).toNat ((PatchArray i).numelements + 1).toNat h0
  rw [(formElement_grid _ _ _ _ _ _ _).2.2.1]
  exact hgrid v

theorem formVertex_row_stable (patch : Patch) (v1 v2 : Vertex) (g : Forming) (j n i : Nat)
    (hi : i < g.vertnum) :
    ((List.range n).foldl (fun g k => formVertex patch v1 v2 g j k) g).VertexArray i
      = g.VertexArray i := by
  induction n with
  | zero => rfl
  | succ n ih =>
    rw [List.range_succ, List.foldl_append, List.foldl_cons, List.foldl_nil]
    have hvn := (formVertex_row patch v1 v2 g j n).1
    generalize (List.range n).foldl (fun g k => formVertex patch v1 v2 g j k) g = G at ih hvn ⊢
    show Function.update G.VertexArray G.vertnum _ i = _
    rw [Function.update_noteq (by omega), ih]

theorem formVertex_grid_stable (patch : Patch) (v1 v2 : Vertex) (g : Forming) (w m i : Nat)
    (hi : i < g.vertnum) :
    ((List.range m).foldl (fun g j =>
        (List.range w).foldl (fun g k => formVertex patch v1 v2 g j k) g) g).VertexArray i
      = g.VertexArray i := by
  induction m with
  | zero => rfl
  | succ m ih =>
    rw [List.range_succ, List.foldl_append, List.foldl_cons, List.foldl_nil]
    have hvn := (formVertex_grid patch v1 v2 g w m).1
    generalize (List.range m).foldl (fun g j =>
      (List.range w).foldl (fun g k => formVertex patch v1 v2 g j k) g) g = G at ih hvn ⊢
    rw [formVertex_row_stable patch v1 v2 G m w i (by omega), ih]

theorem formPatch_vertex_stable (PatchArray : Nat → Patch) (g : Forming) (i v : Nat)
    (hv : v < g.vertnum) :
    (formPatch PatchArray g i).VertexArray v = g.VertexArray v := by
  simp only [formPatch]
  rw [(formElement_grid _ _ _ _ _ _ _).2.2.1]
  exact formVertex_grid_stable _ _ _ g _ _ v hv

theorem formPatches_vertnum_mono (sqrt : ℚ → ℚ) (scene : SceneData) (s : State) (p k : Nat) :
    (formPatches sqrt scene s p).vertnum ≤ (formPatches sqrt scene s (p + k)).vertnum := by
  induction k with
  | zero => exact le_rfl
  | succ k ih =>
    rw [← add_assoc, formPatches_succ, (formPatch_spec _ _ _).2.1]
    omega

theorem formPatches_vertnum_ge (sqrt : ℚ → ℚ) (scene : SceneData) (s : State) (p : Nat) :
    scene.nverts ≤ (formPatches sqrt scene s p).vertnum := by
  have := formPatches_vertnum_mono sqrt scene s 0 p
  rw [Nat.zero_add] at this
  exact this

/-- Vertices below the counter `vertnum` are never written again. -/
theorem formPatches_vertex_stable (sqrt : ℚ → ℚ) (scene : SceneData) (s : State)
    (p k v : Nat) (hv : v < (formPatches sqrt scene s p).vertnum) :
    (formPatches sqrt scene s (p + k)).VertexArray v
      = (formPatches sqrt scene s p).VertexArray v := by
  induction k with
  | zero => rfl
  | succ k ih =>
    rw [← add_assoc, formPatches_succ, formPatch_vertex_stable _ _ _ _
      (lt_of_lt_of_le hv (formPatches_vertnum_mono sqrt scene s p k)), ih]

/-- The input vertices are copied to the front of the vertex array and stay there. -/
theorem formPatches_input_vertex (sqrt : ℚ → ℚ) (scene : SceneData) (s : State) (p v : Nat)
    (hv : v < scene.nverts) :
    (formPatches sqrt scene s p).VertexArray v = scene.vtemp v := by
  have h := formPatches_vertex_stable sqrt scene s 0 p v hv
  rw [Nat.zero_add] at h
  rw [h]
  show (if v < scene.nverts then scene.vtemp v else _) = _
  rw [if_pos hv]

theorem loadData_VertexArray (sqrt : ℚ → ℚ) (scene : SceneData) (s : State) :
    (loadData sqrt scene s).2.VertexArray
      = (formPatches sqrt scene s scene.NumPatches).VertexArray := rfl

/-- The grid vertices of patch `p` in the final state. -/
theorem loadData_grid_vertex (sqrt : ℚ → ℚ) (scene : SceneData) (s : State) (p j k : Nat)
    (hp : p < scene.NumPatches)
    (hidx : ∀ a, (scene.patches p).vertices a < scene.nverts)
    (hj : j < ((scene.patches p).numelements + 2 + 1).toNat)
    (hk : k < ((scene.patches p).numelements + 2 + 1).toNat) :
    (loadData sqrt scene s).2.VertexArray
        ((formPatches sqrt scene s p).vertnum
          + j * ((scene.patches p).numelements + 2 + 1).toNat + k)
      = gridVertex (scene.vtemp ((scene.patches p).vertices 0))
          (gridStep (scene.vtemp ((scene.patches p).vertices 0))
            (scene.vtemp ((scene.patches p).vertices 1))
            (((scene.patches p).numelements + 2 : Int) : ℚ))
          (gridStep (scene.vtemp ((scene.patches p).vertices 0))
            (scene.vtemp ((scene.patches p).vertices 3))
            (((scene.patches p).numelements + 2 : Int) : ℚ))
          j k := by
  have hN : scene.NumPatches = (p + 1) + (scene.NumPatches - (p + 1)) := by omega
  have hvert := (readPatches_reflectance sqrt scene s p hp).2.2.1
  have hnum := readPatches_numelements sqrt scene s p hp
  have hge := formPatches_vertnum_ge sqrt scene s p
  generalize hW : ((scene.patches p).numelements + 2 + 1).toNat = W at hj hk
  have hlt : (formPatches sqrt scene s p).vertnum + j * W + k
      < (formPatches sqrt scene s (p + 1)).vertnum := by
    rw [formPatches_vertnum_succ sqrt scene s p hp, hW]
    have : j * W + k < W * W := by
      calc j * W + k < j * W + W := by omega
        _ = (j + 1) * W := by ring
        _ ≤ W * W := Nat.mul_le_mul_right W hj
    omega
  rw [loadData_VertexArray, hN, formPatches_vertex_stable sqrt scene s (p + 1) _ _ hlt,
    formPatches_succ, formPatch_vertices _ _ _ (by rw [hvert]; have := hidx 0; omega)]
  rw [hnum, hvert, hW]
  rw [formPatches_succ, (formPatch_spec _ _ _).2.1, hnum, hW] at hlt
  rw [if_pos ⟨by omega, hlt⟩]
  rw [formPatches_input_vertex sqrt scene s p _ (hidx 0),
    formPatches_input_vertex sqrt scene s p _ (hidx 1),
    formPatches_input_vertex sqrt scene s p _ (hidx 3)]
  obtain ⟨hd, hm⟩ := div_mod_of_row
    ((formPatches sqrt scene s p).vertnum + j * W + k - (formPatches sqrt scene s p).vertnum)
    j W (by omega) (by omega)
  rw [hd, hm]
  congr 1
  omega

theorem loadData_input_vertex (sqrt : ℚ → ℚ) (scene : SceneData) (s : State) (v : Nat)
    (hv : v < scene.nverts) :
    (loadData sqrt scene s).2.VertexArray v = scene.vtemp v := by
  rw [loadData_VertexArray, formPatches_input_vertex sqrt scene s _ v hv]

theorem loadData_vertices (sqrt : ℚ → ℚ) (scene : SceneData) (s : State) (p : Nat)
    (hp : p < scene.NumPatches) :
    ((loadData sqrt scene s).2.PatchArray p).vertices = (scene.patches p).vertices :=
  (readPatches_reflectance sqrt scene s p hp).2.2.1

theorem gridVertex_corners (q0 q1 q3 : Vertex) (m : Nat) (hm : 1 ≤ m) :
    gridVertex q0 (gridStep q0 q1 (m : ℚ)) (gridStep q0 q3 (m : ℚ)) 0 0 = q0 ∧
    gridVertex q0 (gridStep q0 q1 (m : ℚ)) (gridStep q0 q3 (m : ℚ)) 0 m = q1 ∧
    gridVertex q0 (gridStep q0 q1 (m : ℚ)) (gridStep q0 q3 (m : ℚ)) m 0 = q3 ∧
    gridVertex q0 (gridStep q0 q1 (m : ℚ)) (gridStep q0 q3 (m : ℚ)) m m
      = ⟨q1.x + q3.x - q0.x, q1.y + q3.y - q0.y, q1.z + q3.z - q0.z⟩ := by
  have hne : (m : ℚ) ≠ 0 := by
    have : m ≠ 0 := by omega
    exact_mod_cast this
  refine ⟨?_, ?_, ?_, ?_⟩
  · simp [gridVertex]
  · cases q1
    simp only [gridVertex, gridStep, Vertex.mk.injEq]
    refine ⟨?_, ?_, ?_⟩ <;> field_simp
  · cases q3
    simp only [gridVertex, gridStep, Vertex.mk.injEq]
    refine ⟨?_, ?_, ?_⟩ <;> field_simp
  · simp only [gridVertex, gridStep, Vertex.mk.injEq]
    refine ⟨?_, ?_, ?_⟩ <;> field_simp <;> ring

/-- The four grid corners of patch `p` in the final state, in terms of the input
vertices. -/
theorem loadData_grid_corner_values (sqrt : ℚ → ℚ) (scene : SceneData) (s : State)
    (p m : Nat) (hp : p < scene.NumPatches)
    (hm : (scene.patches p).numelements + 2 = (m : Int)) (h1 : 1 ≤ m)
    (hidx : ∀ a, (scene.patches p).vertices a < scene.nverts) :
    (loadData sqrt scene s).2.VertexArray ((formPatches sqrt scene s p).vertnum + 0 * (m + 1) + 0)
      = scene.vtemp ((scene.patches p).vertices 0) ∧
    (loadData sqrt scene s).2.VertexArray ((formPatches sqrt scene s p).vertnum + 0 * (m + 1) + m)
      = scene.vtemp ((scene.patches p).vertices 1) ∧
    (loadData sqrt scene s).2.VertexArray ((formPatches sqrt scene s p).vertnum + m * (m + 1) + 0)
      = scene.vtemp ((scene.patches p).vertices 3) ∧
    (loadData sqrt scene s).2.VertexArray ((formPatches sqrt scene s p).vertnum + m * (m + 1) + m)
      = ⟨(scene.vtemp ((scene.patches p).vertices 1)).x
            + (scene.vtemp ((scene.patches p).vertices 3)).x
            - (scene.vtemp ((scene.patches p).vertices 0)).x,
          (scene.vtemp ((scene.patches p).vertices 1)).y
            + (scene.vtemp ((scene.patches p).vertices 3)).y
            - (scene.vtemp ((scene.patches p).vertices 0)).y,
          (scene.vtemp ((scene.patches p).vertices 1)).z
            + (scene.vtemp ((scene.patches p).vertices 3)).z
            - (scene.vtemp ((scene.patches p).vertices 0)).z⟩ := by
  have hW : ((scene.patches p).numelements + 2 + 1).toNat = m + 1 := by rw [hm]; omega
  have hcast : (((scene.patches p).numelements + 2 : Int) : ℚ) = (m : ℚ) := by
    rw [hm]; norm_cast
  have hgrid := fun j k hj hk => loadData_grid_vertex sqrt scene s p j k hp hidx hj hk
  rw [hW, hcast] at hgrid
  obtain ⟨c1, c2, c3, c4⟩ := gridVertex_corners
    (scene.vtemp ((scene.patches p).vertices 0)) (scene.vtemp ((scene.patches p).vertices 1))
    (scene.vtemp ((scene.patches p).vertices 3)) m h1
  refine ⟨?_, ?_, ?_, ?_⟩
  · rw [hgrid 0 0 (by omega) (by omega), c1]
  · rw [hgrid 0 m (by omega) (by omega), c2]
  · rw [hgrid m 0 (by omega) (by omega), c3]
  · rw [hgrid m m (by omega) (by omega), c4]

/-- C18 (amended): for a patch with subdivision `m = numelements >= 1` whose vertex
indices refer to input vertices, the grid vertices at positions `(j,k) = (0,0)`, `(0,m)`
and `(m,0)` coincide with the patch's corner vertices 0, 1 and 3, and the grid vertex at
`(m,m)` is `vertex 1 + vertex 3 - vertex 0`; it coincides with corner vertex 2 exactly
when the patch is a parallelogram (exact arithmetic). -/
theorem loadData_grid_corners (sqrt : ℚ → ℚ) (scene : SceneData) (s : State)
    (p m : Nat) (hp : p < scene.NumPatches)
    (hm : ((loadData sqrt scene s).2.PatchArray p).numelements = (m : Int)) (h1 : 1 ≤ m)
    (hidx : ∀ a, ((loadData sqrt scene s).2.PatchArray p).vertices a < scene.nverts) :
    (loadData sqrt scene s).2.VertexArray ((formPatches sqrt scene s p).vertnum + 0 * (m + 1) + 0)
      = (loadData sqrt scene s).2.VertexArray (((loadData sqrt scene s).2.PatchArray p).vertices 0) ∧
    (loadData sqrt scene s).2.VertexArray ((formPatches sqrt scene s p).vertnum + 0 * (m + 1) + m)
      = (loadData sqrt scene s).2.VertexArray (((loadData sqrt scene s).2.PatchArray p).vertices 1) ∧
    (loadData sqrt scene s).2.VertexArray ((formPatches sqrt scene s p).vertnum + m * (m + 1) + 0)
      = (loadData sqrt scene s).2.VertexArray (((loadData sqrt scene s).2.PatchArray p).vertices 3) ∧
    (loadData sqrt scene s).2.VertexArray ((formPatches sqrt scene s p).vertnum + m * (m + 1) + m)
      = ⟨((loadData sqrt scene s).2.VertexArray
              (((loadData sqrt scene s).2.PatchArray p).vertices 1)).x
            + ((loadData sqrt scene s).2.VertexArray
              (((loadData sqrt scene s).2.PatchArray p).vertices 3)).x
            - ((loadData sqrt scene s).2.VertexArray
              (((loadData sqrt scene s).2.PatchArray p).vertices 0)).x,
          ((loadData sqrt scene s).2.VertexArray
              (((loadData sqrt scene s).2.PatchArray p).vertices 1)).y
            + ((loadData sqrt scene s).2.VertexArray
              (((loadData sqrt scene s).2.PatchArray p).vertices 3)).y
            - ((loadData sqrt scene s).2.VertexArray
              (((loadData sqrt scene s).2.PatchArray p).vertices 0)).y,
          ((loadData sqrt scene s).2.VertexArray
              (((loadData sqrt scene s).2.PatchArray p).vertices 1)).z
            + ((loadData sqrt scene s).2.VertexArray
              (((loadData sqrt scene s).2.PatchArray p).vertices 3)).z
            - ((loadData sqrt scene s).2.VertexArray
              (((loadData sqrt scene s).2.PatchArray p).vertices 0)).z⟩ := by
  have hvert : ((loadData sqrt scene s).2.PatchArray p).vertices = (scene.patches p).vertices :=
    (readPatches_reflectance sqrt scene s p hp).2.2.1
  rw [hvert] at hidx ⊢
  rw [loadData_numelements sqrt scene s p hp] at hm
  rw [loadData_input_vertex sqrt scene s _ (hidx 0), loadData_input_vertex sqrt scene s _ (hidx 1),
    loadData_input_vertex sqrt scene s _ (hidx 3)]
  exact loadData_grid_corner_values sqrt scene s p m hp hm h1 hidx

/-- Witness for C18 (amended): the one-square scene (`m = 3`, grid vertices 4..19), whose
corner `(0,3)` is vertex 7. -/
theorem loadData_grid_corners_witness :
    (loadData Rat.sqrt (oneSquareScene 1) startState).2.VertexArray
        ((formPatches Rat.sqrt (oneSquareScene 1) startState 0).vertnum + 0 * (3 + 1) + 3)
      = (loadData Rat.sqrt (oneSquareScene 1) startState).2.VertexArray
          (((loadData Rat.sqrt (oneSquareScene 1) startState).2.PatchArray 0).vertices 1) :=
  (loadData_grid_corners Rat.sqrt (oneSquareScene 1) startState 0 3 (by decide)
    (by rw [loadData_numelements _ _ _ 0 (by decide)]; rfl) (by decide)
    (by
      intro a
      rw [loadData_vertices Rat.sqrt (oneSquareScene 1) startState 0 (by decide)]
      fin_cases a <;> decide)).2.1

/-- C18 as stated fails for a quadrilateral that is not a parallelogram: in `kiteScene`
(corners `(0,0,0)`, `(1,0,0)`, `(2,2,0)`, `(0,1,0)`, stored subdivision `m = 1`) the grid
vertex at `(m,m)`, vertex 7, is `(1,1,0)` and not corner vertex 2 `(2,2,0)`. -/
theorem loadData_grid_corner_not_vertex_two :
    ((loadData Rat.sqrt kiteScene startState).2.PatchArray 0).numelements = 1 ∧
    (formPatches Rat.sqrt kiteScene startState 0).vertnum = 4 ∧
    (loadData Rat.sqrt kiteScene startState).2.VertexArray
      (((loadData Rat.sqrt kiteScene startState).2.PatchArray 0).vertices 2) = ⟨2, 2, 0⟩ ∧
    (loadData Rat.sqrt kiteScene startState).2.VertexArray
      ((formPatches Rat.sqrt kiteScene startState 0).vertnum + 1 * (1 + 1) + 1) = ⟨1, 1, 0⟩ ∧
    (loadData Rat.sqrt kiteScene startState).2.VertexArray
      ((formPatches Rat.sqrt kiteScene startState 0).vertnum + 1 * (1 + 1) + 1)
      ≠ (loadData Rat.sqrt kiteScene startState).2.VertexArray
          (((loadData Rat.sqrt kiteScene startState).2.PatchArray 0).vertices 2) := by
  have hidx : ∀ a, (kiteScene.patches 0).vertices a < kiteScene.nverts := by
    intro a; fin_cases a <;> decide
  have hv2 : (loadData Rat.sqrt kiteScene startState).2.VertexArray
      (((loadData Rat.sqrt kiteScene startState).2.PatchArray 0).vertices 2) = ⟨2, 2, 0⟩ := by
    rw [loadData_vertices Rat.sqrt kiteScene startState 0 (by decide),
      loadData_input_vertex _ _ _ _ (hidx 2)]
    rfl
  have hc := (loadData_grid_corner_values Rat.sqrt kiteScene startState 0 1 (by decide) rfl
    (by decide) hidx).2.2.2
  have hval : (loadData Rat.sqrt kiteScene startState).2.VertexArray
      ((formPatches Rat.sqrt kiteScene startState 0).vertnum + 1 * (1 + 1) + 1) = ⟨1, 1, 0⟩ := by
    rw [hc]
    norm_num [kiteScene, fin4_val_three]
  refine ⟨by rw [loadData_numelements _ _ _ 0 (by decide)]; rfl, rfl, hv2, hval, ?_⟩
  rw [hval, hv2]
  intro h
  have := congrArg Vertex.x h
  norm_num at this

theorem truncToInt_eq_zero_iff (q : ℚ) : truncToInt q = 0 ↔ -1 < q ∧ q < 1 := by
  unfold truncToInt
  split_ifs with h
  · rw [Int.floor_eq_zero_iff]
    simp only [Set.mem_Ico]
    constructor
    · rintro ⟨_, h2⟩; exact ⟨by linarith, h2⟩
    · rintro ⟨_, h2⟩; exact ⟨h, h2⟩
  · rw [Int.ceil_eq_zero_iff]
    simp only [Set.mem_Ioc]
    push_neg at h
    constructor
    · rintro ⟨h1, _⟩; exact ⟨h1, by linarith⟩
    · rintro ⟨h1, _⟩; exact ⟨h1, le_of_lt h⟩

theorem dot_up (n : Vertex) : dot n ⟨0, 0, 1⟩ = n.z := by simp [dot]

/-- The hemicube of a patch whose normal has `|z| < 1`: up axis `(0,0,1)`. -/
theorem patchHemicube_of_lt (patch : Patch) (h : -1 < patch.normal.z ∧ patch.normal.z < 1) :
    patchHemicube patch = newHemicube patch.center patch.normal ⟨0, 0, 1⟩ := by
  unfold patchHemicube
  simp only [dot_up]
  rw [if_pos ((truncToInt_eq_zero_iff _).2 h)]

/-- The hemicube of a patch whose normal has `|z| >= 1`: up axis `(1,0,0)`. -/
theorem patchHemicube_of_not_lt (patch : Patch)
    (h : ¬ (-1 < patch.normal.z ∧ patch.normal.z < 1)) :
    patchHemicube patch = newHemicube patch.center patch.normal ⟨1, 0, 0⟩ := by
  unfold patchHemicube
  simp only [dot_up]
  rw [if_neg (fun hc => h ((truncToInt_eq_zero_iff _).1 hc))]

/-- A unit vector whose `z` is outside `(-1, 1)` is `(0, 0, 1)` or `(0, 0, -1)`. -/
theorem unit_vertical (n : Vertex) (hn : dot n n = 1) (h : ¬ (-1 < n.z ∧ n.z < 1)) :
    n.x = 0 ∧ n.y = 0 ∧ (n.z = 1 ∨ n.z = -1) := by
  simp only [dot] at hn
  have hz : 1 ≤ n.z * n.z := by
    by_cases h1 : -1 < n.z
    · have h2 : 1 ≤ n.z := by
        by_contra hc
        exact h ⟨h1, lt_of_not_le hc⟩
      nlinarith
    · push_neg at h1
      nlinarith
  have hx : n.x * n.x = 0 := by nlinarith [mul_self_nonneg n.x, mul_self_nonneg n.y]
  have hy : n.y * n.y = 0 := by nlinarith [mul_self_nonneg n.x, mul_self_nonneg n.y]
  have hz1 : n.z * n.z = 1 := by nlinarith
  refine ⟨mul_self_eq_zero.1 hx, mul_self_eq_zero.1 hy, ?_⟩
  have : (n.z - 1) * (n.z + 1) = 0 := by ring_nf; ring_nf at hz1; linarith
  rcases mul_eq_zero.1 this with h1 | h1
  · left; linarith
  · right; linarith

/-- C19 (amended): for a patch with a unit normal `n`, the frame `(u, v, n)` of its
hemicube has `v = n x u`, `u` of unit length and `v` perpendicular to `u` and to `n`; the
frame is orthonormal (also `u` perpendicular to `n` and `v` of unit length) exactly when
the `z` component of `n` is 0, 1 or -1. -/
theorem patchHemicube_frame (patch : Patch) (hn : dot patch.normal patch.normal = 1) :
    (patchHemicube patch).normal = patch.normal ∧
    (patchHemicube patch).v = cross (patchHemicube patch).normal (patchHemicube patch).u ∧
    dot (patchHemicube patch).u (patchHemicube patch).u = 1 ∧
    dot (patchHemicube patch).v (patchHemicube patch).u = 0 ∧
    dot (patchHemicube patch).v (patchHemicube patch).normal = 0 ∧
    ((dot (patchHemicube patch).u (patchHemicube patch).normal = 0 ∧
        dot (patchHemicube patch).v (patchHemicube patch).v = 1)
      ↔ (patch.normal.z = 0 ∨ patch.normal.z = 1 ∨ patch.normal.z = -1)) := by
  by_cases h : -1 < patch.normal.z ∧ patch.normal.z < 1
  · rw [patchHemicube_of_lt patch h]
    simp only [dot] at hn
    refine ⟨rfl, rfl, by simp [newHemicube, dot], by simp [newHemicube, dot, cross],
      by simp [newHemicube, dot, cross]; ring, ?_⟩
    simp only [newHemicube, dot, cross]
    constructor
    · rintro ⟨h1, _⟩
      left; linarith
    · rintro (h1 | h1 | h1)
      · refine ⟨by rw [h1]; ring, ?_⟩
        rw [h1] at hn
        nlinarith
      · exact absurd h1 (ne_of_lt h.2)
      · exact absurd h1.symm (ne_of_lt h.1)
  · rw [patchHemicube_of_not_lt patch h]
    obtain ⟨hx, hy, hz⟩ := unit_vertical patch.normal hn h
    refine ⟨rfl, rfl, by simp [newHemicube, dot], by simp [newHemicube, dot, cross],
      by simp [newHemicube, dot, cross]; ring, ?_⟩
    simp only [newHemicube, dot, cross, hx, hy]
    constructor
    · intro _
      right; exact hz
    · intro _
      rcases hz with hz | hz <;> rw [hz] <;> norm_num

/-- Witness for C19 (amended): the wall patch with normal `(0, 1, 0)`. -/
theorem patchHemicube_frame_witness :
    dot wallPatch.normal wallPatch.normal = 1 ∧
    dot (patchHemicube wallPatch).v (patchHemicube wallPatch).u = 0 :=
  ⟨by norm_num [dot, wallPatch],
    (patchHemicube_frame wallPatch (by norm_num [dot, wallPatch])).2.2.2.1⟩

/-- C19 as stated fails for the unit normal `(3/5, 0, 4/5)`: the up axis is `(0, 0, 1)`,
which is not perpendicular to the normal, and `v = n x u = (0, -3/5, 0)` has squared
length `9/25`. -/
theorem patchHemicube_frame_not_orthonormal :
    dot tiltedPatch.normal tiltedPatch.normal = 1 ∧
    (patchHemicube tiltedPatch).normal = tiltedPatch.normal ∧
    (patchHemicube tiltedPatch).u = ⟨0, 0, 1⟩ ∧
    (patchHemicube tiltedPatch).v = ⟨0, -(3 / 5), 0⟩ ∧
    dot (patchHemicube tiltedPatch).u (patchHemicube tiltedPatch).normal = 4 / 5 ∧
    dot (patchHemicube tiltedPatch).v (patchHemicube tiltedPatch).v = 9 / 25 ∧
    ¬ (dot (patchHemicube tiltedPatch).u (patchHemicube tiltedPatch).normal = 0 ∧
        dot (patchHemicube tiltedPatch).v (patchHemicube tiltedPatch).v = 1) := by
  have h : -1 < tiltedPatch.normal.z ∧ tiltedPatch.normal.z < 1 := by
    norm_num [tiltedPatch]
  rw [patchHemicube_of_lt tiltedPatch h]
  refine ⟨by norm_num [dot, tiltedPatch], rfl, rfl, ?_, ?_, ?_, ?_⟩
  · norm_num [newHemicube, cross, tiltedPatch]
  · norm_num [newHemicube, dot, tiltedPatch]
  · norm_num [newHemicube, dot, cross, tiltedPatch]
  · norm_num [newHemicube, dot, cross, tiltedPatch]

/-- C20: for a patch with a unit normal `n`, the up axis `u` chosen for its hemicube
(`(0,0,1)` when the truncated dot product of `n` and `(0,0,1)` is 0, else `(1,0,0)`) is
not parallel to `n`: `n` is no multiple of `u`, and `v = n x u` is not the zero vector. -/
theorem patchHemicube_up_not_parallel (patch : Patch)
    (hn : dot patch.normal patch.normal = 1) :
    (patchHemicube patch).u
        = (if truncToInt (dot patch.normal ⟨0, 0, 1⟩) = 0 then (⟨0, 0, 1⟩ : Vertex)
            else ⟨1, 0, 0⟩) ∧
    (patchHemicube patch).v = cross patch.normal (patchHemicube patch).u ∧
    (∀ t : ℚ, patch.normal ≠ ⟨t * (patchHemicube patch).u.x, t * (patchHemicube patch).u.y,
        t * (patchHemicube patch).u.z⟩) ∧
    (patchHemicube patch).v ≠ ⟨0, 0, 0⟩ := by
  by_cases h : -1 < patch.normal.z ∧ patch.normal.z < 1
  · have hc : truncToInt (dot patch.normal ⟨0, 0, 1⟩) = 0 := by
      rw [dot_up]; exact (truncToInt_eq_zero_iff _).2 h
    rw [patchHemicube_of_lt patch h, if_pos hc]
    simp only [dot] at hn
    refine ⟨rfl, rfl, ?_, ?_⟩
    · intro t ht
      have hx := congrArg Vertex.x ht
      have hy := congrArg Vertex.y ht
      simp only [newHemicube, mul_zero] at hx hy
      rw [hx, hy] at hn
      nlinarith
    · intro hv
      have hx := congrArg Vertex.x hv
      have hy := congrArg Vertex.y hv
      simp only [newHemicube, cross, mul_one, mul_zero, sub_zero, zero_sub, neg_eq_zero,
        zero_mul, one_mul] at hx hy
      rw [hx, hy] at hn
      nlinarith
  · have hc : ¬ truncToInt (dot patch.normal ⟨0, 0, 1⟩) = 0 := by
      rw [dot_up]; exact fun hc => h ((truncToInt_eq_zero_iff _).1 hc)
    rw [patchHemicube_of_not_lt patch h, if_neg hc]
    obtain ⟨hx, hy, hz⟩ := unit_vertical patch.normal hn h
    refine ⟨rfl, rfl, ?_, ?_⟩
    · intro t ht
      have hz2 := congrArg Vertex.z ht
      simp only [newHemicube, mul_zero] at hz2
      rcases hz with hz | hz <;> rw [hz] at hz2 <;> norm_num at hz2
    · intro hv
      have hy2 := congrArg Vertex.y hv
      simp only [newHemicube, cross, mul_one, mul_zero, sub_zero] at hy2
      rcases hz with hz | hz <;> rw [hz] at hy2 <;> norm_num at hy2

/-- Witness for C20: the floor patch with normal `(0, 0, 1)`, whose up axis is `(1,0,0)`. -/
theorem patchHemicube_up_not_parallel_witness :
    dot floorPatch.normal floorPatch.normal = 1 ∧
    (patchHemicube floorPatch).v ≠ ⟨0, 0, 0⟩ :=
  ⟨by norm_num [dot, floorPatch],
    (patchHemicube_up_not_parallel floorPatch (by norm_num [dot, floorPatch])).2.2.2⟩

theorem foldl_preserves {α β : Type} (P : α → Prop) (f : α → β → α) (l : List β) (a : α)
    (h0 : P a) (hstep : ∀ a x, P a → P (f a x)) : P (l.foldl f a) := by
  induction l generalizing a with
  | nil => exact h0
  | cons x l ih => exact ih (f a x) (hstep a x h0)

theorem PI_pos : 0 < PI := by norm_num [PI]

/-- Every delta form factor is non-negative. -/
theorem dFormFactor_nonneg (SIDE x y : Nat) : 0 ≤ dFormFactor SIDE x y := by
  have hpi := PI_pos
  unfold dFormFactor
  split_ifs with h
  · positivity
  · positivity

theorem projectPixel_apply (e SIDE : Nat) (pixel : Nat → Nat) (w : Nat)
    (hp : Nat → HemiPixel) (y x idx : Nat) :
    projectPixel e SIDE pixel w hp y x idx
      = if idx = y * w + x ∧ pixel (idx * 3) > 0 then coveredPixel (hp idx) e SIDE x y
        else hp idx := by
  unfold projectPixel
  simp only [Nat.mul_div_cancel _ (by norm_num : 0 < 3)]
  by_cases hc : pixel ((y * w + x) * 3) > 0
  · rw [if_pos hc]
    by_cases hi : idx = y * w + x
    · subst hi
      rw [Function.update_same, if_pos ⟨rfl, hc⟩]
      rfl
    · rw [Function.update_noteq hi, if_neg (fun h => hi h.1)]
  · rw [if_neg hc]
    by_cases hi : idx = y * w + x
    · subst hi
      rw [if_neg (fun h => hc h.2)]
    · rw [if_neg (fun h => hi h.1)]

/-- The column loop of one row `y`. -/
theorem projectRow_apply (e SIDE : Nat) (pixel : Nat → Nat) (w : Nat)
    (hp : Nat → HemiPixel) (y n idx : Nat) :
    (List.range n).foldl (fun hp x => projectPixel e SIDE pixel w hp y x) hp idx
      = if y * w ≤ idx ∧ idx < y * w + n ∧ pixel (idx * 3) > 0 then
          coveredPixel (hp idx) e SIDE (idx - y * w) y
        else hp idx := by
  induction n with
  | zero =>
    rw [if_neg]
    · rfl
    · rintro ⟨h1, h2, _⟩
      omega
  | succ n ih =>
    rw [List.range_succ, List.foldl_append]
    generalize (List.range n).foldl (fun hp x => projectPixel e SIDE pixel w hp y x) hp = G
      at ih ⊢
    simp only [List.foldl_cons, List.foldl_nil]
    rw [projectPixel_apply, ih]
    by_cases hi : idx = y * w + n
    · subst hi
      have h1 : ¬ (y * w ≤ y * w + n ∧ y * w + n < y * w + n ∧ pixel ((y * w + n) * 3) > 0) :=
        fun h => absurd h.2.1 (lt_irrefl _)
      rw [if_neg h1]
      by_cases hc : pixel ((y * w + n) * 3) > 0
      · rw [if_pos ⟨rfl, hc⟩, if_pos ⟨by omega, by omega, hc⟩, Nat.add_sub_cancel_left]
      · rw [if_neg (fun h => hc h.2), if_neg (fun h => hc h.2.2)]
    · rw [if_neg (fun h => hi h.1)]
      by_cases hc : y * w ≤ idx ∧ idx < y * w + n ∧ pixel (idx * 3) > 0
      · rw [if_pos hc, if_pos ⟨hc.1, by omega, hc.2.2⟩]
      · rw [if_neg hc, if_neg]
        rintro ⟨h1, h2, h3⟩
        exact hc ⟨h1, by omega, h3⟩

/-- The row and column loops over `m` rows of width `w`. -/
theorem projectRows_apply (e SIDE : Nat) (pixel : Nat → Nat) (w : Nat) (hw : 0 < w)
    (hp : Nat → HemiPixel) (m idx : Nat) :
    (List.range m).foldl
        (fun hp y => (List.range w).foldl (fun hp x => projectPixel e SIDE pixel w hp y x) hp)
        hp idx
      = if idx < m * w ∧ pixel (idx * 3) > 0 then
          coveredPixel (hp idx) e SIDE (idx % w) (idx / w)
        else hp idx := by
  induction m with
  | zero => simp
  | succ m ih =>
    rw [List.range_succ, List.foldl_append]
    generalize (List.range m).foldl
        (fun hp y => (List.range w).foldl (fun hp x => projectPixel e SIDE pixel w hp y x) hp)
        hp = G at ih ⊢
    simp only [List.foldl_cons, List.foldl_nil]
    rw [projectRow_apply, ih]
    by_cases hrow : m * w ≤ idx ∧ idx < m * w + w ∧ pixel (idx * 3) > 0
    · obtain ⟨h1, h2, h3⟩ := hrow
      have hdiv : idx / w = m := by
        apply Nat.div_eq_of_lt_le
        · rw [Nat.mul_comm] at h1; rw [Nat.mul_comm]; exact h1
        · rw [Nat.succ_mul]; exact h2
      have hmod : idx % w = idx - m * w := by
        have := Nat.div_add_mod idx w
        rw [hdiv] at this
        rw [Nat.mul_comm] at this
        omega
      rw [if_pos ⟨h1, h2, h3⟩, if_neg (fun h => absurd h.1 (by omega)),
        if_pos ⟨by rw [Nat.succ_mul]; exact h2, h3⟩, hdiv, hmod]
    · rw [if_neg hrow]
      by_cases hc : idx < m * w ∧ pixel (idx * 3) > 0
      · rw [if_pos hc, if_pos ⟨by rw [Nat.succ_mul]; omega, hc.2⟩]
      · rw [if_neg hc, if_neg]
        rintro ⟨h1, h3⟩
        rw [Nat.succ_mul] at h1
        by_cases h4 : idx < m * w
        · exact hc ⟨h4, h3⟩
        · exact hrow ⟨by omega, h1, h3⟩

/-- The pixels of one face after `projectFace`. -/
theorem projectFace_apply (e SIDE : Nat) (pixel : Nat → Nat) (hp : Nat → HemiPixel)
    (idx : Nat) :
    projectFace e SIDE pixel hp idx
      = if idx < faceHeight SIDE * HEMICUBE_SUBDIV ∧ pixel (idx * 3) > 0 then
          coveredPixel (hp idx) e SIDE (idx % HEMICUBE_SUBDIV) (idx / HEMICUBE_SUBDIV)
        else hp idx := by
  unfold projectFace
  exact projectRows_apply e SIDE pixel HEMICUBE_SUBDIV (by decide) hp (faceHeight SIDE) idx

/-- A loop over the faces `0 .. k-1` that rewrites the pixel array of each face. -/
theorem foldl_faces_hemiPixel (g : Nat → (Nat → HemiPixel) → (Nat → HemiPixel))
    (h : Hemicube) (k S : Nat) :
    ((List.range k).foldl
        (fun h SIDE =>
          { h with hemiPixel := Function.update h.hemiPixel SIDE (g SIDE (h.hemiPixel SIDE)) })
        h).hemiPixel S
      = if S < k then g S (h.hemiPixel S) else h.hemiPixel S := by
  induction k with
  | zero => simp
  | succ k ih =>
    rw [List.range_succ, List.foldl_append]
    generalize (List.range k).foldl
        (fun h SIDE =>
          { h with hemiPixel := Function.update h.hemiPixel SIDE (g SIDE (h.hemiPixel SIDE)) })
        h = G at ih ⊢
    simp only [List.foldl_cons, List.foldl_nil]
    by_cases hS : S = k
    · subst hS
      rw [Function.update_same, ih, if_neg (lt_irrefl _), if_pos (Nat.lt_succ_self _)]
    · rw [Function.update_noteq hS, ih]
      by_cases hlt : S < k
      · rw [if_pos hlt, if_pos (by omega)]
      · rw [if_neg hlt, if_neg (by omega)]

theorem foldl_faces_frame (g : Nat → (Nat → HemiPixel) → (Nat → HemiPixel))
    (h : Hemicube) (k : Nat) :
    ((List.range k).foldl
        (fun h SIDE =>
          { h with hemiPixel := Function.update h.hemiPixel SIDE (g SIDE (h.hemiPixel SIDE)) })
        h).center = h.center ∧
    ((List.range k).foldl
        (fun h SIDE =>
          { h with hemiPixel := Function.update h.hemiPixel SIDE (g SIDE (h.hemiPixel SIDE)) })
        h).normal = h.normal ∧
    ((List.range k).foldl
        (fun h SIDE =>
          { h with hemiPixel := Function.update h.hemiPixel SIDE (g SIDE (h.hemiPixel SIDE)) })
        h).u = h.u ∧
    ((List.range k).foldl
        (fun h SIDE =>
          { h with hemiPixel := Function.update h.hemiPixel SIDE (g SIDE (h.hemiPixel SIDE)) })
        h).v = h.v := by
  induction k with
  | zero => simp
  | succ k ih =>
    rw [List.range_succ, List.foldl_append]
    generalize (List.range k).foldl
        (fun h SIDE =>
          { h with hemiPixel := Function.update h.hemiPixel SIDE (g SIDE (h.hemiPixel SIDE)) })
        h = G at ih ⊢
    simpa using ih

/-- Every pixel after one call of `computeDeltaFormFactor`: a pixel of the five faces
whose byte is set gains the delta form factor of its position and the element id, every
other pixel is unchanged. -/
theorem computeDeltaFormFactor_pixel (pixel : Nat → Nat → Nat) (h : Hemicube) (el : Element)
    (e SIDE idx : Nat) :
    (computeDeltaFormFactor pixel h el e).hemiPixel SIDE idx
      = if SIDE < 5 ∧ idx < faceHeight SIDE * HEMICUBE_SUBDIV ∧ pixel SIDE (idx * 3) > 0 then
          coveredPixel (h.hemiPixel SIDE idx) e SIDE (idx % HEMICUBE_SUBDIV)
            (idx / HEMICUBE_SUBDIV)
        else h.hemiPixel SIDE idx := by
  unfold computeDeltaFormFactor
  rw [foldl_faces_hemiPixel (fun SIDE hp => projectFace e SIDE (pixel SIDE) hp) h 5 SIDE]
  by_cases hS : SIDE < 5
  · rw [if_pos hS, projectFace_apply]
    by_cases hc : idx < faceHeight SIDE * HEMICUBE_SUBDIV ∧ pixel SIDE (idx * 3) > 0
    · rw [if_pos hc, if_pos ⟨hS, hc⟩]
    · rw [if_neg hc, if_neg (fun hx => hc hx.2)]
  · rw [if_neg hS, if_neg (fun hx => hS hx.1)]

/-- The form factor of every pixel stays non-negative in `computeDeltaFormFactor`. -/
theorem computeDeltaFormFactor_nonneg (pixel : Nat → Nat → Nat) (h : Hemicube) (el : Element)
    (e : Nat) (hh : ∀ SIDE idx, 0 ≤ (h.hemiPixel SIDE idx).formFactor) (SIDE idx : Nat) :
    0 ≤ ((computeDeltaFormFactor pixel h el e).hemiPixel SIDE idx).formFactor := by
  rw [computeDeltaFormFactor_pixel]
  split_ifs
  · exact add_nonneg (hh SIDE idx) (dFormFactor_nonneg _ _ _)
  · exact hh SIDE idx

/-- The `while` loop for one pixel, with enough fuel: the id list ends empty, the form
factor is kept, and the table cell of the FIRST recorded id gains the form factor once per
recorded id. -/
theorem drainPixel_spec (P fuel : Nat) (px : HemiPixel) (T : Nat → Nat → ℚ)
    (hfuel : px.id.length ≤ fuel) :
    (drainPixel P fuel (px, T)).1 = ⟨px.formFactor, []⟩ ∧
    ∀ p e, (drainPixel P fuel (px, T)).2 p e
      = T p e + (if p = P then pixelShare px e else 0) := by
  induction fuel generalizing px T with
  | zero =>
    obtain ⟨ff, id⟩ := px
    have hid : id = [] := List.eq_nil_of_length_eq_zero (Nat.le_zero.1 hfuel)
    subst hid
    simp [drainPixel, pixelShare]
  | succ fuel ih =>
    obtain ⟨ff, id⟩ := px
    cases id with
    | nil => simp [drainPixel, pixelShare]
    | cons a l =>
      have hl : ((a :: l).dropLast).length ≤ fuel := by
        simp only [List.length_dropLast, List.length_cons] at hfuel ⊢
        omega
      have hstep := ih ⟨ff, (a :: l).dropLast⟩
        (Function.update T P (Function.update (T P) a (T P a + ff))) hl
      have hunf : drainPixel P (fuel + 1) (⟨ff, a :: l⟩, T)
          = drainPixel P fuel (⟨ff, (a :: l).dropLast⟩,
              Function.update T P (Function.update (T P) a (T P a + ff))) := by
        simp [drainPixel]
      rw [hunf]
      refine ⟨hstep.1, ?_⟩
      intro p e
      rw [hstep.2 p e]
      by_cases hp : p = P
      · subst hp
        simp only [if_true, Function.update_same]
        cases l with
        | nil =>
          by_cases he : e = a
          · subst he
            simp [pixelShare]
          · have hne : a ≠ e := fun hx => he hx.symm
            simp [pixelShare, Function.update_noteq he, hne]
        | cons b l2 =>
          by_cases he : e = a
          · subst he
            simp [pixelShare]
            ring
          · have hne : a ≠ e := fun hx => he hx.symm
            simp [pixelShare, Function.update_noteq he, hne]
      · simp [hp, Function.update_noteq hp]

/-- The pixel loop of one face in `updateLookUpTable`. -/
theorem updateFace_spec (P SIDE n : Nat) (acc : Hemicube × (Nat → Nat → ℚ)) :
    (∀ S pix, (updateFace P SIDE n acc).1.hemiPixel S pix
      = if S = SIDE ∧ pix < n then ⟨(acc.1.hemiPixel S pix).formFactor, []⟩
        else acc.1.hemiPixel S pix) ∧
    (∀ p e, (updateFace P SIDE n acc).2 p e
      = acc.2 p e
        + (if p = P then ∑ pix ∈ Finset.range n, pixelShare (acc.1.hemiPixel SIDE pix) e
            else 0)) := by
  induction n with
  | zero => simp [updateFace]
  | succ n ih =>
    unfold updateFace at ih ⊢
    rw [List.range_succ, List.foldl_append]
    generalize (List.range n).foldl
      (fun acc pix =>
        let r := drainPixel P (acc.1.hemiPixel SIDE pix).id.length
          (acc.1.hemiPixel SIDE pix, acc.2)
        ({ acc.1 with
           hemiPixel := Function.update acc.1.hemiPixel SIDE
             (Function.update (acc.1.hemiPixel SIDE) pix r.1) }, r.2))
      acc = G at ih ⊢
    obtain ⟨ih1, ih2⟩ := ih
    simp only [List.foldl_cons, List.foldl_nil]
    have hGn : G.1.hemiPixel SIDE n = acc.1.hemiPixel SIDE n := by
      rw [ih1, if_neg (fun hx => absurd hx.2 (lt_irrefl _))]
    obtain ⟨d1, d2⟩ := drainPixel_spec P (G.1.hemiPixel SIDE n).id.length
      (G.1.hemiPixel SIDE n) G.2 (le_refl _)
    constructor
    · intro S pix
      by_cases hS : S = SIDE
      · subst hS
        rw [Function.update_same]
        by_cases hp : pix = n
        · subst hp
          rw [Function.update_same, d1, hGn, if_pos ⟨rfl, Nat.lt_succ_self _⟩]
        · rw [Function.update_noteq hp, ih1]
          by_cases hlt : pix < n
          · rw [if_pos ⟨rfl, hlt⟩, if_pos ⟨rfl, by omega⟩]
          · rw [if_neg (fun hx => hlt hx.2), if_neg (fun hx => absurd hx.2 (by omega))]
      · rw [Function.update_noteq hS, ih1, if_neg (fun hx => hS hx.1),
          if_neg (fun hx => hS hx.1)]
    · intro p e
      rw [d2 p e, ih2 p e, hGn]
      by_cases hp : p = P
      · simp only [hp, if_true, Finset.sum_range_succ]
        ring
      · simp only [hp, if_false, add_zero]

/-- The face loop of `updateLookUpTable` written with `facePixels`. -/
theorem updateLookUpTable_eq (P : Nat) (h : Hemicube) (T : Nat → Nat → ℚ) :
    updateLookUpTable P h T
      = (List.range 5).foldl (fun acc SIDE => updateFace P SIDE (facePixels SIDE) acc)
          (h, T) := by
  unfold updateLookUpTable
  congr 1
  funext acc SIDE
  unfold facePixels
  split_ifs <;> rfl

theorem updateFaces_spec (P k : Nat) (acc : Hemicube × (Nat → Nat → ℚ)) :
    (∀ S pix,
      ((List.range k).foldl (fun acc SIDE => updateFace P SIDE (facePixels SIDE) acc)
          acc).1.hemiPixel S pix
      = if S < k ∧ pix < facePixels S then ⟨(acc.1.hemiPixel S pix).formFactor, []⟩
        else acc.1.hemiPixel S pix) ∧
    (∀ p e,
      ((List.range k).foldl (fun acc SIDE => updateFace P SIDE (facePixels SIDE) acc)
          acc).2 p e
      = acc.2 p e
        + (if p = P then
            ∑ S ∈ Finset.range k, ∑ pix ∈ Finset.range (facePixels S),
              pixelShare (acc.1.hemiPixel S pix) e
            else 0)) := by
  induction k with
  | zero => simp
  | succ k ih =>
    rw [List.range_succ, List.foldl_append]
    generalize (List.range k).foldl (fun acc SIDE => updateFace P SIDE (facePixels SIDE) acc)
      acc = G at ih ⊢
    obtain ⟨ih1, ih2⟩ := ih
    simp only [List.foldl_cons, List.foldl_nil]
    obtain ⟨f1, f2⟩ := updateFace_spec P k (facePixels k) G
    constructor
    · intro S pix
      rw [f1, ih1]
      by_cases hS : S = k
      · subst hS
        by_cases hp : pix < facePixels S
        · rw [if_pos ⟨rfl, hp⟩, if_neg (fun hx => absurd hx.1 (lt_irrefl _)),
            if_pos ⟨Nat.lt_succ_self _, hp⟩]
        · rw [if_neg (fun hx => hp hx.2), if_neg (fun hx => hp hx.2),
            if_neg (fun hx => hp hx.2)]
      · rw [if_neg (fun hx => hS hx.1)]
        by_cases hc : S < k ∧ pix < facePixels S
        · rw [if_pos hc, if_pos ⟨by omega, hc.2⟩]
        · rw [if_neg hc, if_neg]
          rintro ⟨h1, h2⟩
          exact hc ⟨by omega, h2⟩
    · intro p e
      rw [f2, ih2]
      have hsum : ∑ pix ∈ Finset.range (facePixels k), pixelShare (G.1.hemiPixel k pix) e
          = ∑ pix ∈ Finset.range (facePixels k), pixelShare (acc.1.hemiPixel k pix) e := by
        apply Finset.sum_congr rfl
        intro pix _
        rw [ih1, if_neg (fun hx => absurd hx.1 (lt_irrefl _))]
      rw [hsum]
      by_cases hp : p = P
      · simp only [hp, if_true, Finset.sum_range_succ]
        ring
      · simp only [hp, if_false, add_zero]

/-- What `updateLookUpTable` does: every pixel of the five faces keeps its form factor
and loses its ids, and cell `(P, e)` gains the shares of all pixels. -/
theorem updateLookUpTable_spec (P : Nat) (h : Hemicube) (T : Nat → Nat → ℚ) :
    (∀ S pix, (updateLookUpTable P h T).1.hemiPixel S pix
      = if S < 5 ∧ pix < facePixels S then ⟨(h.hemiPixel S pix).formFactor, []⟩
        else h.hemiPixel S pix) ∧
    (∀ p e, (updateLookUpTable P h T).2 p e
      = T p e
        + (if p = P then
            ∑ S ∈ Finset.range 5, ∑ pix ∈ Finset.range (facePixels S),
              pixelShare (h.hemiPixel S pix) e
            else 0)) := by
  rw [updateLookUpTable_eq]
  exact updateFaces_spec P 5 (h, T)

theorem pixelShare_nonneg (px : HemiPixel) (e : Nat) (h : 0 ≤ px.formFactor) :
    0 ≤ pixelShare px e := by
  unfold pixelShare
  split_ifs
  · exact mul_nonneg h (Nat.cast_nonneg _)
  · exact le_refl _

/-- Non-negative pixels add a non-negative amount to every cell. -/
theorem updateLookUpTable_nonneg (P : Nat) (h : Hemicube) (T : Nat → Nat → ℚ)
    (hh : ∀ S pix, 0 ≤ (h.hemiPixel S pix).formFactor) (hT : ∀ p e, 0 ≤ T p e) (p e : Nat) :
    0 ≤ (updateLookUpTable P h T).2 p e := by
  rw [(updateLookUpTable_spec P h T).2 p e]
  apply add_nonneg (hT p e)
  split_ifs
  · exact Finset.sum_nonneg (fun S _ => Finset.sum_nonneg
      (fun pix _ => pixelShare_nonneg _ _ (hh S pix)))
  · exact le_refl _

theorem initScene_lookUpTable (s : State) : (initScene s).lookUpTable = fun _ _ => 0 := rfl

/-- Reading back the table that a state update has just stored. -/
theorem lookUpTable_stored (s : State) (T : Nat → Nat → ℚ) :
    ({ s with lookUpTable := T } : State).lookUpTable = T := rfl

/-- The hemicube of patch `patch_id` after every element has been projected on it. -/
theorem formFactorRow_lookUpTable (render : Nat → Nat → Nat → Nat → Nat) (s : State)
    (patch_id : Nat) :
    (formFactorRow render s patch_id).lookUpTable
      = (updateLookUpTable patch_id
          ((List.range s.NumElements).foldl
            (fun h element_id =>
              computeDeltaFormFactor (render patch_id element_id) h (s.ElementArray element_id)
                element_id)
            (patchHemicube (s.PatchArray patch_id))) s.lookUpTable).2 := by
  unfold formFactorRow
  exact lookUpTable_stored s _

theorem formFactorRow_frame (render : Nat → Nat → Nat → Nat → Nat) (s : State)
    (patch_id : Nat) :
    (formFactorRow render s patch_id).NumPatches = s.NumPatches ∧
    (formFactorRow render s patch_id).NumElements = s.NumElements ∧
    (formFactorRow render s patch_id).ElementArray = s.ElementArray ∧
    (formFactorRow render s patch_id).PatchArray = s.PatchArray := by
  unfold formFactorRow
  exact ⟨rfl, rfl, rfl, rfl⟩

/-- A fresh hemicube has form factor 0 and no ids in every pixel. -/
theorem patchHemicube_hemiPixel (patch : Patch) (S pix : Nat) :
    (patchHemicube patch).hemiPixel S pix = ⟨0, []⟩ := by
  simp only [patchHemicube]
  split_ifs <;> rfl

/-- The pixels stay non-negative while the elements are projected. -/
theorem projectElements_nonneg (pixels : Nat → Nat → Nat → Nat) (ElementArray : Nat → Element)
    (n : Nat) (h : Hemicube) (hh : ∀ S pix, 0 ≤ (h.hemiPixel S pix).formFactor) (S pix : Nat) :
    0 ≤ (((List.range n).foldl
        (fun h element_id =>
          computeDeltaFormFactor (pixels element_id) h (ElementArray element_id) element_id)
        h).hemiPixel S pix).formFactor := by
  revert S pix
  apply foldl_preserves (fun h : Hemicube => ∀ S pix, 0 ≤ (h.hemiPixel S pix).formFactor)
  · exact hh
  · intro a x ha S pix
    exact computeDeltaFormFactor_nonneg _ a _ x ha S pix

/-- One pass of the patch loop keeps the table non-negative. -/
theorem formFactorRow_nonneg (render : Nat → Nat → Nat → Nat → Nat) (s : State)
    (patch_id : Nat) (hT : ∀ p e, 0 ≤ s.lookUpTable p e) (p e : Nat) :
    0 ≤ (formFactorRow render s patch_id).lookUpTable p e := by
  rw [formFactorRow_lookUpTable]
  refine updateLookUpTable_nonneg patch_id _ s.lookUpTable ?_ hT p e
  intro S pix
  refine projectElements_nonneg (render patch_id) s.ElementArray s.NumElements _ ?_ S pix
  intro S pix
  rw [patchHemicube_hemiPixel]

theorem generateFormFactorTable_fst (render : Nat → Nat → Nat → Nat → Nat) (s : State) :
    (generateFormFactorTable render s).1
      = (List.range s.NumPatches).foldl (formFactorRow render) s := rfl

/-- The text written is the table of the final state. -/
theorem generateFormFactorTable_snd (render : Nat → Nat → Nat → Nat → Nat) (s : State) :
    (generateFormFactorTable render s).2
      = writeLookUpTable (generateFormFactorTable render s).1 := rfl

/-- A non-negative table stays non-negative in `generateFormFactorTable`. -/
theorem generateFormFactorTable_nonneg_of (render : Nat → Nat → Nat → Nat → Nat) (s : State)
    (hT : ∀ p e, 0 ≤ s.lookUpTable p e) (p e : Nat) :
    0 ≤ (generateFormFactorTable render s).1.lookUpTable p e := by
  rw [generateFormFactorTable_fst]
  revert p e
  apply foldl_preserves (fun s : State => ∀ p e, 0 ≤ s.lookUpTable p e)
  · exact hT
  · intro a x ha p e
    exact formFactorRow_nonneg render a x ha p e

/-- C13: starting from the all-zero table that `initScene` creates, for every outcome
`render` of the visibility projection, every cell of the table after
`generateFormFactorTable` is greater than or equal to 0. -/
theorem generateFormFactorTable_nonneg (render : Nat → Nat → Nat → Nat → Nat) (s : State)
    (p e : Nat) :
    (initScene s).lookUpTable p e = 0 ∧
    0 ≤ (generateFormFactorTable render (initScene s)).1.lookUpTable p e := by
  refine ⟨by rw [initScene_lookUpTable], ?_⟩
  apply generateFormFactorTable_nonneg_of
  intro p e
  rw [initScene_lookUpTable]

theorem twoIdHemicube_hemiPixel (S pix : Nat) :
    twoIdHemicube.hemiPixel S pix
      = if S = FRONT ∧ pix = 0 then ⟨1, [0, 1]⟩ else ⟨0, []⟩ := rfl

theorem pixelShare_fresh (e : Nat) : pixelShare ⟨0, []⟩ e = 0 := by
  simp [pixelShare]

theorem facePixels_pos (S : Nat) : 0 < facePixels S := by
  unfold facePixels
  split_ifs <;> decide

/-- The shares of the pixels of `twoIdHemicube`: only front pixel 0 contributes. -/
theorem twoIdHemicube_shares (e : Nat) :
    ∑ S ∈ Finset.range 5, ∑ pix ∈ Finset.range (facePixels S),
        pixelShare (twoIdHemicube.hemiPixel S pix) e
      = pixelShare ⟨1, [0, 1]⟩ e := by
  rw [Finset.sum_eq_single 0]
  · rw [Finset.sum_eq_single 0]
    · rw [twoIdHemicube_hemiPixel, if_pos ⟨rfl, rfl⟩]
    · intro pix _ hpix
      rw [twoIdHemicube_hemiPixel, if_neg (fun hx => hpix hx.2), pixelShare_fresh]
    · intro h0
      exact absurd (Finset.mem_range.2 (facePixels_pos 0)) h0
  · intro S _ hS
    apply Finset.sum_eq_zero
    intro pix _
    rw [twoIdHemicube_hemiPixel, if_neg (fun hx => hS hx.1), pixelShare_fresh]
  · intro h0
    exact absurd (Finset.mem_range.2 (by decide : 0 < 5)) h0

theorem dFormFactor_front_corner :
    dFormFactor FRONT 0 0 = 1 / (PI * (3 / 2) ^ 2) * (1 / 262144) := by
  norm_num [dFormFactor, FRONT, faceHeight, HEMICUBE_SUBDIV, HEMICUBE_HEIGHT]

/-- C17 at the failing input: when only the front pixel `(0, 0)` is covered, the weight
that `computeDeltaFormFactor` adds to it is `1/(PI * (3/2)^2) * (1/512^2)`, computed from
the coordinates `-1/2, -1/2`; the weight for the coordinates `-1, -1` of the corner of
the full-extent face is `1/(PI * 3^2) * (1/512^2)`, a quarter of it. -/
theorem computeDeltaFormFactor_front_corner :
    ((computeDeltaFormFactor cornerPixel (newHemicube ⟨0, 0, 0⟩ ⟨0, 0, 1⟩ ⟨1, 0, 0⟩)
        defaultElement 0).hemiPixel FRONT 0).formFactor
      = 1 / (PI * ((-1 / 2) ^ 2 + (-1 / 2) ^ 2 + 1) ^ 2) * (1 / 512 ^ 2) ∧
    ((computeDeltaFormFactor cornerPixel (newHemicube ⟨0, 0, 0⟩ ⟨0, 0, 1⟩ ⟨1, 0, 0⟩)
        defaultElement 0).hemiPixel FRONT 0).formFactor
      = 4 * (1 / (PI * ((-1) ^ 2 + (-1) ^ 2 + 1) ^ 2) * (1 / 512 ^ 2)) ∧
    ((computeDeltaFormFactor cornerPixel (newHemicube ⟨0, 0, 0⟩ ⟨0, 0, 1⟩ ⟨1, 0, 0⟩)
        defaultElement 0).hemiPixel FRONT 0).formFactor
      ≠ 1 / (PI * ((-1) ^ 2 + (-1) ^ 2 + 1) ^ 2) * (1 / 512 ^ 2) := by
  have hcov : FRONT < 5 ∧ 0 < faceHeight FRONT * HEMICUBE_SUBDIV ∧ cornerPixel FRONT (0 * 3) > 0 := by
    refine ⟨by decide, by decide, by decide⟩
  have hval : ((computeDeltaFormFactor cornerPixel (newHemicube ⟨0, 0, 0⟩ ⟨0, 0, 1⟩ ⟨1, 0, 0⟩)
      defaultElement 0).hemiPixel FRONT 0).formFactor
      = 1 / (PI * (3 / 2) ^ 2) * (1 / 262144) := by
    rw [computeDeltaFormFactor_pixel, if_pos hcov]
    show (0 : ℚ) + dFormFactor FRONT (0 % HEMICUBE_SUBDIV) (0 / HEMICUBE_SUBDIV) = _
    rw [Nat.zero_mod, Nat.zero_div, dFormFactor_front_corner, zero_add]
  rw [hval]
  have hpi := PI_pos
  refine ⟨by norm_num, ?_, ?_⟩
  · field_simp
    ring
  · intro h
    field_simp at h
    have hpos : 0 < PI * 9 * 262144 := mul_pos (mul_pos hpi (by norm_num)) (by norm_num)
    linarith

/-- The outer loop of `loadLookUpTable` run for `n` rows on a text that holds `n + k`
rows: the first `n` rows are stored, the remaining `k` rows are left unread. -/
theorem loadRow_written_prefix (T V : Nat → Nat → ℚ) (NumElements n k p : Nat)
    (tbl : Nat → Nat → ℚ) (sp : List Char) (hsp : ∀ a ∈ sp, isSpaceChar a = true)
    (hV : ∀ p' e', p ≤ p' → p' < p + n → e' < NumElements →
      parseNumeral (showDouble (T p' e')) = some (V p' e')) :
    (∀ p' e', p ≤ p' → p' < p + n → e' < NumElements →
      ((List.range' p n).foldl (loadRow NumElements)
        (tbl, { buf := sp ++ rowsText T NumElements p (n + k), fail := false })).1 p' e'
        = V p' e') ∧
    (∀ p' e', (p' < p ∨ p + n ≤ p' ∨ NumElements ≤ e') →
      ((List.range' p n).foldl (loadRow NumElements)
        (tbl, { buf := sp ++ rowsText T NumElements p (n + k), fail := false })).1 p' e'
        = tbl p' e') ∧
    ((List.range' p n).foldl (loadRow NumElements)
        (tbl, { buf := sp ++ rowsText T NumElements p (n + k), fail := false })).2.fail
      = false := by
  induction n generalizing p tbl sp with
  | zero =>
    refine ⟨?_, ?_, rfl⟩
    · intro p' e' h1 h2; omega
    · intro p' e' _; rfl
  | succ n ih =>
    have hnk : n + 1 + k = (n + k) + 1 := by omega
    rw [hnk]
    obtain ⟨c, rest, hnext, hc⟩ := rowsText_succ_head T NumElements p (n + k)
    obtain ⟨r1, r2, r3⟩ := loadCell_written T V p NumElements 0 tbl '\n'
      (rowsText T NumElements (p + 1) (n + k)) (by decide)
      (fun e' _ h2 => hV p e' le_rfl (by omega) (by omega))
    have hstep : loadRow NumElements
        (tbl, { buf := sp ++ rowsText T NumElements p (n + k + 1), fail := false }) p
        = (List.range' 0 NumElements).foldl (loadCell p)
            (tbl, { buf := cellsText T p 0 NumElements
              ++ '\n' :: rowsText T NumElements (p + 1) (n + k), fail := false }) := by
      have hbuf : sp ++ rowsText T NumElements p (n + k + 1)
          = sp ++ (showNat p ++ c :: rest) := by
        rw [rowsText, ← hnext]
        simp
      simp only [loadRow]
      rw [hbuf, readInt_written sp p c rest hsp hc, hnext, List.range_eq_range']
    rw [List.range'_succ, List.foldl_cons, hstep]
    generalize hres : (List.range' 0 NumElements).foldl (loadCell p)
      (tbl, { buf := cellsText T p 0 NumElements
        ++ '\n' :: rowsText T NumElements (p + 1) (n + k), fail := false }) = res at r1 r2 r3
    have hres' : res
        = (res.1, (⟨['\n'] ++ rowsText T NumElements (p + 1) (n + k), false⟩ : IStream)) := by
      have h0 : res = (res.1, res.2) := rfl
      rw [r1] at h0
      exact h0
    rw [hres']
    obtain ⟨i1, i2, i3⟩ := ih (p + 1) res.1 ['\n']
      (by intro a ha; rw [List.mem_singleton] at ha; subst ha; decide)
      (fun p' e' h1 h2 h3 => hV p' e' (by omega) (by omega) h3)
    refine ⟨?_, ?_, i3⟩
    · intro p' e' h1 h2 h3
      by_cases hp : p' = p
      · subst hp
        rw [i2 p' e' (Or.inl (by omega))]
        exact r2 e' (Nat.zero_le _) (by omega)
      · exact i1 p' e' (by omega) (by omega) h3
    · intro p' e' h
      have h' : p' < p + 1 ∨ p + 1 + n ≤ p' ∨ NumElements ≤ e' := by omega
      rw [i2 p' e' h']
      apply r3
      omega

/-- Loading a text that was written for at least as many patches as the loading state
has: the first rows are stored, the other cells of the table are untouched. -/
theorem loadLookUpTable_written_prefix (s s' : State) (V : Nat → Nat → ℚ)
    (hP : s'.NumPatches ≤ s.NumPatches) (hE : s'.NumElements = s.NumElements)
    (hV : ∀ p e, p < s'.NumPatches → e < s.NumElements →
      parseNumeral (showDouble (s.lookUpTable p e)) = some (V p e)) :
    (∀ p e, p < s'.NumPatches → e < s.NumElements →
      (loadLookUpTable (writeLookUpTable s) s').lookUpTable p e = V p e) ∧
    (∀ p e, (s'.NumPatches ≤ p ∨ s.NumElements ≤ e) →
      (loadLookUpTable (writeLookUpTable s) s').lookUpTable p e = s'.lookUpTable p e) := by
  obtain ⟨k, hk⟩ := Nat.exists_eq_add_of_le hP
  simp only [loadLookUpTable]
  rw [getline_written, hE, List.range_eq_range', hk]
  obtain ⟨h1, h2, _⟩ := loadRow_written_prefix s.lookUpTable V s.NumElements s'.NumPatches k 0
    s'.lookUpTable [] (by intro a ha; simp at ha)
    (fun p' e' _ h2 h3 => hV p' e' (by omega) h3)
  rw [List.nil_append] at h1 h2
  refine ⟨?_, ?_⟩
  · intro p e hp he
    exact h1 p e (Nat.zero_le _) (by omega) he
  · intro p e h
    apply h2
    omega

/-- C11 (amended): `loadLookUpTable` compares no counts and has no failure result.  On a
text written by `generateFormFactorTable` for a table with `NumElements` columns and at
least `NumPatches` rows, it stores the first `NumPatches` rows (each cell as the number
denoted by its printed numeral) and leaves every other cell of the table untouched: extra
rows are silently dropped. -/
theorem loadLookUpTable_truncates (s s' : State)
    (hP : s'.NumPatches ≤ s.NumPatches) (hE : s'.NumElements = s.NumElements)
    (hT : ∀ p e, p < s'.NumPatches → e < s.NumElements →
      parseNumeral (showDouble (s.lookUpTable p e)) = some (s.lookUpTable p e)) :
    (∀ p e, p < s'.NumPatches → e < s.NumElements →
      (loadLookUpTable (writeLookUpTable s) s').lookUpTable p e = s.lookUpTable p e) ∧
    (∀ p e, (s'.NumPatches ≤ p ∨ s.NumElements ≤ e) →
      (loadLookUpTable (writeLookUpTable s) s').lookUpTable p e = s'.lookUpTable p e) :=
  loadLookUpTable_written_prefix s s' s.lookUpTable hP hE hT

theorem shortDecimalState_row_zero (p e : Nat) (hp : p < 1) (he : e < 2) :
    parseNumeral (showDouble (shortDecimalState.lookUpTable p e))
      = some (shortDecimalState.lookUpTable p e) := by
  interval_cases p
  interval_cases e
  · exact parseNumeral_showDouble_zero
  · exact parseNumeral_showDouble_half

/-- Witness for C11 (amended): the `2 x 2` table text loaded into a state with one patch;
cell `(1, 0)` keeps the value 7 it had. -/
theorem loadLookUpTable_truncates_witness :
    (loadLookUpTable (writeLookUpTable shortDecimalState) oneRowState).lookUpTable 1 0 = 7 :=
  (loadLookUpTable_truncates shortDecimalState oneRowState (by decide) rfl
    (fun p e hp he => shortDecimalState_row_zero p e hp he)).2 1 0 (Or.inl (by decide))

/-- C11 as stated fails: the text of a table with 2 patch rows, loaded by a scene with
`NumPatches = 1`, is not rejected; the first row is stored (cells `0` and `1/2` replace
the 7s) and the second row is dropped. -/
theorem loadLookUpTable_accepts_extra_rows :
    shortDecimalState.NumPatches = 2 ∧ oneRowState.NumPatches = 1 ∧
    oneRowState.lookUpTable 0 1 = 7 ∧
    (loadLookUpTable (writeLookUpTable shortDecimalState) oneRowState).lookUpTable 0 0 = 0 ∧
    (loadLookUpTable (writeLookUpTable shortDecimalState) oneRowState).lookUpTable 0 1
      = 1 / 2 := by
  obtain ⟨h1, _⟩ := loadLookUpTable_written_prefix shortDecimalState oneRowState
    shortDecimalState.lookUpTable (by decide) rfl
    (fun p e hp he => shortDecimalState_row_zero p e hp he)
  refine ⟨rfl, rfl, rfl, ?_, ?_⟩
  · rw [h1 0 0 (by decide) (by decide)]
    rfl
  · rw [h1 0 1 (by decide) (by decide)]
    norm_num [shortDecimalState]

/-- The normal that `loadData` stores: the vector product of the two edges, each divided
by `sqrt` of its squared length. -/
theorem loadData_normal (sqrt : ℚ → ℚ) (scene : SceneData) (s : State) (p : Nat)
    (hp : p < scene.NumPatches) :
    ((loadData sqrt scene s).2.PatchArray p).normal
      = cross
          ⟨(patchEdge1 scene p).x / sqrt (dot (patchEdge1 scene p) (patchEdge1 scene p)),
           (patchEdge1 scene p).y / sqrt (dot (patchEdge1 scene p) (patchEdge1 scene p)),
           (patchEdge1 scene p).z / sqrt (dot (patchEdge1 scene p) (patchEdge1 scene p))⟩
          ⟨(patchEdge2 scene p).x / sqrt (dot (patchEdge2 scene p) (patchEdge2 scene p)),
           (patchEdge2 scene p).y / sqrt (dot (patchEdge2 scene p) (patchEdge2 scene p)),
           (patchEdge2 scene p).z / sqrt (dot (patchEdge2 scene p) (patchEdge2 scene p))⟩ := by
  rw [loadData_PatchArray, readPatches, readPatchesUpTo_patch sqrt scene s _ p hp,
    readPatchesUpTo_succ]
  simp only [readPatch, Function.update_same, cross, patchEdge1, patchEdge2, edgeBetween, dot,
    Vertex.mk.injEq]
  refine ⟨?_, ?_, ?_⟩ <;> ring

theorem dot_self_eq_zero_iff (a : Vertex) : dot a a = 0 ↔ a = ⟨0, 0, 0⟩ := by
  constructor
  · intro h
    simp only [dot] at h
    have hx : a.x * a.x = 0 := by nlinarith [mul_self_nonneg a.x, mul_self_nonneg a.y, mul_self_nonneg a.z]
    have hy : a.y * a.y = 0 := by nlinarith [mul_self_nonneg a.x, mul_self_nonneg a.y, mul_self_nonneg a.z]
    have hz : a.z * a.z = 0 := by nlinarith [mul_self_nonneg a.x, mul_self_nonneg a.y, mul_self_nonneg a.z]
    cases a
    simp only [Vertex.mk.injEq]
    exact ⟨mul_self_eq_zero.1 hx, mul_self_eq_zero.1 hy, mul_self_eq_zero.1 hz⟩
  · intro h
    rw [h]
    simp [dot]

/-- Squared length of the vector product of two scaled vectors (Lagrange identity). -/
theorem dot_cross_scaled (a b : Vertex) (L1 L2 : ℚ) (h1 : L1 ^ 2 = dot a a)
    (h2 : L2 ^ 2 = dot b b) (hn1 : dot a a ≠ 0) (hn2 : dot b b ≠ 0) :
    dot (cross ⟨a.x / L1, a.y / L1, a.z / L1⟩ ⟨b.x / L2, b.y / L2, b.z / L2⟩)
        (cross ⟨a.x / L1, a.y / L1, a.z / L1⟩ ⟨b.x / L2, b.y / L2, b.z / L2⟩)
      = 1 - (dot a b) ^ 2 / (dot a a * dot b b) := by
  have hL1 : L1 ≠ 0 := by
    intro h; rw [h] at h1; exact hn1 (by rw [← h1]; norm_num)
  have hL2 : L2 ≠ 0 := by
    intro h; rw [h] at h2; exact hn2 (by rw [← h2]; norm_num)
  have hlhs : dot (cross ⟨a.x / L1, a.y / L1, a.z / L1⟩ ⟨b.x / L2, b.y / L2, b.z / L2⟩)
        (cross ⟨a.x / L1, a.y / L1, a.z / L1⟩ ⟨b.x / L2, b.y / L2, b.z / L2⟩)
      = (dot a a * dot b b - (dot a b) ^ 2) / (L1 ^ 2 * L2 ^ 2) := by
    simp only [dot, cross]
    field_simp
    ring
  rw [hlhs, h1, h2]
  field_simp

theorem rat_sqrt_sq (q : ℚ) (hq : 0 ≤ q) : Rat.sqrt (q * q) = q := by
  rw [Rat.sqrt_eq, abs_of_nonneg hq]

theorem skewScene_edges :
    patchEdge1 skewScene 0 = ⟨1, 0, 0⟩ ∧ patchEdge2 skewScene 0 = ⟨3, 4, 0⟩ := by
  constructor
  · norm_num [patchEdge1, edgeBetween, skewScene]
  · norm_num [patchEdge2, edgeBetween, skewScene, fin4_val_three]

/-- C21 as stated fails for a patch whose edges are not perpendicular: in `skewScene` the
edges `(1,0,0)` and `(3,4,0)` are non-zero, the stored normal is `(0, 0, 4/5)` and its
squared length is `16/25`, so its length is `4/5`. -/
theorem loadData_normal_not_unit :
    patchEdge1 skewScene 0 = ⟨1, 0, 0⟩ ∧ patchEdge2 skewScene 0 = ⟨3, 4, 0⟩ ∧
    ((loadData Rat.sqrt skewScene startState).2.PatchArray 0).normal = ⟨0, 0, 4 / 5⟩ ∧
    dot ((loadData Rat.sqrt skewScene startState).2.PatchArray 0).normal
        ((loadData Rat.sqrt skewScene startState).2.PatchArray 0).normal = 16 / 25 ∧
    dot ((loadData Rat.sqrt skewScene startState).2.PatchArray 0).normal
        ((loadData Rat.sqrt skewScene startState).2.PatchArray 0).normal ≠ 1 := by
  have hn : ((loadData Rat.sqrt skewScene startState).2.PatchArray 0).normal
      = ⟨0, 0, 4 / 5⟩ := by
    rw [loadData_normal Rat.sqrt skewScene startState 0 (by decide), skewScene_edges.1,
      skewScene_edges.2]
    have h1 : dot (⟨1, 0, 0⟩ : Vertex) ⟨1, 0, 0⟩ = 1 * 1 := by norm_num [dot]
    have h2 : dot (⟨3, 4, 0⟩ : Vertex) ⟨3, 4, 0⟩ = 5 * 5 := by norm_num [dot]
    rw [h1, h2, rat_sqrt_sq 1 (by norm_num), rat_sqrt_sq 5 (by norm_num)]
    norm_num [cross]
  refine ⟨skewScene_edges.1, skewScene_edges.2, hn, ?_, ?_⟩
  · rw [hn]; norm_num [dot]
  · rw [hn]; norm_num [dot]

/-- Without self-coupling the increment of every iteration is the two-phase increment. -/
theorem dRadiosityAt_eq_twoPhase (i : Nat) (s : State) (e : Nat)
    (hself : ∀ e', e' < e → (s.ElementArray e').patch = i → s.lookUpTable i e' = 0) :
    dRadiosityAt i s e = twoPhaseIncrement i s e := by
  simp only [dRadiosityAt, twoPhaseIncrement, shootPrefix_unshot_noself i s e hself]

theorem color_eq_of_ch (a c : Color) (h : ∀ k : Fin 3, a.ch k = c.ch k) : a = c := by
  have h0 := h 0
  have h1 := h 1
  have h2 := h 2
  simp only [Color.ch_zero, Color.ch_one, Color.ch_two] at h0 h1 h2
  cases a
  cases c
  simp only [Color.mk.injEq]
  exact ⟨h0, h1, h2⟩

theorem dRadiosityAt_ch (i : Nat) (s : State) (e : Nat) (c : Fin 3) :
    (dRadiosityAt i s e).ch c
      = (s.PatchArray (s.ElementArray e).patch).reflectance.ch c
        * ((shootPrefix i s e).PatchArray i).unshot.ch c
        * s.lookUpTable i e * ((s.PatchArray i).area / (s.ElementArray e).area) := by
  fin_cases c <;> simp [dRadiosityAt]

/-- With non-negative data the unshot values of the patches stay non-negative during the
element loop. -/
theorem shootPrefix_unshot_nonneg (i : Nat) (s : State)
    (hi : i < s.NumPatches)
    (howner : ∀ e, e < s.NumElements → (s.ElementArray e).patch < s.NumPatches)
    (hPA : ∀ p, p < s.NumPatches → 0 < (s.PatchArray p).area)
    (hEA : ∀ e, e < s.NumElements → 0 < (s.ElementArray e).area)
    (hrho : ∀ p c, p < s.NumPatches → 0 ≤ (s.PatchArray p).reflectance.ch c)
    (hF : ∀ p e, p < s.NumPatches → e < s.NumElements → 0 ≤ s.lookUpTable p e)
    (hU : ∀ p c, p < s.NumPatches → 0 ≤ (s.PatchArray p).unshot.ch c)
    (k : Nat) (hk : k ≤ s.NumElements) :
    ∀ j c, j < s.NumPatches → 0 ≤ ((shootPrefix i s k).PatchArray j).unshot.ch c := by
  induction k with
  | zero => intro j c hj; exact hU j c hj
  | succ k ih =>
    have ih' := ih (by omega)
    intro j c hj
    rw [shootPrefix_unshot_succ]
    apply add_nonneg (ih' j c hj)
    split_ifs
    · rw [dRadiosityAt_ch]
      have h1 := hrho (s.ElementArray k).patch c (howner k (by omega))
      have h2 := ih' i c hi
      have h3 := hF i k hi (by omega)
      have h4 := hPA i hi
      have h5 := hEA k (by omega)
      have h6 := hPA j hj
      positivity
    · exact le_refl _

theorem dRadiosityAt_nonneg (i : Nat) (s : State)
    (hi : i < s.NumPatches)
    (howner : ∀ e, e < s.NumElements → (s.ElementArray e).patch < s.NumPatches)
    (hPA : ∀ p, p < s.NumPatches → 0 < (s.PatchArray p).area)
    (hEA : ∀ e, e < s.NumElements → 0 < (s.ElementArray e).area)
    (hrho : ∀ p c, p < s.NumPatches → 0 ≤ (s.PatchArray p).reflectance.ch c)
    (hF : ∀ p e, p < s.NumPatches → e < s.NumElements → 0 ≤ s.lookUpTable p e)
    (hU : ∀ p c, p < s.NumPatches → 0 ≤ (s.PatchArray p).unshot.ch c)
    (e : Nat) (he : e < s.NumElements) (c : Fin 3) :
    0 ≤ (dRadiosityAt i s e).ch c := by
  rw [dRadiosityAt_ch]
  have h1 := hrho (s.ElementArray e).patch c (howner e he)
  have h2 := shootPrefix_unshot_nonneg i s hi howner hPA hEA hrho hF hU e (by omega) i c hi
  have h3 := hF i e hi he
  have h4 := hPA i hi
  have h5 := hEA e he
  positivity

theorem Color.add_ch (a b : Color) (c : Fin 3) : (a + b).ch c = a.ch c + b.ch c := by
  fin_cases c <;> rfl

/-- C27: if, before a `progressiveRefinement` step, the areas of all patches and elements
of the scene are positive and all reflectance channels, table entries, element radiosity
channels and patch unshot channels are non-negative (every element being owned by a patch
of the scene and the queue naming a patch of the scene), then after the step all element
radiosity channels and patch unshot channels are non-negative, and no element's radiosity
has decreased in any channel. -/
theorem progressiveRefinement_nonneg (s : State)
    (hi : (pqTop s.unshotPatchQueue).id < s.NumPatches)
    (howner : ∀ e, e < s.NumElements → (s.ElementArray e).patch < s.NumPatches)
    (hPA : ∀ p, p < s.NumPatches → 0 < (s.PatchArray p).area)
    (hEA : ∀ e, e < s.NumElements → 0 < (s.ElementArray e).area)
    (hrho : ∀ p c, p < s.NumPatches → 0 ≤ (s.PatchArray p).reflectance.ch c)
    (hF : ∀ p e, p < s.NumPatches → e < s.NumElements → 0 ≤ s.lookUpTable p e)
    (hB : ∀ e c, e < s.NumElements → 0 ≤ (s.ElementArray e).radiosity.ch c)
    (hU : ∀ p c, p < s.NumPatches → 0 ≤ (s.PatchArray p).unshot.ch c) :
    (∀ e c, e < s.NumElements →
      0 ≤ ((progressiveRefinement s).ElementArray e).radiosity.ch c) ∧
    (∀ p c, p < s.NumPatches → 0 ≤ ((progressiveRefinement s).PatchArray p).unshot.ch c) ∧
    (∀ e c, (s.ElementArray e).radiosity.ch c
      ≤ ((progressiveRefinement s).ElementArray e).radiosity.ch c) := by
  have hmono : ∀ e c, (s.ElementArray e).radiosity.ch c
      ≤ ((progressiveRefinement s).ElementArray e).radiosity.ch c := by
    intro e c
    rw [progressiveRefinement_ElementArray]
    by_cases he : e < s.NumElements
    · rw [shootPrefix_radiosity _ _ _ _ he, Color.add_ch]
      have := dRadiosityAt_nonneg (pqTop s.unshotPatchQueue).id s hi howner hPA hEA hrho hF hU
        e he c
      linarith
    · rw [shootPrefix_elem_of_le _ s _ e (by omega)]
  refine ⟨fun e c he => le_trans (hB e c he) (hmono e c), ?_, hmono⟩
  intro p c hp'
  rw [progressiveRefinement_PatchArray]
  by_cases hp : p = (pqTop s.unshotPatchQueue).id
  · rw [hp, Function.update_same]
    fin_cases c <;> simp
  · rw [Function.update_noteq hp]
    exact shootPrefix_unshot_nonneg _ s hi howner hPA hEA hrho hF hU _ le_rfl p c hp'

theorem projectedHemicube_eq (render : Nat → Nat → Nat → Nat → Nat) (s : State)
    (patch_id : Nat) :
    projectedHemicube render s patch_id
      = (List.range s.NumElements).foldl
          (fun h element_id =>
            computeDeltaFormFactor (render patch_id element_id) h (s.ElementArray element_id)
              element_id)
          (patchHemicube (s.PatchArray patch_id)) := rfl

/-- The projected hemicube reads only the element array, its length and the patch. -/
theorem projectedHemicube_congr (render : Nat → Nat → Nat → Nat → Nat) (s s' : State)
    (patch_id : Nat) (h1 : s'.NumElements = s.NumElements)
    (h2 : s'.ElementArray = s.ElementArray) (h3 : s'.PatchArray = s.PatchArray) :
    projectedHemicube render s' patch_id = projectedHemicube render s patch_id := by
  rw [projectedHemicube_eq, projectedHemicube_eq, h1, h2, h3]

theorem rowShare_congr (render : Nat → Nat → Nat → Nat → Nat) (s s' : State)
    (patch_id e : Nat) (h1 : s'.NumElements = s.NumElements)
    (h2 : s'.ElementArray = s.ElementArray) (h3 : s'.PatchArray = s.PatchArray) :
    rowShare render s' patch_id e = rowShare render s patch_id e := by
  unfold rowShare
  rw [projectedHemicube_congr render s s' patch_id h1 h2 h3]

/-- One pass of the patch loop adds the row share to the cells of row `patch_id`. -/
theorem formFactorRow_cell (render : Nat → Nat → Nat → Nat → Nat) (s : State)
    (patch_id p e : Nat) :
    (formFactorRow render s patch_id).lookUpTable p e
      = s.lookUpTable p e + (if p = patch_id then rowShare render s patch_id e else 0) := by
  rw [formFactorRow_lookUpTable, ← projectedHemicube_eq,
    (updateLookUpTable_spec patch_id _ s.lookUpTable).2 p e]
  rfl

/-- The patch loop of `generateFormFactorTable` after `k` passes. -/
theorem formFactorRows_spec (render : Nat → Nat → Nat → Nat → Nat) (s : State) (k : Nat) :
    ((List.range k).foldl (formFactorRow render) s).NumPatches = s.NumPatches ∧
    ((List.range k).foldl (formFactorRow render) s).NumElements = s.NumElements ∧
    ((List.range k).foldl (formFactorRow render) s).ElementArray = s.ElementArray ∧
    ((List.range k).foldl (formFactorRow render) s).PatchArray = s.PatchArray ∧
    ∀ p e, ((List.range k).foldl (formFactorRow render) s).lookUpTable p e
      = s.lookUpTable p e + (if p < k then rowShare render s p e else 0) := by
  induction k with
  | zero => simp
  | succ k ih =>
    rw [List.range_succ, List.foldl_append]
    generalize (List.range k).foldl (formFactorRow render) s = G at ih ⊢
    obtain ⟨i1, i2, i3, i4, i5⟩ := ih
    obtain ⟨f1, f2, f3, f4⟩ := formFactorRow_frame render G k
    simp only [List.foldl_cons, List.foldl_nil]
    refine ⟨f1.trans i1, f2.trans i2, f3.trans i3, f4.trans i4, ?_⟩
    intro p e
    rw [formFactorRow_cell, i5, rowShare_congr render s G k e i2 i3 i4]
    by_cases hp : p = k
    · subst hp
      rw [if_neg (lt_irrefl _), if_pos rfl, if_pos (Nat.lt_succ_self _), add_zero]
    · rw [if_neg hp, add_zero]
      by_cases hlt : p < k
      · rw [if_pos hlt, if_pos (by omega)]
      · rw [if_neg hlt, if_neg (by omega)]

/-- Every cell after `generateFormFactorTable`: the prior cell plus the row share. -/
theorem generateFormFactorTable_cell (render : Nat → Nat → Nat → Nat → Nat) (s : State)
    (p e : Nat) :
    (generateFormFactorTable render s).1.lookUpTable p e
      = s.lookUpTable p e + (if p < s.NumPatches then rowShare render s p e else 0) := by
  rw [generateFormFactorTable_fst]
  exact (formFactorRows_spec render s s.NumPatches).2.2.2.2 p e

theorem generateFormFactorTable_from_zero (render : Nat → Nat → Nat → Nat → Nat) (s : State)
    (p e : Nat) :
    (generateFormFactorTable render { s with lookUpTable := fun _ _ => 0 }).1.lookUpTable p e
      = (if p < s.NumPatches then rowShare render s p e else 0) := by
  rw [generateFormFactorTable_cell,
    rowShare_congr render s { s with lookUpTable := fun _ _ => 0 } p e rfl rfl rfl]
  show (0 : ℚ) + (if p < s.NumPatches then rowShare render s p e else 0) = _
  rw [zero_add]

/-- C23: `generateFormFactorTable` does not clear the table.  For every prior table and
every fixed outcome `render` of the visibility projection, each cell of the resulting
table is the prior cell plus the value that the same run produces from the all-zero
table, and the text written is that of the resulting table; in particular this holds for
the state that `init` leaves, whose table was loaded from the file. -/
theorem generateFormFactorTable_accumulates (render : Nat → Nat → Nat → Nat → Nat)
    (s : State) (sqrt : ℚ → ℚ) (scene : SceneData) (file : List Char) (p e : Nat) :
    (generateFormFactorTable render s).1.lookUpTable p e
      = s.lookUpTable p e
        + (generateFormFactorTable render
            { s with lookUpTable := fun _ _ => 0 }).1.lookUpTable p e ∧
    (generateFormFactorTable render s).2
      = writeLookUpTable (generateFormFactorTable render s).1 ∧
    (generateFormFactorTable render (init sqrt scene file s)).1.lookUpTable p e
      = (loadLookUpTable file (initScene (loadData sqrt scene s).2)).lookUpTable p e
        + (generateFormFactorTable render
            { init sqrt scene file s with lookUpTable := fun _ _ => 0 }).1.lookUpTable p e := by
  refine ⟨?_, generateFormFactorTable_snd render s, ?_⟩
  · rw [generateFormFactorTable_cell, generateFormFactorTable_from_zero]
  · rw [generateFormFactorTable_cell, generateFormFactorTable_from_zero]
    rfl

/-- When every pixel is covered by at most one element, a pixel of the hemicube after
projecting the elements `0 .. n-1` is either fresh or holds the delta form factor of its
position and the id of the one element that covers it. -/
theorem projectElements_pixel (pixels : Nat → Nat → Nat → Nat) (ElementArray : Nat → Element)
    (h : Hemicube) (hfresh : ∀ S pix, h.hemiPixel S pix = ⟨0, []⟩)
    (hone : ∀ S i e1 e2, pixels e1 S (i * 3) > 0 → pixels e2 S (i * 3) > 0 → e1 = e2)
    (n S idx : Nat) :
    (((List.range n).foldl
          (fun h element_id =>
            computeDeltaFormFactor (pixels element_id) h (ElementArray element_id) element_id)
          h).hemiPixel S idx = ⟨0, []⟩ ∧
        ∀ e, e < n → ¬ (S < 5 ∧ idx < faceHeight S * HEMICUBE_SUBDIV ∧ pixels e S (idx * 3) > 0)) ∨
    (∃ e0, e0 < n ∧ pixels e0 S (idx * 3) > 0 ∧
      ((List.range n).foldl
          (fun h element_id =>
            computeDeltaFormFactor (pixels element_id) h (ElementArray element_id) element_id)
          h).hemiPixel S idx
        = ⟨dFormFactor S (idx % HEMICUBE_SUBDIV) (idx / HEMICUBE_SUBDIV), [e0]⟩) := by
  induction n with
  | zero =>
    left
    exact ⟨hfresh S idx, fun e he => absurd he (Nat.not_lt_zero e)⟩
  | succ n ih =>
    rw [List.range_succ, List.foldl_append]
    generalize (List.range n).foldl
      (fun h element_id =>
        computeDeltaFormFactor (pixels element_id) h (ElementArray element_id) element_id)
      h = G at ih ⊢
    simp only [List.foldl_cons, List.foldl_nil]
    rw [computeDeltaFormFactor_pixel]
    by_cases hc : S < 5 ∧ idx < faceHeight S * HEMICUBE_SUBDIV ∧ pixels n S (idx * 3) > 0
    · rw [if_pos hc]
      right
      rcases ih with ⟨hG, _⟩ | ⟨e0, he0, hcov, _⟩
      · refine ⟨n, Nat.lt_succ_self n, hc.2.2, ?_⟩
        rw [hG]
        simp [coveredPixel]
      · have := hone S idx e0 n hcov hc.2.2
        omega
    · rw [if_neg hc]
      rcases ih with ⟨hG, hno⟩ | ⟨e0, he0, hcov, hG⟩
      · left
        refine ⟨hG, ?_⟩
        intro e he
        by_cases hen : e = n
        · subst hen; exact hc
        · exact hno e (by omega)
      · right
        exact ⟨e0, by omega, hcov, hG⟩

theorem pixelShare_single (x : ℚ) (e0 e : Nat) :
    pixelShare ⟨x, [e0]⟩ e = if e0 = e then x else 0 := by
  simp [pixelShare]

/-- The shares that one pixel gives to the elements `0 .. N-1` sum to at most the delta
form factor of its position. -/
theorem projectedHemicube_share_le (render : Nat → Nat → Nat → Nat → Nat) (s : State)
    (P : Nat)
    (hone : ∀ S i e1 e2, render P e1 S (i * 3) > 0 → render P e2 S (i * 3) > 0 → e1 = e2)
    (N S idx : Nat) :
    ∑ e ∈ Finset.range N, pixelShare ((projectedHemicube render s P).hemiPixel S idx) e
      ≤ dFormFactor S (idx % HEMICUBE_SUBDIV) (idx / HEMICUBE_SUBDIV) := by
  rw [projectedHemicube_eq]
  rcases projectElements_pixel (render P) s.ElementArray (patchHemicube (s.PatchArray P))
    (patchHemicube_hemiPixel _) hone s.NumElements S idx with ⟨hG, _⟩ | ⟨e0, _, _, hG⟩
  · rw [hG]
    simp only [pixelShare_fresh, Finset.sum_const_zero]
    exact dFormFactor_nonneg _ _ _
  · rw [hG]
    simp only [pixelShare_single, Finset.sum_ite_eq, Finset.mem_range]
    split_ifs
    · exact le_refl _
    · exact dFormFactor_nonneg _ _ _

theorem facePixels_front : facePixels FRONT = 262144 := by
  unfold facePixels
  rw [if_pos rfl]
  rfl

theorem facePixels_side (S : Nat) (hS : S ≠ FRONT) : facePixels S = 131072 := by
  unfold facePixels
  rw [if_neg hS]
  rfl

theorem one_div_PI_mul_sq_le (a : ℚ) (ha : 1 ≤ a) : 1 / (PI * a ^ 2) ≤ 1 / PI := by
  have hpi := PI_pos
  apply one_div_le_one_div_of_le hpi
  have h1 : 1 ≤ a ^ 2 := by nlinarith
  nlinarith

/-- A front-face delta form factor is at most `1/PI` times the pixel area `1/512^2`. -/
theorem dFormFactor_front_le (x y : Nat) :
    dFormFactor FRONT x y ≤ 1 / PI * (1 / 262144) := by
  unfold dFormFactor
  rw [if_pos rfl]
  simp only []
  have hA : ((HEMICUBE_SUBDIV * HEMICUBE_SUBDIV : Nat) : ℚ) = 262144 := by
    norm_num [HEMICUBE_SUBDIV]
  rw [hA]
  apply mul_le_mul_of_nonneg_right _ (by norm_num)
  apply one_div_PI_mul_sq_le
  have hH : HEMICUBE_HEIGHT = 1 := rfl
  rw [hH]
  nlinarith [mul_self_nonneg ((((x : Int) - ((HEMICUBE_SUBDIV / 2 : Nat) : Int) : Int) : ℚ)
      / (HEMICUBE_SUBDIV : ℚ)),
    mul_self_nonneg ((((y : Int) - ((faceHeight FRONT / 2 : Nat) : Int) : Int) : ℚ)
      / (HEMICUBE_SUBDIV : ℚ))]

/-- A side-face delta form factor in the rows `y < 256` is at most `1/(2 PI)` times the
area factor `1/(512^2/2)`. -/
theorem dFormFactor_side_le (S x y : Nat) (hS : S ≠ FRONT) (hy : y < 256) :
    dFormFactor S x y ≤ 1 / 2 / PI * (1 / 131072) := by
  have hpi := PI_pos
  unfold dFormFactor
  rw [if_neg hS]
  simp only []
  have hA : ((HEMICUBE_SUBDIV * HEMICUBE_SUBDIV / 2 : Nat) : ℚ) = 131072 := by
    norm_num [HEMICUBE_SUBDIV]
  have hS2 : (HEMICUBE_SUBDIV : ℚ) = 512 := by norm_num [HEMICUBE_SUBDIV]
  rw [hA]
  apply mul_le_mul_of_nonneg_right _ (by norm_num)
  have hH : HEMICUBE_HEIGHT = 1 := rfl
  rw [hH, hS2]
  generalize ((((x : Int) - ((HEMICUBE_SUBDIV / 2 : Nat) : Int) : Int) : ℚ) / 512) = X
  have hy0 : (0 : ℚ) ≤ (y : ℚ) / 512 := by positivity
  have hy1 : (y : ℚ) / 512 ≤ 1 / 2 := by
    have : (y : ℚ) ≤ 256 := by exact_mod_cast le_of_lt hy
    linarith
  generalize (y : ℚ) / 512 = Y at hy0 hy1
  have ha : 1 ≤ X * X + Y * Y + 1 := by nlinarith [mul_self_nonneg X, mul_self_nonneg Y]
  have h1 : 1 ≤ (X * X + Y * Y + 1) ^ 2 := by nlinarith
  have hden : 0 < PI * (X * X + Y * Y + 1) ^ 2 := by positivity
  rw [div_le_div_iff₀ hden hpi]
  nlinarith

theorem sum_dFormFactor_front_le :
    ∑ pix ∈ Finset.range (facePixels FRONT),
        dFormFactor FRONT (pix % HEMICUBE_SUBDIV) (pix / HEMICUBE_SUBDIV) ≤ 1 / PI := by
  have h := Finset.sum_le_card_nsmul (Finset.range (facePixels FRONT))
    (fun pix => dFormFactor FRONT (pix % HEMICUBE_SUBDIV) (pix / HEMICUBE_SUBDIV))
    (1 / PI * (1 / 262144)) (fun pix _ => dFormFactor_front_le _ _)
  rw [Finset.card_range, facePixels_front] at h
  rw [facePixels_front]
  refine le_trans h (le_of_eq ?_)
  rw [nsmul_eq_mul]
  push_cast
  ring

theorem sum_dFormFactor_side_le (S : Nat) (hS : S ≠ FRONT) :
    ∑ pix ∈ Finset.range (facePixels S),
        dFormFactor S (pix % HEMICUBE_SUBDIV) (pix / HEMICUBE_SUBDIV) ≤ 1 / 2 / PI := by
  have h := Finset.sum_le_card_nsmul (Finset.range (facePixels S))
    (fun pix => dFormFactor S (pix % HEMICUBE_SUBDIV) (pix / HEMICUBE_SUBDIV))
    (1 / 2 / PI * (1 / 131072))
    (fun pix hpix => dFormFactor_side_le S _ _ hS (by
      have h1 : pix < 131072 := by
        rw [← facePixels_side S hS]; exact Finset.mem_range.1 hpix
      have h2 : HEMICUBE_SUBDIV = 512 := rfl
      rw [h2]
      omega))
  rw [Finset.card_range, facePixels_side S hS] at h
  rw [facePixels_side S hS]
  refine le_trans h (le_of_eq ?_)
  rw [nsmul_eq_mul]
  push_cast
  ring

/-- The shares that one pass of the patch loop adds to the elements `0 .. N-1` sum to at
most `3/PI` when every pixel is covered by at most one element. -/
theorem rowShare_sum_le (render : Nat → Nat → Nat → Nat → Nat) (s : State) (P N : Nat)
    (hone : ∀ S i e1 e2, render P e1 S (i * 3) > 0 → render P e2 S (i * 3) > 0 → e1 = e2) :
    ∑ e ∈ Finset.range N, rowShare render s P e ≤ 3 / PI := by
  unfold rowShare
  rw [Finset.sum_comm]
  have hS : ∀ S ∈ Finset.range 5,
      ∑ e ∈ Finset.range N, ∑ pix ∈ Finset.range (facePixels S),
          pixelShare ((projectedHemicube render s P).hemiPixel S pix) e
        ≤ (if S = FRONT then 1 / PI else 1 / 2 / PI) := by
    intro S _
    rw [Finset.sum_comm]
    have hpix : ∑ pix ∈ Finset.range (facePixels S), ∑ e ∈ Finset.range N,
          pixelShare ((projectedHemicube render s P).hemiPixel S pix) e
        ≤ ∑ pix ∈ Finset.range (facePixels S),
            dFormFactor S (pix % HEMICUBE_SUBDIV) (pix / HEMICUBE_SUBDIV) :=
      Finset.sum_le_sum (fun pix _ => projectedHemicube_share_le render s P hone N S pix)
    refine le_trans hpix ?_
    by_cases hF : S = FRONT
    · rw [if_pos hF, hF]
      exact sum_dFormFactor_front_le
    · rw [if_neg hF]
      exact sum_dFormFactor_side_le S hF
  refine le_trans (Finset.sum_le_sum hS) (le_of_eq ?_)
  have hpi : PI ≠ 0 := ne_of_gt PI_pos
  simp only [Finset.sum_range_succ, Finset.sum_range_zero, FRONT]
  norm_num
  field_simp
  ring

theorem three_div_PI_lt_one : 3 / PI < 1 := by
  norm_num [PI]

/-- C26: starting from the all-zero table of `initScene`, for every outcome `render` of
the visibility projection in which each hemicube pixel (byte index `i * 3` of a
face) is recorded for at most one element, the sum over all elements of the row that `generateFormFactorTable` produces
for any patch is at most `3/PI`, hence strictly less than 1. -/
theorem generateFormFactorTable_row_sum_le (render : Nat → Nat → Nat → Nat → Nat) (s : State)
    (p : Nat)
    (hone : ∀ P S i e1 e2,
      render P e1 S (i * 3) > 0 → render P e2 S (i * 3) > 0 → e1 = e2) :
    ∑ e ∈ Finset.range (initScene s).NumElements,
        (generateFormFactorTable render (initScene s)).1.lookUpTable p e ≤ 3 / PI ∧
    ∑ e ∈ Finset.range (initScene s).NumElements,
        (generateFormFactorTable render (initScene s)).1.lookUpTable p e < 1 := by
  have hle : ∑ e ∈ Finset.range (initScene s).NumElements,
      (generateFormFactorTable render (initScene s)).1.lookUpTable p e ≤ 3 / PI := by
    have hcell : ∀ e, (generateFormFactorTable render (initScene s)).1.lookUpTable p e
        = (if p < (initScene s).NumPatches then rowShare render (initScene s) p e else 0) := by
      intro e
      rw [generateFormFactorTable_cell, initScene_lookUpTable, zero_add]
    simp only [hcell]
    by_cases hp : p < (initScene s).NumPatches
    · simp only [if_pos hp]
      exact rowShare_sum_le render (initScene s) p _ (hone p)
    · simp only [if_neg hp, Finset.sum_const_zero]
      exact le_of_lt (div_pos (by norm_num) PI_pos)
  exact ⟨hle, lt_of_le_of_lt hle three_div_PI_lt_one⟩

theorem cornerRender_one (P S i e1 e2 : Nat) (h1 : cornerRender P e1 S (i * 3) > 0)
    (h2 : cornerRender P e2 S (i * 3) > 0) : e1 = e2 := by
  unfold cornerRender at h1 h2
  by_cases c1 : e1 = 0
  · by_cases c2 : e2 = 0
    · rw [c1, c2]
    · rw [if_neg c2] at h2
      exact absurd h2 (lt_irrefl 0)
  · rw [if_neg c1] at h1
    exact absurd h1 (lt_irrefl 0)

/-- Witness for C26: the two-patch example with a rendering in which element 0 covers one
front pixel. -/
theorem generateFormFactorTable_row_sum_le_witness :
    ∑ e ∈ Finset.range (initScene twoPatchState).NumElements,
        (generateFormFactorTable cornerRender (initScene twoPatchState)).1.lookUpTable 0 e
      < 1 :=
  (generateFormFactorTable_row_sum_le cornerRender twoPatchState 0 cornerRender_one).2

/-- The four vertex indices of an element of patch `p` in the final state: with
`d = e - elnum`, `j = d / m`, `k = d % m` and row width `w`, they are the grid positions
`(j,k)`, `(j,k+1)`, `(j+1,k+1)`, `(j+1,k)` counted from the first grid vertex of the patch. -/
theorem loadData_element_vertices (sqrt : ℚ → ℚ) (scene : SceneData) (s : State) (p e : Nat)
    (hp : p < scene.NumPatches)
    (h1 : (formPatches sqrt scene s p).elnum ≤ e)
    (h2 : e < (formPatches sqrt scene s (p + 1)).elnum) :
    ((loadData sqrt scene s).2.ElementArray e).vertices 0
      = (formPatches sqrt scene s p).vertnum
        + (e - (formPatches sqrt scene s p).elnum) % ((scene.patches p).numelements + 2).toNat
        + (e - (formPatches sqrt scene s p).elnum) / ((scene.patches p).numelements + 2).toNat
          * ((scene.patches p).numelements + 2 + 1).toNat ∧
    ((loadData sqrt scene s).2.ElementArray e).vertices 1
      = (formPatches sqrt scene s p).vertnum
        + ((e - (formPatches sqrt scene s p).elnum) % ((scene.patches p).numelements + 2).toNat
            + 1)
        + (e - (formPatches sqrt scene s p).elnum) / ((scene.patches p).numelements + 2).toNat
          * ((scene.patches p).numelements + 2 + 1).toNat ∧
    ((loadData sqrt scene s).2.ElementArray e).vertices 2
      = (formPatches sqrt scene s p).vertnum
        + ((e - (formPatches sqrt scene s p).elnum) % ((scene.patches p).numelements + 2).toNat
            + 1)
        + ((e - (formPatches sqrt scene s p).elnum) / ((scene.patches p).numelements + 2).toNat
            + 1)
          * ((scene.patches p).numelements + 2 + 1).toNat ∧
    ((loadData sqrt scene s).2.ElementArray e).vertices 3
      = (formPatches sqrt scene s p).vertnum
        + (e - (formPatches sqrt scene s p).elnum) % ((scene.patches p).numelements + 2).toNat
        + ((e - (formPatches sqrt scene s p).elnum) / ((scene.patches p).numelements + 2).toNat
            + 1)
          * ((scene.patches p).numelements + 2 + 1).toNat := by
  have hN : scene.NumPatches = (p + 1) + (scene.NumPatches - (p + 1)) := by omega
  have hE : (loadData sqrt scene s).2.ElementArray e
      = (formPatches sqrt scene s (p + 1)).ElementArray e := by
    show (formPatches sqrt scene s scene.NumPatches).ElementArray e = _
    rw [hN, formPatches_element_stable sqrt scene s (p + 1) _ e h2]
  rw [hE, formPatches_succ, (formPatch_spec _ _ _).2.2]
  rw [formPatches_succ, (formPatch_spec _ _ _).1] at h2
  rw [if_pos ⟨h1, h2⟩]
  have hnum := readPatches_numelements sqrt scene s p hp
  refine ⟨?_, ?_, ?_, ?_⟩ <;> simp [formedElement, hnum]

/-- Every element index below the counter `elnum` after `P` patches lies in the range
that one of these patches has written. -/
theorem exists_patch_of_lt_elnum (sqrt : ℚ → ℚ) (scene : SceneData) (s : State) (P e : Nat)
    (he : e < (formPatches sqrt scene s P).elnum) :
    ∃ p, p < P ∧ (formPatches sqrt scene s p).elnum ≤ e ∧
      e < (formPatches sqrt scene s (p + 1)).elnum := by
  induction P with
  | zero => exact absurd he (Nat.not_lt_zero e)
  | succ P ih =>
    by_cases h : e < (formPatches sqrt scene s P).elnum
    · obtain ⟨p, hp1, hp2, hp3⟩ := ih h
      exact ⟨p, by omega, hp2, hp3⟩
    · exact ⟨P, Nat.lt_succ_self P, by omega, he⟩

theorem toNat_mul_self_le (x : Int) : x.toNat * x.toNat ≤ (x * x).toNat := by
  by_cases h : 0 ≤ x
  · rw [toNat_mul_self x h]
  · have : x.toNat = 0 := Int.toNat_eq_zero.2 (by omega)
    rw [this]
    exact Nat.zero_le _

/-- The vertex counter of the second loop never exceeds the count of the first loop. -/
theorem formPatches_vertnum_le (sqrt : ℚ → ℚ) (scene : SceneData) (s : State) (p : Nat)
    (hp : p ≤ scene.NumPatches) :
    (formPatches sqrt scene s p).vertnum ≤ (readPatchesUpTo sqrt scene s p).NumVertices := by
  induction p with
  | zero =>
    rw [readPatchesUpTo_NumVertices]
    simp [formPatches, formStart]
  | succ p ih =>
    have ih' := ih (by omega)
    rw [formPatches_vertnum_succ sqrt scene s p (by omega)]
    rw [readPatchesUpTo_NumVertices] at ih' ⊢
    rw [Finset.sum_range_succ]
    have := toNat_mul_self_le ((scene.patches p).numelements + 2 + 1)
    omega

theorem loadData_NumVertices (sqrt : ℚ → ℚ) (scene : SceneData) (s : State) :
    (loadData sqrt scene s).2.NumVertices
      = (readPatchesUpTo sqrt scene s scene.NumPatches).NumVertices := rfl

/-- Quotient and remainder of an offset below `m * m`. -/
theorem div_mod_lt_of_lt_sq (d m : Nat) (h : d < m * m) : d / m < m ∧ d % m < m := by
  have hm : 0 < m := by
    rcases Nat.eq_zero_or_pos m with h0 | h0
    · rw [h0] at h; exact absurd h (Nat.not_lt_zero d)
    · exact h0
  exact ⟨Nat.div_lt_of_lt_mul h, Nat.mod_lt d hm⟩

/-- The grid positions used by cell `(j, k)` of an `m x m` element grid lie in the
`(m+1) x (m+1)` vertex grid. -/
theorem cell_corners_lt (m j k : Nat) (hj : j < m) (hk : k < m) :
    k + j * (m + 1) < (m + 1) * (m + 1) ∧ (k + 1) + j * (m + 1) < (m + 1) * (m + 1) ∧
    (k + 1) + (j + 1) * (m + 1) < (m + 1) * (m + 1) ∧
    k + (j + 1) * (m + 1) < (m + 1) * (m + 1) := by
  have h1 : (j + 1) * (m + 1) ≤ m * (m + 1) := Nat.mul_le_mul_right _ hj
  have h2 : (m + 1) * (m + 1) = m * (m + 1) + (m + 1) := by ring
  have h3 : (j + 1) * (m + 1) = j * (m + 1) + (m + 1) := by ring
  omega

/-- Every vertex index of an element of patch `p` lies among the grid vertices of `p`. -/
theorem loadData_element_vertices_range (sqrt : ℚ → ℚ) (scene : SceneData) (s : State)
    (p e : Nat) (hp : p < scene.NumPatches)
    (h1 : (formPatches sqrt scene s p).elnum ≤ e)
    (h2 : e < (formPatches sqrt scene s (p + 1)).elnum) (a : Fin 4) :
    (formPatches sqrt scene s p).vertnum ≤ ((loadData sqrt scene s).2.ElementArray e).vertices a ∧
    ((loadData sqrt scene s).2.ElementArray e).vertices a
      < (formPatches sqrt scene s (p + 1)).vertnum := by
  obtain ⟨v0, v1, v2, v3⟩ := loadData_element_vertices sqrt scene s p e hp h1 h2
  rw [formPatches_vertnum_succ sqrt scene s p hp]
  rw [formPatches_elnum_succ sqrt scene s p hp] at h2
  have hd : e - (formPatches sqrt scene s p).elnum
      < ((scene.patches p).numelements + 2).toNat * ((scene.patches p).numelements + 2).toNat := by
    omega
  obtain ⟨hj, hk⟩ := div_mod_lt_of_lt_sq _ _ hd
  have hw : ((scene.patches p).numelements + 2 + 1).toNat
      = ((scene.patches p).numelements + 2).toNat + 1 := by omega
  rw [hw] at v0 v1 v2 v3 ⊢
  obtain ⟨c0, c1, c2, c3⟩ := cell_corners_lt _ _ _ hj hk
  have p0 : (formPatches sqrt scene s p).vertnum
        ≤ ((loadData sqrt scene s).2.ElementArray e).vertices 0 ∧
      ((loadData sqrt scene s).2.ElementArray e).vertices 0
        < (formPatches sqrt scene s p).vertnum
          + (((scene.patches p).numelements + 2).toNat + 1)
            * (((scene.patches p).numelements + 2).toNat + 1) := by
    rw [v0]; omega
  have p1 : (formPatches sqrt scene s p).vertnum
        ≤ ((loadData sqrt scene s).2.ElementArray e).vertices 1 ∧
      ((loadData sqrt scene s).2.ElementArray e).vertices 1
        < (formPatches sqrt scene s p).vertnum
          + (((scene.patches p).numelements + 2).toNat + 1)
            * (((scene.patches p).numelements + 2).toNat + 1) := by
    rw [v1]; omega
  have p2 : (formPatches sqrt scene s p).vertnum
        ≤ ((loadData sqrt scene s).2.ElementArray e).vertices 2 ∧
      ((loadData sqrt scene s).2.ElementArray e).vertices 2
        < (formPatches sqrt scene s p).vertnum
          + (((scene.patches p).numelements + 2).toNat + 1)
            * (((scene.patches p).numelements + 2).toNat + 1) := by
    rw [v2]; omega
  have p3 : (formPatches sqrt scene s p).vertnum
        ≤ ((loadData sqrt scene s).2.ElementArray e).vertices 3 ∧
      ((loadData sqrt scene s).2.ElementArray e).vertices 3
        < (formPatches sqrt scene s p).vertnum
          + (((scene.patches p).numelements + 2).toNat + 1)
            * (((scene.patches p).numelements + 2).toNat + 1) := by
    rw [v3]; omega
  fin_cases a
  · exact p0
  · exact p1
  · exact p2
  · exact p3

/-- With no negative count, every element below `NumElements` has been written by a
patch and its vertex indices are grid vertices: at least `nverts`, below `NumVertices`. -/
theorem loadData_element_vertices_bounds (sqrt : ℚ → ℚ) (scene : SceneData) (s : State)
    (hnn : ∀ p, p < scene.NumPatches → 0 ≤ (scene.patches p).numelements + 2)
    (e : Nat) (he : e < (loadData sqrt scene s).2.NumElements) (a : Fin 4) :
    scene.nverts ≤ ((loadData sqrt scene s).2.ElementArray e).vertices a ∧
    ((loadData sqrt scene s).2.ElementArray e).vertices a
      < (loadData sqrt scene s).2.NumVertices := by
  rw [loadData_NumElements,
    ← formPatches_elnum_eq_startelement sqrt scene s scene.NumPatches le_rfl
      (fun q hq => hnn q hq)] at he
  obtain ⟨p, hp, h1, h2⟩ := exists_patch_of_lt_elnum sqrt scene s scene.NumPatches e he
  obtain ⟨r1, r2⟩ := loadData_element_vertices_range sqrt scene s p e hp h1 h2 a
  have g1 := formPatches_vertnum_ge sqrt scene s p
  have g2 := formPatches_vertnum_mono sqrt scene s (p + 1) (scene.NumPatches - (p + 1))
  have hN : p + 1 + (scene.NumPatches - (p + 1)) = scene.NumPatches := by omega
  rw [hN] at g2
  have g3 := formPatches_vertnum_le sqrt scene s scene.NumPatches le_rfl
  rw [loadData_NumVertices]
  omega

/-- The slots at and above the counter `elnum` have not been written: they hold what
the allocation held. -/
theorem formPatches_element_unwritten (sqrt : ℚ → ℚ) (scene : SceneData) (s : State)
    (P e : Nat) (he : (formPatches sqrt scene s P).elnum ≤ e) :
    (formPatches sqrt scene s P).ElementArray e = s.ElementArray e := by
  induction P with
  | zero => rfl
  | succ P ih =>
    have hmono := formPatches_elnum_mono sqrt scene s P 1
    rw [formPatches_succ, (formPatch_spec _ _ _).2.2, if_neg]
    · exact ih (by omega)
    · rw [formPatches_succ, (formPatch_spec _ _ _).1] at he
      omega

theorem cornerRefs_eq_zero (s : State) (v e : Nat)
    (h : ∀ a : Fin 4, (s.ElementArray e).vertices a ≠ v) : cornerRefs s v e = 0 := by
  unfold cornerRefs
  rw [if_neg (h 0), if_neg (h 1), if_neg (h 2), if_neg (h 3)]

/-- C24 (amended): after `loadData` on a scene with `nverts` input vertices whose patches
all have a non-negative element count per side, every vertex index stored in an element
lies in `nverts .. NumVertices-1`, so no input vertex is referenced by an element, and
`updateVertexColor` reaches its division with a reference count of 0 for each input
vertex. -/
theorem loadData_input_vertices_unreferenced (sqrt : ℚ → ℚ) (scene : SceneData) (s : State)
    (hnn : ∀ p, p < (loadData sqrt scene s).2.NumPatches →
      0 ≤ ((loadData sqrt scene s).2.PatchArray p).numelements) :
    (∀ e a, e < (loadData sqrt scene s).2.NumElements →
      scene.nverts ≤ ((loadData sqrt scene s).2.ElementArray e).vertices a ∧
      ((loadData sqrt scene s).2.ElementArray e).vertices a
        < (loadData sqrt scene s).2.NumVertices) ∧
    (∀ v e a, v < scene.nverts → e < (loadData sqrt scene s).2.NumElements →
      ((loadData sqrt scene s).2.ElementArray e).vertices a ≠ v) ∧
    (∀ v, v < scene.nverts →
      v < (loadData sqrt scene s).2.NumVertices ∧
      (colorStackAfter (loadData sqrt scene s).2 (loadData sqrt scene s).2.NumElements v).count
        = 0) := by
  have hnn' : ∀ p, p < scene.NumPatches → 0 ≤ (scene.patches p).numelements + 2 := by
    intro p hp
    have := hnn p (by rw [loadData_NumPatches]; exact hp)
    rw [loadData_numelements sqrt scene s p hp] at this
    exact this
  have hb := loadData_element_vertices_bounds sqrt scene s hnn'
  have hne : ∀ v e a, v < scene.nverts → e < (loadData sqrt scene s).2.NumElements →
      ((loadData sqrt scene s).2.ElementArray e).vertices a ≠ v := by
    intro v e a hv he
    have := (hb e he a).1
    omega
  refine ⟨fun e a he => hb e he a, hne, ?_⟩
  intro v hv
  constructor
  · rw [loadData_NumVertices, readPatchesUpTo_NumVertices]
    omega
  · have hq := colorStackAfter_count (loadData sqrt scene s).2
      (loadData sqrt scene s).2.NumElements v
    have hz : ∑ e ∈ Finset.range (loadData sqrt scene s).2.NumElements,
        (cornerRefs (loadData sqrt scene s).2 v e : ℚ) = 0 := by
      apply Finset.sum_eq_zero
      intro e he
      rw [cornerRefs_eq_zero _ v e (fun a => hne v e a hv (Finset.mem_range.1 he))]
      norm_num
    rw [hz] at hq
    exact_mod_cast hq

/-- Witness for C24 (amended): the one-square scene; its input vertex 0 has reference
count 0. -/
theorem loadData_input_vertices_unreferenced_witness :
    (colorStackAfter (loadData Rat.sqrt (oneSquareScene 1) startState).2
      (loadData Rat.sqrt (oneSquareScene 1) startState).2.NumElements 0).count = 0 :=
  ((loadData_input_vertices_unreferenced Rat.sqrt (oneSquareScene 1) startState
    (by
      intro p hp
      rw [loadData_NumPatches] at hp
      have hp' : p < 1 := hp
      rw [loadData_numelements _ _ _ p hp]
      have h0 : p = 0 := by omega
      subst h0
      decide)).2.2 0 (by decide)).2

/-- C24 as stated fails for a scene with a negative count: in `negativeCountScene`
(`nverts = 4`) patch 0 has `numelements = -1`, `NumElements` is 5, the element loops
write the slots 0..3 only, and slot 4 is never written; its vertex indices are not grid
vertices (it keeps what the allocation held, in the start state the index 0 of an input
vertex). -/
theorem loadData_unwritten_element :
    negativeCountScene.nverts = 4 ∧
    (loadData Rat.sqrt negativeCountScene startState).2.NumElements = 5 ∧
    (formPatches Rat.sqrt negativeCountScene startState
      negativeCountScene.NumPatches).elnum = 4 ∧
    (loadData Rat.sqrt negativeCountScene startState).2.ElementArray 4 = defaultElement ∧
    ((loadData Rat.sqrt negativeCountScene startState).2.ElementArray 4).vertices 0 = 0 ∧
    ¬ (negativeCountScene.nverts
        ≤ ((loadData Rat.sqrt negativeCountScene startState).2.ElementArray 4).vertices 0) := by
  have hel : (formPatches Rat.sqrt negativeCountScene startState 2).elnum = 4 := by
    rw [formPatches_elnum_succ _ _ _ 1 (by decide), formPatches_elnum_succ _ _ _ 0 (by decide)]
    rfl
  have h4 : (loadData Rat.sqrt negativeCountScene startState).2.ElementArray 4
      = defaultElement := by
    show (formPatches Rat.sqrt negativeCountScene startState 2).ElementArray 4 = defaultElement
    exact formPatches_element_unwritten _ _ _ 2 4 (by rw [hel])
  have hN : (loadData Rat.sqrt negativeCountScene startState).2.NumElements = 5 := by
    rw [loadData_NumElements, readPatchesUpTo_NumElements]
    decide
  refine ⟨rfl, hN, hel, h4, by rw [h4]; rfl, ?_⟩
  rw [h4]
  decide

/-- Uniqueness of the position in a row-major grid of width `w`. -/
theorem grid_position_unique (w x y x' y' : Nat) (hx : x < w) (hx' : x' < w)
    (h : x + y * w = x' + y' * w) : x = x' ∧ y = y' := by
  have hw : 0 < w := by omega
  have h1 : (x + y * w) % w = x := by
    rw [Nat.add_mul_mod_self_right, Nat.mod_eq_of_lt hx]
  have h2 : (x' + y' * w) % w = x' := by
    rw [Nat.add_mul_mod_self_right, Nat.mod_eq_of_lt hx']
  have hxx : x = x' := by rw [← h1, ← h2, h]
  refine ⟨hxx, ?_⟩
  subst hxx
  have h3 : y * w = y' * w := by omega
  exact Nat.eq_of_mul_eq_mul_right hw h3

/-- Quotient and remainder of `j * m + k` for `k < m`. -/
theorem div_mod_of_cell (m j k : Nat) (hk : k < m) :
    (j * m + k) / m = j ∧ (j * m + k) % m = k := by
  have hm : 0 < m := by omega
  constructor
  · rw [Nat.add_comm, Nat.add_mul_div_right _ _ hm, Nat.div_eq_of_lt hk, Nat.zero_add]
  · rw [Nat.add_comm, Nat.add_mul_mod_self_right, Nat.mod_eq_of_lt hk]

/-- The rows (or columns) of cells that touch grid line `a` of an `m x m` cell grid. -/
theorem card_touching (m a : Nat) (hm : 1 ≤ m) (ha : a ≤ m) :
    ((Finset.range m).filter (fun j => j = a ∨ j + 1 = a)).card
      = if a = 0 ∨ a = m then 1 else 2 := by
  by_cases h0 : a = 0
  · have hset : (Finset.range m).filter (fun j => j = a ∨ j + 1 = a) = {0} := by
      ext j
      simp only [Finset.mem_filter, Finset.mem_range, Finset.mem_singleton]
      omega
    rw [hset, if_pos (Or.inl h0), Finset.card_singleton]
  · by_cases hm' : a = m
    · have hset : (Finset.range m).filter (fun j => j = a ∨ j + 1 = a) = {m - 1} := by
        ext j
        simp only [Finset.mem_filter, Finset.mem_range, Finset.mem_singleton]
        omega
      rw [hset, if_pos (Or.inr hm'), Finset.card_singleton]
    · have hset : (Finset.range m).filter (fun j => j = a ∨ j + 1 = a) = {a - 1, a} := by
        ext j
        simp only [Finset.mem_filter, Finset.mem_range, Finset.mem_insert,
          Finset.mem_singleton]
        omega
      have hne : a - 1 ≠ a := by omega
      rw [hset, if_neg (fun h => h.elim h0 hm'), Finset.card_pair hne]

/-- The element written for cell `(j, k)` of a patch with `m >= 1` cells per side: its
index, its owner and its four vertex indices. -/
theorem loadData_cell (sqrt : ℚ → ℚ) (scene : SceneData) (s : State) (P m j k : Nat)
    (hP : P < scene.NumPatches) (hm : (scene.patches P).numelements + 2 = (m : Int))
    (hj : j < m) (hk : k < m) :
    (formPatches sqrt scene s P).elnum + j * m + k < (formPatches sqrt scene s (P + 1)).elnum ∧
    ((loadData sqrt scene s).2.ElementArray
        ((formPatches sqrt scene s P).elnum + j * m + k)).patch = P ∧
    ((loadData sqrt scene s).2.ElementArray
        ((formPatches sqrt scene s P).elnum + j * m + k)).vertices 0
      = (formPatches sqrt scene s P).vertnum + k + j * (m + 1) ∧
    ((loadData sqrt scene s).2.ElementArray
        ((formPatches sqrt scene s P).elnum + j * m + k)).vertices 1
      = (formPatches sqrt scene s P).vertnum + (k + 1) + j * (m + 1) ∧
    ((loadData sqrt scene s).2.ElementArray
        ((formPatches sqrt scene s P).elnum + j * m + k)).vertices 2
      = (formPatches sqrt scene s P).vertnum + (k + 1) + (j + 1) * (m + 1) ∧
    ((loadData sqrt scene s).2.ElementArray
        ((formPatches sqrt scene s P).elnum + j * m + k)).vertices 3
      = (formPatches sqrt scene s P).vertnum + k + (j + 1) * (m + 1) := by
  have hm1 : ((scene.patches P).numelements + 2).toNat = m := by rw [hm]; omega
  have hm2 : ((scene.patches P).numelements + 2 + 1).toNat = m + 1 := by rw [hm]; omega
  have hlt : (formPatches sqrt scene s P).elnum + j * m + k
      < (formPatches sqrt scene s (P + 1)).elnum := by
    rw [formPatches_elnum_succ sqrt scene s P hP, hm1]
    have h1 : (j + 1) * m ≤ m * m := Nat.mul_le_mul_right _ hj
    have h2 : (j + 1) * m = j * m + m := by ring
    omega
  have hge : (formPatches sqrt scene s P).elnum ≤ (formPatches sqrt scene s P).elnum + j * m + k := by
    omega
  obtain ⟨v0, v1, v2, v3⟩ := loadData_element_vertices sqrt scene s P _ hP hge hlt
  have hd : (formPatches sqrt scene s P).elnum + j * m + k - (formPatches sqrt scene s P).elnum
      = j * m + k := by omega
  obtain ⟨hdiv, hmod⟩ := div_mod_of_cell m j k hk
  rw [hd, hm1, hm2, hdiv, hmod] at v0 v1 v2 v3
  exact ⟨hlt, (loadData_element_of_patch sqrt scene s P _ hP hge hlt).1, v0, v1, v2, v3⟩

/-- With no negative count every element below `NumElements` is the element of a cell
`(j, k)` of some patch. -/
theorem loadData_element_is_cell (sqrt : ℚ → ℚ) (scene : SceneData) (s : State)
    (hnn : ∀ p, p < scene.NumPatches → 0 ≤ (scene.patches p).numelements + 2)
    (e : Nat) (he : e < (loadData sqrt scene s).2.NumElements) :
    ∃ p m j k : Nat, p < scene.NumPatches ∧ (scene.patches p).numelements + 2 = (m : Int) ∧
      j < m ∧ k < m ∧ e = (formPatches sqrt scene s p).elnum + j * m + k := by
  rw [loadData_NumElements,
    ← formPatches_elnum_eq_startelement sqrt scene s scene.NumPatches le_rfl
      (fun q hq => hnn q hq)] at he
  obtain ⟨p, hp, h1, h2⟩ := exists_patch_of_lt_elnum sqrt scene s scene.NumPatches e he
  rw [formPatches_elnum_succ sqrt scene s p hp] at h2
  have hd : e - (formPatches sqrt scene s p).elnum
      < ((scene.patches p).numelements + 2).toNat * ((scene.patches p).numelements + 2).toNat := by
    omega
  obtain ⟨hj, hk⟩ := div_mod_lt_of_lt_sq _ _ hd
  refine ⟨p, ((scene.patches p).numelements + 2).toNat,
    (e - (formPatches sqrt scene s p).elnum) / ((scene.patches p).numelements + 2).toNat,
    (e - (formPatches sqrt scene s p).elnum) % ((scene.patches p).numelements + 2).toNat,
    hp, ?_, hj, hk, ?_⟩
  · have := hnn p hp
    omega
  · have := Nat.div_add_mod (e - (formPatches sqrt scene s p).elnum)
      ((scene.patches p).numelements + 2).toNat
    rw [Nat.mul_comm] at this
    omega

/-- The grid vertex ranges of two different patches do not meet. -/
theorem formPatches_vertex_ranges_disjoint (sqrt : ℚ → ℚ) (scene : SceneData) (s : State)
    (p p' x : Nat)
    (h1 : (formPatches sqrt scene s p).vertnum ≤ x)
    (h2 : x < (formPatches sqrt scene s (p + 1)).vertnum)
    (h3 : (formPatches sqrt scene s p').vertnum ≤ x)
    (h4 : x < (formPatches sqrt scene s (p' + 1)).vertnum) : p = p' := by
  by_contra hne
  rcases Nat.lt_or_gt_of_ne hne with h | h
  · have := formPatches_vertnum_mono sqrt scene s (p + 1) (p' - (p + 1))
    have hN : p + 1 + (p' - (p + 1)) = p' := by omega
    rw [hN] at this
    omega
  · have := formPatches_vertnum_mono sqrt scene s (p' + 1) (p - (p' + 1))
    have hN : p' + 1 + (p - (p' + 1)) = p := by omega
    rw [hN] at this
    omega

/-- The element of cell `(j, k)` references the grid vertex `(a, b)` exactly when the cell
touches grid row `a` and grid column `b`. -/
theorem loadData_cell_references (sqrt : ℚ → ℚ) (scene : SceneData) (s : State)
    (P m j k a b : Nat) (hP : P < scene.NumPatches)
    (hm : (scene.patches P).numelements + 2 = (m : Int))
    (hj : j < m) (hk : k < m) (_ha : a ≤ m) (hb : b ≤ m) :
    (∃ c : Fin 4, ((loadData sqrt scene s).2.ElementArray
        ((formPatches sqrt scene s P).elnum + j * m + k)).vertices c
          = (formPatches sqrt scene s P).vertnum + a * (m + 1) + b)
      ↔ (j = a ∨ j + 1 = a) ∧ (k = b ∨ k + 1 = b) := by
  obtain ⟨_, _, v0, v1, v2, v3⟩ := loadData_cell sqrt scene s P m j k hP hm hj hk
  constructor
  · rintro ⟨c, hc⟩
    fin_cases c
    · have hc' := v0.symm.trans hc
      have := grid_position_unique (m + 1) k j b a (by omega) (by omega) (by omega)
      omega
    · have hc' := v1.symm.trans hc
      have := grid_position_unique (m + 1) (k + 1) j b a (by omega) (by omega) (by omega)
      omega
    · have hc' := v2.symm.trans hc
      have := grid_position_unique (m + 1) (k + 1) (j + 1) b a (by omega) (by omega) (by omega)
      omega
    · have hc' := v3.symm.trans hc
      have := grid_position_unique (m + 1) k (j + 1) b a (by omega) (by omega) (by omega)
      omega
  · rintro ⟨hja | hja, hkb | hkb⟩
    · exact ⟨0, by rw [v0, ← hja, ← hkb]; omega⟩
    · exact ⟨1, by rw [v1, ← hja, ← hkb]; omega⟩
    · refine ⟨3, ?_⟩
      rw [v3, ← hja, ← hkb]; omega
    · refine ⟨2, ?_⟩
      rw [v2, ← hja, ← hkb]; omega

/-- With no negative count, an element that references a grid vertex of patch `P` is the
element of a cell of `P`. -/
theorem loadData_referencing_cell (sqrt : ℚ → ℚ) (scene : SceneData) (s : State)
    (hnn : ∀ p, p < scene.NumPatches → 0 ≤ (scene.patches p).numelements + 2)
    (P m x e : Nat) (hP : P < scene.NumPatches)
    (hm : (scene.patches P).numelements + 2 = (m : Int))
    (hx1 : (formPatches sqrt scene s P).vertnum ≤ x)
    (hx2 : x < (formPatches sqrt scene s (P + 1)).vertnum)
    (he : e < (loadData sqrt scene s).2.NumElements)
    (href : ∃ c : Fin 4, ((loadData sqrt scene s).2.ElementArray e).vertices c = x) :
    ∃ j k : Nat, j < m ∧ k < m ∧ e = (formPatches sqrt scene s P).elnum + j * m + k := by
  obtain ⟨p, m', j, k, hp, hm', hj, hk, hek⟩ := loadData_element_is_cell sqrt scene s hnn e he
  obtain ⟨c, hc⟩ := href
  have hlt := (loadData_cell sqrt scene s p m' j k hp hm' hj hk).1
  rw [← hek] at hlt
  obtain ⟨r1, r2⟩ := loadData_element_vertices_range sqrt scene s p e hp (by omega) hlt c
  rw [hc] at r1 r2
  have hpP : p = P := formPatches_vertex_ranges_disjoint sqrt scene s p P x r1 r2 hx1 hx2
  subst hpP
  have hmm : m' = m := by
    have : (m' : Int) = (m : Int) := by rw [← hm', ← hm]
    exact_mod_cast this
  subst hmm
  exact ⟨j, k, hj, hk, hek⟩

/-- The grid vertex `(a, b)` of a patch lies in the vertex range of the patch. -/
theorem grid_vertex_in_range (sqrt : ℚ → ℚ) (scene : SceneData) (s : State)
    (P m a b : Nat) (hP : P < scene.NumPatches)
    (hm : (scene.patches P).numelements + 2 = (m : Int)) (ha : a ≤ m) (hb : b ≤ m) :
    (formPatches sqrt scene s P).vertnum ≤ (formPatches sqrt scene s P).vertnum + a * (m + 1) + b ∧
    (formPatches sqrt scene s P).vertnum + a * (m + 1) + b
      < (formPatches sqrt scene s (P + 1)).vertnum := by
  have hm2 : ((scene.patches P).numelements + 2 + 1).toNat = m + 1 := by rw [hm]; omega
  rw [formPatches_vertnum_succ sqrt scene s P hP, hm2]
  have h1 : a * (m + 1) ≤ m * (m + 1) := Nat.mul_le_mul_right _ ha
  have h2 : (m + 1) * (m + 1) = m * (m + 1) + (m + 1) := by ring
  omega

/-- Number of elements that reference the grid vertex `(a, b)` of patch `P`. -/
theorem loadData_reference_count (sqrt : ℚ → ℚ) (scene : SceneData) (s : State)
    (hnn : ∀ p, p < scene.NumPatches → 0 ≤ (scene.patches p).numelements + 2)
    (P m a b : Nat) (hP : P < scene.NumPatches)
    (hm : (scene.patches P).numelements + 2 = (m : Int)) (h1 : 1 ≤ m)
    (ha : a ≤ m) (hb : b ≤ m) :
    ((Finset.range (loadData sqrt scene s).2.NumElements).filter
        (fun e => ∃ c : Fin 4, ((loadData sqrt scene s).2.ElementArray e).vertices c
          = (formPatches sqrt scene s P).vertnum + a * (m + 1) + b)).card
      = (if a = 0 ∨ a = m then 1 else 2) * (if b = 0 ∨ b = m then 1 else 2) := by
  rw [← card_touching m a h1 ha, ← card_touching m b h1 hb, ← Finset.card_product]
  symm
  obtain ⟨hx1, hx2⟩ := grid_vertex_in_range sqrt scene s P m a b hP hm ha hb
  have hN : (formPatches sqrt scene s (P + 1)).elnum ≤ (loadData sqrt scene s).2.NumElements := by
    rw [loadData_NumElements,
      ← formPatches_elnum_eq_startelement sqrt scene s scene.NumPatches le_rfl
        (fun q hq => hnn q hq)]
    have := formPatches_elnum_mono sqrt scene s (P + 1) (scene.NumPatches - (P + 1))
    have hNN : P + 1 + (scene.NumPatches - (P + 1)) = scene.NumPatches := by omega
    rw [hNN] at this
    exact this
  apply Finset.card_bij (fun jk _ => (formPatches sqrt scene s P).elnum + jk.1 * m + jk.2)
  · intro jk hjk
    simp only [Finset.mem_product, Finset.mem_filter, Finset.mem_range] at hjk
    obtain ⟨⟨hj, hja⟩, ⟨hk, hkb⟩⟩ := hjk
    simp only [Finset.mem_filter, Finset.mem_range]
    refine ⟨?_, (loadData_cell_references sqrt scene s P m jk.1 jk.2 a b hP hm hj hk ha hb).2
      ⟨hja, hkb⟩⟩
    have := (loadData_cell sqrt scene s P m jk.1 jk.2 hP hm hj hk).1
    omega
  · intro jk hjk jk' hjk' heq
    simp only [Finset.mem_product, Finset.mem_filter, Finset.mem_range] at hjk hjk'
    have := grid_position_unique m jk.2 jk.1 jk'.2 jk'.1 hjk.2.1 hjk'.2.1 (by omega)
    exact Prod.ext this.2 this.1
  · intro e he
    simp only [Finset.mem_filter, Finset.mem_range] at he
    obtain ⟨j, k, hj, hk, hek⟩ := loadData_referencing_cell sqrt scene s hnn P m _ e hP hm
      hx1 hx2 he.1 he.2
    have href := he.2
    rw [hek] at href
    have hjk := (loadData_cell_references sqrt scene s P m j k a b hP hm hj hk ha hb).1 href
    refine ⟨(j, k), ?_, hek.symm⟩
    simp only [Finset.mem_product, Finset.mem_filter, Finset.mem_range]
    exact ⟨⟨hj, hjk.1⟩, ⟨hk, hjk.2⟩⟩

/-- C25 (amended): after `loadData` on a scene whose patches all have a non-negative
element count per side, the grid vertex `(a, b)` of a patch `P` with
`m = numelements >= 1` is referenced only by elements of `P`: by exactly
1 element if it is a grid corner, exactly 2 if it lies on the grid border but is no
corner, exactly 4 if it is interior; and no vertex is shared between elements of
different patches. -/
theorem loadData_grid_vertex_references (sqrt : ℚ → ℚ) (scene : SceneData) (s : State)
    (hnn : ∀ p, p < (loadData sqrt scene s).2.NumPatches →
      0 ≤ ((loadData sqrt scene s).2.PatchArray p).numelements)
    (P m a b : Nat) (hP : P < (loadData sqrt scene s).2.NumPatches)
    (hm : ((loadData sqrt scene s).2.PatchArray P).numelements = (m : Int)) (h1 : 1 ≤ m)
    (ha : a ≤ m) (hb : b ≤ m) :
    (∀ e, e < (loadData sqrt scene s).2.NumElements →
      (∃ c : Fin 4, ((loadData sqrt scene s).2.ElementArray e).vertices c
        = (formPatches sqrt scene s P).vertnum + a * (m + 1) + b) →
      ((loadData sqrt scene s).2.ElementArray e).patch = P) ∧
    ((a = 0 ∨ a = m) ∧ (b = 0 ∨ b = m) →
      ((Finset.range (loadData sqrt scene s).2.NumElements).filter
        (fun e => ∃ c : Fin 4, ((loadData sqrt scene s).2.ElementArray e).vertices c
          = (formPatches sqrt scene s P).vertnum + a * (m + 1) + b)).card = 1) ∧
    (((a = 0 ∨ a = m) ∧ ¬ (b = 0 ∨ b = m)) ∨ (¬ (a = 0 ∨ a = m) ∧ (b = 0 ∨ b = m)) →
      ((Finset.range (loadData sqrt scene s).2.NumElements).filter
        (fun e => ∃ c : Fin 4, ((loadData sqrt scene s).2.ElementArray e).vertices c
          = (formPatches sqrt scene s P).vertnum + a * (m + 1) + b)).card = 2) ∧
    (¬ (a = 0 ∨ a = m) ∧ ¬ (b = 0 ∨ b = m) →
      ((Finset.range (loadData sqrt scene s).2.NumElements).filter
        (fun e => ∃ c : Fin 4, ((loadData sqrt scene s).2.ElementArray e).vertices c
          = (formPatches sqrt scene s P).vertnum + a * (m + 1) + b)).card = 4) ∧
    (∀ e e' c c', e < (loadData sqrt scene s).2.NumElements →
      e' < (loadData sqrt scene s).2.NumElements →
      ((loadData sqrt scene s).2.ElementArray e).vertices c
        = ((loadData sqrt scene s).2.ElementArray e').vertices c' →
      ((loadData sqrt scene s).2.ElementArray e).patch
        = ((loadData sqrt scene s).2.ElementArray e').patch) := by
  rw [loadData_NumPatches] at hnn hP
  have hnn' : ∀ p, p < scene.NumPatches → 0 ≤ (scene.patches p).numelements + 2 := by
    intro p hp
    have := hnn p hp
    rw [loadData_numelements sqrt scene s p hp] at this
    exact this
  rw [loadData_numelements sqrt scene s P hP] at hm
  have hcard := loadData_reference_count sqrt scene s hnn' P m a b hP hm h1 ha hb
  obtain ⟨hx1, hx2⟩ := grid_vertex_in_range sqrt scene s P m a b hP hm ha hb
  refine ⟨?_, ?_, ?_, ?_, ?_⟩
  · intro e he href
    obtain ⟨j, k, hj, hk, hek⟩ := loadData_referencing_cell sqrt scene s hnn' P m _ e hP hm
      hx1 hx2 he href
    rw [hek]
    exact (loadData_cell sqrt scene s P m j k hP hm hj hk).2.1
  · rintro ⟨h2, h3⟩
    rw [hcard, if_pos h2, if_pos h3]
  · rintro (⟨h2, h3⟩ | ⟨h2, h3⟩)
    · rw [hcard, if_pos h2, if_neg h3]
    · rw [hcard, if_neg h2, if_pos h3]
  · rintro ⟨h2, h3⟩
    rw [hcard, if_neg h2, if_neg h3]
  · intro e e' c c' he he' hcc
    obtain ⟨p, m1, j, k, hp, hm1, hj, hk, hek⟩ :=
      loadData_element_is_cell sqrt scene s hnn' e he
    obtain ⟨p', m2, j', k', hp', hm2, hj', hk', hek'⟩ :=
      loadData_element_is_cell sqrt scene s hnn' e' he'
    obtain ⟨l1, o1, _⟩ := loadData_cell sqrt scene s p m1 j k hp hm1 hj hk
    obtain ⟨l2, o2, _⟩ := loadData_cell sqrt scene s p' m2 j' k' hp' hm2 hj' hk'
    rw [← hek] at l1 o1
    rw [← hek'] at l2 o2
    obtain ⟨r1, r2⟩ := loadData_element_vertices_range sqrt scene s p e hp (by omega) l1 c
    obtain ⟨r3, r4⟩ := loadData_element_vertices_range sqrt scene s p' e' hp' (by omega) l2 c'
    rw [hcc] at r1 r2
    rw [o1, o2]
    exact formPatches_vertex_ranges_disjoint sqrt scene s p p' _ r1 r2 r3 r4

/-- Witness for C25 (amended): in the one-square scene (`m = 3`) the interior grid vertex `(1, 1)`
is referenced by exactly 4 elements. -/
theorem loadData_grid_vertex_references_witness :
    ((Finset.range (loadData Rat.sqrt (oneSquareScene 1) startState).2.NumElements).filter
      (fun e => ∃ c : Fin 4,
        ((loadData Rat.sqrt (oneSquareScene 1) startState).2.ElementArray e).vertices c
          = (formPatches Rat.sqrt (oneSquareScene 1) startState 0).vertnum
            + 1 * (3 + 1) + 1)).card = 4 :=
  (loadData_grid_vertex_references Rat.sqrt (oneSquareScene 1) startState
    (by
      intro p hp
      rw [loadData_NumPatches] at hp
      have hp' : p < 1 := hp
      rw [loadData_numelements _ _ _ p hp]
      have h0 : p = 0 := by omega
      subst h0
      decide)
    0 3 1 1 (by rw [loadData_NumPatches]; decide)
    (by rw [loadData_numelements _ _ _ 0 (by decide)]; rfl)
    (by decide) (by decide) (by decide)).2.2.2.1 ⟨by decide, by decide⟩

/-- When all ids recorded in a pixel are equal, the share that the `while` loop gives to
element `e` is the form factor times the number of occurrences of `e`. -/
theorem pixelShare_eq_count (px : HemiPixel) (e : Nat)
    (hsame : ∀ x y, x ∈ px.id → y ∈ px.id → x = y) :
    pixelShare px e = px.formFactor * (px.id.count e : ℚ) := by
  obtain ⟨ff, id⟩ := px
  cases id with
  | nil => simp [pixelShare]
  | cons a l =>
    have hall : ∀ b ∈ a :: l, a = b := fun b hb => hsame a b (List.mem_cons_self a l) hb
    by_cases he : a = e
    · subst he
      have hc : (a :: l).count a = (a :: l).length := List.count_eq_length.2 hall
      simp only [pixelShare, List.head?_cons, if_true, hc]
    · have hnot : e ∉ a :: l := fun hmem => he (hall e hmem)
      have hc : (a :: l).count e = 0 := List.count_eq_zero.2 hnot
      have hne : ¬ (some a = some e) := fun h => he (Option.some.inj h)
      simp only [pixelShare, List.head?_cons, if_neg hne, hc, Nat.cast_zero, mul_zero]

theorem oneIdHemicube_hemiPixel (S pix : Nat) :
    oneIdHemicube.hemiPixel S pix
      = if S = FRONT ∧ pix = 0 then ⟨1, [1]⟩ else ⟨0, []⟩ := rfl

theorem oneIdHemicube_same (S pix x y : Nat) (hx : x ∈ (oneIdHemicube.hemiPixel S pix).id)
    (hy : y ∈ (oneIdHemicube.hemiPixel S pix).id) : x = y := by
  rw [oneIdHemicube_hemiPixel] at hx hy
  split_ifs at hx hy
  · simp only [List.mem_singleton] at hx hy
    rw [hx, hy]
  · simp at hx

/-- The weighted occurrence counts of element 1 over the pixels of `oneIdHemicube`. -/
theorem oneIdHemicube_counts :
    ∑ S ∈ Finset.range 5, ∑ pix ∈ Finset.range (facePixels S),
        (oneIdHemicube.hemiPixel S pix).formFactor
          * ((oneIdHemicube.hemiPixel S pix).id.count 1 : ℚ) = 1 := by
  rw [Finset.sum_eq_single 0]
  · rw [Finset.sum_eq_single 0]
    · rw [oneIdHemicube_hemiPixel, if_pos ⟨rfl, rfl⟩]
      norm_num
    · intro pix _ hpix
      rw [oneIdHemicube_hemiPixel, if_neg (fun hx => hpix hx.2)]
      norm_num
    · intro h0
      exact absurd (Finset.mem_range.2 (facePixels_pos 0)) h0
  · intro S _ hS
    apply Finset.sum_eq_zero
    intro pix _
    rw [oneIdHemicube_hemiPixel, if_neg (fun hx => hS hx.1)]
    norm_num
  · intro h0
    exact absurd (Finset.mem_range.2 (by decide : 0 < 5)) h0

/-- `loadLookUpTable` writes the table only. -/
theorem loadLookUpTable_frame (file : List Char) (s : State) :
    (loadLookUpTable file s).unshotPatchQueue = s.unshotPatchQueue ∧
    (loadLookUpTable file s).PatchArray = s.PatchArray ∧
    (loadLookUpTable file s).NumPatches = s.NumPatches ∧
    (loadLookUpTable file s).ElementArray = s.ElementArray ∧
    (loadLookUpTable file s).NumElements = s.NumElements := by
  unfold loadLookUpTable
  exact ⟨rfl, rfl, rfl, rfl, rfl⟩

theorem formFactorRow_queue (render : Nat → Nat → Nat → Nat → Nat) (s : State)
    (patch_id : Nat) :
    (formFactorRow render s patch_id).unshotPatchQueue = s.unshotPatchQueue := by
  unfold formFactorRow
  exact rfl

/-- `generateFormFactorTable` writes the table only. -/
theorem generateFormFactorTable_frame (render : Nat → Nat → Nat → Nat → Nat) (s : State) :
    (generateFormFactorTable render s).1.unshotPatchQueue = s.unshotPatchQueue ∧
    (generateFormFactorTable render s).1.PatchArray = s.PatchArray ∧
    (generateFormFactorTable render s).1.NumPatches = s.NumPatches ∧
    (generateFormFactorTable render s).1.ElementArray = s.ElementArray ∧
    (generateFormFactorTable render s).1.NumElements = s.NumElements := by
  rw [generateFormFactorTable_fst]
  obtain ⟨h1, h2, h3, h4, _⟩ := formFactorRows_spec render s s.NumPatches
  refine ⟨?_, h4, h1, h3, h2⟩
  apply foldl_preserves (fun t : State => t.unshotPatchQueue = s.unshotPatchQueue)
  · rfl
  · intro a x ha
    rw [formFactorRow_queue, ha]

/-- In every reachable state the queue is the one `updatePriorityQueue` builds from the
current patches. -/
theorem Reachable.queue_eq (s : State) (h : Reachable s) :
    s.unshotPatchQueue = buildQueue s.PatchArray s.NumPatches := by
  induction h with
  | init s0 => exact updatePriorityQueue_queue _
  | load file s0 _ ih =>
    obtain ⟨h1, h2, h3, _⟩ := loadLookUpTable_frame file s0
    rw [h1, h2, h3, ih]
  | generate render s0 _ ih =>
    obtain ⟨h1, h2, h3, _⟩ := generateFormFactorTable_frame render s0
    rw [h1, h2, h3, ih]
  | step s0 _ _ => exact updatePriorityQueue_queue _

theorem initScene_frame (s : State) :
    (initScene s).NumPatches = s.NumPatches ∧
    (initScene s).NumElements = s.NumElements ∧
    (initScene s).ElementArray = s.ElementArray ∧
    ∀ p, ((initScene s).PatchArray p).area = (s.PatchArray p).area := by
  refine ⟨rfl, rfl, rfl, ?_⟩
  intro p
  show (if p < s.NumPatches then
      ({ s.PatchArray p with unshot := (s.PatchArray p).emissivity } : Patch)
    else s.PatchArray p).area = _
  split_ifs <;> rfl

/-- The two-patch example after `initScene`, loading the table that its own table text
holds, and one shooting step. -/
theorem steppedExample_data :
    Reachable (progressiveRefinement
      (loadLookUpTable (writeLookUpTable twoPatchState) (initScene twoPatchState))) ∧
    (progressiveRefinement
      (loadLookUpTable (writeLookUpTable twoPatchState) (initScene twoPatchState))).NumPatches
      = 2 ∧
    (∀ p, ((progressiveRefinement
      (loadLookUpTable (writeLookUpTable twoPatchState)
        (initScene twoPatchState))).PatchArray p).area = 1) ∧
    (∀ e, ((progressiveRefinement
      (loadLookUpTable (writeLookUpTable twoPatchState)
        (initScene twoPatchState))).ElementArray e).area = 1) := by
  refine ⟨Reachable.step _ (Reachable.load _ _ (Reachable.init _)), ?_, ?_, ?_⟩
  · rw [progressiveRefinement_NumPatches, (loadLookUpTable_frame _ _).2.2.1]
    rfl
  · intro p
    obtain ⟨u, hu⟩ := progressiveRefinement_patch_frame
      (loadLookUpTable (writeLookUpTable twoPatchState) (initScene twoPatchState)) p
    rw [hu, (loadLookUpTable_frame _ _).2.1]
    show ((initScene twoPatchState).PatchArray p).area = 1
    rw [(initScene_frame twoPatchState).2.2.2 p]
    simp only [twoPatchState, examplePatch]
    split_ifs <;> rfl
  · intro e
    obtain ⟨r, hr⟩ := progressiveRefinement_element_frame
      (loadLookUpTable (writeLookUpTable twoPatchState) (initScene twoPatchState)) e
    rw [hr, (loadLookUpTable_frame _ _).2.2.2.1]
    show ((initScene twoPatchState).ElementArray e).area = 1
    rw [(initScene_frame twoPatchState).2.2.1]
    simp only [twoPatchState, exampleElement]
    split_ifs <;> rfl

/-- C25 as stated fails for a scene with a negative count: in `negativeCountScene`
(`NumElements = 5`, the element loops write the slots 0..3) slot 4 is never written.
When the memory it occupies holds the vertex index 4, the grid corner `(0,0)` of patch 1
(`m = 2`, first grid vertex 4) is referenced by element 0 of patch 1 and by slot 4, whose
owner is not patch 1. -/
theorem loadData_grid_vertex_stale_reference :
    (loadData Rat.sqrt negativeCountScene staleState).2.NumElements = 5 ∧
    ((loadData Rat.sqrt negativeCountScene staleState).2.PatchArray 1).numelements = 2 ∧
    (formPatches Rat.sqrt negativeCountScene staleState 1).vertnum = 4 ∧
    ((loadData Rat.sqrt negativeCountScene staleState).2.ElementArray 0).vertices 0 = 4 ∧
    ((loadData Rat.sqrt negativeCountScene staleState).2.ElementArray 0).patch = 1 ∧
    ((loadData Rat.sqrt negativeCountScene staleState).2.ElementArray 4).vertices 0 = 4 ∧
    ((loadData Rat.sqrt negativeCountScene staleState).2.ElementArray 4).patch = 0 ∧
    ¬ (∀ e, e < (loadData Rat.sqrt negativeCountScene staleState).2.NumElements →
        (∃ c : Fin 4,
          ((loadData Rat.sqrt negativeCountScene staleState).2.ElementArray e).vertices c
            = (formPatches Rat.sqrt negativeCountScene staleState 1).vertnum
              + 0 * (2 + 1) + 0) →
        ((loadData Rat.sqrt negativeCountScene staleState).2.ElementArray e).patch = 1) := by
  have hN : (loadData Rat.sqrt negativeCountScene staleState).2.NumElements = 5 := by
    rw [loadData_NumElements, readPatchesUpTo_NumElements]
    decide
  have hnum : ((loadData Rat.sqrt negativeCountScene staleState).2.PatchArray 1).numelements
      = 2 := by
    rw [loadData_numelements _ _ _ 1 (by decide)]
    rfl
  have hsv : (formPatches Rat.sqrt negativeCountScene staleState 1).vertnum = 4 := by
    rw [formPatches_vertnum_succ _ _ _ 0 (by decide)]
    rfl
  have hel1 : (formPatches Rat.sqrt negativeCountScene staleState 1).elnum = 0 := by
    rw [formPatches_elnum_succ _ _ _ 0 (by decide)]
    rfl
  have hel2 : (formPatches Rat.sqrt negativeCountScene staleState 2).elnum = 4 := by
    rw [formPatches_elnum_succ _ _ _ 1 (by decide), hel1]
    rfl
  obtain ⟨_, c1, c2, _⟩ := loadData_cell Rat.sqrt negativeCountScene staleState 1 2 0 0
    (by decide) rfl (by decide) (by decide)
  rw [hel1] at c1 c2
  rw [hsv] at c2
  have c1' : ((loadData Rat.sqrt negativeCountScene staleState).2.ElementArray 0).patch = 1 := c1
  have c2' : ((loadData Rat.sqrt negativeCountScene staleState).2.ElementArray 0).vertices 0
      = 4 := c2
  have h4 : (loadData Rat.sqrt negativeCountScene staleState).2.ElementArray 4
      = staleState.ElementArray 4 := by
    show (formPatches Rat.sqrt negativeCountScene staleState 2).ElementArray 4 = _
    exact formPatches_element_unwritten _ _ _ 2 4 (by rw [hel2])
  have v4 : ((loadData Rat.sqrt negativeCountScene staleState).2.ElementArray 4).vertices 0
      = 4 := by rw [h4]; rfl
  have p4 : ((loadData Rat.sqrt negativeCountScene staleState).2.ElementArray 4).patch = 0 := by
    rw [h4]; rfl
  refine ⟨hN, hnum, hsv, c2', c1', v4, p4, ?_⟩
  intro hall
  have := hall 4 (by rw [hN]; decide) ⟨0, by rw [v4, hsv]⟩
  rw [p4] at this
  exact absurd this (by decide)

/-! ## `loadData` on the file as read -/

/-- The admissible files are those with non-negative counts and in-range vertex indices. -/
theorem SceneFile.admissible_iff (f : SceneFile) :
    f.admissible = true ↔
      0 ≤ f.nverts ∧ 0 ≤ f.NumPatches ∧
      ∀ p a, p < f.NumPatches.toNat →
        0 ≤ (f.patches p).vertices a ∧ (f.patches p).vertices a < f.nverts := by
  unfold SceneFile.admissible
  simp only [Bool.and_eq_true, decide_eq_true_eq, List.all_eq_true, List.mem_range,
    List.mem_finRange, true_implies]
  constructor
  · rintro ⟨⟨h1, h2⟩, h3⟩
    exact ⟨h1, h2, fun p a hp => h3 p hp a⟩
  · rintro ⟨h1, h2, h3⟩
    exact ⟨⟨h1, h2⟩, fun p hp a => h3 p a hp⟩

/-- The function `loadData` has a result exactly on the files with non-negative counts and
in-range vertex indices. -/
theorem loadDataFile_isSome_iff (sqrt : ℚ → ℚ) (f : SceneFile) (s : State) :
    (∃ r, loadDataFile sqrt f s = some r) ↔
      0 ≤ f.nverts ∧ 0 ≤ f.NumPatches ∧
      ∀ p a, p < f.NumPatches.toNat →
        0 ≤ (f.patches p).vertices a ∧ (f.patches p).vertices a < f.nverts := by
  rw [← SceneFile.admissible_iff]
  unfold loadDataFile
  constructor
  · rintro ⟨r, hr⟩
    by_contra hc
    rw [if_neg hc] at hr
    exact absurd hr (by simp)
  · intro h
    exact ⟨_, if_pos h⟩

/-- A file whose patch count is -1 has no result: `new Patch[NumPatches]` throws. -/
theorem loadDataFile_negative_count :
    loadDataFile Rat.sqrt negativePatchCountFile startState = none := by
  unfold loadDataFile
  rw [if_neg (by decide)]

/-- Squared length of the vector product of two scaled vectors (Lagrange identity), over a
field. -/
theorem lagrange_scaled {K : Type} [Field K] (a b c d e f L1 L2 : K)
    (h1 : L1 ^ 2 = a * a + b * b + c * c) (h2 : L2 ^ 2 = d * d + e * e + f * f)
    (hn1 : a * a + b * b + c * c ≠ 0) (hn2 : d * d + e * e + f * f ≠ 0) :
    (b / L1 * (f / L2) - c / L1 * (e / L2)) * (b / L1 * (f / L2) - c / L1 * (e / L2))
      + (d / L2 * (c / L1) - a / L1 * (f / L2)) * (d / L2 * (c / L1) - a / L1 * (f / L2))
      + (a / L1 * (e / L2) - b / L1 * (d / L2)) * (a / L1 * (e / L2) - b / L1 * (d / L2))
      = 1 - (a * d + b * e + c * f) ^ 2
          / ((a * a + b * b + c * c) * (d * d + e * e + f * f)) := by
  have hL1n : L1 ≠ 0 := by
    intro h; rw [h] at h1; exact hn1 (by rw [← h1]; norm_num)
  have hL2n : L2 ≠ 0 := by
    intro h; rw [h] at h2; exact hn2 (by rw [← h2]; norm_num)
  have hlhs : (b / L1 * (f / L2) - c / L1 * (e / L2)) * (b / L1 * (f / L2) - c / L1 * (e / L2))
      + (d / L2 * (c / L1) - a / L1 * (f / L2)) * (d / L2 * (c / L1) - a / L1 * (f / L2))
      + (a / L1 * (e / L2) - b / L1 * (d / L2)) * (a / L1 * (e / L2) - b / L1 * (d / L2))
      = ((a * a + b * b + c * c) * (d * d + e * e + f * f) - (a * d + b * e + c * f) ^ 2)
          * (L1⁻¹ ^ 2 * L2⁻¹ ^ 2) := by
    simp only [div_eq_mul_inv]
    ring
  have hinv : L1⁻¹ ^ 2 * L2⁻¹ ^ 2
      = ((a * a + b * b + c * c) * (d * d + e * e + f * f))⁻¹ := by
    rw [← h1, ← h2, mul_inv, inv_pow, inv_pow]
  rw [hlhs, hinv, sub_mul, mul_inv_cancel₀ (mul_ne_zero hn1 hn2), div_eq_mul_inv]

/-- Squared length of the normal computed by `patchNormal` when `sqrt` is exact on the two
squared edge lengths and neither is zero. -/
theorem patchNormal_normSq {K : Type} [Field K] (sqrt : K → K) (p0 p1 p3 : K × K × K)
    (h1 : sqrt (normSq (p1.1 - p0.1, p1.2.1 - p0.2.1, p1.2.2 - p0.2.2)) ^ 2
      = normSq (p1.1 - p0.1, p1.2.1 - p0.2.1, p1.2.2 - p0.2.2))
    (h2 : sqrt (normSq (p3.1 - p0.1, p3.2.1 - p0.2.1, p3.2.2 - p0.2.2)) ^ 2
      = normSq (p3.1 - p0.1, p3.2.1 - p0.2.1, p3.2.2 - p0.2.2))
    (hn1 : normSq (p1.1 - p0.1, p1.2.1 - p0.2.1, p1.2.2 - p0.2.2) ≠ 0)
    (hn2 : normSq (p3.1 - p0.1, p3.2.1 - p0.2.1, p3.2.2 - p0.2.2) ≠ 0) :
    normSq (patchNormal sqrt p0 p1 p3)
      = 1 - ((p1.1 - p0.1) * (p3.1 - p0.1) + (p1.2.1 - p0.2.1) * (p3.2.1 - p0.2.1)
              + (p1.2.2 - p0.2.2) * (p3.2.2 - p0.2.2)) ^ 2
          / (normSq (p1.1 - p0.1, p1.2.1 - p0.2.1, p1.2.2 - p0.2.2)
              * normSq (p3.1 - p0.1, p3.2.1 - p0.2.1, p3.2.2 - p0.2.2)) := by
  simp only [normSq] at h1 h2 hn1 hn2
  simp only [normSq, patchNormal]
  exact lagrange_scaled _ _ _ _ _ _ _ _ h1 h2 hn1 hn2

/-- The normal that `loadData` stores is `patchNormal` on the rational numbers, for every
`sqrt`. -/
theorem loadData_normal_eq_patchNormal (sqrt : ℚ → ℚ) (scene : SceneData) (s : State) (p : Nat)
    (hp : p < scene.NumPatches) :
    Vertex.coords ℚ ((loadData sqrt scene s).2.PatchArray p).normal
      = patchNormal sqrt
          (Vertex.coords ℚ (scene.vtemp ((scene.patches p).vertices 0)))
          (Vertex.coords ℚ (scene.vtemp ((scene.patches p).vertices 1)))
          (Vertex.coords ℚ (scene.vtemp ((scene.patches p).vertices 3))) := by
  rw [loadData_PatchArray, readPatches, readPatchesUpTo_patch sqrt scene s _ p hp,
    readPatchesUpTo_succ]
  simp only [readPatch, Function.update_same, Vertex.coords, patchNormal, Rat.cast_id]

/-- The squared edge lengths and the scalar product of the edges of a patch, computed on
the real coordinates, are the casts of the rational ones. -/
theorem patchEdge_cast (scene : SceneData) (p : Nat) :
    normSq
        ((Vertex.coords ℝ (scene.vtemp ((scene.patches p).vertices 1))).1
            - (Vertex.coords ℝ (scene.vtemp ((scene.patches p).vertices 0))).1,
          (Vertex.coords ℝ (scene.vtemp ((scene.patches p).vertices 1))).2.1
            - (Vertex.coords ℝ (scene.vtemp ((scene.patches p).vertices 0))).2.1,
          (Vertex.coords ℝ (scene.vtemp ((scene.patches p).vertices 1))).2.2
            - (Vertex.coords ℝ (scene.vtemp ((scene.patches p).vertices 0))).2.2)
      = ((dot (patchEdge1 scene p) (patchEdge1 scene p) : ℚ) : ℝ) ∧
    normSq
        ((Vertex.coords ℝ (scene.vtemp ((scene.patches p).vertices 3))).1
            - (Vertex.coords ℝ (scene.vtemp ((scene.patches p).vertices 0))).1,
          (Vertex.coords ℝ (scene.vtemp ((scene.patches p).vertices 3))).2.1
            - (Vertex.coords ℝ (scene.vtemp ((scene.patches p).vertices 0))).2.1,
          (Vertex.coords ℝ (scene.vtemp ((scene.patches p).vertices 3))).2.2
            - (Vertex.coords ℝ (scene.vtemp ((scene.patches p).vertices 0))).2.2)
      = ((dot (patchEdge2 scene p) (patchEdge2 scene p) : ℚ) : ℝ) ∧
    ((Vertex.coords ℝ (scene.vtemp ((scene.patches p).vertices 1))).1
          - (Vertex.coords ℝ (scene.vtemp ((scene.patches p).vertices 0))).1)
        * ((Vertex.coords ℝ (scene.vtemp ((scene.patches p).vertices 3))).1
          - (Vertex.coords ℝ (scene.vtemp ((scene.patches p).vertices 0))).1)
      + ((Vertex.coords ℝ (scene.vtemp ((scene.patches p).vertices 1))).2.1
          - (Vertex.coords ℝ (scene.vtemp ((scene.patches p).vertices 0))).2.1)
        * ((Vertex.coords ℝ (scene.vtemp ((scene.patches p).vertices 3))).2.1
          - (Vertex.coords ℝ (scene.vtemp ((scene.patches p).vertices 0))).2.1)
      + ((Vertex.coords ℝ (scene.vtemp ((scene.patches p).vertices 1))).2.2
          - (Vertex.coords ℝ (scene.vtemp ((scene.patches p).vertices 0))).2.2)
        * ((Vertex.coords ℝ (scene.vtemp ((scene.patches p).vertices 3))).2.2
          - (Vertex.coords ℝ (scene.vtemp ((scene.patches p).vertices 0))).2.2)
      = ((dot (patchEdge1 scene p) (patchEdge2 scene p) : ℚ) : ℝ) := by
  refine ⟨?_, ?_, ?_⟩ <;>
    simp only [normSq, Vertex.coords, dot, patchEdge1, patchEdge2, edgeBetween] <;>
    push_cast <;> ring

/-- The normal of a patch in exact arithmetic: squared length of `patchNormal` with
`Real.sqrt` on the vertices of a patch with non-zero edges. -/
theorem patchNormal_real_normSq (scene : SceneData) (p : Nat)
    (hne1 : patchEdge1 scene p ≠ ⟨0, 0, 0⟩) (hne2 : patchEdge2 scene p ≠ ⟨0, 0, 0⟩) :
    normSq (patchNormal Real.sqrt
        (Vertex.coords ℝ (scene.vtemp ((scene.patches p).vertices 0)))
        (Vertex.coords ℝ (scene.vtemp ((scene.patches p).vertices 1)))
        (Vertex.coords ℝ (scene.vtemp ((scene.patches p).vertices 3))))
      = 1 - ((dot (patchEdge1 scene p) (patchEdge2 scene p) : ℚ) : ℝ) ^ 2
          / (((dot (patchEdge1 scene p) (patchEdge1 scene p) : ℚ) : ℝ)
              * ((dot (patchEdge2 scene p) (patchEdge2 scene p) : ℚ) : ℝ)) := by
  obtain ⟨c1, c2, c12⟩ := patchEdge_cast scene p
  have hn1 : ((dot (patchEdge1 scene p) (patchEdge1 scene p) : ℚ) : ℝ) ≠ 0 :=
    Rat.cast_ne_zero.2 (fun h => hne1 ((dot_self_eq_zero_iff _).1 h))
  have hn2 : ((dot (patchEdge2 scene p) (patchEdge2 scene p) : ℚ) : ℝ) ≠ 0 :=
    Rat.cast_ne_zero.2 (fun h => hne2 ((dot_self_eq_zero_iff _).1 h))
  have hpos1 : (0 : ℝ) ≤ ((dot (patchEdge1 scene p) (patchEdge1 scene p) : ℚ) : ℝ) := by
    rw [← c1]
    simp only [normSq]
    nlinarith [mul_self_nonneg
      ((Vertex.coords ℝ (scene.vtemp ((scene.patches p).vertices 1))).1
        - (Vertex.coords ℝ (scene.vtemp ((scene.patches p).vertices 0))).1),
      mul_self_nonneg
      ((Vertex.coords ℝ (scene.vtemp ((scene.patches p).vertices 1))).2.1
        - (Vertex.coords ℝ (scene.vtemp ((scene.patches p).vertices 0))).2.1),
      mul_self_nonneg
      ((Vertex.coords ℝ (scene.vtemp ((scene.patches p).vertices 1))).2.2
        - (Vertex.coords ℝ (scene.vtemp ((scene.patches p).vertices 0))).2.2)]
  have hpos2 : (0 : ℝ) ≤ ((dot (patchEdge2 scene p) (patchEdge2 scene p) : ℚ) : ℝ) := by
    rw [← c2]
    simp only [normSq]
    nlinarith [mul_self_nonneg
      ((Vertex.coords ℝ (scene.vtemp ((scene.patches p).vertices 3))).1
        - (Vertex.coords ℝ (scene.vtemp ((scene.patches p).vertices 0))).1),
      mul_self_nonneg
      ((Vertex.coords ℝ (scene.vtemp ((scene.patches p).vertices 3))).2.1
        - (Vertex.coords ℝ (scene.vtemp ((scene.patches p).vertices 0))).2.1),
      mul_self_nonneg
      ((Vertex.coords ℝ (scene.vtemp ((scene.patches p).vertices 3))).2.2
        - (Vertex.coords ℝ (scene.vtemp ((scene.patches p).vertices 0))).2.2)]
  rw [patchNormal_normSq Real.sqrt _ _ _ (by rw [c1]; exact Real.sq_sqrt hpos1)
    (by rw [c2]; exact Real.sq_sqrt hpos2) (by rw [c1]; exact hn1) (by rw [c2]; exact hn2),
    c1, c2, c12]

theorem diagonalScene_edges :
    patchEdge1 diagonalScene 0 = ⟨1, 1, 0⟩ ∧ patchEdge2 diagonalScene 0 = ⟨1, 0, 0⟩ := by
  constructor
  · norm_num [patchEdge1, edgeBetween, diagonalScene]
  · norm_num [patchEdge2, edgeBetween, diagonalScene, fin4_val_three]

/-- No rational number has square 2. -/
theorem rat_sq_ne_two (q : ℚ) : q ^ 2 ≠ 2 := by
  intro h
  have h2 : ((q : ℝ)) ^ 2 = 2 := by exact_mod_cast h
  have h3 : Real.sqrt 2 = ((|q| : ℚ) : ℝ) := by
    rw [Rat.cast_abs, ← Real.sqrt_sq_eq_abs, h2]
  exact irrational_sqrt_two ⟨|q|, h3.symm⟩

/-- C21 (amended): for a patch whose edges `v1 = vertex1 - vertex0` and
`v2 = vertex3 - vertex0` are both non-zero, the normal that `loadData` stores is the
vector product of the edges divided by `sqrt` of their squared lengths (`patchNormal`);
computed in exact arithmetic, on the real numbers with `Real.sqrt`, its squared length is
`1 - (v1.v2)^2 / (|v1|^2 |v2|^2)`, and it has length exactly 1 if and only if the two
edges are perpendicular.  The same holds of the stored rational normal whenever `sqrt`
returns the exact lengths of the two edges. -/
theorem loadData_normal_length (sqrt : ℚ → ℚ) (scene : SceneData) (s : State) (p : Nat)
    (hp : p < scene.NumPatches)
    (hne1 : patchEdge1 scene p ≠ ⟨0, 0, 0⟩) (hne2 : patchEdge2 scene p ≠ ⟨0, 0, 0⟩) :
    Vertex.coords ℚ ((loadData sqrt scene s).2.PatchArray p).normal
      = patchNormal sqrt
          (Vertex.coords ℚ (scene.vtemp ((scene.patches p).vertices 0)))
          (Vertex.coords ℚ (scene.vtemp ((scene.patches p).vertices 1)))
          (Vertex.coords ℚ (scene.vtemp ((scene.patches p).vertices 3))) ∧
    normSq (patchNormal Real.sqrt
        (Vertex.coords ℝ (scene.vtemp ((scene.patches p).vertices 0)))
        (Vertex.coords ℝ (scene.vtemp ((scene.patches p).vertices 1)))
        (Vertex.coords ℝ (scene.vtemp ((scene.patches p).vertices 3))))
      = 1 - ((dot (patchEdge1 scene p) (patchEdge2 scene p) : ℚ) : ℝ) ^ 2
          / (((dot (patchEdge1 scene p) (patchEdge1 scene p) : ℚ) : ℝ)
              * ((dot (patchEdge2 scene p) (patchEdge2 scene p) : ℚ) : ℝ)) ∧
    (normSq (patchNormal Real.sqrt
        (Vertex.coords ℝ (scene.vtemp ((scene.patches p).vertices 0)))
        (Vertex.coords ℝ (scene.vtemp ((scene.patches p).vertices 1)))
        (Vertex.coords ℝ (scene.vtemp ((scene.patches p).vertices 3)))) = 1
      ↔ dot (patchEdge1 scene p) (patchEdge2 scene p) = 0) ∧
    (sqrt (dot (patchEdge1 scene p) (patchEdge1 scene p)) ^ 2
        = dot (patchEdge1 scene p) (patchEdge1 scene p) →
      sqrt (dot (patchEdge2 scene p) (patchEdge2 scene p)) ^ 2
        = dot (patchEdge2 scene p) (patchEdge2 scene p) →
      dot ((loadData sqrt scene s).2.PatchArray p).normal
          ((loadData sqrt scene s).2.PatchArray p).normal
        = 1 - (dot (patchEdge1 scene p) (patchEdge2 scene p)) ^ 2
            / (dot (patchEdge1 scene p) (patchEdge1 scene p)
                * dot (patchEdge2 scene p) (patchEdge2 scene p)) ∧
      (dot ((loadData sqrt scene s).2.PatchArray p).normal
          ((loadData sqrt scene s).2.PatchArray p).normal = 1
        ↔ dot (patchEdge1 scene p) (patchEdge2 scene p) = 0)) := by
  have hn1 : dot (patchEdge1 scene p) (patchEdge1 scene p) ≠ 0 :=
    fun h => hne1 ((dot_self_eq_zero_iff _).1 h)
  have hn2 : dot (patchEdge2 scene p) (patchEdge2 scene p) ≠ 0 :=
    fun h => hne2 ((dot_self_eq_zero_iff _).1 h)
  have hr1 : ((dot (patchEdge1 scene p) (patchEdge1 scene p) : ℚ) : ℝ) ≠ 0 :=
    Rat.cast_ne_zero.2 hn1
  have hr2 : ((dot (patchEdge2 scene p) (patchEdge2 scene p) : ℚ) : ℝ) ≠ 0 :=
    Rat.cast_ne_zero.2 hn2
  refine ⟨loadData_normal_eq_patchNormal sqrt scene s p hp,
    patchNormal_real_normSq scene p hne1 hne2, ?_, ?_⟩
  · rw [patchNormal_real_normSq scene p hne1 hne2]
    constructor
    · intro h
      have h0 : ((dot (patchEdge1 scene p) (patchEdge2 scene p) : ℚ) : ℝ) ^ 2
          / (((dot (patchEdge1 scene p) (patchEdge1 scene p) : ℚ) : ℝ)
              * ((dot (patchEdge2 scene p) (patchEdge2 scene p) : ℚ) : ℝ)) = 0 := by linarith
      rcases div_eq_zero_iff.1 h0 with h1 | h1
      · exact Rat.cast_eq_zero.1 (pow_eq_zero_iff (by norm_num) |>.1 h1)
      · exact absurd h1 (mul_ne_zero hr1 hr2)
    · intro h
      rw [h]
      norm_num
  · intro hs1 hs2
    have hval := dot_cross_scaled (patchEdge1 scene p) (patchEdge2 scene p) _ _ hs1 hs2 hn1 hn2
    rw [loadData_normal sqrt scene s p hp, hval]
    refine ⟨rfl, ?_⟩
    constructor
    · intro h
      have h0 : (dot (patchEdge1 scene p) (patchEdge2 scene p)) ^ 2
          / (dot (patchEdge1 scene p) (patchEdge1 scene p)
              * dot (patchEdge2 scene p) (patchEdge2 scene p)) = 0 := by linarith
      rcases div_eq_zero_iff.1 h0 with h1 | h1
      · exact pow_eq_zero_iff (by norm_num) |>.1 h1
      · exact absurd h1 (mul_ne_zero hn1 hn2)
    · intro h
      rw [h]
      norm_num

/-- Witness for C21 (amended): in `diagonalScene` the edges are `(1,1,0)` and `(1,0,0)`; the
first has squared length 2, which is the square of no rational number, so its length is
irrational; the normal computed in exact arithmetic has squared length `1/2`. -/
theorem loadData_normal_length_witness :
    patchEdge1 diagonalScene 0 = ⟨1, 1, 0⟩ ∧ patchEdge2 diagonalScene 0 = ⟨1, 0, 0⟩ ∧
    (∀ q : ℚ, q ^ 2 ≠ dot (patchEdge1 diagonalScene 0) (patchEdge1 diagonalScene 0)) ∧
    normSq (patchNormal Real.sqrt
        (Vertex.coords ℝ (diagonalScene.vtemp ((diagonalScene.patches 0).vertices 0)))
        (Vertex.coords ℝ (diagonalScene.vtemp ((diagonalScene.patches 0).vertices 1)))
        (Vertex.coords ℝ (diagonalScene.vtemp ((diagonalScene.patches 0).vertices 3)))) = 1 / 2 := by
  have h := (loadData_normal_length Rat.sqrt diagonalScene startState 0 (by decide)
    (by rw [diagonalScene_edges.1]; intro h; have := congrArg Vertex.x h; norm_num at this)
    (by rw [diagonalScene_edges.2]; intro h; have := congrArg Vertex.x h; norm_num at this)).2.1
  refine ⟨diagonalScene_edges.1, diagonalScene_edges.2, ?_, ?_⟩
  · intro q
    rw [diagonalScene_edges.1]
    have h2 : dot (⟨1, 1, 0⟩ : Vertex) ⟨1, 1, 0⟩ = 2 := by norm_num [dot]
    rw [h2]
    exact rat_sq_ne_two q
  · rw [h, diagonalScene_edges.1, diagonalScene_edges.2]
    norm_num [dot]

/-! ## A shooting step on a loaded scene -/

/-- The patch array after `initScene`: every patch of the scene has its unshot value set to
its emissivity. -/
theorem initScene_patch (s : State) (p : Nat) :
    (initScene s).PatchArray p
      = if p < s.NumPatches then
          ({ s.PatchArray p with unshot := (s.PatchArray p).emissivity } : Patch)
        else s.PatchArray p := rfl

/-- The radiosity that `loadData` gives a patch is the emissivity of its record. -/
theorem readPatches_radiosity (sqrt : ℚ → ℚ) (scene : SceneData) (s : State) (p : Nat)
    (hp : p < scene.NumPatches) :
    ((readPatches sqrt scene s).PatchArray p).radiosity = (scene.patches p).emissivity := by
  rw [readPatches, readPatchesUpTo_patch sqrt scene s _ p hp, readPatchesUpTo_succ]
  simp [readPatch]

/-- The elements written for patch `p` start with the radiosity of the patch. -/
theorem loadData_element_radiosity (sqrt : ℚ → ℚ) (scene : SceneData) (s : State) (p e : Nat)
    (hp : p < scene.NumPatches)
    (h1 : (formPatches sqrt scene s p).elnum ≤ e)
    (h2 : e < (formPatches sqrt scene s (p + 1)).elnum) :
    ((loadData sqrt scene s).2.ElementArray e).radiosity = (scene.patches p).emissivity := by
  have hN : scene.NumPatches = (p + 1) + (scene.NumPatches - (p + 1)) := by omega
  have hE : (loadData sqrt scene s).2.ElementArray e
      = (formPatches sqrt scene s (p + 1)).ElementArray e := by
    show (formPatches sqrt scene s scene.NumPatches).ElementArray e = _
    rw [hN, formPatches_element_stable sqrt scene s (p + 1) _ e h2]
  rw [hE, formPatches_succ, (formPatch_spec _ _ _).2.2]
  rw [formPatches_succ, (formPatch_spec _ _ _).1] at h2
  rw [if_pos ⟨h1, h2⟩]
  exact readPatches_radiosity sqrt scene s p hp

/-- In every reachable state with a patch the top of the queue names a patch. -/
theorem Reachable.top_lt (s : State) (hr : Reachable s) (hN : 1 ≤ s.NumPatches) :
    (pqTop s.unshotPatchQueue).id < s.NumPatches := by
  have hq := Reachable.queue_eq s hr
  have hperm := buildQueue_perm s.PatchArray s.NumPatches
  rw [← hq] at hperm
  have hlen : s.unshotPatchQueue.length = s.NumPatches := by
    rw [hperm.length_eq]; simp
  have hpos : 0 < s.unshotPatchQueue.length := by omega
  have htop : pqTop s.unshotPatchQueue ∈ s.unshotPatchQueue := by
    rw [pqTop_eq_tagAt _ hpos, tagAt, List.getD_eq_getElem _ _ hpos]
    exact List.getElem_mem _
  obtain ⟨i, hi, htag⟩ := List.mem_map.mp (hperm.subset htop)
  have hi' : i < s.NumPatches := List.mem_range.mp hi
  rw [← htag]
  exact hi'

/-- The one-square scene after `loadData` and `initScene`: one patch of area 1 with
reflectance 1/2 and unshot value 1, nine elements of area 1/9 and radiosity 1 owned by
it. -/
theorem loadedSquare_data :
    (initScene (loadData Rat.sqrt (oneSquareScene 1) startState).2).NumPatches = 1 ∧
    (initScene (loadData Rat.sqrt (oneSquareScene 1) startState).2).NumElements = 9 ∧
    (∀ e, e < 9 →
      ((initScene (loadData Rat.sqrt (oneSquareScene 1) startState).2).ElementArray e).patch
          = 0 ∧
      ((initScene (loadData Rat.sqrt (oneSquareScene 1) startState).2).ElementArray e).area
          = 1 / 9 ∧
      ((initScene (loadData Rat.sqrt (oneSquareScene 1) startState).2).ElementArray e).radiosity
          = ⟨1, 1, 1⟩) ∧
    ((initScene (loadData Rat.sqrt (oneSquareScene 1) startState).2).PatchArray 0).area = 1 ∧
    ((initScene (loadData Rat.sqrt (oneSquareScene 1) startState).2).PatchArray 0).reflectance
      = ⟨1 / 2, 1 / 2, 1 / 2⟩ ∧
    ((initScene (loadData Rat.sqrt (oneSquareScene 1) startState).2).PatchArray 0).unshot
      = ⟨1, 1, 1⟩ := by
  have hNP : (loadData Rat.sqrt (oneSquareScene 1) startState).2.NumPatches = 1 :=
    loadData_NumPatches _ _ _
  have hNE : (loadData Rat.sqrt (oneSquareScene 1) startState).2.NumElements = 9 := by
    rw [loadData_NumElements, readPatchesUpTo_NumElements]
    decide
  refine ⟨hNP, hNE, ?_, ?_, ?_, ?_⟩
  · intro e he
    rw [(initScene_frame _).2.2.1]
    obtain ⟨p, m, j, k, hp, hm, hj, hk, hek⟩ := loadData_element_is_cell Rat.sqrt
      (oneSquareScene 1) startState (fun _ _ => (by decide : (0 : Int) ≤ 1 + 2)) e
      (by rw [hNE]; exact he)
    have hp0 : p = 0 := by
      have : p < 1 := hp
      omega
    subst hp0
    have hlt := (loadData_cell Rat.sqrt (oneSquareScene 1) startState 0 m j k hp hm hj hk).1
    rw [← hek] at hlt
    have hge : (formPatches Rat.sqrt (oneSquareScene 1) startState 0).elnum ≤ e := by omega
    obtain ⟨q1, q2⟩ := loadData_element_of_patch Rat.sqrt (oneSquareScene 1) startState 0 e
      hp hge hlt
    refine ⟨q1, ?_, ?_⟩
    · rw [q2, oneSquareScene_area]
      norm_num [oneSquareScene]
    · rw [loadData_element_radiosity Rat.sqrt (oneSquareScene 1) startState 0 e hp hge hlt]
      rfl
  · rw [(initScene_frame _).2.2.2 0]
    exact oneSquareScene_area
  · rw [initScene_patch, hNP, if_pos (by decide)]
    show ((loadData Rat.sqrt (oneSquareScene 1) startState).2.PatchArray 0).reflectance = _
    rw [loadData_PatchArray, (readPatches_reflectance _ _ _ 0 (by decide)).1]
    rfl
  · rw [initScene_patch, hNP, if_pos (by decide)]
    show ((loadData Rat.sqrt (oneSquareScene 1) startState).2.PatchArray 0).emissivity = _
    rw [loadData_PatchArray, (readPatches_reflectance _ _ _ 0 (by decide)).2.1]
    rfl

/-- The state after `loadData` on the one-square scene, `initScene` and
`generateFormFactorTable` satisfies the hypotheses of a non-negative shooting step. -/
theorem generatedSquare_data :
    (pqTop (generateFormFactorTable cornerRender
      (initScene (loadData Rat.sqrt (oneSquareScene 1) startState).2)).1.unshotPatchQueue).id < (generateFormFactorTable cornerRender
      (initScene (loadData Rat.sqrt (oneSquareScene 1) startState).2)).1.NumPatches ∧
    (∀ e, e < (generateFormFactorTable cornerRender
      (initScene (loadData Rat.sqrt (oneSquareScene 1) startState).2)).1.NumElements → ((generateFormFactorTable cornerRender
      (initScene (loadData Rat.sqrt (oneSquareScene 1) startState).2)).1.ElementArray e).patch < (generateFormFactorTable cornerRender
      (initScene (loadData Rat.sqrt (oneSquareScene 1) startState).2)).1.NumPatches) ∧
    (∀ p, p < (generateFormFactorTable cornerRender
      (initScene (loadData Rat.sqrt (oneSquareScene 1) startState).2)).1.NumPatches → 0 < ((generateFormFactorTable cornerRender
      (initScene (loadData Rat.sqrt (oneSquareScene 1) startState).2)).1.PatchArray p).area) ∧
    (∀ e, e < (generateFormFactorTable cornerRender
      (initScene (loadData Rat.sqrt (oneSquareScene 1) startState).2)).1.NumElements → 0 < ((generateFormFactorTable cornerRender
      (initScene (loadData Rat.sqrt (oneSquareScene 1) startState).2)).1.ElementArray e).area) ∧
    (∀ p c, p < (generateFormFactorTable cornerRender
      (initScene (loadData Rat.sqrt (oneSquareScene 1) startState).2)).1.NumPatches → 0 ≤ ((generateFormFactorTable cornerRender
      (initScene (loadData Rat.sqrt (oneSquareScene 1) startState).2)).1.PatchArray p).reflectance.ch c) ∧
    (∀ p e, p < (generateFormFactorTable cornerRender
      (initScene (loadData Rat.sqrt (oneSquareScene 1) startState).2)).1.NumPatches → e < (generateFormFactorTable cornerRender
      (initScene (loadData Rat.sqrt (oneSquareScene 1) startState).2)).1.NumElements → 0 ≤ (generateFormFactorTable cornerRender
      (initScene (loadData Rat.sqrt (oneSquareScene 1) startState).2)).1.lookUpTable p e) ∧
    (∀ e c, e < (generateFormFactorTable cornerRender
      (initScene (loadData Rat.sqrt (oneSquareScene 1) startState).2)).1.NumElements → 0 ≤ ((generateFormFactorTable cornerRender
      (initScene (loadData Rat.sqrt (oneSquareScene 1) startState).2)).1.ElementArray e).radiosity.ch c) ∧
    (∀ p c, p < (generateFormFactorTable cornerRender
      (initScene (loadData Rat.sqrt (oneSquareScene 1) startState).2)).1.NumPatches → 0 ≤ ((generateFormFactorTable cornerRender
      (initScene (loadData Rat.sqrt (oneSquareScene 1) startState).2)).1.PatchArray p).unshot.ch c) ∧
    0 < (generateFormFactorTable cornerRender
      (initScene (loadData Rat.sqrt (oneSquareScene 1) startState).2)).1.NumElements := by
  obtain ⟨_, f2, f3, f4, f5⟩ := generateFormFactorTable_frame cornerRender
    (initScene (loadData Rat.sqrt (oneSquareScene 1) startState).2)
  obtain ⟨d1, d2, d3, d4, d5, d6⟩ := loadedSquare_data
  have hr : Reachable (generateFormFactorTable cornerRender
      (initScene (loadData Rat.sqrt (oneSquareScene 1) startState).2)).1 := Reachable.generate _ _ (Reachable.init _)
  have hNP : (generateFormFactorTable cornerRender
      (initScene (loadData Rat.sqrt (oneSquareScene 1) startState).2)).1.NumPatches = 1 := by rw [f3, d1]
  have hNE : (generateFormFactorTable cornerRender
      (initScene (loadData Rat.sqrt (oneSquareScene 1) startState).2)).1.NumElements = 9 := by rw [f5, d2]
  have hp0 : ∀ p, p < (generateFormFactorTable cornerRender
      (initScene (loadData Rat.sqrt (oneSquareScene 1) startState).2)).1.NumPatches → p = 0 := by
    intro p hp
    rw [hNP] at hp
    omega
  refine ⟨Reachable.top_lt _ hr (by rw [hNP]), ?_, ?_, ?_, ?_, ?_, ?_, ?_, by rw [hNE]; decide⟩
  · intro e he
    rw [hNE] at he
    rw [f4, (d3 e he).1, hNP]
    decide
  · intro p hp
    rw [hp0 p hp, f2, d4]
    norm_num
  · intro e he
    rw [hNE] at he
    rw [f4, (d3 e he).2.1]
    norm_num
  · intro p c hp
    rw [hp0 p hp, f2, d5]
    fin_cases c <;> norm_num [Color.ch]
  · intro p e _ _
    exact generateFormFactorTable_nonneg_of cornerRender _
      (fun p e => by rw [initScene_lookUpTable]) p e
  · intro e c he
    rw [hNE] at he
    rw [f4, (d3 e he).2.2]
    fin_cases c <;> norm_num [Color.ch]
  · intro p c hp
    rw [hp0 p hp, f2, d6]
    fin_cases c <;> norm_num [Color.ch]

/-- Witness for C27: the one-square scene after `loadData`, `initScene` and
`generateFormFactorTable`; after a shooting step the red channel of element 0 is
non-negative. -/
theorem progressiveRefinement_nonneg_witness :
    0 ≤ ((progressiveRefinement (generateFormFactorTable cornerRender
      (initScene (loadData Rat.sqrt (oneSquareScene 1) startState).2)).1).ElementArray 0).radiosity.ch 0 :=
  (progressiveRefinement_nonneg (generateFormFactorTable cornerRender
      (initScene (loadData Rat.sqrt (oneSquareScene 1) startState).2)).1 generatedSquare_data.1 generatedSquare_data.2.1
    generatedSquare_data.2.2.1 generatedSquare_data.2.2.2.1 generatedSquare_data.2.2.2.2.1
    generatedSquare_data.2.2.2.2.2.1 generatedSquare_data.2.2.2.2.2.2.1
    generatedSquare_data.2.2.2.2.2.2.2.1).1 0 0 generatedSquare_data.2.2.2.2.2.2.2.2

end Radiosity
